import Mathlib

/-!
# crossChain-Bridge: verification development

A shallow embedding of the swap core of `fsn-dev/crossChain-Bridge`:

* `tokens/btc/verifytx.go`, `tokens/btc/verifyp2shtx.go` : transaction verification,
* `tokens/eth/buildtx.go`, `tokens/eth/signtx.go` : building and remote signing,
* `worker/swap.go` : the swap worker and its history ring.

Go strings are byte sequences, `uint64` values are natural numbers reduced
modulo `2^64` where the source can overflow, and calls that leave the process
(chain RPC, signing service, store) read their answers from an explicit
environment, indexed by the number of events recorded so far.
-/

namespace CrossChainBridge

/-! ## Go strings -/

deriving instance DecidableEq for Except

/-- A single byte of a Go string. -/
abbrev Byte := Fin 256

/-- Go strings are immutable byte sequences. -/
abbrev GoString := List Byte

/-- The bytes of an ASCII literal. -/
def ascii (s : String) : GoString := s.toList.map (fun c => Fin.ofNat c.toNat)

/-- Go `strings.HasPrefix`. -/
def HasPrefix : GoString → GoString → Bool
  | _, [] => true
  | [], _ :: _ => false
  | c :: cs, p :: ps => c == p && HasPrefix cs ps

/-- Go slice expression `s[lo:hi]`. -/
def slice (s : GoString) (lo hi : Nat) : GoString := (s.drop lo).take (hi - lo)

/-! ### `strings.TrimSpace` -/

/-- The six ASCII white-space bytes: tab, line feed, vertical tab, form feed,
carriage return and blank. -/
def isAsciiSpace (b : Byte) : Bool :=
  b.val == 9 || b.val == 10 || b.val == 11 || b.val == 12 || b.val == 13 || b.val == 32

/-- Third byte of a three byte white-space rune that starts `E2 80`:
U+2000 .. U+200A, U+2028, U+2029 and U+202F. -/
def isE280Space (c : Byte) : Bool :=
  (128 ≤ c.val && c.val ≤ 138) || c.val == 168 || c.val == 169 || c.val == 175

/-- Width in bytes of the white-space rune (`unicode.IsSpace`) that starts the
string, `0` when the string does not start with one. -/
def leadingSpaceWidth : GoString → Nat
  | [] => 0
  | [a] => if isAsciiSpace a then 1 else 0
  | [a, b] =>
    if isAsciiSpace a then 1
    else if a.val == 194 && (b.val == 133 || b.val == 160) then 2
    else 0
  | a :: b :: c :: _ =>
    if isAsciiSpace a then 1
    else if a.val == 194 && (b.val == 133 || b.val == 160) then 2
    else if a.val == 225 && b.val == 154 && c.val == 128 then 3
    else if a.val == 226 && b.val == 128 && isE280Space c then 3
    else if a.val == 226 && b.val == 129 && c.val == 159 then 3
    else if a.val == 227 && b.val == 128 && c.val == 128 then 3
    else 0

/-- Width in bytes of the white-space rune that ends the string, given the
string reversed. -/
def trailingSpaceWidth : GoString → Nat
  | [] => 0
  | [a] => if isAsciiSpace a then 1 else 0
  | [b, a] =>
    if isAsciiSpace b then 1
    else if a.val == 194 && (b.val == 133 || b.val == 160) then 2
    else 0
  | c :: b :: a :: _ =>
    if isAsciiSpace c then 1
    else if b.val == 194 && (c.val == 133 || c.val == 160) then 2
    else if a.val == 225 && b.val == 154 && c.val == 128 then 3
    else if a.val == 226 && b.val == 128 && isE280Space c then 3
    else if a.val == 226 && b.val == 129 && c.val == 159 then 3
    else if a.val == 227 && b.val == 128 && c.val == 128 then 3
    else 0

/-- Drop white-space runes, found by `width`, from the front. -/
def trimRunes (width : GoString → Nat) : Nat → GoString → GoString
  | 0, s => s
  | n + 1, s => if width s = 0 then s else trimRunes width n (s.drop (width s))

/-- Go `strings.TrimSpace`: all leading and trailing white space removed. -/
def TrimSpace (s : GoString) : GoString :=
  let l := trimRunes leadingSpaceWidth s.length s
  (trimRunes trailingSpaceWidth l.length l.reverse).reverse

/-! ### Hexadecimal -/

/-- Go `hex.EncodeToString` digit table `0123456789abcdef`. -/
def hexDigit (n : Nat) : Byte := Fin.ofNat (if n < 10 then 48 + n else 87 + n)

/-- Go `hex.EncodeToString`. -/
def hexEncode : List Byte → GoString
  | [] => []
  | b :: bs => hexDigit (b.val / 16) :: hexDigit (b.val % 16) :: hexEncode bs

/-- Value of one hexadecimal digit, of either case. -/
def fromHexChar (c : Byte) : Option Nat :=
  if 48 ≤ c.val ∧ c.val ≤ 57 then some (c.val - 48)
  else if 97 ≤ c.val ∧ c.val ≤ 102 then some (c.val - 87)
  else if 65 ≤ c.val ∧ c.val ≤ 70 then some (c.val - 55)
  else none

/-- Modelled from the spec: `common.Hex2Bytes` is not among the source files.
It is `hex.DecodeString` with the error dropped, which leaves the bytes decoded
before the first pair that is not hexadecimal. -/
def Hex2Bytes : GoString → List Byte
  | p :: q :: rest =>
    match fromHexChar p, fromHexChar q with
    | some a, some b => Fin.ofNat (a * 16 + b) :: Hex2Bytes rest
    | _, _ => []
  | _ => []

/-- Modelled from the spec: `common.FromHex` is not among the source files.
The hex payload may carry a `0x` or `0X` head, and a payload of odd length is
padded with a leading zero digit. -/
def FromHex (s : GoString) : List Byte :=
  let s1 := if s.length > 1 ∧ (s.take 2 = [48, 120] ∨ s.take 2 = [48, 88]) then s.drop 2 else s
  let s2 := if s1.length % 2 = 1 then (48 : Byte) :: s1 else s1
  Hex2Bytes s2

/-! ### The memo script pattern -/

/-- A decimal digit. -/
def isDigit (b : Byte) : Bool := 48 ≤ b.val && b.val ≤ 57

/-- The literal head `OP_RETURN OP_PUSHBYTES_` of the memo script pattern. -/
def memoScriptHead : GoString :=
  [79, 80, 95, 82, 69, 84, 85, 82, 78, 32, 79, 80, 95, 80, 85, 83, 72, 66, 89, 84, 69, 83, 95]

/-- Remainder of `s` after the literal `lit`, when `s` starts with it. -/
def stripLiteral : GoString → GoString → Option GoString
  | [], s => some s
  | _ :: _, [] => none
  | p :: ps, c :: cs => if p = c then stripLiteral ps cs else none

/-- Length of the match of `^OP_RETURN OP_PUSHBYTES_[0-9]* ` at the start of
`s`, if it matches: the literal, the longest run of digits, one blank. -/
def matchMemoScript (s : GoString) : Option Nat :=
  match stripLiteral memoScriptHead s with
  | none => none
  | some rest =>
    match rest.dropWhile isDigit with
    | sp :: _ =>
      if sp.val = 32 then some (memoScriptHead.length + (rest.takeWhile isDigit).length + 1)
      else none
    | [] => none

/-- Go `FindAllStringIndex` for the memo script pattern: the pattern is
anchored at the start of the text, so there is at most one match. -/
def findAllMemoScript (s : GoString) : List (Nat × Nat) :=
  match matchMemoScript s with
  | some k => [(0, k)]
  | none => []

/-- Loop of Go `Regexp.Split(s, -1)` over the matches: collected parts, `beg`
and `end`. -/
def splitLoop (s : GoString) : List (Nat × Nat) → List GoString × Nat × Nat →
    List GoString × Nat × Nat
  | [], acc => acc
  | m :: ms, (parts, beg, _) =>
    splitLoop s ms (if m.2 ≠ 0 then parts ++ [slice s beg m.1] else parts, m.2, m.1)

/-- Go `Regexp.Split(s, -1)` for the memo script pattern. -/
def regexpSplit (s : GoString) : List GoString :=
  if s.length = 0 then [[]]
  else
    let r := splitLoop s (findAllMemoScript s) ([], 0, 0)
    if r.2.2 ≠ s.length then r.1 ++ [s.drop r.2.1] else r.1

/-- Source `getBindAddressFromMemoScipt` (tokens/btc/verifytx.go). The lock memo
tag `tokens.LockMemoPrefix` is a parameter. -/
def getBindAddressFromMemoScipt (lockMemoTag : GoString) (memoScript : GoString) :
    GoString × Bool :=
  let parts := regexpSplit memoScript
  if parts.length ≠ 2 then ([], false)
  else
    let memoHex := TrimSpace (parts.getD 1 [])
    let memo := FromHex memoHex
    if memo.length ≤ lockMemoTag.length then ([], false)
    else if ¬ HasPrefix memo lockMemoTag then ([], false)
    else (memo.drop lockMemoTag.length, true)

/-! ## Bitcoin side: `tokens/btc` -/

/-- Source `electrs.ElectTxOut`: the fields the verifier reads. Every field is a
pointer in the source, `none` is the nil pointer. -/
structure ElectTxOut where
  ScriptpubkeyAsm : Option GoString
  ScriptpubkeyType : Option GoString
  ScriptpubkeyAddress : Option GoString
  Value : Option Nat
  deriving DecidableEq, Repr

/-- Source `electrs.ElectTxin`: the field the verifier reads. -/
structure ElectTxin where
  Prevout : Option ElectTxOut
  deriving DecidableEq, Repr

/-- Source `electrs.ElectTxStatus`. -/
structure ElectTxStatus where
  BlockHeight : Option Nat
  BlockHash : Option GoString
  BlockTime : Option Nat
  Confirmed : Option Bool := none
  deriving DecidableEq, Repr

/-- Source `electrs.ElectTx`: inputs, outputs and status. The slices hold
pointers, `none` is a nil element. -/
structure ElectTx where
  Vin : List (Option ElectTxin)
  Vout : List (Option ElectTxOut)
  Status : Option ElectTxStatus
  deriving DecidableEq, Repr

/-- The `tokens.TxStatus` record filled by `GetTransactionStatus`. -/
structure TxStatus where
  BlockHeight : Nat
  BlockTime : Nat
  BlockHash : GoString
  Confirmations : Nat
  deriving DecidableEq, Repr

/-- The `tokens.TxSwapInfo` record, the swap intent. `Value` is a `*big.Int`,
nil until the receiver check has passed. -/
structure TxSwapInfo where
  Hash : GoString
  Height : Nat
  Timestamp : Nat
  From : GoString
  To : GoString
  Bind : GoString
  Value : Option Nat
  deriving DecidableEq, Repr

/-- Rejections of the verifiers. -/
inductive VerifyError
  | ErrTxNotStable
  | ErrTxNotFound
  | ErrTxWithWrongReceiver
  | ErrTxWithWrongSender
  | ErrTxWithWrongValue
  | ErrTxWithWrongMemo
  | ErrBridgeDestinationNotSupported
  | wrongBindAddress (bind : GoString)
  deriving DecidableEq, Repr

/-- The Bitcoin bridge as the verifier sees it: its configuration, the package
constants and helpers that are not among the source files, and the answers of
the chain indexer (`none` is an RPC error). -/
structure BtcBridge where
  IsSrc : Bool
  DcrmAddress : GoString
  Confirmations : Nat
  lockMemoTag : GoString
  opReturnType : GoString
  p2pkhType : GoString
  CheckSwapValue : Nat → Bool → Bool
  DstIsValidAddress : GoString → Bool
  GetP2shAddress : GoString → Option GoString
  GetElectTransactionStatus : GoString → Option ElectTxStatus
  GetLatestBlockNumber : Option Nat
  GetTransactionByHash : GoString → Option ElectTx

/-- Source `GetTransactionStatus` (tokens/btc/verifytx.go). -/
def GetTransactionStatus (b : BtcBridge) (txHash : GoString) : TxStatus :=
  let txStatus : TxStatus := { BlockHeight := 0, BlockTime := 0, BlockHash := [], Confirmations := 0 }
  match b.GetElectTransactionStatus txHash with
  | none => txStatus
  | some elcstStatus =>
    let s1 := match elcstStatus.BlockHash with
      | some h => { txStatus with BlockHash := h }
      | none => txStatus
    let s2 := match elcstStatus.BlockTime with
      | some t => { s1 with BlockTime := t }
      | none => s1
    match elcstStatus.BlockHeight with
    | none => s2
    | some h =>
      let s3 := { s2 with BlockHeight := h }
      match b.GetLatestBlockNumber with
      | none => s3
      | some latest =>
        if latest > s3.BlockHeight then { s3 with Confirmations := latest - s3.BlockHeight }
        else s3

/-- Source `checkStable`. -/
def checkStable (b : BtcBridge) (txHash : GoString) : Bool :=
  let txStatus := GetTransactionStatus b txHash
  decide (txStatus.BlockHeight > 0) && decide (txStatus.Confirmations ≥ b.Confirmations)

/-- Loop of source `getReceivedValue` over the outputs, carrying `value`,
`memoScript` and `rightReceiver`. `none` is the nil pointer dereference. The sum
is a `uint64`. -/
def getReceivedValueLoop (b : BtcBridge) (receiver : GoString) :
    List (Option ElectTxOut) → Nat × GoString × Bool → Option (Nat × GoString × Bool)
  | [], acc => some acc
  | none :: _, _ => none
  | some output :: rest, (value, memoScript, rightReceiver) =>
    match output.ScriptpubkeyType with
    | none => none
    | some ty =>
      if ty = b.opReturnType then
        match output.ScriptpubkeyAsm with
        | none => none
        | some asm => getReceivedValueLoop b receiver rest (value, asm, rightReceiver)
      else if ty = b.p2pkhType then
        match output.ScriptpubkeyAddress with
        | none => none
        | some addr =>
          if addr ≠ receiver then
            getReceivedValueLoop b receiver rest (value, memoScript, rightReceiver)
          else
            match output.Value with
            | none => none
            | some v => getReceivedValueLoop b receiver rest ((value + v) % 2 ^ 64, memoScript, true)
      else getReceivedValueLoop b receiver rest (value, memoScript, rightReceiver)

/-- Source `getReceivedValue`. -/
def getReceivedValue (b : BtcBridge) (vout : List (Option ElectTxOut)) (receiver : GoString) :
    Option (Nat × GoString × Bool) :=
  getReceivedValueLoop b receiver vout (0, [], false)

/-- Source `getTxFrom`. -/
def getTxFrom : List (Option ElectTxin) → GoString
  | [] => []
  | none :: rest => getTxFrom rest
  | some input :: rest =>
    match input.Prevout with
    | none => getTxFrom rest
    | some prevout =>
      match prevout.ScriptpubkeyAddress with
      | none => getTxFrom rest
      | some addr => addr

/-- The empty swap info carrying only the hash. -/
def newSwapInfo (txHash : GoString) : TxSwapInfo :=
  { Hash := txHash, Height := 0, Timestamp := 0, From := [], To := [], Bind := [], Value := none }

/-- Height and timestamp copied from the transaction status, where present. -/
def withStatus (swapInfo : TxSwapInfo) (txStatus : ElectTxStatus) : TxSwapInfo :=
  let s1 := match txStatus.BlockHeight with
    | some h => { swapInfo with Height := h }
    | none => swapInfo
  match txStatus.BlockTime with
  | some t => { s1 with Timestamp := t }
  | none => s1

/-- Source `verifySwapinTx`. The result is the swap info and the error (`none`
is the nil error); an outer `none` is a nil pointer dereference. -/
def verifySwapinTx (b : BtcBridge) (txHash : GoString) (allowUnstable : Bool) :
    Option (TxSwapInfo × Option VerifyError) :=
  let swapInfo := newSwapInfo txHash
  if !allowUnstable && !checkStable b txHash then
    some (swapInfo, some .ErrTxNotStable)
  else
    match b.GetTransactionByHash txHash with
    | none => some (swapInfo, some .ErrTxNotFound)
    | some tx =>
      match tx.Status with
      | none => none
      | some txStatus =>
        let swapInfo1 := withStatus swapInfo txStatus
        let dcrmAddress := b.DcrmAddress
        match getReceivedValue b tx.Vout dcrmAddress with
        | none => none
        | some (value, memoScript, rightReceiver) =>
          if !rightReceiver then some (swapInfo1, some .ErrTxWithWrongReceiver)
          else
            let bound := getBindAddressFromMemoScipt b.lockMemoTag memoScript
            let swapInfo2 : TxSwapInfo :=
              { swapInfo1 with
                To := dcrmAddress, Value := some value, Bind := bound.1,
                From := getTxFrom tx.Vin }
            if swapInfo2.From = swapInfo2.To then some (swapInfo2, some .ErrTxWithWrongSender)
            else if !b.CheckSwapValue value b.IsSrc then
              some (swapInfo2, some .ErrTxWithWrongValue)
            else if !bound.2 then some (swapInfo2, some .ErrTxWithWrongMemo)
            else if !b.DstIsValidAddress swapInfo2.Bind then
              some (swapInfo2, some .ErrTxWithWrongMemo)
            else some (swapInfo2, none)

/-- Source `VerifyTransaction` (tokens/btc/verifytx.go). -/
def VerifyTransaction (b : BtcBridge) (txHash : GoString) (allowUnstable : Bool) :
    Option (Option TxSwapInfo × Option VerifyError) :=
  if b.IsSrc then
    (verifySwapinTx b txHash allowUnstable).map (fun r => (some r.1, r.2))
  else some (none, some .ErrBridgeDestinationNotSupported)

/-- Source `VerifyP2shTransaction` (tokens/btc/verifyp2shtx.go). -/
def VerifyP2shTransaction (b : BtcBridge) (txHash bindAddress : GoString) (allowUnstable : Bool) :
    Option (TxSwapInfo × Option VerifyError) :=
  let swapInfo := newSwapInfo txHash
  if !b.IsSrc then some (swapInfo, some .ErrBridgeDestinationNotSupported)
  else
    match b.GetP2shAddress bindAddress with
    | none => some (swapInfo, some (.wrongBindAddress bindAddress))
    | some p2shAddress =>
      if !allowUnstable && !checkStable b txHash then
        some (swapInfo, some .ErrTxNotStable)
      else
        match b.GetTransactionByHash txHash with
        | none => some (swapInfo, some .ErrTxNotFound)
        | some tx =>
          match tx.Status with
          | none => none
          | some txStatus =>
            let swapInfo1 := withStatus swapInfo txStatus
            match getReceivedValue b tx.Vout p2shAddress with
            | none => none
            | some (value, _, rightReceiver) =>
              if !rightReceiver then some (swapInfo1, some .ErrTxWithWrongReceiver)
              else
                let swapInfo2 : TxSwapInfo :=
                  { swapInfo1 with
                    To := p2shAddress, Bind := bindAddress, Value := some value,
                    From := getTxFrom tx.Vin }
                if swapInfo2.From = swapInfo2.To then
                  some (swapInfo2, some .ErrTxWithWrongSender)
                else if !b.CheckSwapValue value b.IsSrc then
                  some (swapInfo2, some .ErrTxWithWrongValue)
                else some (swapInfo2, none)

/-- A byte that is neither white space nor part of a multi-byte rune. -/
def isPlain (b : Byte) : Bool := !isAsciiSpace b && decide (b.val < 128)

/-! ## Shared state of the Ethereum bridge and the worker -/

/-- The `tokens.SwapType` enumeration. -/
inductive SwapType
  | NoSwapType
  | SwapinType
  | SwapoutType
  | SwapRecallType
  deriving DecidableEq, Repr

/-- Errors of the builder, the signer and the worker. `external` is any error
handed back by a collaborator (chain RPC, signing service, store, signature
code); the others are the errors the source files create or compare with. -/
inductive Err
  | ErrBuildSwapTxInWrongEndpoint
  | wrongRawTxParam
  | requireOneRsv (count : Nat) (keyID : GoString)
  | ErrGetSignStatusFailed
  | ErrGetSignStatusTimeout
  | getSignStatusFailed
  | wrongSignature (keyID : GoString)
  | wrongSenderAddress
  | alreadySwapped (txid swapTx : GoString)
  | foundInHistory (txid matchTx : GoString)
  | wrongValue (value : GoString)
  | notFound
  | external (code : Nat)
  deriving DecidableEq, Repr

/-- The `tokens.EthExtraArgs` record; `none` is the nil pointer. -/
structure EthExtraArgs where
  Gas : Option Nat
  GasPrice : Option Int
  Nonce : Option Nat
  deriving DecidableEq, Repr

/-- The `tokens.AllExtras` record, restricted to its Ethereum slot. -/
structure AllExtras where
  EthExtra : Option EthExtraArgs
  deriving DecidableEq, Repr

/-- The `tokens.BuildTxArgs` record. -/
structure BuildTxArgs where
  SwapID : GoString
  SwapType : SwapType
  TxType : Nat
  Bind : GoString
  Identifier : GoString
  From : GoString
  To : GoString
  Value : Option Int
  Memo : GoString
  Input : Option (List Byte)
  Extra : Option AllExtras
  deriving DecidableEq, Repr

/-- An Ethereum transaction as `types.NewTransaction` builds it. `Sig` is
empty until a signature has been attached. -/
structure Transaction where
  Nonce : Nat
  To : GoString
  Value : Int
  GasLimit : Nat
  GasPrice : Int
  Input : List Byte
  Sig : List Byte
  deriving DecidableEq, Repr

/-- A raw transaction behind the `interface{}` the bridges exchange: an
Ethereum transaction or a value of another type. -/
inductive RawTx
  | eth (tx : Transaction)
  | foreign
  deriving DecidableEq, Repr

/-- Status of a swap record or result record; the worker uses the first three. -/
inductive SwapStatus
  | TxNotSwapped
  | TxProcessed
  | TxSwapFailed
  | other (code : Nat)
  deriving DecidableEq, Repr

/-- The `mongodb.MgoSwap` record, the fields the worker reads. -/
structure MgoSwap where
  TxID : GoString
  TxType : Nat
  Bind : GoString
  Status : SwapStatus
  Memo : Option Err
  deriving DecidableEq, Repr

/-- The `mongodb.MgoSwapResult` record. -/
structure MgoSwapResult where
  TxID : GoString
  Bind : GoString
  Value : GoString
  SwapTx : GoString
  SwapValue : GoString
  SwapType : SwapType
  Status : SwapStatus
  Memo : Option Err
  deriving DecidableEq, Repr

/-- The worker's `MatchTx` record, the fields `worker/swap.go` sets. -/
structure MatchTx where
  SwapTx : GoString
  SwapValue : GoString
  SwapType : SwapType
  deriving DecidableEq, Repr

/-- Source `swapInfo` (worker/swap.go): one entry of the history ring. -/
structure swapInfo where
  txid : GoString
  value : Int
  matchTx : GoString
  isSwapin : Bool
  deriving DecidableEq, Repr

/-- A call that leaves the process, or a step the claims speak about, in the
order the worker performs them. -/
inductive Event
  | findResult (isSwapin : Bool) (txid : GoString)
  | updateStatus (isSwapin : Bool) (txid : GoString) (status : SwapStatus) (memo : Option Err)
      (ok : Bool)
  | updateResult (isSwapin : Bool) (txid : GoString) (matchTx : MatchTx) (ok : Bool)
  | updateResultStatus (isSwapin : Bool) (txid : GoString) (status : SwapStatus)
      (memo : Option Err) (ok : Bool)
  | getTransaction (hash : GoString)
  | build (args : BuildTxArgs)
  | suggestPrice
  | getPoolNonce (addr : GoString)
  | sign (rawTx : RawTx)
  | doSignOne
  | getSignStatus (keyID : GoString)
  | send (tx : Option Transaction) (ok : Bool)
  | addHistory (txid : GoString) (matchTx : GoString) (isSwapin : Bool)
  deriving DecidableEq, Repr

/-- Modelled from the spec: the persistent store is not among the source
files. It holds one swap record and one result record per direction and
source transaction id. -/
structure Store where
  swaps : Bool → GoString → Option MgoSwap
  results : Bool → GoString → Option MgoSwapResult

/-- The mutable state of the process and of the store: the two package level
nonce counters (`uint64`), the history ring in `Next` order from `swapRing`
(empty for nil), the store, and the events so far. -/
structure World where
  swapinNonce : Nat
  swapoutNonce : Nat
  swapRing : List swapInfo
  store : Store
  trace : List Event

/-- An Ethereum bridge: configuration, the answers of its chain node, and the
helpers of packages that are not among the source files. Answers of the node
are indexed by the number of events recorded before the call. -/
structure EthBridge where
  IsSrc : Bool
  DcrmAddress : GoString
  ContractAddress : GoString
  IsErc20 : Bool
  GetPoolNonce : Nat → GoString → Nat × Option Err
  SuggestPrice : Nat → Except Err Int
  GetTransaction : Nat → GoString → Bool × Option Err
  SendTransaction : Nat → Option Transaction → Option Err
  WithSignature : Transaction → List Byte → Except Err Transaction
  Sender : Transaction → Except Err GoString
  TxHash : Transaction → List Byte
  HexToAddress : GoString → GoString
  PackSwapin : GoString → GoString → Int → List Byte
  PackErc20Transfer : GoString → Int → List Byte

/-- Everything outside the three source packages: the two bridges, the signing
service, failures of the store, and constants and helpers of the packages
`tokens`, `params`, `common`, `crypto` and of the worker's configuration. -/
structure Env where
  DstBridge : EthBridge
  SrcBridge : EthBridge
  DoSignOne : Nat → Transaction → BuildTxArgs → Except Err GoString
  GetSignStatus : Nat → GoString → Except Err (List GoString)
  storeFails : Nat → Option Err
  UnlockMemoTag : GoString
  RecallMemoTag : GoString
  CalcSwappedValue : Int → Bool → Int
  GetIdentifier : GoString
  GetExtraArgs : BuildTxArgs → BuildTxArgs
  SignatureLength : Nat
  GetBigIntFromStr : GoString → Option Int
  bigString : Int → GoString
  retrySendTxCount : Nat
  swapRingMaxSize : Nat

/-- Record an event. -/
def emit (e : Event) (w : World) : World := { w with trace := w.trace ++ [e] }

/-- Number of events so far: the index at which the next answer is read. -/
def clock (w : World) : Nat := w.trace.length

/-- Go `n++` on a `uint64`. -/
def incr64 (n : Nat) : Nat := (n + 1) % 2 ^ 64

/-- Go `n--` on a `uint64`. -/
def decr64 (n : Nat) : Nat := (n + (2 ^ 64 - 1)) % 2 ^ 64

/-- Modelled from the spec: `common.Hash.String` is not among the source files.
A hash prints as `0x` followed by its hex digits. -/
def hashString (h : List Byte) : GoString := (48 : Byte) :: (120 : Byte) :: hexEncode h

/-! ## Ethereum builder: `tokens/eth/buildtx.go` -/

/-- Loop of source `getGasPrice`, with the number of tries left and the last
error. The result is the Go pair `(price, err)`. -/
def getGasPriceLoop (b : EthBridge) : Nat → Option Err → World →
    (Option Int × Option Err) × World
  | 0, err, w => ((none, err), w)
  | n + 1, _, w =>
    match b.SuggestPrice (clock w) with
    | .ok price => ((some price, none), emit .suggestPrice w)
    | .error e => getGasPriceLoop b n (some e) (emit .suggestPrice w)

/-- Source `getGasPrice`: `retryRPCCount = 3` tries. -/
def getGasPrice (b : EthBridge) (w : World) : (Option Int × Option Err) × World :=
  getGasPriceLoop b 3 none w

/-- Loop of source `getAccountNonce` that asks the node, with the number of
tries left and the last answer `(nonce, err)`. -/
def getPoolNonceLoop (b : EthBridge) (fromAddr : GoString) : Nat → Nat × Option Err → World →
    (Nat × Option Err) × World
  | 0, last, w => (last, w)
  | n + 1, _, w =>
    match (b.GetPoolNonce (clock w) fromAddr).2 with
    | none => (b.GetPoolNonce (clock w) fromAddr, emit (.getPoolNonce fromAddr) w)
    | some _ =>
      getPoolNonceLoop b fromAddr n (b.GetPoolNonce (clock w) fromAddr)
        (emit (.getPoolNonce fromAddr) w)

/-- Source `getAccountNonce`. The Go pair `(nonceptr, err)` is either a nonce
or an error. -/
def getAccountNonce (b : EthBridge) (fromAddr : GoString) (swapType : SwapType) (w : World) :
    Except Err Nat × World :=
  let r := getPoolNonceLoop b fromAddr 3 (0, none) w
  let w1 := r.2
  match r.1.2 with
  | some e => (.error e, w1)
  | none =>
    let nonce := r.1.1
    if fromAddr = b.DcrmAddress then
      match swapType with
      | .SwapinType =>
        if w1.swapinNonce ≥ nonce ∧ w1.swapinNonce ≠ 0 then
          (.ok (incr64 w1.swapinNonce), { w1 with swapinNonce := incr64 w1.swapinNonce })
        else (.ok nonce, { w1 with swapinNonce := nonce })
      | .SwapoutType | .SwapRecallType =>
        if w1.swapoutNonce ≥ nonce ∧ w1.swapoutNonce ≠ 0 then
          (.ok (incr64 w1.swapoutNonce), { w1 with swapoutNonce := incr64 w1.swapoutNonce })
        else (.ok nonce, { w1 with swapoutNonce := nonce })
      | .NoSwapType => (.ok nonce, w1)
    else (.ok nonce, w1)

/-- The extra arguments `setDefaults` works on: those of `args`, or fresh ones. -/
def extraOf (args : BuildTxArgs) : EthExtraArgs :=
  match args.Extra with
  | some { EthExtra := some e } => e
  | _ => { Gas := none, GasPrice := none, Nonce := none }

/-- The arguments with their value defaulted and `extra` stored in their
Ethereum slot, which `extra` aliases in the source. -/
def withExtra (args : BuildTxArgs) (e : EthExtraArgs) : BuildTxArgs :=
  { args with Value := some (args.Value.getD 0), Extra := some { EthExtra := some e } }

/-- Source `setDefaults`. The Go pair `(extra, err)` is either the extra
arguments or an error; the second component is `args` as the function leaves
it. -/
def setDefaults (b : EthBridge) (args : BuildTxArgs) (w : World) :
    Except Err EthExtraArgs × BuildTxArgs × World :=
  let extra0 := extraOf args
  let priced : (Option Int × Option Err) × World :=
    match extra0.GasPrice with
    | some p => ((some p, none), w)
    | none => getGasPrice b w
  match priced.1.2 with
  | some e => (.error e, withExtra args { extra0 with GasPrice := priced.1.1 }, priced.2)
  | none =>
    let extra1 := { extra0 with GasPrice := priced.1.1 }
    match extra1.Nonce with
    | some _ =>
      let extra3 :=
        match extra1.Gas with
        | some _ => extra1
        | none => { extra1 with Gas := some 90000 }
      (.ok extra3, withExtra args extra3, priced.2)
    | none =>
      match getAccountNonce b args.From args.SwapType priced.2 with
      | (.error e, w2) => (.error e, withExtra args extra1, w2)
      | (.ok n, w2) =>
        let extra2 := { extra1 with Nonce := some n }
        let extra3 :=
          match extra2.Gas with
          | some _ => extra2
          | none => { extra2 with Gas := some 90000 }
        (.ok extra3, withExtra args extra3, w2)

/-- Source `buildSwapinTxInput`: the arguments as the function leaves them. -/
def buildSwapinTxInput (env : Env) (b : EthBridge) (args : BuildTxArgs) : BuildTxArgs :=
  { args with
    Input := some (b.PackSwapin args.SwapID (b.HexToAddress args.To)
      (env.CalcSwappedValue (args.Value.getD 0) true))
    From := b.DcrmAddress
    To := b.ContractAddress
    Value := some 0 }

/-- Source `buildErc20SwapoutTxInput`: the arguments as the function leaves them. -/
def buildErc20SwapoutTxInput (env : Env) (b : EthBridge) (args : BuildTxArgs) : BuildTxArgs :=
  { args with
    Input := some (b.PackErc20Transfer (b.HexToAddress args.To)
      (env.CalcSwappedValue (args.Value.getD 0) false))
    From := b.DcrmAddress
    To := b.ContractAddress
    Value := some 0 }

/-- First part of source `BuildRawTransaction`: the input payload and the
arguments after it has been derived, or the wrong-endpoint error. -/
def buildInput (env : Env) (b : EthBridge) (args : BuildTxArgs) :
    Except Err (List Byte × BuildTxArgs) :=
  match args.Input with
  | some input => .ok (input, args)
  | none =>
    match args.SwapType with
    | .SwapinType =>
      if b.IsSrc then .error .ErrBuildSwapTxInWrongEndpoint
      else .ok (((buildSwapinTxInput env b args).Input).getD [], buildSwapinTxInput env b args)
    | .SwapoutType =>
      if !b.IsSrc then .error .ErrBuildSwapTxInWrongEndpoint
      else if b.IsErc20 then
        .ok (((buildErc20SwapoutTxInput env b args).Input).getD [],
          buildErc20SwapoutTxInput env b args)
      else .ok (env.UnlockMemoTag ++ args.SwapID, args)
    | .SwapRecallType =>
      if !b.IsSrc then .error .ErrBuildSwapTxInWrongEndpoint
      else if b.IsErc20 then
        .ok (((buildErc20SwapoutTxInput env b args).Input).getD [],
          buildErc20SwapoutTxInput env b args)
      else .ok (env.RecallMemoTag ++ args.SwapID, args)
    | .NoSwapType => .ok ([], args)

/-- Source `BuildRawTransaction`: the Go pair `(rawTx, err)` as an `Except`,
and the arguments as the function leaves them. -/
def BuildRawTransaction (env : Env) (b : EthBridge) (args : BuildTxArgs) (w : World) :
    Except Err Transaction × BuildTxArgs × World :=
  let w0 := emit (.build args) w
  match buildInput env b args with
  | .error e => (.error e, args, w0)
  | .ok (input, args1) =>
    match setDefaults b args1 w0 with
    | (.error e, args2, w1) => (.error e, args2, w1)
    | (.ok extra, args2, w1) =>
      let value0 : Int := args2.Value.getD 0
      let value : Int :=
        match args2.SwapType with
        | .SwapoutType | .SwapRecallType =>
          if !b.IsErc20 then env.CalcSwappedValue value0 false else value0
        | _ => value0
      let args3 :=
        if args2.SwapType ≠ .NoSwapType then { args2 with Identifier := env.GetIdentifier }
        else args2
      (.ok { Nonce := extra.Nonce.getD 0, To := b.HexToAddress args2.To, Value := value,
             GasLimit := extra.Gas.getD 0, GasPrice := extra.GasPrice.getD 0, Input := input,
             Sig := [] },
        args3, w1)

/-! ## Remote signing: `tokens/eth/signtx.go` -/

/-- How the polling loop of `DcrmSignTransaction` ends: with the signature
component `rsv` (the `break`), with an error the loop returns at once, or with
all tries used. -/
inductive PollOutcome
  | rsv (r : GoString)
  | failed (e : Err)
  | exhausted
  deriving DecidableEq, Repr

/-- The polling loop of source `DcrmSignTransaction`, with the number of tries
left. -/
def pollSignStatus (env : Env) (keyID : GoString) : Nat → World → PollOutcome × World
  | 0, w => (.exhausted, w)
  | n + 1, w =>
    match env.GetSignStatus (clock w) keyID with
    | .ok rsvs =>
      if rsvs.length ≠ 1 then
        (.failed (.requireOneRsv rsvs.length keyID), emit (.getSignStatus keyID) w)
      else (.rsv (rsvs.getD 0 []), emit (.getSignStatus keyID) w)
    | .error e =>
      if e = .ErrGetSignStatusFailed ∨ e = .ErrGetSignStatusTimeout then
        (.failed e, emit (.getSignStatus keyID) w)
      else pollSignStatus env keyID n (emit (.getSignStatus keyID) w)

/-- The part of source `DcrmSignTransaction` after the polling loop: the
signature is decoded, attached and checked against the custody address. -/
def attachSignature (env : Env) (b : EthBridge) (tx : Transaction) (keyID rsv : GoString)
    (w : World) : (Option Transaction × GoString × Option Err) × World :=
  let signature := FromHex rsv
  if signature.length ≠ env.SignatureLength then
    ((none, [], some (.wrongSignature keyID)), w)
  else
    match b.WithSignature tx signature with
    | .error e => ((none, [], some e), w)
    | .ok signedTx =>
      match b.Sender signedTx with
      | .error e => ((none, [], some e), w)
      | .ok sender =>
        if sender ≠ b.DcrmAddress then ((none, [], some .wrongSenderAddress), w)
        else
          ((some signedTx, hashString (b.TxHash signedTx), none),
            { w with swapinNonce := incr64 w.swapinNonce })

/-- Source `DcrmSignTransaction`, with `retryCount = 15`. The result is the Go
triple `(signTx, txHash, err)`. -/
def DcrmSignTransaction (env : Env) (b : EthBridge) (rawTx : RawTx) (args : BuildTxArgs)
    (w : World) : (Option Transaction × GoString × Option Err) × World :=
  let w0 := emit (.sign rawTx) { w with swapinNonce := decr64 w.swapinNonce }
  match rawTx with
  | .foreign => ((none, [], some .wrongRawTxParam), w0)
  | .eth tx =>
    match env.DoSignOne (clock w0) tx args with
    | .error e => ((none, [], some e), emit .doSignOne w0)
    | .ok keyID =>
      match pollSignStatus env keyID 15 (emit .doSignOne w0) with
      | (.failed e, w2) => ((none, [], some e), w2)
      | (.exhausted, w2) => ((none, [], some .getSignStatusFailed), w2)
      | (.rsv rsv, w2) =>
        if rsv = [] then ((none, [], some .getSignStatusFailed), w2)
        else attachSignature env b tx keyID rsv w2

/-! ## The swap worker: `worker/swap.go` -/

/-- Go `Ring.Move(-1)` seen as a rotation of the list in `Next` order. -/
def ringPrev (r : List swapInfo) : List swapInfo :=
  match r.getLast? with
  | none => []
  | some x => x :: r.dropLast

/-- Go `Ring.Move(1)`. -/
def ringNext : List swapInfo → List swapInfo
  | [] => []
  | x :: xs => xs ++ [x]

/-- Go `Ring.Unlink(1)`: removes `1 % Len` elements behind the first one. -/
def ringUnlinkOne : List swapInfo → List swapInfo
  | x :: _ :: xs => x :: xs
  | r => r

/-- Go `r.Link(item)` for a ring `item` of one element: the item is linked
behind the first element. -/
def ringLink (item : swapInfo) : List swapInfo → List swapInfo
  | [] => [item]
  | x :: xs => x :: item :: xs

/-- Source `addSwapHistory` on the ring. After `swapRing.Move(-1).Link(item)`
the ring is seen from the element before `swapRing` and `swapRing` is two
steps on, past that element and the item. -/
def addSwapHistoryRing (maxSize : Nat) (item : swapInfo) (ring : List swapInfo) :
    List swapInfo :=
  match ring with
  | [] => [item]
  | _ :: _ =>
    let ring1 :=
      if ring.length = maxSize then ringNext (ringUnlinkOne (ringPrev ring)) else ring
    ringNext (ringNext (ringLink item (ringPrev ring1)))

/-- Source `addSwapHistory`. -/
def addSwapHistory (env : Env) (txid : GoString) (value : Int) (matchTx : GoString)
    (isSwapin : Bool) (w : World) : World :=
  emit (.addHistory txid matchTx isSwapin)
    { w with
      swapRing := addSwapHistoryRing env.swapRingMaxSize
        { txid := txid, value := value, matchTx := matchTx, isSwapin := isSwapin } w.swapRing }

/-- Loop of source `getSwapHistory`: `n` steps from the first element of `r`,
going to the previous element after each miss. -/
def getSwapHistoryLoop (txid : GoString) (isSwapin : Bool) : Nat → List swapInfo →
    Option swapInfo
  | 0, _ => none
  | n + 1, r =>
    match r with
    | [] => none
    | item :: _ =>
      if item.txid = txid ∧ item.isSwapin = isSwapin then some item
      else getSwapHistoryLoop txid isSwapin n (ringPrev r)

/-- Source `getSwapHistory`. -/
def getSwapHistory (txid : GoString) (isSwapin : Bool) (w : World) : Option swapInfo :=
  getSwapHistoryLoop txid isSwapin w.swapRing.length w.swapRing

/-- Modelled from the spec: `mongodb.FindSwapinResult` and
`mongodb.FindSwapoutResult` are not among the source files. `FindResult(id)`
returns the stored result record, or an error. -/
def FindSwapResult (env : Env) (isSwapin : Bool) (txid : GoString) (w : World) :
    Except Err MgoSwapResult × World :=
  match env.storeFails (clock w) with
  | some e => (.error e, emit (.findResult isSwapin txid) w)
  | none =>
    match w.store.results isSwapin txid with
    | none => (.error .notFound, emit (.findResult isSwapin txid) w)
    | some r => (.ok r, emit (.findResult isSwapin txid) w)

/-- Modelled from the spec: `mongodb.UpdateSwapinStatus` and
`mongodb.UpdateSwapoutStatus` are not among the source files.
`UpdateStatus(id, status, timestamp, errString)` is an atomic write of the
status of one swap record; a failed write leaves the store as it was. -/
def UpdateSwapStatus (env : Env) (isSwapin : Bool) (txid : GoString) (status : SwapStatus)
    (memo : Option Err) (w : World) : Option Err × World :=
  match env.storeFails (clock w) with
  | some e => (some e, emit (.updateStatus isSwapin txid status memo false) w)
  | none =>
    match w.store.swaps isSwapin txid with
    | none => (some .notFound, emit (.updateStatus isSwapin txid status memo false) w)
    | some r =>
      (none, emit (.updateStatus isSwapin txid status memo true)
        { w with store := { w.store with
            swaps := fun d t =>
              if d = isSwapin ∧ t = txid then some { r with Status := status, Memo := memo }
              else w.store.swaps d t } })

/-- Modelled from the spec: `updateSwapinResult` and `updateSwapoutResult` are
not among the source files. `UpdateResult(id, matchTx)` records the match
transaction in the result record; a failed write leaves the store as it was. -/
def updateSwapResult (env : Env) (isSwapin : Bool) (txid : GoString) (matchTx : MatchTx)
    (w : World) : Option Err × World :=
  match env.storeFails (clock w) with
  | some e => (some e, emit (.updateResult isSwapin txid matchTx false) w)
  | none =>
    match w.store.results isSwapin txid with
    | none => (some .notFound, emit (.updateResult isSwapin txid matchTx false) w)
    | some r =>
      (none, emit (.updateResult isSwapin txid matchTx true)
        { w with store := { w.store with
            results := fun d t =>
              if d = isSwapin ∧ t = txid then
                some { r with SwapTx := matchTx.SwapTx, SwapValue := matchTx.SwapValue,
                              SwapType := matchTx.SwapType }
              else w.store.results d t } })

/-- Modelled from the spec: `mongodb.UpdateSwapinResultStatus` and
`mongodb.UpdateSwapoutResultStatus` are not among the source files: the status
update of one result record. -/
def UpdateSwapResultStatus (env : Env) (isSwapin : Bool) (txid : GoString)
    (status : SwapStatus) (memo : Option Err) (w : World) : Option Err × World :=
  match env.storeFails (clock w) with
  | some e => (some e, emit (.updateResultStatus isSwapin txid status memo false) w)
  | none =>
    match w.store.results isSwapin txid with
    | none => (some .notFound, emit (.updateResultStatus isSwapin txid status memo false) w)
    | some r =>
      (none, emit (.updateResultStatus isSwapin txid status memo true)
        { w with store := { w.store with
            results := fun d t =>
              if d = isSwapin ∧ t = txid then some { r with Status := status, Memo := memo }
              else w.store.results d t } })

/-- The broadcast loop of the process functions, with the number of tries left
and the value of `err`. A send that succeeds is followed by a probe, and the
loop ends when the probe returns a non-nil transaction. -/
def sendLoop (b : EthBridge) (signedTx : Option Transaction) (txHash : GoString) :
    Nat → Option Err → World → Option Err × World
  | 0, err, w => (err, w)
  | n + 1, _, w =>
    match b.SendTransaction (clock w) signedTx with
    | some e => sendLoop b signedTx txHash n (some e) (emit (.send signedTx false) w)
    | none =>
      if (b.GetTransaction (clock (emit (.send signedTx true) w)) txHash).1 then
        (none, emit (.getTransaction txHash) (emit (.send signedTx true) w))
      else
        sendLoop b signedTx txHash n none
          (emit (.getTransaction txHash) (emit (.send signedTx true) w))

/-- The bridge a direction works on: `tokens.DstBridge` for swap-in,
`tokens.SrcBridge` for swap-out. -/
def bridgeOf (env : Env) (isSwapin : Bool) : EthBridge :=
  if isSwapin then env.DstBridge else env.SrcBridge

/-- The arguments the process functions hand to `BuildRawTransaction`. -/
def buildArgsOf (env : Env) (isSwapin : Bool) (swap : MgoSwap) (res : MgoSwapResult)
    (value : Int) : BuildTxArgs :=
  if isSwapin then
    { SwapID := res.TxID, SwapType := .SwapinType, TxType := swap.TxType, Bind := swap.Bind,
      Identifier := [], From := [], To := res.Bind, Value := some value, Memo := [],
      Input := none, Extra := none }
  else
    { SwapID := res.TxID, SwapType := .SwapoutType, TxType := 0, Bind := [],
      Identifier := [], From := [], To := res.Bind, Value := some value,
      Memo := env.UnlockMemoTag ++ res.TxID, Input := none, Extra := none }

/-- Last part of the process functions, from `addSwapHistory` on: persist,
broadcast, and demote when the broadcast failed. -/
def persistAndSend (env : Env) (isSwapin : Bool) (txid : GoString) (value : Int)
    (signedTx : Option Transaction) (txHash : GoString) (w : World) : Option Err × World :=
  let w1 := addSwapHistory env txid value txHash isSwapin w
  let matchTx : MatchTx :=
    { SwapTx := txHash, SwapValue := env.bigString (env.CalcSwappedValue value isSwapin),
      SwapType := if isSwapin then .SwapinType else .SwapoutType }
  match updateSwapResult env isSwapin txid matchTx w1 with
  | (some e, w2) => (some e, w2)
  | (none, w2) =>
    match UpdateSwapStatus env isSwapin txid .TxProcessed none w2 with
    | (some e, w3) => (some e, w3)
    | (none, w3) =>
      match sendLoop (bridgeOf env isSwapin) signedTx txHash env.retrySendTxCount none w3 with
      | (none, w4) => (none, w4)
      | (some e, w4) =>
        let w5 := (UpdateSwapStatus env isSwapin txid .TxSwapFailed (some e) w4).2
        let w6 := (UpdateSwapResultStatus env isSwapin txid .TxSwapFailed (some e) w5).2
        (some e, w6)

/-- Middle part of the process functions: parse the value, build and sign. -/
def buildSignSend (env : Env) (isSwapin : Bool) (swap : MgoSwap) (res : MgoSwapResult)
    (w : World) : Option Err × World :=
  match env.GetBigIntFromStr res.Value with
  | none => (some (.wrongValue res.Value), w)
  | some value =>
    match BuildRawTransaction env (bridgeOf env isSwapin) (buildArgsOf env isSwapin swap res value)
        w with
    | (.error e, _, w1) => (some e, w1)
    | (.ok rawTx, args1, w1) =>
      match DcrmSignTransaction env (bridgeOf env isSwapin) (.eth rawTx)
          (env.GetExtraArgs args1) w1 with
      | ((_, _, some e), w2) => (some e, w2)
      | ((signedTx, txHash, none), w2) =>
        persistAndSend env isSwapin swap.TxID value signedTx txHash w2

/-- The body shared by source `processSwapinSwap` (`isSwapin = true`) and
source `processSwapoutSwap` (`isSwapin = false`), which differ in the bridge,
the store collection, the swap type and the build arguments. The result is
the returned error. -/
def processSwap (env : Env) (isSwapin : Bool) (swap : MgoSwap) (w : World) :
    Option Err × World :=
  let txid := swap.TxID
  match FindSwapResult env isSwapin txid w with
  | (.error e, w1) => (some e, w1)
  | (.ok res, w1) =>
    if res.SwapTx ≠ [] then
      if res.Status = .TxNotSwapped then
        (some (.alreadySwapped txid res.SwapTx),
          (UpdateSwapStatus env isSwapin txid .TxProcessed none w1).2)
      else (some (.alreadySwapped txid res.SwapTx), w1)
    else
      match getSwapHistory txid isSwapin w1 with
      | none => buildSignSend env isSwapin swap res w1
      | some history =>
        match ((bridgeOf env isSwapin).GetTransaction (clock w1) history.matchTx).2 with
        | none =>
          (some (.foundInHistory txid history.matchTx),
            (updateSwapResult env isSwapin txid
              { SwapTx := history.matchTx, SwapValue := [],
                SwapType := if isSwapin then .SwapinType else .SwapoutType }
              (emit (.getTransaction history.matchTx) w1)).2)
        | some _ =>
          buildSignSend env isSwapin swap res (emit (.getTransaction history.matchTx) w1)

/-- Source `processSwapinSwap`. -/
def processSwapinSwap (env : Env) (swap : MgoSwap) (w : World) : Option Err × World :=
  processSwap env true swap w

/-- Source `processSwapoutSwap`. -/
def processSwapoutSwap (env : Env) (swap : MgoSwap) (w : World) : Option Err × World :=
  processSwap env false swap w

/-! ### Sample data -/

/-- A sample deposit: one input funded by `sender`, one pay-to-pubkey-hash
output of `value` to `receiver`, and a null-data output with script `asm`. -/
def sampleTx (sender receiver asm : GoString) (value : Nat) : ElectTx :=
  { Vin :=
      [ some { Prevout := some { ScriptpubkeyAsm := none, ScriptpubkeyType := some (ascii "p2pkh"),
                                 ScriptpubkeyAddress := some sender, Value := some 500 } } ]
    Vout :=
      [ some { ScriptpubkeyAsm := none, ScriptpubkeyType := some (ascii "p2pkh"),
               ScriptpubkeyAddress := some receiver, Value := some value },
        some { ScriptpubkeyAsm := some asm, ScriptpubkeyType := some (ascii "op_return"),
               ScriptpubkeyAddress := none, Value := some 0 } ]
    Status := some { BlockHeight := some 100, BlockHash := none, BlockTime := some 1600000000 } }

/-- A sample source bridge whose indexer knows the single transaction `tx`
under the hash `tx1`, at height 100 with the chain at height 110. Swap values
from 10 to 1000 are within bounds and destination addresses have three bytes. -/
def sampleBridge (tx : ElectTx) : BtcBridge :=
  { IsSrc := true
    DcrmAddress := ascii "dcrm"
    Confirmations := 6
    lockMemoTag := ascii "SWAPTO:"
    opReturnType := ascii "op_return"
    p2pkhType := ascii "p2pkh"
    CheckSwapValue := fun v _ => decide (10 ≤ v ∧ v ≤ 1000)
    DstIsValidAddress := fun a => a.length == 3
    GetP2shAddress := fun bind => if bind.length == 3 then some (ascii "p2sh" ++ bind) else none
    GetElectTransactionStatus := fun h => if h = ascii "tx1" then tx.Status else none
    GetLatestBlockNumber := some 110
    GetTransactionByHash := fun h => if h = ascii "tx1" then some tx else none }

/-- A memo script binding the deposit to the destination address `abc`. -/
def sampleMemoScript : GoString :=
  ascii "OP_RETURN OP_PUSHBYTES_10 " ++ hexEncode (ascii "SWAPTO:abc")

/-- A memo script whose payload carries the unlock tag instead of the lock tag. -/
def sampleBadMemoScript : GoString :=
  ascii "OP_RETURN OP_PUSHBYTES_10 " ++ hexEncode (ascii "UNLOCK:abc")

/-- The intent expected from the sample deposit paid to `receiver`. -/
def sampleInfo (receiver : GoString) : TxSwapInfo :=
  { Hash := ascii "tx1", Height := 100, Timestamp := 1600000000, From := ascii "alice",
    To := receiver, Bind := ascii "abc", Value := some 150 }

/-- A sample Ethereum bridge with custody address `0xdcrm`. Its node reports
the pending nonce `poolNonce`, accepts every transaction and knows every hash;
a signature recovers to the custody address when its first byte is `1`. -/
def sampleEthBridge (isSrc : Bool) (poolNonce : Nat) : EthBridge :=
  { IsSrc := isSrc
    DcrmAddress := ascii "0xdcrm"
    ContractAddress := ascii "0xcontract"
    IsErc20 := false
    GetPoolNonce := fun _ _ => (poolNonce, none)
    SuggestPrice := fun _ => .ok 1000
    GetTransaction := fun _ _ => (true, none)
    SendTransaction := fun _ _ => none
    WithSignature := fun tx sig => .ok { tx with Sig := sig }
    Sender := fun tx => if tx.Sig.head? = some 1 then .ok (ascii "0xdcrm") else .ok (ascii "0xevil")
    TxHash := fun tx => [Fin.ofNat tx.Nonce, 7]
    HexToAddress := fun a => a
    PackSwapin := fun swapID addr _ => swapID ++ addr
    PackErc20Transfer := fun addr _ => addr }

/-- A sample environment: both bridges report the pending nonce `poolNonce`,
the signing service answers every status poll with the components `rsvs`, and
the store never fails. -/
def sampleEnv (poolNonce : Nat) (rsvs : List GoString) : Env :=
  { DstBridge := sampleEthBridge false poolNonce
    SrcBridge := sampleEthBridge true poolNonce
    DoSignOne := fun _ _ _ => .ok (ascii "key1")
    GetSignStatus := fun _ _ => .ok rsvs
    storeFails := fun _ => none
    UnlockMemoTag := ascii "SWAPTX:"
    RecallMemoTag := ascii "RECALL:"
    CalcSwappedValue := fun v _ => v
    GetIdentifier := ascii "bridge"
    GetExtraArgs := fun a => a
    SignatureLength := 65
    GetBigIntFromStr := fun s => if s = ascii "150" then some 150 else none
    bigString := fun _ => ascii "150"
    retrySendTxCount := 3
    swapRingMaxSize := 1000 }

/-- A signature of 65 bytes, all equal to `first`, in hex. -/
def sampleRsv (first : Byte) : GoString := hexEncode (List.replicate 65 first)

/-- The result record of the sample store. -/
def sampleResult : MgoSwapResult :=
  { TxID := ascii "tx1", Bind := ascii "0xbind", Value := ascii "150", SwapTx := [],
    SwapValue := [], SwapType := .NoSwapType, Status := .TxNotSwapped, Memo := none }

/-- A sample store: one swap record and one result record per direction for
the source transaction `tx1`, not yet swapped. -/
def sampleStore : Store :=
  { swaps := fun _ t =>
      if t = ascii "tx1" then
        some { TxID := ascii "tx1", TxType := 0, Bind := ascii "0xbind", Status := .TxNotSwapped,
               Memo := none }
      else none
    results := fun _ t =>
      if t = ascii "tx1" then some sampleResult else none }

/-- A fresh process with the sample store. -/
def sampleWorld : World :=
  { swapinNonce := 0, swapoutNonce := 0, swapRing := [], store := sampleStore, trace := [] }

/-- The swap record of the sample store. -/
def sampleSwap : MgoSwap :=
  { TxID := ascii "tx1", TxType := 0, Bind := ascii "0xbind", Status := .TxNotSwapped,
    Memo := none }

/-- Build arguments of a swap-in as the worker issues them. -/
def sampleArgs : BuildTxArgs :=
  { SwapID := ascii "tx1", SwapType := .SwapinType, TxType := 0, Bind := ascii "0xbind",
    Identifier := [], From := [], To := ascii "0xbind", Value := some 150, Memo := [],
    Input := none, Extra := none }

/-- An unsigned sample transaction. -/
def sampleRawTx : Transaction :=
  { Nonce := 5, To := ascii "0xcontract", Value := 0, GasLimit := 90000, GasPrice := 1000,
    Input := [], Sig := [] }


/-- The transaction the sample swap-in signs and broadcasts. -/
def sampleSignedTx : Transaction :=
  { Nonce := 0, To := ascii "0xcontract", Value := 0, GasLimit := 90000, GasPrice := 1000,
    Input := ascii "tx1" ++ ascii "0xbind", Sig := List.replicate 65 1 }

/-- The match transaction the sample swap-in stores. -/
def sampleMatchTx : MatchTx :=
  { SwapTx := hashString [0, 7], SwapValue := ascii "150", SwapType := .SwapinType }

/-! ### Reading the event trace -/

/-- The world with the events `evs` recorded and nothing else changed. -/
def addTrace (evs : List Event) (w : World) : World := { w with trace := w.trace ++ evs }

/-- Events recorded between the worlds `w` and `w1`. -/
def newEvents (w w1 : World) : List Event := w1.trace.drop w.trace.length

/-- A call of `SendTransaction`. -/
def Event.isSend : Event → Bool
  | .send _ _ => true
  | _ => false

/-- A call of `BuildRawTransaction`. -/
def Event.isBuild : Event → Bool
  | .build _ => true
  | _ => false

/-- A call of `DcrmSignTransaction`. -/
def Event.isSign : Event → Bool
  | .sign _ => true
  | _ => false

/-- A persistence step that returned an error: the update of the match
transaction, or the status update to `TxProcessed`. -/
def Event.persistFailed : Event → Bool
  | .updateResult _ _ _ false => true
  | .updateStatus _ _ .TxProcessed _ false => true
  | _ => false

/-- An update of the match transaction, failed or not. -/
def Event.isUpdateResult : Event → Bool
  | .updateResult _ _ _ _ => true
  | _ => false

/-- An event that is neither a broadcast nor an update of the match
transaction nor a failed persistence step. -/
def Event.quiet (e : Event) : Bool := !e.isSend && !e.isUpdateResult && !e.persistFailed

/-- The world `w1` continues `w` by events that all satisfy `p`, with the
store and the history ring untouched. -/
def Continues (p : Event → Bool) (w w1 : World) : Prop :=
  ∃ evs, w1.trace = w.trace ++ evs ∧ (∀ e ∈ evs, p e = true) ∧ w1.store = w.store ∧
    w1.swapRing = w.swapRing

/-- The shape of the events of one run of a process function on the bridge
`b` for the source transaction `txid` in direction `d`, from the world `w` to
the world `w1`. Either nothing is broadcast, and a match transaction the run
stored is still in the store at its end; or the run stored the hash of one
signed transaction `t` as the match transaction, then set the status to
`TxProcessed`, both without error and with no broadcast, no other update of
the match transaction and no failed persistence step before, none of the
latter two after, and every broadcast after is one of `t`. -/
def RunShape (b : EthBridge) (d : Bool) (txid : GoString) (w w1 : World) : Prop :=
  ∃ evs, w1.trace = w.trace ++ evs ∧
    (((∀ e ∈ evs, e.isSend = false) ∧
        ∀ m, Event.updateResult d txid m true ∈ evs →
          ∃ rec, w1.store.results d txid = some rec ∧ rec.SwapTx = m.SwapTx) ∨
      ∃ pre m post t,
        evs = pre ++ Event.updateResult d txid m true ::
          Event.updateStatus d txid .TxProcessed none true :: post ∧
        (∀ e ∈ pre, e.quiet = true) ∧
        (∀ e ∈ post, e.persistFailed = false ∧ e.isUpdateResult = false) ∧
        (∀ e ∈ post, e.isSend = true → ∃ ok, e = Event.send (some t) ok) ∧
        m.SwapTx = hashString (b.TxHash t) ∧
        ∃ rec, w1.store.results d txid = some rec ∧ rec.SwapTx = m.SwapTx)

/-- An event that may follow the persistence steps: no failed persistence
step and no update of the match transaction. -/
def Event.afterPersist (e : Event) : Bool := !e.persistFailed && !e.isUpdateResult

/-! ### Reading the outputs of a deposit -/

/-- An output of the payable script type whose address is `receiver`. -/
def paysReceiver (b : BtcBridge) (receiver : GoString) (o : Option ElectTxOut) : Bool :=
  match o with
  | none => false
  | some out =>
    out.ScriptpubkeyType == some b.p2pkhType && out.ScriptpubkeyAddress == some receiver

/-- The value an output carries, `0` when it carries none. -/
def outputValue (o : Option ElectTxOut) : Nat :=
  match o with
  | some out => out.Value.getD 0
  | none => 0

/-- The sum of the values of the outputs that pay `receiver`. -/
def receivedSum (b : BtcBridge) (receiver : GoString) (vout : List (Option ElectTxOut)) : Nat :=
  ((vout.filter (paysReceiver b receiver)).map outputValue).sum

/-- An output the loop of `getReceivedValue` can read: it is not nil, carries a
script type, a script asm when it is a null-data output, and an address and a
value when it is a pay-to-pubkey-hash output. -/
def readableOutput (b : BtcBridge) (o : Option ElectTxOut) : Prop :=
  ∃ out ty, o = some out ∧ out.ScriptpubkeyType = some ty ∧
    (ty = b.opReturnType → out.ScriptpubkeyAsm ≠ none) ∧
    (ty = b.p2pkhType → out.ScriptpubkeyAddress ≠ none ∧ out.Value ≠ none)

/-- A null-data output without a script asm. -/
def sampleBareMemoOutput : ElectTxOut :=
  { ScriptpubkeyAsm := none, ScriptpubkeyType := some (ascii "op_return"),
    ScriptpubkeyAddress := none, Value := some 0 }

/-! ### Sequences of history insertions -/

/-- One call of `addSwapHistory` for the entry `e`. -/
def addEntry (env : Env) (w : World) (e : swapInfo) : World :=
  addSwapHistory env e.txid e.value e.matchTx e.isSwapin w

/-- The calls of `addSwapHistory` for the entries `es`, in order. -/
def addEntries (env : Env) (es : List swapInfo) (w : World) : World :=
  es.foldl (addEntry env) w

/-- The key a history entry is looked up by. -/
def hasKey (txid : GoString) (isSwapin : Bool) (item : swapInfo) : Bool :=
  decide (item.txid = txid ∧ item.isSwapin = isSwapin)

/-- A history entry with the given transaction id. -/
def sampleEntry (txid : GoString) : swapInfo :=
  { txid := txid, value := 150, matchTx := ascii "0xmatch", isSwapin := true }

/-- The sample environment with a history ring of the given capacity. -/
def sampleRingEnv (capacity : Nat) : Env :=
  { sampleEnv 0 [] with swapRingMaxSize := capacity }

/-- Swap-in arguments that already carry an input payload. -/
def samplePrebuiltArgs : BuildTxArgs :=
  { sampleArgs with Input := some (ascii "payload") }

/-- The sample store with the match transaction `0xmatch` recorded for `tx1` and
both records in the given status. -/
def sampleHandledStore (status : SwapStatus) : Store :=
  { swaps := fun _ t =>
      if t = ascii "tx1" then
        some { TxID := ascii "tx1", TxType := 0, Bind := ascii "0xbind", Status := status,
               Memo := none }
      else none
    results := fun _ t =>
      if t = ascii "tx1" then
        some { sampleResult with SwapTx := ascii "0xmatch", Status := status }
      else none }

/-- A fresh process with the store of an already handled swap. -/
def sampleHandledWorld (status : SwapStatus) : World :=
  { sampleWorld with store := sampleHandledStore status }

/-- A step before the persistence steps of a run: loading the result, a probe,
or a call of the builder or of the signer. -/
def Event.isPrelude : Event → Bool
  | .findResult _ _ | .getTransaction _ | .build _ | .suggestPrice | .getPoolNonce _
  | .sign _ | .doSignOne | .getSignStatus _ => true
  | _ => false

/-- A call of `SendTransaction` that returned no error. -/
def Event.isSendOk : Event → Bool
  | .send _ ok => ok
  | _ => false

/-- A probe of a transaction. -/
def Event.isProbe : Event → Bool
  | .getTransaction _ => true
  | _ => false

/-- A status update to `TxSwapFailed`, of a swap record or of a result record. -/
def Event.isDemotion : Event → Bool
  | .updateStatus _ _ .TxSwapFailed _ _ => true
  | .updateResultStatus _ _ .TxSwapFailed _ _ => true
  | _ => false

/-- The shape of the events `L` of a broadcast loop of at most `n` attempts for
the transaction `tx` with hash `h` that starts at the clock `c`. Every event is
a send of `tx` or a probe of `h`, the first one is a send, and there are at most
`n` sends; a send without error is followed by a probe, which ends the loop
when it shows the transaction; a send with an error is followed by the next
send or by nothing. -/
def LoopShape (b : EthBridge) (tx : Option Transaction) (h : GoString) (c n : Nat)
    (L : List Event) : Prop :=
  (∀ e ∈ L, e = .send tx true ∨ e = .send tx false ∨ e = .getTransaction h) ∧
  (L = [] ∨ ∃ ok rest, L = Event.send tx ok :: rest) ∧
  (L.filter Event.isSend).length ≤ n ∧
  (∀ lpre lpost, L = lpre ++ Event.send tx true :: lpost →
    ∃ post1, lpost = Event.getTransaction h :: post1 ∧
      ((b.GetTransaction (c + lpre.length + 1) h).1 = true → post1 = [])) ∧
  (∀ lpre lpost, L = lpre ++ Event.send tx false :: lpost →
    lpost = [] ∨ ∃ ok post1, lpost = Event.send tx ok :: post1)

/-- The sample environment with a destination node that refuses every
transaction sent to it. -/
def sampleRefusingEnv : Env :=
  { sampleEnv 0 [sampleRsv 1] with
    DstBridge := { sampleEthBridge false 0 with SendTransaction := fun _ _ => some (.external 1) } }

/-- The sample environment with a destination node that refuses the first
transaction sent to it, at the clock 10, and accepts later ones. -/
def sampleFlakyEnv : Env :=
  { sampleEnv 0 [sampleRsv 1] with
    DstBridge := { sampleEthBridge false 0 with
      SendTransaction := fun c _ => if c = 10 then some (.external 1) else none } }

/-- The match transaction the process functions record for the signed hash
`txHash`. -/
def matchTxOf (env : Env) (d : Bool) (value : Int) (txHash : GoString) : MatchTx :=
  { SwapTx := txHash, SwapValue := env.bigString (env.CalcSwappedValue value d),
    SwapType := if d then .SwapinType else .SwapoutType }

/-- The three steps between signing and the broadcast loop, all without error:
the history insertion, the update of the result and the update of the status. -/
def persistHead (d : Bool) (txid txHash : GoString) (m : MatchTx) : List Event :=
  [.addHistory txid txHash d, .updateResult d txid m true,
    .updateStatus d txid .TxProcessed none true]

/-- A status update to `TxProcessed` of a swap record. -/
def Event.isProcessed : Event → Bool
  | .updateStatus _ _ .TxProcessed _ _ => true
  | _ => false

/-! ### Unspent outputs: `tokens/btc/electrs/types.go` -/

/-- Source `electrs.ElectUtxo`: the fields `Less` reads. -/
structure ElectUtxo where
  Value : Option Nat
  Status : Option ElectTxStatus
  deriving DecidableEq, Repr

/-- Source `SortableElectUtxoSlice`: a slice of pointers, `none` is nil. -/
abbrev SortableElectUtxoSlice := List (Option ElectUtxo)

/-- The value of `*s[i].Status.Confirmed`; `none` is an index out of range or a
nil pointer dereference. -/
def SortableElectUtxoSlice.confirmedAt (s : SortableElectUtxoSlice) (i : Nat) : Option Bool :=
  match s[i]? with
  | some (some u) =>
    match u.Status with
    | some st => st.Confirmed
    | none => none
  | _ => none

/-- The value of `*s[i].Value`. -/
def SortableElectUtxoSlice.valueAt (s : SortableElectUtxoSlice) (i : Nat) : Option Nat :=
  match s[i]? with
  | some (some u) => u.Value
  | _ => none

/-- Source `SortableElectUtxoSlice.Less`. -/
def SortableElectUtxoSlice.Less (s : SortableElectUtxoSlice) (i j : Nat) : Option Bool :=
  match s.confirmedAt i with
  | none => none
  | some confirmed1 =>
    match s.confirmedAt j with
    | none => none
    | some confirmed2 =>
      if confirmed1 ≠ confirmed2 then some confirmed1
      else
        match s.valueAt i with
        | none => none
        | some v1 =>
          match s.valueAt j with
          | none => none
          | some v2 => some (decide (v1 > v2))

/-- An element `Less` can read: it is not nil and carries a status with a
confirmation flag, and a value. -/
def readableUtxo (u : Option ElectUtxo) (confirmed : Bool) (value : Nat) : Prop :=
  ∃ x st, u = some x ∧ x.Status = some st ∧ st.Confirmed = some confirmed ∧
    x.Value = some value

/-- The order the claim describes, on the confirmation flag and the value of
two elements: the first is confirmed and the second is not, or both have the
same flag and the first has the greater value. -/
def utxoBefore (c1 : Bool) (v1 : Nat) (c2 : Bool) (v2 : Nat) : Prop :=
  (c1 = true ∧ c2 = false) ∨ (c1 = c2 ∧ v1 > v2)

instance (c1 : Bool) (v1 : Nat) (c2 : Bool) (v2 : Nat) : Decidable (utxoBefore c1 v1 c2 v2) := by
  unfold utxoBefore
  infer_instance

/-- An unspent output with the given confirmation flag and value. -/
def sampleUtxo (confirmed : Bool) (value : Nat) : Option ElectUtxo :=
  some { Value := some value,
         Status := some { BlockHeight := none, BlockHash := none, BlockTime := none,
                          Confirmed := some confirmed } }

/-! ### The sender of a deposit -/

/-- The address an input resolves to: the address of its previous output, when
the input, the previous output and the address are not nil. -/
def inputAddress (input : Option ElectTxin) : Option GoString :=
  match input with
  | some i =>
    match i.Prevout with
    | some prevout => prevout.ScriptpubkeyAddress
    | none => none
  | none => none

/-- The sender the claim describes: the address of the first input that
resolves to one, the empty string when there is none. -/
def firstSender (vin : List (Option ElectTxin)) : GoString :=
  ((vin.filterMap inputAddress).head?).getD []

/-! ### Stability of a deposit -/

/-- The block height the indexer reports for a transaction, `0` when it reports
none or cannot be asked. -/
def reportedHeight (b : BtcBridge) (txHash : GoString) : Nat :=
  match b.GetElectTransactionStatus txHash with
  | some s => s.BlockHeight.getD 0
  | none => 0

/-- The confirmation depth the claim describes: `latest - blockHeight` when
`latest > blockHeight` and `0` otherwise, also when the latest block number
cannot be fetched. -/
def confirmationDepth (b : BtcBridge) (txHash : GoString) : Nat :=
  match b.GetLatestBlockNumber with
  | some latest =>
    if latest > reportedHeight b txHash then latest - reportedHeight b txHash else 0
  | none => 0

/-- A transaction the stability gate turns away: its reported height is `0` or
its confirmation depth is below the configured threshold. -/
def unstable (b : BtcBridge) (txHash : GoString) : Prop :=
  reportedHeight b txHash = 0 ∨ confirmationDepth b txHash < b.Confirmations

instance (b : BtcBridge) (txHash : GoString) : Decidable (unstable b txHash) := by
  unfold unstable
  infer_instance

/-- A call of `GetSignStatus`. -/
def Event.isPoll : Event → Bool
  | .getSignStatus _ => true
  | _ => false

/-- The sample environment with a signing service that answers every status
poll with the error `e`. -/
def samplePollEnv (e : Err) : Env :=
  { sampleEnv 0 [] with GetSignStatus := fun _ _ => .error e }

/-- A deposit whose single output is of the script type `ty` and pays 150 to the
script address derived from the bind address `abc`. -/
def sampleScriptTx (ty : GoString) : ElectTx :=
  { Vin :=
      [ some { Prevout := some { ScriptpubkeyAsm := none, ScriptpubkeyType := some (ascii "p2pkh"),
                                 ScriptpubkeyAddress := some (ascii "alice"),
                                 Value := some 500 } } ]
    Vout :=
      [ some { ScriptpubkeyAsm := none, ScriptpubkeyType := some ty,
               ScriptpubkeyAddress := some (ascii "p2shabc"), Value := some 150 } ]
    Status := some { BlockHeight := some 100, BlockHash := none, BlockTime := some 1600000000 } }

/-! ### The to-swap query -/

/-- Modelled from the spec: `mongodb.FindSwapinsWithStatus` and
`mongodb.FindSwapoutsWithStatus` are not among the source files.
`FindWithStatus(status, septime)` returns the swap records of the collection
that are in the status `status` and not older than `septime`. The collection
is read through the list `ids` of its keys and the age of a record through
`recent`; the result is the one of a query that returns no error. -/
def FindSwapsWithStatus (isSwapin : Bool) (status : SwapStatus) (recent : MgoSwap → Bool)
    (ids : List GoString) (w : World) : List MgoSwap :=
  ids.filterMap (fun id =>
    match w.store.swaps isSwapin id with
    | some r => if r.Status = status ∧ recent r = true then some r else none
    | none => none)

/-- Source `findSwapinsToSwap`: the query asks for the status `TxNotSwapped`;
`recent` is the bound `getSepTimeInFind(maxDoSwapLifetime)` on the age. -/
def findSwapinsToSwap (recent : MgoSwap → Bool) (ids : List GoString) (w : World) :
    List MgoSwap :=
  FindSwapsWithStatus true .TxNotSwapped recent ids w

/-- Source `findSwapoutsToSwap`. -/
def findSwapoutsToSwap (recent : MgoSwap → Bool) (ids : List GoString) (w : World) :
    List MgoSwap :=
  FindSwapsWithStatus false .TxNotSwapped recent ids w


/-- Whether the last call of `SendTransaction` among the events returned no
error; `none` when there is no such call. -/
def lastSendOk (evs : List Event) : Option Bool :=
  ((evs.filter Event.isSend).getLast?).map Event.isSendOk

/-- The sample environment with a destination node that accepts the first
transaction sent to it, at the clock 10, without showing it afterwards, and
refuses the later ones. -/
def sampleLateRefusingEnv : Env :=
  { sampleEnv 0 [sampleRsv 1] with
    DstBridge := { sampleEthBridge false 0 with
      SendTransaction := fun c _ => if c = 10 then none else some (.external 1)
      GetTransaction := fun _ _ => (false, none) } }

/-- The sample environment with a destination node that refuses every
transaction sent to it and a store that fails from the clock 13 on, which is
after the three sends. -/
def sampleStoreDownEnv : Env :=
  { sampleRefusingEnv with storeFails := fun c => if 13 ≤ c then some (.external 2) else none }

/-- The sample environment with a destination node that accepts the first
transaction sent to it without showing it and refuses later ones, and a store
that fails at the clock 14, the one of the demotion of the swap record. -/
def sampleStoreGapEnv : Env :=
  { sampleLateRefusingEnv with storeFails := fun c => if c = 14 then some (.external 2) else none }

/-! # Theorems -/

/-! ## Memo parsing -/

set_option maxRecDepth 100000 in
theorem fromHexChar_hi : ∀ b : Byte, fromHexChar (hexDigit (b.val / 16)) = some (b.val / 16) := by
  decide

set_option maxRecDepth 100000 in
theorem fromHexChar_lo : ∀ b : Byte, fromHexChar (hexDigit (b.val % 16)) = some (b.val % 16) := by
  decide

set_option maxRecDepth 100000 in
theorem byte_of_nibbles : ∀ b : Byte, (Fin.ofNat (b.val / 16 * 16 + b.val % 16) : Byte) = b := by
  decide

set_option maxRecDepth 100000 in
theorem hexDigit_plain : ∀ b : Byte,
    isPlain (hexDigit (b.val / 16)) = true ∧ isPlain (hexDigit (b.val % 16)) = true ∧
    (hexDigit (b.val % 16)).val ≠ 120 ∧ (hexDigit (b.val % 16)).val ≠ 88 := by
  decide

theorem Hex2Bytes_hexEncode (bs : List Byte) : Hex2Bytes (hexEncode bs) = bs := by
  induction bs with
  | nil => rfl
  | cons b bs ih =>
    simp [hexEncode, Hex2Bytes, fromHexChar_hi, fromHexChar_lo, byte_of_nibbles, ih]

theorem hexEncode_length (bs : List Byte) : (hexEncode bs).length = 2 * bs.length := by
  induction bs with
  | nil => rfl
  | cons b bs ih => simp [hexEncode, ih]; omega

theorem hexEncode_append (xs ys : List Byte) :
    hexEncode (xs ++ ys) = hexEncode xs ++ hexEncode ys := by
  induction xs with
  | nil => rfl
  | cons b bs ih => simp [hexEncode, ih]

theorem hexEncode_all_plain (bs : List Byte) : ∀ c ∈ hexEncode bs, isPlain c = true := by
  induction bs with
  | nil => simp [hexEncode]
  | cons b bs ih =>
    intro c hc
    simp only [hexEncode, List.mem_cons] at hc
    rcases hc with h | h | h
    · rw [h]; exact (hexDigit_plain b).1
    · rw [h]; exact (hexDigit_plain b).2.1
    · exact ih c h

theorem FromHex_hexEncode (bs : List Byte) : FromHex (hexEncode bs) = bs := by
  cases bs with
  | nil => rfl
  | cons b bs =>
    have hlen : (hexEncode (b :: bs)).length % 2 = 0 := by
      rw [hexEncode_length]; omega
    have h1 : ¬ (List.take 2 (hexEncode (b :: bs)) = [48, 120]) := by
      intro h
      simp only [hexEncode, List.take_succ_cons, List.take_zero, List.cons.injEq] at h
      exact (hexDigit_plain b).2.2.1 (by rw [h.2.1]; rfl)
    have h2 : ¬ (List.take 2 (hexEncode (b :: bs)) = [48, 88]) := by
      intro h
      simp only [hexEncode, List.take_succ_cons, List.take_zero, List.cons.injEq] at h
      exact (hexDigit_plain b).2.2.2 (by rw [h.2.1]; rfl)
    unfold FromHex
    simp only [h1, h2, or_self, and_false, if_false, hlen]
    simpa using Hex2Bytes_hexEncode (b :: bs)

theorem leadingSpaceWidth_plain (c : Byte) (s : GoString) (h : isPlain c = true) :
    leadingSpaceWidth (c :: s) = 0 := by
  simp only [isPlain, Bool.and_eq_true, Bool.not_eq_true', decide_eq_true_eq] at h
  obtain ⟨hs, hlt⟩ := h
  have e1 : (c.val == 194) = false := by simp; omega
  have e2 : (c.val == 225) = false := by simp; omega
  have e3 : (c.val == 226) = false := by simp; omega
  have e4 : (c.val == 227) = false := by simp; omega
  match s with
  | [] => simp [leadingSpaceWidth, hs]
  | [_] => simp [leadingSpaceWidth, hs, e1]
  | _ :: _ :: _ => simp [leadingSpaceWidth, hs, e1, e2, e3, e4]

theorem trailingSpaceWidth_plain (c : Byte) (s : GoString) (h : isPlain c = true) :
    trailingSpaceWidth (c :: s) = 0 := by
  simp only [isPlain, Bool.and_eq_true, Bool.not_eq_true', decide_eq_true_eq] at h
  obtain ⟨hs, hlt⟩ := h
  have e1 : (c.val == 133) = false := by simp; omega
  have e2 : (c.val == 160) = false := by simp; omega
  have e3 : (c.val == 128) = false := by simp; omega
  have e4 : (c.val == 159) = false := by simp; omega
  have e5 : isE280Space c = false := by
    simp only [isE280Space, Bool.or_eq_false_iff, Bool.and_eq_false_iff, decide_eq_false_iff_not,
      beq_eq_false_iff_ne]
    refine ⟨⟨⟨?_, ?_⟩, ?_⟩, ?_⟩ <;> omega
  match s with
  | [] => simp [trailingSpaceWidth, hs]
  | [_] => simp [trailingSpaceWidth, hs, e1, e2]
  | _ :: _ :: _ => simp [trailingSpaceWidth, hs, e1, e2, e3, e4, e5]

theorem trimRunes_fixed (width : GoString → Nat) (n : Nat) (s : GoString) (h : width s = 0) :
    trimRunes width n s = s := by
  cases n <;> simp [trimRunes, h]

theorem TrimSpace_plain (s : GoString) (h : ∀ c ∈ s, isPlain c = true) : TrimSpace s = s := by
  have hl : trimRunes leadingSpaceWidth s.length s = s := by
    apply trimRunes_fixed
    cases s with
    | nil => rfl
    | cons c cs => exact leadingSpaceWidth_plain c cs (h c (by simp))
  have hr : trimRunes trailingSpaceWidth s.length s.reverse = s.reverse := by
    apply trimRunes_fixed
    cases hrev : s.reverse with
    | nil => rfl
    | cons c cs =>
      apply trailingSpaceWidth_plain
      apply h
      have : c ∈ s.reverse := by rw [hrev]; simp
      simpa using this
  simp only [TrimSpace, hl, hr, List.reverse_reverse]

theorem stripLiteral_append (lit s : GoString) : stripLiteral lit (lit ++ s) = some s := by
  induction lit with
  | nil => rfl
  | cons p ps ih => simp [stripLiteral, ih]

theorem stripLiteral_some (lit s r : GoString) (h : stripLiteral lit s = some r) :
    s = lit ++ r := by
  induction lit generalizing s with
  | nil => simp [stripLiteral] at h; simp [h]
  | cons p ps ih =>
    cases s with
    | nil => simp [stripLiteral] at h
    | cons c cs =>
      simp only [stripLiteral] at h
      split at h
      · next hpc => rw [hpc, ih cs h]; rfl
      · exact absurd h (by simp)

theorem isDigit_blank : isDigit (32 : Byte) = false := by decide

theorem dropWhile_digits (ds rest : GoString) (h : ∀ d ∈ ds, isDigit d = true) :
    (ds ++ (32 : Byte) :: rest).dropWhile isDigit = (32 : Byte) :: rest := by
  induction ds with
  | nil => simp [List.dropWhile_cons, isDigit_blank]
  | cons d ds ih =>
    have hd := h d (by simp)
    simp only [List.cons_append, List.dropWhile_cons, hd, if_true]
    exact ih (fun x hx => h x (by simp [hx]))

theorem takeWhile_digits (ds rest : GoString) (h : ∀ d ∈ ds, isDigit d = true) :
    (ds ++ (32 : Byte) :: rest).takeWhile isDigit = ds := by
  induction ds with
  | nil => simp [List.takeWhile_cons, isDigit_blank]
  | cons d ds ih =>
    have hd := h d (by simp)
    simp only [List.cons_append, List.takeWhile_cons, hd, if_true]
    rw [ih (fun x hx => h x (by simp [hx]))]

/-- On a script with the expected head the pattern matches exactly the head. -/
theorem matchMemoScript_head (ds rest : GoString) (h : ∀ d ∈ ds, isDigit d = true) :
    matchMemoScript (memoScriptHead ++ ds ++ (32 : Byte) :: rest) =
      some (memoScriptHead.length + ds.length + 1) := by
  unfold matchMemoScript
  rw [List.append_assoc, stripLiteral_append]
  simp only [dropWhile_digits ds rest h, takeWhile_digits ds rest h]
  have h32 : ((32 : Byte)).val = 32 := rfl
  simp [h32]

/-- A match of the pattern exhibits the head, a run of digits and a blank. -/
theorem matchMemoScript_some (s : GoString) (k : Nat) (h : matchMemoScript s = some k) :
    ∃ ds rest, (∀ d ∈ ds, isDigit d = true) ∧ s = memoScriptHead ++ ds ++ (32 : Byte) :: rest := by
  unfold matchMemoScript at h
  split at h
  · exact absurd h (by simp)
  · next r hr =>
    split at h
    · next sp tl hdw =>
      split at h
      · next hsp =>
        refine ⟨r.takeWhile isDigit, tl, ?_, ?_⟩
        · intro d hd
          exact List.mem_takeWhile_imp hd
        · have hs := stripLiteral_some _ _ _ hr
          have hsp2 : sp = (32 : Byte) := Fin.ext hsp
          rw [hs, List.append_assoc, ← hsp2, ← hdw, List.takeWhile_append_dropWhile]
      · exact absurd h (by simp)
    · exact absurd h (by simp)

theorem regexpSplit_head (ds rest : GoString) (h : ∀ d ∈ ds, isDigit d = true) :
    regexpSplit (memoScriptHead ++ ds ++ (32 : Byte) :: rest) = [[], rest] := by
  unfold regexpSplit findAllMemoScript
  rw [matchMemoScript_head ds rest h]
  have hlen : (memoScriptHead ++ ds ++ (32 : Byte) :: rest).length ≠ 0 := by simp
  simp only [hlen, if_false, splitLoop]
  have hk : memoScriptHead.length + ds.length + 1 ≠ 0 := by omega
  simp only [hk, ne_eq, not_false_eq_true, if_true]
  have h0 : (0 : Nat) ≠ (memoScriptHead ++ ds ++ (32 : Byte) :: rest).length := by
    simp only [List.length_append, List.length_cons]; omega
  simp only [h0, ne_eq, not_false_eq_true, if_true, slice]
  have hdrop : List.drop (memoScriptHead.length + ds.length + 1)
      (memoScriptHead ++ ds ++ (32 : Byte) :: rest) = rest := by
    have : memoScriptHead ++ ds ++ (32 : Byte) :: rest = (memoScriptHead ++ ds ++ [32]) ++ rest := by
      simp
    rw [this]
    have hl : (memoScriptHead ++ ds ++ [(32 : Byte)]).length =
        memoScriptHead.length + ds.length + 1 := by
      simp only [List.length_append, List.length_cons, List.length_nil]
    rw [← hl, List.drop_left]
  rw [hdrop]
  simp

theorem regexpSplit_no_match (s : GoString) (h : matchMemoScript s = none) :
    (regexpSplit s).length = 1 := by
  unfold regexpSplit findAllMemoScript
  rw [h]
  by_cases hs : s.length = 0
  · simp [hs]
  · simp only [hs, if_false, splitLoop]
    have : (0 : Nat) ≠ s.length := fun e => hs e.symm
    simp [this]

/-! ## Verification -/

theorem verifySwapinTx_ok (b : BtcBridge) (txHash : GoString) (allowUnstable : Bool)
    (info : TxSwapInfo) (h : verifySwapinTx b txHash allowUnstable = some (info, none)) :
    info.From ≠ info.To ∧ (∃ v, info.Value = some v ∧ b.CheckSwapValue v b.IsSrc = true) ∧
      b.DstIsValidAddress info.Bind = true := by
  unfold verifySwapinTx at h
  split at h
  · simp at h
  · split at h
    · simp at h
    · split at h
      · simp at h
      · dsimp only at h
        split at h
        · simp at h
        · next value memoScript rightReceiver _ =>
          split at h
          · simp at h
          · split at h
            · simp at h
            · split at h
              · simp at h
              · split at h
                · simp at h
                · split at h
                  · simp at h
                  · next hne hval _ hvalid =>
                    simp only [Option.some.injEq, Prod.mk.injEq, and_true] at h
                    subst h
                    refine ⟨hne, ⟨value, rfl, ?_⟩, ?_⟩
                    · simpa using hval
                    · simpa using hvalid

theorem VerifyP2shTransaction_ok (b : BtcBridge) (txHash bindAddress : GoString)
    (allowUnstable : Bool) (info : TxSwapInfo)
    (h : VerifyP2shTransaction b txHash bindAddress allowUnstable = some (info, none)) :
    info.From ≠ info.To ∧ (∃ v, info.Value = some v ∧ b.CheckSwapValue v b.IsSrc = true) ∧
      info.Bind = bindAddress := by
  unfold VerifyP2shTransaction at h
  split at h
  · simp at h
  · split at h
    · simp at h
    · split at h
      · simp at h
      · split at h
        · simp at h
        · split at h
          · simp at h
          · dsimp only at h
            split at h
            · simp at h
            · next value _ rightReceiver _ =>
              split at h
              · simp at h
              · split at h
                · simp at h
                · split at h
                  · simp at h
                  · next hne hval =>
                    simp only [Option.some.injEq, Prod.mk.injEq, and_true] at h
                    subst h
                    refine ⟨hne, ⟨value, rfl, ?_⟩, rfl⟩
                    simpa using hval

/-- The swap info `verifySwapinTx` fills once the receiver check has passed. -/
theorem verifySwapinTx_found (b : BtcBridge) (txHash : GoString) (allowUnstable : Bool)
    (tx : ElectTx) (st : ElectTxStatus) (value : Nat) (memoScript : GoString)
    (rightReceiver : Bool)
    (hs : allowUnstable = true ∨ checkStable b txHash = true)
    (hf : b.GetTransactionByHash txHash = some tx) (hst : tx.Status = some st)
    (hr : getReceivedValue b tx.Vout b.DcrmAddress = some (value, memoScript, rightReceiver)) :
    verifySwapinTx b txHash allowUnstable =
      if !rightReceiver then
        some (withStatus (newSwapInfo txHash) st, some .ErrTxWithWrongReceiver)
      else
        let bound := getBindAddressFromMemoScipt b.lockMemoTag memoScript
        let swapInfo2 : TxSwapInfo :=
          { withStatus (newSwapInfo txHash) st with
            To := b.DcrmAddress, Value := some value, Bind := bound.1,
            From := getTxFrom tx.Vin }
        if getTxFrom tx.Vin = b.DcrmAddress then some (swapInfo2, some .ErrTxWithWrongSender)
        else if !b.CheckSwapValue value b.IsSrc then
          some (swapInfo2, some .ErrTxWithWrongValue)
        else if !bound.2 then some (swapInfo2, some .ErrTxWithWrongMemo)
        else if !b.DstIsValidAddress bound.1 then some (swapInfo2, some .ErrTxWithWrongMemo)
        else some (swapInfo2, none) := by
  have hs2 : (!allowUnstable && !checkStable b txHash) = false := by
    rcases hs with h | h <;> simp [h]
  unfold verifySwapinTx
  simp only [hs2, hf, hst, hr]
  rfl

/-- An unstable transaction is rejected before anything else is looked at. -/
theorem verifySwapinTx_unstable (b : BtcBridge) (txHash : GoString) (allowUnstable : Bool)
    (hs : allowUnstable = false ∧ checkStable b txHash = false) :
    verifySwapinTx b txHash allowUnstable = some (newSwapInfo txHash, some .ErrTxNotStable) := by
  unfold verifySwapinTx
  simp [hs.1, hs.2]

/-- A stable transaction the indexer does not know is rejected as not found. -/
theorem verifySwapinTx_missing (b : BtcBridge) (txHash : GoString) (allowUnstable : Bool)
    (hs : allowUnstable = true ∨ checkStable b txHash = true)
    (hf : b.GetTransactionByHash txHash = none) :
    verifySwapinTx b txHash allowUnstable = some (newSwapInfo txHash, some .ErrTxNotFound) := by
  have hs2 : (!allowUnstable && !checkStable b txHash) = false := by
    rcases hs with h | h <;> simp [h]
  unfold verifySwapinTx
  simp [hs2, hf]

/-- What a wrong-memo rejection of `verifySwapinTx` implies. -/
theorem verifySwapinTx_wrongMemo (b : BtcBridge) (txHash : GoString) (allowUnstable : Bool)
    (info : TxSwapInfo)
    (h : verifySwapinTx b txHash allowUnstable = some (info, some .ErrTxWithWrongMemo)) :
    (allowUnstable = true ∨ checkStable b txHash = true) ∧
    ∃ tx value memoScript, b.GetTransactionByHash txHash = some tx ∧
      getReceivedValue b tx.Vout b.DcrmAddress = some (value, memoScript, true) ∧
      getTxFrom tx.Vin ≠ b.DcrmAddress ∧ b.CheckSwapValue value b.IsSrc = true := by
  unfold verifySwapinTx at h
  split at h
  · simp at h
  · next hstable =>
    have hs : allowUnstable = true ∨ checkStable b txHash = true := by
      cases allowUnstable <;> cases hc : checkStable b txHash <;> simp [hc] at hstable ⊢
    refine ⟨hs, ?_⟩
    split at h
    · simp at h
    · next tx hf =>
      split at h
      · simp at h
      · dsimp only at h
        split at h
        · simp at h
        · next value memoScript rightReceiver hr =>
          split at h
          · simp at h
          · next hright =>
            have hrr : rightReceiver = true := by simpa using hright
            subst hrr
            split at h
            · simp at h
            · next hne =>
              split at h
              · simp at h
              · next hval =>
                exact ⟨tx, value, memoScript, hf, hr, hne, by simpa using hval⟩

/-- C7: every intent accepted by the Bitcoin verifiers is valid. When
`verifySwapinTx` or `VerifyP2shTransaction` returns a nil error, the returned
intent has `From != To` and a value that passes `CheckSwapValue`, and for
`verifySwapinTx` its bind address passes the destination bridge's
`IsValidAddress`; so an intent that violates one of these comes with an error. -/
theorem accepted_intent_is_valid (b : BtcBridge) (txHash bindAddress : GoString)
    (allowUnstable : Bool) (info : TxSwapInfo) :
    (verifySwapinTx b txHash allowUnstable = some (info, none) →
      info.From ≠ info.To ∧ (∃ v, info.Value = some v ∧ b.CheckSwapValue v b.IsSrc = true) ∧
        b.DstIsValidAddress info.Bind = true) ∧
    (VerifyP2shTransaction b txHash bindAddress allowUnstable = some (info, none) →
      info.From ≠ info.To ∧ (∃ v, info.Value = some v ∧ b.CheckSwapValue v b.IsSrc = true)) :=
  ⟨verifySwapinTx_ok b txHash allowUnstable info,
   fun h =>
    let r := VerifyP2shTransaction_ok b txHash bindAddress allowUnstable info h
    ⟨r.1, r.2.1⟩⟩

set_option maxRecDepth 100000 in
/-- Witness of C7: a deposit of 150 from `alice` bound to `abc`, once paid to
the custody address and once to the script address derived from `abc`. -/
theorem accepted_intent_is_valid_witness :
    (verifySwapinTx (sampleBridge (sampleTx (ascii "alice") (ascii "dcrm") sampleMemoScript 150))
        (ascii "tx1") false = some (sampleInfo (ascii "dcrm"), none) ∧
      (sampleInfo (ascii "dcrm")).From ≠ (sampleInfo (ascii "dcrm")).To) ∧
    (VerifyP2shTransaction
        (sampleBridge (sampleTx (ascii "alice") (ascii "p2shabc") sampleMemoScript 150))
        (ascii "tx1") (ascii "abc") false = some (sampleInfo (ascii "p2shabc"), none) ∧
      (sampleInfo (ascii "p2shabc")).From ≠ (sampleInfo (ascii "p2shabc")).To) :=
  ⟨⟨by decide,
    ((accepted_intent_is_valid
      (sampleBridge (sampleTx (ascii "alice") (ascii "dcrm") sampleMemoScript 150))
      (ascii "tx1") (ascii "abc") false (sampleInfo (ascii "dcrm"))).1 (by decide)).1⟩,
   ⟨by decide,
    ((accepted_intent_is_valid
      (sampleBridge (sampleTx (ascii "alice") (ascii "p2shabc") sampleMemoScript 150))
      (ascii "tx1") (ascii "abc") false (sampleInfo (ascii "p2shabc"))).2 (by decide)).1⟩⟩

/-- C8: the memo check is the last one of `verifySwapinTx`. A wrong-memo
rejection implies the transaction passed the stability check (or
`allowUnstable`), was found, pays the receiver, has a sender other than the
receiver and a value within bounds; and whatever the memo is, a failure of an
earlier check is reported with its own reason, in the order not stable, not
found, wrong receiver, wrong sender, wrong value. -/
theorem memo_check_is_last (b : BtcBridge) (txHash : GoString) (allowUnstable : Bool) :
    (∀ info, verifySwapinTx b txHash allowUnstable = some (info, some .ErrTxWithWrongMemo) →
      (allowUnstable = true ∨ checkStable b txHash = true) ∧
      ∃ tx value memoScript, b.GetTransactionByHash txHash = some tx ∧
        getReceivedValue b tx.Vout b.DcrmAddress = some (value, memoScript, true) ∧
        getTxFrom tx.Vin ≠ b.DcrmAddress ∧ b.CheckSwapValue value b.IsSrc = true) ∧
    (allowUnstable = false ∧ checkStable b txHash = false →
      ∃ info, verifySwapinTx b txHash allowUnstable = some (info, some .ErrTxNotStable)) ∧
    ((allowUnstable = true ∨ checkStable b txHash = true) →
      (b.GetTransactionByHash txHash = none →
        ∃ info, verifySwapinTx b txHash allowUnstable = some (info, some .ErrTxNotFound)) ∧
      ∀ tx st value memoScript rightReceiver,
        b.GetTransactionByHash txHash = some tx → tx.Status = some st →
        getReceivedValue b tx.Vout b.DcrmAddress = some (value, memoScript, rightReceiver) →
        (rightReceiver = false →
          ∃ info, verifySwapinTx b txHash allowUnstable =
            some (info, some .ErrTxWithWrongReceiver)) ∧
        (rightReceiver = true → getTxFrom tx.Vin = b.DcrmAddress →
          ∃ info, verifySwapinTx b txHash allowUnstable =
            some (info, some .ErrTxWithWrongSender)) ∧
        (rightReceiver = true → getTxFrom tx.Vin ≠ b.DcrmAddress →
          b.CheckSwapValue value b.IsSrc = false →
          ∃ info, verifySwapinTx b txHash allowUnstable =
            some (info, some .ErrTxWithWrongValue))) := by
  refine ⟨verifySwapinTx_wrongMemo b txHash allowUnstable, ?_, ?_⟩
  · intro hs
    exact ⟨_, verifySwapinTx_unstable b txHash allowUnstable hs⟩
  · intro hs
    refine ⟨fun hf => ⟨_, verifySwapinTx_missing b txHash allowUnstable hs hf⟩, ?_⟩
    intro tx st value memoScript rightReceiver hf hst hr
    have e := verifySwapinTx_found b txHash allowUnstable tx st value memoScript rightReceiver
      hs hf hst hr
    refine ⟨?_, ?_, ?_⟩
    · intro h
      rw [e]; simp [h]
    · intro h hfrom
      rw [e]; simp [h, hfrom]
    · intro h hfrom hval
      rw [e]; simp [h, hfrom, hval]

set_option maxRecDepth 100000 in
/-- Witness of C8: a deposit with a wrong memo is rejected for its memo when
everything else is right, which shows it stable; sent from the custody address
itself it is rejected for its sender. -/
theorem memo_check_is_last_witness :
    (verifySwapinTx
        (sampleBridge (sampleTx (ascii "alice") (ascii "dcrm") sampleBadMemoScript 150))
        (ascii "tx1") false =
        some ({ sampleInfo (ascii "dcrm") with Bind := [] }, some .ErrTxWithWrongMemo) ∧
      (false = true ∨ checkStable
        (sampleBridge (sampleTx (ascii "alice") (ascii "dcrm") sampleBadMemoScript 150))
        (ascii "tx1") = true)) ∧
    (getTxFrom (sampleTx (ascii "dcrm") (ascii "dcrm") sampleBadMemoScript 150).Vin =
        ascii "dcrm" ∧
      ∃ info, verifySwapinTx
        (sampleBridge (sampleTx (ascii "dcrm") (ascii "dcrm") sampleBadMemoScript 150))
        (ascii "tx1") false = some (info, some .ErrTxWithWrongSender)) :=
  ⟨⟨by decide,
    ((memo_check_is_last
      (sampleBridge (sampleTx (ascii "alice") (ascii "dcrm") sampleBadMemoScript 150))
      (ascii "tx1") false).1
      { sampleInfo (ascii "dcrm") with Bind := [] } (by decide)).1⟩,
   ⟨by decide,
    (((memo_check_is_last
      (sampleBridge (sampleTx (ascii "dcrm") (ascii "dcrm") sampleBadMemoScript 150))
      (ascii "tx1") false).2.2 (Or.inr (by decide))).2
        (sampleTx (ascii "dcrm") (ascii "dcrm") sampleBadMemoScript 150)
        { BlockHeight := some 100, BlockHash := none, BlockTime := some 1600000000 }
        150 sampleBadMemoScript true (by decide) (by decide) (by decide)).2.1 rfl (by decide)⟩⟩

theorem ascii_memoScriptHead : ascii "OP_RETURN OP_PUSHBYTES_" = memoScriptHead := by decide

theorem ascii_blank : ascii " " = [(32 : Byte)] := by decide

theorem HasPrefix_append (p s : GoString) : HasPrefix (p ++ s) p = true := by
  induction p with
  | nil => cases s <;> rfl
  | cons c cs ih => simp [HasPrefix, ih]

/-- C9: memo round trip. For every non-empty bind string `s` and every string
`N` of decimal digits, `getBindAddressFromMemoScipt` applied to
`OP_RETURN OP_PUSHBYTES_N ` followed by the hex encoding of the lock memo tag
and `s` returns `(s, true)`. -/
theorem memo_round_trip (lockMemoTag s N : GoString) (hs : s ≠ [])
    (hN : ∀ d ∈ N, isDigit d = true) :
    getBindAddressFromMemoScipt lockMemoTag
      (ascii "OP_RETURN OP_PUSHBYTES_" ++ N ++ ascii " " ++ hexEncode (lockMemoTag ++ s)) =
      (s, true) := by
  have hsplit := regexpSplit_head N (hexEncode (lockMemoTag ++ s)) hN
  have hscript : ascii "OP_RETURN OP_PUSHBYTES_" ++ N ++ ascii " " ++ hexEncode (lockMemoTag ++ s)
      = memoScriptHead ++ N ++ (32 : Byte) :: hexEncode (lockMemoTag ++ s) := by
    rw [ascii_memoScriptHead, ascii_blank]; simp
  have hlen : ¬ (lockMemoTag ++ s).length ≤ lockMemoTag.length := by
    have : 0 < s.length := List.length_pos.mpr hs
    simp only [List.length_append]; omega
  unfold getBindAddressFromMemoScipt
  rw [hscript, hsplit]
  simp only [List.length_cons, List.length_nil, ne_eq, not_true_eq_false, if_false,
    List.getD_cons_succ, List.getD_cons_zero]
  rw [TrimSpace_plain _ (hexEncode_all_plain _), FromHex_hexEncode]
  simp only [hlen, if_false, HasPrefix_append, not_true_eq_false, List.drop_left]

set_option maxRecDepth 100000 in
/-- Witness of C9: the bind address `abc` behind a push of ten bytes. -/
theorem memo_round_trip_witness :
    ascii "abc" ≠ [] ∧ (∀ d ∈ ascii "10", isDigit d = true) ∧
    getBindAddressFromMemoScipt (ascii "SWAPTO:")
      (ascii "OP_RETURN OP_PUSHBYTES_" ++ ascii "10" ++ ascii " " ++
        hexEncode (ascii "SWAPTO:" ++ ascii "abc")) = (ascii "abc", true) :=
  ⟨by decide, by decide,
   memo_round_trip (ascii "SWAPTO:") (ascii "abc") (ascii "10") (by decide) (by decide)⟩

theorem getBind_no_match (tag s : GoString) (h : matchMemoScript s = none) :
    getBindAddressFromMemoScipt tag s = ([], false) := by
  unfold getBindAddressFromMemoScipt
  simp [regexpSplit_no_match s h]

theorem getBind_head (tag ds rest : GoString) (h : ∀ d ∈ ds, isDigit d = true) :
    getBindAddressFromMemoScipt tag (memoScriptHead ++ ds ++ (32 : Byte) :: rest) =
      if (FromHex (TrimSpace rest)).length ≤ tag.length then ([], false)
      else if ¬ HasPrefix (FromHex (TrimSpace rest)) tag then ([], false)
      else ((FromHex (TrimSpace rest)).drop tag.length, true) := by
  unfold getBindAddressFromMemoScipt
  rw [regexpSplit_head ds rest h]
  simp only [List.length_cons, List.length_nil, ne_eq, not_true_eq_false, if_false,
    List.getD_cons_succ, List.getD_cons_zero]

/-- C10: memo rejection. A memo script that does not begin with
`OP_RETURN OP_PUSHBYTES_<digits> `, or whose hex-decoded payload does not start
with the lock memo tag, or whose payload is no longer than the tag, makes
`getBindAddressFromMemoScipt` return the empty string and `false`, and
`verifySwapinTx` returns the wrong-memo rejection when all other checks pass. -/
theorem memo_rejection (b : BtcBridge) (memoScript : GoString)
    (h : (¬ ∃ ds rest, (∀ d ∈ ds, isDigit d = true) ∧
            memoScript = ascii "OP_RETURN OP_PUSHBYTES_" ++ ds ++ ascii " " ++ rest) ∨
         (∃ ds rest, (∀ d ∈ ds, isDigit d = true) ∧
            memoScript = ascii "OP_RETURN OP_PUSHBYTES_" ++ ds ++ ascii " " ++ rest ∧
            (HasPrefix (FromHex (TrimSpace rest)) b.lockMemoTag = false ∨
              (FromHex (TrimSpace rest)).length ≤ b.lockMemoTag.length))) :
    getBindAddressFromMemoScipt b.lockMemoTag memoScript = ([], false) ∧
    ∀ txHash allowUnstable tx st value,
      (allowUnstable = true ∨ checkStable b txHash = true) →
      b.GetTransactionByHash txHash = some tx → tx.Status = some st →
      getReceivedValue b tx.Vout b.DcrmAddress = some (value, memoScript, true) →
      getTxFrom tx.Vin ≠ b.DcrmAddress → b.CheckSwapValue value b.IsSrc = true →
      ∃ info, verifySwapinTx b txHash allowUnstable =
        some (info, some .ErrTxWithWrongMemo) := by
  have hbind : getBindAddressFromMemoScipt b.lockMemoTag memoScript = ([], false) := by
    rcases h with h | ⟨ds, rest, hds, hm, hp⟩
    · apply getBind_no_match
      cases hmatch : matchMemoScript memoScript with
      | none => rfl
      | some k =>
        exfalso
        apply h
        obtain ⟨ds, rest, hds, hm⟩ := matchMemoScript_some memoScript k hmatch
        refine ⟨ds, rest, hds, ?_⟩
        rw [hm, ascii_memoScriptHead, ascii_blank]; simp
    · have hm2 : memoScript = memoScriptHead ++ ds ++ (32 : Byte) :: rest := by
        rw [hm, ascii_memoScriptHead, ascii_blank]; simp
      rw [hm2, getBind_head _ ds rest hds]
      rcases hp with hp | hp
      · simp [hp]
      · simp [hp]
  refine ⟨hbind, ?_⟩
  intro txHash allowUnstable tx st value hs hf hst hr hfrom hval
  rw [verifySwapinTx_found b txHash allowUnstable tx st value memoScript true hs hf hst hr]
  simp [hfrom, hval, hbind]

set_option maxRecDepth 100000 in
/-- Witness of C10: a memo whose payload starts with another tag. -/
theorem memo_rejection_witness :
    getBindAddressFromMemoScipt (ascii "SWAPTO:") sampleBadMemoScript = ([], false) ∧
    ∃ info, verifySwapinTx
      (sampleBridge (sampleTx (ascii "alice") (ascii "dcrm") sampleBadMemoScript 150))
      (ascii "tx1") false = some (info, some .ErrTxWithWrongMemo) :=
  let r := memo_rejection
    (sampleBridge (sampleTx (ascii "alice") (ascii "dcrm") sampleBadMemoScript 150))
    sampleBadMemoScript
    (Or.inr ⟨ascii "10", hexEncode (ascii "UNLOCK:abc"), by decide, by decide,
      Or.inl (by decide)⟩)
  ⟨r.1, r.2 (ascii "tx1") false
    (sampleTx (ascii "alice") (ascii "dcrm") sampleBadMemoScript 150)
    { BlockHeight := some 100, BlockHash := none, BlockTime := some 1600000000 } 150
    (Or.inr (by decide)) (by decide) (by decide) (by decide) (by decide) (by decide)⟩

/-! ## Nonce allocation -/

theorem emit_eq_addTrace (e : Event) (w : World) : emit e w = addTrace [e] w := rfl

theorem addTrace_addTrace (a c : List Event) (w : World) :
    addTrace a (addTrace c w) = addTrace (c ++ a) w := by
  simp [addTrace, List.append_assoc]

theorem addTrace_nil (w : World) : addTrace [] w = w := by
  simp [addTrace]

/-- Asking the node for the pending nonce only records events. -/
theorem getPoolNonceLoop_frame (b : EthBridge) (a : GoString) (n : Nat) (last : Nat × Option Err)
    (w : World) :
    ∃ evs, (getPoolNonceLoop b a n last w).2 = addTrace evs w ∧
      ∀ e ∈ evs, e = .getPoolNonce a := by
  induction n generalizing last w with
  | zero => exact ⟨[], by simp [getPoolNonceLoop, addTrace_nil], by simp⟩
  | succ n ih =>
    unfold getPoolNonceLoop
    split
    · exact ⟨[.getPoolNonce a], by simp [emit_eq_addTrace], by simp⟩
    · obtain ⟨evs, h1, h2⟩ := ih (b.GetPoolNonce (clock w) a) (emit (.getPoolNonce a) w)
      refine ⟨.getPoolNonce a :: evs, ?_, ?_⟩
      · rw [h1, emit_eq_addTrace, addTrace_addTrace]; rfl
      · intro e he
        rcases List.mem_cons.mp he with h | h
        · exact h
        · exact h2 e h

/-- C6, amended: the nonce resolution rule. For the custody address as sender,
with local counter `c` of the direction and reported pending nonce `p`,
`getAccountNonce` assigns `c + 1` (as a `uint64`) and sets the counter to it
whenever `c >= p` and `c != 0`; otherwise it assigns `p` and sets the counter
to `p`. The counter of the other direction is left alone. -/
theorem nonce_resolution_rule (b : EthBridge) (w : World) (p : Nat)
    (hp : (getPoolNonceLoop b b.DcrmAddress 3 (0, none) w).1 = (p, none)) :
    ((getAccountNonce b b.DcrmAddress .SwapinType w).1 =
        .ok (if w.swapinNonce ≥ p ∧ w.swapinNonce ≠ 0 then incr64 w.swapinNonce else p) ∧
      (getAccountNonce b b.DcrmAddress .SwapinType w).2.swapinNonce =
        (if w.swapinNonce ≥ p ∧ w.swapinNonce ≠ 0 then incr64 w.swapinNonce else p) ∧
      (getAccountNonce b b.DcrmAddress .SwapinType w).2.swapoutNonce = w.swapoutNonce) ∧
    (∀ ty, ty = SwapType.SwapoutType ∨ ty = SwapType.SwapRecallType →
      (getAccountNonce b b.DcrmAddress ty w).1 =
        .ok (if w.swapoutNonce ≥ p ∧ w.swapoutNonce ≠ 0 then incr64 w.swapoutNonce else p) ∧
      (getAccountNonce b b.DcrmAddress ty w).2.swapoutNonce =
        (if w.swapoutNonce ≥ p ∧ w.swapoutNonce ≠ 0 then incr64 w.swapoutNonce else p) ∧
      (getAccountNonce b b.DcrmAddress ty w).2.swapinNonce = w.swapinNonce) := by
  obtain ⟨evs, hw, _⟩ := getPoolNonceLoop_frame b b.DcrmAddress 3 (0, none) w
  have h1 : (getPoolNonceLoop b b.DcrmAddress 3 (0, none) w).1.2 = none := by rw [hp]
  have h2 : (getPoolNonceLoop b b.DcrmAddress 3 (0, none) w).1.1 = p := by rw [hp]
  refine ⟨?_, ?_⟩
  · unfold getAccountNonce
    simp only [h1, h2, hw, if_true]
    by_cases hc : w.swapinNonce ≥ p ∧ w.swapinNonce ≠ 0
    · simp [addTrace, hc]
    · simp [addTrace, hc]
  · intro ty hty
    unfold getAccountNonce
    simp only [h1, h2, hw, if_true]
    rcases hty with h | h <;> subst h
    · by_cases hc : w.swapoutNonce ≥ p ∧ w.swapoutNonce ≠ 0
      · simp [addTrace, hc]
      · simp [addTrace, hc]
    · by_cases hc : w.swapoutNonce ≥ p ∧ w.swapoutNonce ≠ 0
      · simp [addTrace, hc]
      · simp [addTrace, hc]

/-- Witness of C6: a counter at 7 against a reported nonce 4, in a world
whose swap-in counter is 7. -/
theorem nonce_resolution_rule_witness :
    (getPoolNonceLoop (sampleEthBridge false 4) (ascii "0xdcrm") 3 (0, none)
        { sampleWorld with swapinNonce := 7 }).1 = (4, none) ∧
    (getAccountNonce (sampleEthBridge false 4) (ascii "0xdcrm") .SwapinType
        { sampleWorld with swapinNonce := 7 }).1 = .ok 8 :=
  ⟨by decide,
   (nonce_resolution_rule (sampleEthBridge false 4) { sampleWorld with swapinNonce := 7 } 4
    (by decide)).1.1⟩

/-- Counterexample to C6 as stated: with counter `c = 0` and reported nonce
`p = 0` we have `c >= p`, yet `getAccountNonce` assigns `0`, not `c + 1`, and
leaves the counter at `0`. -/
theorem nonce_rule_counterexample :
    (sampleEthBridge false 0).GetPoolNonce (clock sampleWorld) (ascii "0xdcrm") = (0, none) ∧
    sampleWorld.swapinNonce = 0 ∧ sampleWorld.swapinNonce ≥ 0 ∧
    (getAccountNonce (sampleEthBridge false 0) (ascii "0xdcrm") .SwapinType sampleWorld).1 =
      .ok 0 ∧
    (getAccountNonce (sampleEthBridge false 0) (ascii "0xdcrm") .SwapinType sampleWorld).1 ≠
      .ok (sampleWorld.swapinNonce + 1) ∧
    (getAccountNonce (sampleEthBridge false 0) (ascii "0xdcrm") .SwapinType
      sampleWorld).2.swapinNonce ≠ sampleWorld.swapinNonce + 1 := by
  decide

set_option maxRecDepth 1000000 in
/-- C5, at the failing input: in a fresh process whose node reports the
pending nonce 0, two sequential swap-in builds issued with the worker's
arguments both get the nonce 0, also with the first transaction signed in
between; and two sequential swap-out builds on a source bridge whose node
reports 7 both get the nonce 7, because the worker's swap-out arguments carry
no sender and the counter is never consulted. -/
theorem sequential_builds_repeat_nonce :
    ((BuildRawTransaction (sampleEnv 0 []) (sampleEthBridge false 0) sampleArgs
        sampleWorld).1.toOption.map (fun tx => tx.Nonce) = some 0 ∧
      (BuildRawTransaction (sampleEnv 0 []) (sampleEthBridge false 0) sampleArgs
        (BuildRawTransaction (sampleEnv 0 []) (sampleEthBridge false 0) sampleArgs
          sampleWorld).2.2).1.toOption.map (fun tx => tx.Nonce) = some 0) ∧
    ((DcrmSignTransaction (sampleEnv 0 [sampleRsv 1]) (sampleEthBridge false 0)
        (.eth { sampleSignedTx with Sig := [] }) sampleArgs
        (BuildRawTransaction (sampleEnv 0 [sampleRsv 1]) (sampleEthBridge false 0) sampleArgs
          sampleWorld).2.2).1.2.2 = none ∧
      (BuildRawTransaction (sampleEnv 0 [sampleRsv 1]) (sampleEthBridge false 0) sampleArgs
        (DcrmSignTransaction (sampleEnv 0 [sampleRsv 1]) (sampleEthBridge false 0)
          (.eth { sampleSignedTx with Sig := [] }) sampleArgs
          (BuildRawTransaction (sampleEnv 0 [sampleRsv 1]) (sampleEthBridge false 0) sampleArgs
            sampleWorld).2.2).2).1.toOption.map (fun tx => tx.Nonce) = some 0) ∧
    ((BuildRawTransaction (sampleEnv 7 []) (sampleEthBridge true 7)
        (buildArgsOf (sampleEnv 7 []) false sampleSwap sampleResult 150)
        sampleWorld).1.toOption.map (fun tx => tx.Nonce) = some 7 ∧
      (BuildRawTransaction (sampleEnv 7 []) (sampleEthBridge true 7)
        (buildArgsOf (sampleEnv 7 []) false sampleSwap sampleResult 150)
        (BuildRawTransaction (sampleEnv 7 []) (sampleEthBridge true 7)
          (buildArgsOf (sampleEnv 7 []) false sampleSwap sampleResult 150)
          sampleWorld).2.2).1.toOption.map (fun tx => tx.Nonce) = some 7) := by
  decide

/-! ## Remote signing -/

theorem clock_emit (e : Event) (w : World) : clock (emit e w) = clock w + 1 := by
  simp [clock, emit]

theorem clock_addTrace (evs : List Event) (w : World) :
    clock (addTrace evs w) = clock w + evs.length := by
  simp [clock, addTrace]

/-- The polling loop stops at the first poll the service answers without an
error, having polled exactly that often. -/
theorem pollSignStatus_first_ok (env : Env) (keyID : GoString) (rsvs : List GoString) :
    ∀ (n i : Nat) (w : World), i < n →
      (∀ j < i, ∃ e, env.GetSignStatus (clock w + j) keyID = .error e ∧
        e ≠ .ErrGetSignStatusFailed ∧ e ≠ .ErrGetSignStatusTimeout) →
      env.GetSignStatus (clock w + i) keyID = .ok rsvs →
      pollSignStatus env keyID n w =
        (if rsvs.length ≠ 1 then .failed (.requireOneRsv rsvs.length keyID)
          else .rsv (rsvs.getD 0 []),
         addTrace (List.replicate (i + 1) (.getSignStatus keyID)) w) := by
  intro n
  induction n with
  | zero => intro i w hi; omega
  | succ n ih =>
    intro i w hi hpre hok
    cases i with
    | zero =>
      simp only [Nat.add_zero] at hok
      unfold pollSignStatus
      simp only [hok]
      split <;> simp [emit_eq_addTrace]
    | succ i =>
      obtain ⟨e, he, h1, h2⟩ := hpre 0 (by omega)
      simp only [Nat.add_zero] at he
      unfold pollSignStatus
      simp only [he, h1, h2, or_self, if_false]
      rw [ih i (emit (.getSignStatus keyID) w) (by omega)]
      · rw [emit_eq_addTrace, addTrace_addTrace]
        rfl
      · intro j hj
        obtain ⟨e2, he2, h3, h4⟩ := hpre (j + 1) (by omega)
        refine ⟨e2, ?_, h3, h4⟩
        rw [clock_emit, ← he2]
        congr 1
        omega
      · rw [clock_emit, ← hok]
        congr 1
        omega

/-- Attaching the signature either fails with nothing returned, or returns a
transaction signed by the custody address together with its hash. -/
theorem attachSignature_result (env : Env) (b : EthBridge) (tx : Transaction)
    (keyID rsv : GoString) (w : World) :
    (∃ e, (attachSignature env b tx keyID rsv w).1 = (none, [], some e)) ∨
    (∃ signedTx, (attachSignature env b tx keyID rsv w).1 =
        (some signedTx, hashString (b.TxHash signedTx), none) ∧
      b.Sender signedTx = .ok b.DcrmAddress ∧
      b.WithSignature tx (FromHex rsv) = .ok signedTx ∧
      (FromHex rsv).length = env.SignatureLength) := by
  unfold attachSignature
  by_cases hlen : (FromHex rsv).length ≠ env.SignatureLength
  · left; exact ⟨.wrongSignature keyID, by simp [hlen]⟩
  · simp only [hlen, if_false]
    cases hws : b.WithSignature tx (FromHex rsv) with
    | error e => left; exact ⟨e, rfl⟩
    | ok signedTx =>
      cases hsd : b.Sender signedTx with
      | error e => left; exact ⟨e, by simp [hsd]⟩
      | ok sender =>
        by_cases hne : sender ≠ b.DcrmAddress
        · left; exact ⟨.wrongSenderAddress, by simp [hsd, hne]⟩
        · right
          have heq : sender = b.DcrmAddress := by simpa using hne
          refine ⟨signedTx, by simp [hsd, heq], by rw [hsd, heq], rfl, by simpa using hlen⟩

/-- A signer response of the wrong length or recovering to another sender is
refused. -/
theorem attachSignature_refuses (env : Env) (b : EthBridge) (tx : Transaction)
    (keyID rsv : GoString) (w : World)
    (h : (FromHex rsv).length ≠ env.SignatureLength ∨
      ∀ signedTx, b.WithSignature tx (FromHex rsv) = .ok signedTx →
        b.Sender signedTx ≠ .ok b.DcrmAddress) :
    ∃ e, (attachSignature env b tx keyID rsv w).1 = (none, [], some e) := by
  rcases attachSignature_result env b tx keyID rsv w with h1 | ⟨signedTx, _, hs, hw, hl⟩
  · exact h1
  · rcases h with h | h
    · exact absurd hl h
    · exact absurd hs (h signedTx hw)

/-- `DcrmSignTransaction` returns either an error with nothing else, or a
transaction signed by the custody address together with its hash. -/
theorem DcrmSignTransaction_result (env : Env) (b : EthBridge) (rawTx : RawTx)
    (args : BuildTxArgs) (w : World) :
    (∃ e, (DcrmSignTransaction env b rawTx args w).1 = (none, [], some e)) ∨
    (∃ signedTx, (DcrmSignTransaction env b rawTx args w).1 =
        (some signedTx, hashString (b.TxHash signedTx), none) ∧
      b.Sender signedTx = .ok b.DcrmAddress) := by
  unfold DcrmSignTransaction
  cases rawTx with
  | foreign => left; exact ⟨_, rfl⟩
  | eth tx =>
    dsimp only
    split
    · left; exact ⟨_, rfl⟩
    · next keyID _ =>
      split
      · left; exact ⟨_, rfl⟩
      · left; exact ⟨_, rfl⟩
      · next rsv w2 _ =>
        split
        · left; exact ⟨_, rfl⟩
        · rcases attachSignature_result env b tx keyID rsv w2 with h | ⟨s, h1, h2, _, _⟩
          · left; exact h
          · right; exact ⟨s, h1, h2⟩


/-- C1: a transaction `DcrmSignTransaction` returns is signed by the custody
address. Whenever it returns without error, the sender recovered from the
returned signed transaction equals `TokenConfig.DcrmAddress` and the returned
hash is the hash of that transaction; every other return is an error with no
signed transaction and an empty hash. In particular a signer response (the
first status poll answered without error, after `i` transient failures) whose
signature is not `SignatureLength` bytes long, or whose recovered sender is not
the custody address, yields such an error. -/
theorem sign_result_is_by_custody_key (env : Env) (b : EthBridge) (rawTx : RawTx)
    (args : BuildTxArgs) (w : World) :
    ((∃ e, (DcrmSignTransaction env b rawTx args w).1 = (none, [], some e)) ∨
      (∃ signedTx, (DcrmSignTransaction env b rawTx args w).1 =
          (some signedTx, hashString (b.TxHash signedTx), none) ∧
        b.Sender signedTx = .ok b.DcrmAddress)) ∧
    (∀ (tx : Transaction) (keyID : GoString) (rsvs : List GoString) (i : Nat),
      rawTx = .eth tx → env.DoSignOne (clock w + 1) tx args = .ok keyID → i < 15 →
      (∀ j < i, ∃ e, env.GetSignStatus (clock w + 2 + j) keyID = .error e ∧
        e ≠ .ErrGetSignStatusFailed ∧ e ≠ .ErrGetSignStatusTimeout) →
      env.GetSignStatus (clock w + 2 + i) keyID = .ok rsvs →
      ((FromHex (rsvs.getD 0 [])).length ≠ env.SignatureLength ∨
        ∀ signedTx, b.WithSignature tx (FromHex (rsvs.getD 0 [])) = .ok signedTx →
          b.Sender signedTx ≠ .ok b.DcrmAddress) →
      ∃ e, (DcrmSignTransaction env b rawTx args w).1 = (none, [], some e)) := by
  refine ⟨DcrmSignTransaction_result env b rawTx args w, ?_⟩
  intro tx keyID rsvs i hraw hkey hi hpre hok hbad
  subst hraw
  have hc0 : clock (emit (.sign (.eth tx)) { w with swapinNonce := decr64 w.swapinNonce }) =
      clock w + 1 := by simp [clock, emit]
  have hc1 : clock (emit .doSignOne
      (emit (.sign (.eth tx)) { w with swapinNonce := decr64 w.swapinNonce })) = clock w + 2 := by
    simp [clock, emit]
  have hpoll := pollSignStatus_first_ok env keyID rsvs 15 i
    (emit .doSignOne (emit (.sign (.eth tx)) { w with swapinNonce := decr64 w.swapinNonce }))
    hi (by rw [hc1]; exact hpre) (by rw [hc1]; exact hok)
  unfold DcrmSignTransaction
  simp only [hc0, hkey, hpoll]
  by_cases hone : rsvs.length ≠ 1
  · exact ⟨.requireOneRsv rsvs.length keyID, by simp only [if_pos hone]⟩
  · simp only [if_neg hone]
    by_cases hempty : rsvs.getD 0 [] = []
    · exact ⟨.getSignStatusFailed, by simp only [if_pos hempty]⟩
    · simp only [if_neg hempty]
      exact attachSignature_refuses env b tx keyID _ _ hbad

set_option maxRecDepth 100000 in
/-- Witness of C1: the service answers the first poll with a signature of 65
bytes that recovers to another address. -/
theorem sign_result_is_by_custody_key_witness :
    (sampleEnv 0 [sampleRsv 2]).GetSignStatus (clock sampleWorld + 2 + 0) (ascii "key1") =
      .ok [sampleRsv 2] ∧
    ∃ e, (DcrmSignTransaction (sampleEnv 0 [sampleRsv 2]) (sampleEthBridge false 0)
      (.eth sampleRawTx) sampleArgs sampleWorld).1 = (none, [], some e) :=
  ⟨rfl,
   (sign_result_is_by_custody_key (sampleEnv 0 [sampleRsv 2]) (sampleEthBridge false 0)
      (.eth sampleRawTx) sampleArgs sampleWorld).2 sampleRawTx (ascii "key1") [sampleRsv 2] 0
      rfl rfl (by decide) (fun j hj => absurd hj (by omega)) rfl
      (Or.inr (fun signedTx h => by
        have hs : signedTx = { sampleRawTx with Sig := FromHex (sampleRsv 2) } := by
          simpa [sampleEthBridge] using h.symm
        subst hs
        decide))⟩

/-- C2: a status poll answered without error but with a number of signature
components other than one ends `DcrmSignTransaction`. When the first `i` polls
fail with transient errors and the next one carries zero, or two or more,
components, the result is an error with a nil signed transaction and an empty
hash, and the service has been polled exactly `i + 1` times. -/
theorem wrong_component_count_fails_closed (env : Env) (b : EthBridge) (tx : Transaction)
    (args : BuildTxArgs) (w : World) (keyID : GoString) (rsvs : List GoString) (i : Nat)
    (hkey : env.DoSignOne (clock w + 1) tx args = .ok keyID) (hi : i < 15)
    (hpre : ∀ j < i, ∃ e, env.GetSignStatus (clock w + 2 + j) keyID = .error e ∧
      e ≠ .ErrGetSignStatusFailed ∧ e ≠ .ErrGetSignStatusTimeout)
    (hok : env.GetSignStatus (clock w + 2 + i) keyID = .ok rsvs)
    (hcount : rsvs.length ≠ 1) :
    (DcrmSignTransaction env b (.eth tx) args w).1 =
      (none, [], some (.requireOneRsv rsvs.length keyID)) ∧
    (DcrmSignTransaction env b (.eth tx) args w).2.trace =
      w.trace ++ [.sign (.eth tx), .doSignOne] ++
        List.replicate (i + 1) (.getSignStatus keyID) := by
  have hc0 : clock (emit (.sign (.eth tx)) { w with swapinNonce := decr64 w.swapinNonce }) =
      clock w + 1 := by simp [clock, emit]
  have hc1 : clock (emit .doSignOne
      (emit (.sign (.eth tx)) { w with swapinNonce := decr64 w.swapinNonce })) = clock w + 2 := by
    simp [clock, emit]
  have hpoll := pollSignStatus_first_ok env keyID rsvs 15 i
    (emit .doSignOne (emit (.sign (.eth tx)) { w with swapinNonce := decr64 w.swapinNonce }))
    hi (by rw [hc1]; exact hpre) (by rw [hc1]; exact hok)
  unfold DcrmSignTransaction
  simp only [hc0, hkey, hpoll, hcount, ne_eq, not_false_eq_true, if_true]
  simp [addTrace, emit]

set_option maxRecDepth 100000 in
/-- Witness of C2: the service answers the first poll with two components. -/
theorem wrong_component_count_fails_closed_witness :
    [sampleRsv 1, sampleRsv 1].length ≠ 1 ∧
    (DcrmSignTransaction (sampleEnv 0 [sampleRsv 1, sampleRsv 1]) (sampleEthBridge false 0)
      (.eth sampleRawTx) sampleArgs sampleWorld).1 =
      (none, [], some (.requireOneRsv 2 (ascii "key1"))) :=
  ⟨by decide,
   (wrong_component_count_fails_closed (sampleEnv 0 [sampleRsv 1, sampleRsv 1])
      (sampleEthBridge false 0) sampleRawTx sampleArgs sampleWorld (ascii "key1")
      [sampleRsv 1, sampleRsv 1] 0 rfl (by decide) (fun j hj => absurd hj (by omega)) rfl
      (by decide)).1⟩


/-! ## The swap worker -/

theorem Continues.refl (p : Event → Bool) (w : World) : Continues p w w :=
  ⟨[], by simp, by simp, rfl, rfl⟩

theorem Continues.trans {p : Event → Bool} {w w1 w2 : World} (h1 : Continues p w w1)
    (h2 : Continues p w1 w2) : Continues p w w2 := by
  obtain ⟨e1, t1, p1, s1, r1⟩ := h1
  obtain ⟨e2, t2, p2, s2, r2⟩ := h2
  refine ⟨e1 ++ e2, by rw [t2, t1, List.append_assoc], ?_, by rw [s2, s1], by rw [r2, r1]⟩
  intro e he
  rcases List.mem_append.mp he with h | h
  · exact p1 e h
  · exact p2 e h

theorem Continues.emit {p : Event → Bool} (e : Event) (w : World) (h : p e = true) :
    Continues p w (emit e w) :=
  ⟨[e], rfl, by simpa using h, rfl, rfl⟩

theorem Continues.addTrace {p : Event → Bool} (evs : List Event) (w : World)
    (h : ∀ e ∈ evs, p e = true) : Continues p w (addTrace evs w) :=
  ⟨evs, rfl, h, rfl, rfl⟩

theorem Continues.swapin {p : Event → Bool} {w w1 : World} (n : Nat) (h : Continues p w w1) :
    Continues p w { w1 with swapinNonce := n } := h

theorem Continues.swapout {p : Event → Bool} {w w1 : World} (n : Nat) (h : Continues p w w1) :
    Continues p w { w1 with swapoutNonce := n } := h

theorem getGasPriceLoop_quiet (b : EthBridge) (n : Nat) (err : Option Err) (w : World) :
    Continues Event.quiet w (getGasPriceLoop b n err w).2 := by
  induction n generalizing err w with
  | zero => exact Continues.refl _ _
  | succ n ih =>
    unfold getGasPriceLoop
    split
    · exact Continues.emit _ _ rfl
    · exact (Continues.emit _ _ rfl).trans (ih _ _)

theorem getPoolNonceLoop_quiet (b : EthBridge) (a : GoString) (n : Nat) (last : Nat × Option Err)
    (w : World) : Continues Event.quiet w (getPoolNonceLoop b a n last w).2 := by
  obtain ⟨evs, h1, h2⟩ := getPoolNonceLoop_frame b a n last w
  rw [h1]
  exact Continues.addTrace _ _ (fun e he => by rw [h2 e he]; rfl)

theorem getAccountNonce_quiet (b : EthBridge) (a : GoString) (ty : SwapType) (w : World) :
    Continues Event.quiet w (getAccountNonce b a ty w).2 := by
  have h := getPoolNonceLoop_quiet b a 3 (0, none) w
  unfold getAccountNonce
  dsimp only
  split
  · exact h
  · split
    · split
      · split
        · exact h.swapin _
        · exact h.swapin _
      · split
        · exact h.swapout _
        · exact h.swapout _
      · split
        · exact h.swapout _
        · exact h.swapout _
      · exact h
    · exact h

theorem setDefaults_quiet (b : EthBridge) (args : BuildTxArgs) (w : World) :
    Continues Event.quiet w (setDefaults b args w).2.2 := by
  unfold setDefaults
  dsimp only
  have hp : Continues Event.quiet w
      (match (extraOf args).GasPrice with
        | some p => (((some p, none) : Option Int × Option Err), w)
        | none => getGasPrice b w).2 := by
    split
    · exact Continues.refl _ _
    · exact getGasPriceLoop_quiet b 3 none w
  split
  · exact hp
  · split
    · exact hp
    · split
      · next e w2 heq =>
        have := getAccountNonce_quiet b args.From args.SwapType
          (match (extraOf args).GasPrice with
            | some p => (((some p, none) : Option Int × Option Err), w)
            | none => getGasPrice b w).2
        rw [heq] at this
        exact hp.trans this
      · next n w2 heq =>
        have := getAccountNonce_quiet b args.From args.SwapType
          (match (extraOf args).GasPrice with
            | some p => (((some p, none) : Option Int × Option Err), w)
            | none => getGasPrice b w).2
        rw [heq] at this
        exact hp.trans this

theorem BuildRawTransaction_quiet (env : Env) (b : EthBridge) (args : BuildTxArgs) (w : World) :
    Continues Event.quiet w (BuildRawTransaction env b args w).2.2 := by
  unfold BuildRawTransaction
  dsimp only
  have h0 : Continues Event.quiet w (emit (.build args) w) := Continues.emit _ _ rfl
  split
  · exact h0
  · next input args1 _ =>
    have h1 := setDefaults_quiet b args1 (emit (.build args) w)
    split
    · next e args2 w1 heq =>
      rw [heq] at h1
      exact h0.trans h1
    · next extra args2 w1 heq =>
      rw [heq] at h1
      exact h0.trans h1

theorem pollSignStatus_quiet (env : Env) (keyID : GoString) (n : Nat) (w : World) :
    Continues Event.quiet w (pollSignStatus env keyID n w).2 := by
  induction n generalizing w with
  | zero => exact Continues.refl _ _
  | succ n ih =>
    unfold pollSignStatus
    split
    · split
      · exact Continues.emit _ _ rfl
      · exact Continues.emit _ _ rfl
    · split
      · exact Continues.emit _ _ rfl
      · exact (Continues.emit _ _ rfl).trans (ih _)

theorem attachSignature_quiet (env : Env) (b : EthBridge) (tx : Transaction)
    (keyID rsv : GoString) (w : World) :
    Continues Event.quiet w (attachSignature env b tx keyID rsv w).2 := by
  unfold attachSignature
  dsimp only
  split
  · exact Continues.refl _ _
  · split
    · exact Continues.refl _ _
    · split
      · exact Continues.refl _ _
      · split
        · exact Continues.refl _ _
        · exact (Continues.refl _ _).swapin _

theorem DcrmSignTransaction_quiet (env : Env) (b : EthBridge) (rawTx : RawTx)
    (args : BuildTxArgs) (w : World) :
    Continues Event.quiet w (DcrmSignTransaction env b rawTx args w).2 := by
  have h0 : Continues Event.quiet w
      (emit (.sign rawTx) { w with swapinNonce := decr64 w.swapinNonce }) :=
    ((Continues.refl _ w).swapin (decr64 w.swapinNonce)).trans (Continues.emit _ _ rfl)
  unfold DcrmSignTransaction
  cases rawTx with
  | foreign => exact h0
  | eth tx =>
    dsimp only
    split
    · exact h0.trans (Continues.emit _ _ rfl)
    · next keyID _ =>
      have h1 := h0.trans (Continues.emit (p := Event.quiet) .doSignOne _ rfl)
      have h2 := pollSignStatus_quiet env keyID 15
        (emit .doSignOne
          (emit (.sign (.eth tx)) { w with swapinNonce := decr64 w.swapinNonce }))
      split
      · next e w2 heq => rw [heq] at h2; exact h1.trans h2
      · next w2 heq => rw [heq] at h2; exact h1.trans h2
      · next rsv w2 heq =>
        rw [heq] at h2
        split
        · exact h1.trans h2
        · exact (h1.trans h2).trans (attachSignature_quiet env b _ keyID rsv w2)


theorem UpdateSwapStatus_effect (env : Env) (d : Bool) (txid : GoString) (st : SwapStatus)
    (memo : Option Err) (w : World) :
    ∃ ok, (UpdateSwapStatus env d txid st memo w).2.trace =
        w.trace ++ [.updateStatus d txid st memo ok] ∧
      ((UpdateSwapStatus env d txid st memo w).1 = none → ok = true) ∧
      ((UpdateSwapStatus env d txid st memo w).1 ≠ none → ok = false) ∧
      (UpdateSwapStatus env d txid st memo w).2.store.results = w.store.results := by
  unfold UpdateSwapStatus
  split
  · exact ⟨false, rfl, by simp, by simp, rfl⟩
  · split
    · exact ⟨false, rfl, by simp, by simp, rfl⟩
    · exact ⟨true, rfl, by simp, by simp, rfl⟩

theorem updateSwapResult_effect (env : Env) (d : Bool) (txid : GoString) (m : MatchTx)
    (w : World) :
    ((updateSwapResult env d txid m w).1 = none ∧
      (updateSwapResult env d txid m w).2.trace = w.trace ++ [.updateResult d txid m true] ∧
      ∃ rec, (updateSwapResult env d txid m w).2.store.results d txid = some rec ∧
        rec.SwapTx = m.SwapTx) ∨
    ((updateSwapResult env d txid m w).1 ≠ none ∧
      (updateSwapResult env d txid m w).2.trace = w.trace ++ [.updateResult d txid m false] ∧
      (updateSwapResult env d txid m w).2.store = w.store) := by
  unfold updateSwapResult
  split
  · right; exact ⟨by simp, rfl, rfl⟩
  · split
    · right; exact ⟨by simp, rfl, rfl⟩
    · left
      refine ⟨rfl, rfl, ?_⟩
      simp [emit]

theorem UpdateSwapResultStatus_effect (env : Env) (d : Bool) (txid : GoString)
    (st : SwapStatus) (memo : Option Err) (w : World) :
    ∃ ok, (UpdateSwapResultStatus env d txid st memo w).2.trace =
        w.trace ++ [.updateResultStatus d txid st memo ok] ∧
      ∀ rec, w.store.results d txid = some rec →
        ∃ rec1, (UpdateSwapResultStatus env d txid st memo w).2.store.results d txid =
          some rec1 ∧ rec1.SwapTx = rec.SwapTx := by
  unfold UpdateSwapResultStatus
  split
  · exact ⟨false, rfl, fun rec h => ⟨rec, h, rfl⟩⟩
  · split
    · exact ⟨false, rfl, fun rec h => ⟨rec, h, rfl⟩⟩
    · next r hr =>
      refine ⟨true, rfl, ?_⟩
      intro rec h
      rw [hr] at h
      cases h
      simp [emit]

theorem sendLoop_after (b : EthBridge) (signedTx : Option Transaction) (txHash : GoString)
    (n : Nat) (err : Option Err) (w : World) :
    Continues (fun e => e.afterPersist && (!e.isSend || e == .send signedTx true ||
      e == .send signedTx false)) w (sendLoop b signedTx txHash n err w).2 := by
  induction n generalizing err w with
  | zero => exact Continues.refl _ _
  | succ n ih =>
    unfold sendLoop
    split
    · exact (Continues.emit _ _ (by simp [Event.afterPersist, Event.persistFailed,
        Event.isUpdateResult])).trans (ih _ _)
    · split
      · exact (Continues.emit _ _ (by simp [Event.afterPersist, Event.persistFailed,
          Event.isUpdateResult])).trans (Continues.emit _ _ rfl)
      · exact ((Continues.emit _ _ (by simp [Event.afterPersist, Event.persistFailed,
          Event.isUpdateResult])).trans (Continues.emit _ _ rfl)).trans (ih _ _)

/-- Quiet events put before a run keep its shape. -/
theorem RunShape.prepend {b : EthBridge} {d : Bool} {txid : GoString} {w w1 w2 : World}
    (h1 : Continues Event.quiet w w1) (h2 : RunShape b d txid w1 w2) :
    RunShape b d txid w w2 := by
  obtain ⟨e1, t1, q1, _, _⟩ := h1
  obtain ⟨e2, t2, hs⟩ := h2
  refine ⟨e1 ++ e2, by rw [t2, t1, List.append_assoc], ?_⟩
  have hq : ∀ e ∈ e1, e.isSend = false ∧ e.isUpdateResult = false := by
    intro e he
    have := q1 e he
    simp only [Event.quiet, Bool.and_eq_true, Bool.not_eq_true'] at this
    exact ⟨this.1.1, this.1.2⟩
  rcases hs with ⟨hns, hst⟩ | ⟨pre, m, post, t, hev, hpre, hpost, hsend, hhash, hst⟩
  · left
    refine ⟨?_, ?_⟩
    · intro e he
      rcases List.mem_append.mp he with h | h
      · exact (hq e h).1
      · exact hns e h
    · intro m hm
      rcases List.mem_append.mp hm with h | h
      · have := (hq _ h).2
        simp [Event.isUpdateResult] at this
      · exact hst m h
  · right
    refine ⟨e1 ++ pre, m, post, t, by rw [hev, List.append_assoc], ?_, hpost, hsend, hhash,
      hst⟩
    intro e he
    rcases List.mem_append.mp he with h | h
    · exact q1 e h
    · exact hpre e h

/-- A run that only records quiet events has the first shape. -/
theorem RunShape.of_quiet {b : EthBridge} {d : Bool} {txid : GoString} {w w1 : World}
    (h : Continues Event.quiet w w1) : RunShape b d txid w w1 := by
  have h2 : RunShape b d txid w1 w1 := ⟨[], by simp, Or.inl ⟨by simp, by simp⟩⟩
  exact RunShape.prepend h h2

theorem persistAndSend_shape (env : Env) (d : Bool) (txid : GoString) (value : Int)
    (signedTx : Transaction) (w : World) :
    RunShape (bridgeOf env d) d txid w
      (persistAndSend env d txid value (some signedTx)
        (hashString ((bridgeOf env d).TxHash signedTx)) w).2 := by
  generalize htx : hashString ((bridgeOf env d).TxHash signedTx) = txHash
  have hmtx : ∀ sv ty, (MatchTx.mk txHash sv ty).SwapTx =
      hashString ((bridgeOf env d).TxHash signedTx) := fun _ _ => htx.symm
  unfold persistAndSend
  dsimp only
  have hmh := hmtx (env.bigString (env.CalcSwappedValue value d))
    (if d = true then SwapType.SwapinType else SwapType.SwapoutType)
  generalize MatchTx.mk txHash (env.bigString (env.CalcSwappedValue value d))
    (if d = true then SwapType.SwapinType else SwapType.SwapoutType) = m at hmh ⊢
  have t1 : (addSwapHistory env txid value txHash d w).trace =
      w.trace ++ [.addHistory txid txHash d] := rfl
  generalize addSwapHistory env txid value txHash d w = w1 at t1 ⊢
  have hu := updateSwapResult_effect env d txid m w1
  cases hres : updateSwapResult env d txid m w1 with
  | mk r2 w2 =>
    rw [hres] at hu
    dsimp only at hu
    cases r2 with
    | some e =>
      rcases hu with ⟨h, _⟩ | ⟨_, t2, _⟩
      · exact absurd h (by simp)
      · refine ⟨[.addHistory txid txHash d, .updateResult d txid m false], ?_, Or.inl ⟨?_, ?_⟩⟩
        · show w2.trace = _
          rw [t2, t1]; simp
        · intro e he
          simp only [List.mem_cons, List.mem_singleton, List.not_mem_nil, or_false] at he
          rcases he with h | h <;> subst h <;> rfl
        · intro m1 hm1
          simp at hm1
    | none =>
      rcases hu with ⟨_, t2, rec, hrec, hsw⟩ | ⟨h, _⟩
      swap
      · exact absurd rfl h
      dsimp only
      obtain ⟨ok, t3, hok1, hok2, hst3⟩ := UpdateSwapStatus_effect env d txid .TxProcessed none w2
      cases hus : UpdateSwapStatus env d txid .TxProcessed none w2 with
      | mk r3 w3 =>
        rw [hus] at t3 hok1 hok2 hst3
        dsimp only at t3 hok1 hok2 hst3
        cases r3 with
        | some e =>
          have hokf : ok = false := hok2 (by simp)
          subst hokf
          refine ⟨[.addHistory txid txHash d, .updateResult d txid m true,
            .updateStatus d txid .TxProcessed none false], ?_, Or.inl ⟨?_, ?_⟩⟩
          · show w3.trace = _
            rw [t3, t2, t1]; simp
          · intro e he
            simp only [List.mem_cons, List.mem_singleton, List.not_mem_nil, or_false] at he
            rcases he with h | h | h <;> subst h <;> rfl
          · intro m1 hm1
            simp only [List.mem_cons, List.mem_singleton, List.not_mem_nil, or_false,
              Event.updateResult.injEq, true_and, and_true] at hm1
            have hm1' : m1 = m := by
              rcases hm1 with h | h | h
              · cases h
              · exact h
              · cases h
            subst hm1'
            refine ⟨rec, ?_, hsw⟩
            show w3.store.results d txid = some rec
            rw [hst3]; exact hrec
        | none =>
          have hokt : ok = true := hok1 rfl
          subst hokt
          dsimp only
          obtain ⟨sevs, t4, hsev, hst4, _⟩ :=
            sendLoop_after (bridgeOf env d) (some signedTx) txHash env.retrySendTxCount none w3
          cases hsl : sendLoop (bridgeOf env d) (some signedTx) txHash env.retrySendTxCount
              none w3 with
          | mk r4 w4 =>
            rw [hsl] at t4 hst4
            dsimp only at t4 hst4
            have hrec4 : w4.store.results d txid = some rec := by
              rw [hst4, hst3]; exact hrec
            have hpost : ∀ e ∈ sevs, e.persistFailed = false ∧ e.isUpdateResult = false := by
              intro e he
              have := hsev e he
              simp only [Event.afterPersist, Bool.and_eq_true, Bool.not_eq_true'] at this
              exact this.1
            have hsends : ∀ e ∈ sevs, e.isSend = true → ∃ ok, e = Event.send (some signedTx) ok := by
              intro e he hs
              have := hsev e he
              simp only [Bool.and_eq_true, Bool.or_eq_true, Bool.not_eq_true', hs, beq_iff_eq]
                at this
              rcases this.2 with (h | h) | h
              · cases h
              · exact ⟨true, h⟩
              · exact ⟨false, h⟩
            cases r4 with
            | none =>
              refine ⟨[.addHistory txid txHash d] ++ .updateResult d txid m true ::
                .updateStatus d txid .TxProcessed none true :: sevs, ?_, Or.inr
                ⟨[.addHistory txid txHash d], m, sevs, signedTx, rfl, ?_, hpost, hsends, hmh,
                  rec, hrec4, hsw⟩⟩
              · show w4.trace = _
                rw [t4, t3, t2, t1]; simp
              · intro e he
                simp only [List.mem_singleton] at he
                subst he; rfl
            | some e =>
              dsimp only
              obtain ⟨ok5, t5, _, _, hst5⟩ :=
                UpdateSwapStatus_effect env d txid .TxSwapFailed (some e) w4
              generalize (UpdateSwapStatus env d txid .TxSwapFailed (some e) w4).2 = w5
                at t5 hst5 ⊢
              have hrec5 : w5.store.results d txid = some rec := by rw [hst5]; exact hrec4
              obtain ⟨ok6, t6, hst6⟩ :=
                UpdateSwapResultStatus_effect env d txid .TxSwapFailed (some e) w5
              generalize (UpdateSwapResultStatus env d txid .TxSwapFailed (some e) w5).2 = w6
                at t6 hst6 ⊢
              obtain ⟨rec6, hrec6, hsw6⟩ := hst6 rec hrec5
              refine ⟨[.addHistory txid txHash d] ++ .updateResult d txid m true ::
                .updateStatus d txid .TxProcessed none true ::
                (sevs ++ [.updateStatus d txid .TxSwapFailed (some e) ok5,
                  .updateResultStatus d txid .TxSwapFailed (some e) ok6]), ?_, Or.inr
                ⟨[.addHistory txid txHash d], m, _, signedTx, rfl, ?_, ?_, ?_, hmh, rec6, hrec6,
                  by rw [hsw6, hsw]⟩⟩
              · show w6.trace = _
                rw [t6, t5, t4, t3, t2, t1]; simp
              · intro e he
                simp only [List.mem_singleton] at he
                subst he; rfl
              · intro e1 he1
                rcases List.mem_append.mp he1 with h | h
                · exact hpost e1 h
                · simp only [List.mem_cons, List.mem_singleton, List.not_mem_nil, or_false] at h
                  rcases h with h | h <;> subst h
                  · cases ok5 <;> exact ⟨rfl, rfl⟩
                  · exact ⟨rfl, rfl⟩
              · intro e1 he1 hs1
                rcases List.mem_append.mp he1 with h | h
                · exact hsends e1 h hs1
                · simp only [List.mem_cons, List.mem_singleton, List.not_mem_nil, or_false] at h
                  rcases h with h | h <;> subst h <;> cases hs1

theorem buildSignSend_shape (env : Env) (d : Bool) (swap : MgoSwap) (res : MgoSwapResult)
    (w : World) :
    RunShape (bridgeOf env d) d swap.TxID w (buildSignSend env d swap res w).2 := by
  unfold buildSignSend
  split
  · exact RunShape.of_quiet (Continues.refl _ _)
  · next value _ =>
    have hb := BuildRawTransaction_quiet env (bridgeOf env d) (buildArgsOf env d swap res value) w
    split
    · next e a w1 heq =>
      rw [heq] at hb
      exact RunShape.of_quiet hb
    · next rawTx args1 w1 heq =>
      rw [heq] at hb
      have hs := DcrmSignTransaction_quiet env (bridgeOf env d) (.eth rawTx)
        (env.GetExtraArgs args1) w1
      split
      · next e w2 heq2 =>
        rw [heq2] at hs
        exact RunShape.of_quiet (hb.trans hs)
      · next signedTx txHash w2 heq2 =>
        rw [heq2] at hs
        have hr := DcrmSignTransaction_result env (bridgeOf env d) (.eth rawTx)
          (env.GetExtraArgs args1) w1
        rw [heq2] at hr
        rcases hr with ⟨e, he⟩ | ⟨s, hsome, _⟩
        · simp at he
        · simp only [Prod.mk.injEq, and_true] at hsome
          obtain ⟨h1, h2⟩ := hsome
          subst h1 h2
          exact RunShape.prepend (hb.trans hs)
            (persistAndSend_shape env d swap.TxID value s w2)

/-- The events of one run of a process function have the shape `RunShape`. -/
theorem processSwap_shape (env : Env) (d : Bool) (swap : MgoSwap) (w : World) :
    RunShape (bridgeOf env d) d swap.TxID w (processSwap env d swap w).2 := by
  have hfind : Continues Event.quiet w (FindSwapResult env d swap.TxID w).2 := by
    unfold FindSwapResult
    split
    · exact Continues.emit _ _ rfl
    · split
      · exact Continues.emit _ _ rfl
      · exact Continues.emit _ _ rfl
  unfold processSwap
  dsimp only
  split
  · next e w1 heq =>
    rw [heq] at hfind
    exact RunShape.of_quiet hfind
  · next res w1 heq =>
    rw [heq] at hfind
    dsimp only at hfind
    split
    · split
      · obtain ⟨ok, t, _, _, hst⟩ :=
          UpdateSwapStatus_effect env d swap.TxID .TxProcessed none w1
        apply RunShape.prepend hfind
        refine ⟨[.updateStatus d swap.TxID .TxProcessed none ok], t, Or.inl ⟨?_, ?_⟩⟩
        · intro e he
          simp only [List.mem_singleton] at he
          subst he; rfl
        · intro m hm
          simp at hm
      · exact RunShape.of_quiet hfind
    · split
      · exact RunShape.prepend hfind (buildSignSend_shape env d swap res w1)
      · next history _ =>
        have hprobe : Continues Event.quiet w (emit (.getTransaction history.matchTx) w1) :=
          hfind.trans (Continues.emit _ _ rfl)
        split
        · apply RunShape.prepend hprobe
          generalize hm : MatchTx.mk history.matchTx []
            (if d = true then SwapType.SwapinType else SwapType.SwapoutType) = m
          rcases updateSwapResult_effect env d swap.TxID m
              (emit (.getTransaction history.matchTx) w1) with ⟨_, t, hst⟩ | ⟨_, t, _⟩
          · refine ⟨_, t, Or.inl ⟨?_, ?_⟩⟩
            · intro e he
              simp only [List.mem_singleton] at he
              subst he; rfl
            · intro m1 hm1
              simp only [List.mem_singleton, Event.updateResult.injEq, true_and, and_true]
                at hm1
              subst hm1
              exact hst
          · refine ⟨_, t, Or.inl ⟨?_, ?_⟩⟩
            · intro e he
              simp only [List.mem_singleton] at he
              subst he; rfl
            · intro m1 hm1
              simp at hm1
        · exact RunShape.prepend hprobe (buildSignSend_shape env d swap res _)

theorem newEvents_eq (w w1 : World) (evs : List Event) (h : w1.trace = w.trace ++ evs) :
    newEvents w w1 = evs := by
  simp [newEvents, h]

/-- A run that finds a stored match transaction neither builds, signs nor
broadcasts. -/
theorem processSwap_already (env : Env) (d : Bool) (swap : MgoSwap) (w : World)
    (rec : MgoSwapResult) (h : w.store.results d swap.TxID = some rec) (hne : rec.SwapTx ≠ []) :
    ∀ e ∈ newEvents w (processSwap env d swap w).2,
      e.isBuild = false ∧ e.isSign = false ∧ e.isSend = false := by
  unfold processSwap FindSwapResult
  dsimp only
  cases hf : env.storeFails (clock w) with
  | some e0 =>
    simp only []
    rw [newEvents_eq w _ [.findResult d swap.TxID] rfl]
    intro e he
    simp only [List.mem_singleton] at he
    subst he
    exact ⟨rfl, rfl, rfl⟩
  | none =>
    simp only [h, hne, ne_eq, not_false_eq_true, if_true]
    split
    · obtain ⟨ok, t, _, _, _⟩ := UpdateSwapStatus_effect env d swap.TxID .TxProcessed none
        (emit (.findResult d swap.TxID) w)
      rw [newEvents_eq w _ [.findResult d swap.TxID, .updateStatus d swap.TxID .TxProcessed none ok]
        (by rw [t]; simp [emit])]
      intro e he
      simp only [List.mem_cons, List.mem_singleton, List.not_mem_nil, or_false] at he
      rcases he with h1 | h1 <;> subst h1 <;> exact ⟨rfl, rfl, rfl⟩
    · rw [newEvents_eq w _ [.findResult d swap.TxID] rfl]
      intro e he
      simp only [List.mem_singleton] at he
      subst he
      exact ⟨rfl, rfl, rfl⟩

/-- A broadcast in a list that starts with quiet events and the two persistence
steps comes after these steps. -/
theorem send_after_prefix (pre post pre1 post1 : List Event) (a c s : Event)
    (hpre : ∀ e ∈ pre, e.quiet = true) (ha : a.isSend = false) (hc : c.isSend = false)
    (hs : s.isSend = true) (h : pre ++ a :: c :: post = pre1 ++ s :: post1) :
    ∃ p2, pre1 = pre ++ a :: c :: p2 ∧ s ∈ post := by
  rcases List.append_eq_append_iff.mp h with ⟨a1, h1, h2⟩ | ⟨c1, h1, h2⟩
  · cases a1 with
    | nil =>
      simp only [List.nil_append, List.cons.injEq] at h2
      rw [h2.1] at ha; rw [ha] at hs; cases hs
    | cons x a2 =>
      cases a2 with
      | nil =>
        simp only [List.cons_append, List.nil_append, List.cons.injEq] at h2
        rw [h2.2.1] at hc; rw [hc] at hs; cases hs
      | cons y a3 =>
        simp only [List.cons_append, List.cons.injEq] at h2
        refine ⟨a3, ?_, ?_⟩
        · rw [h1, h2.1, h2.2.1]
        · rw [h2.2.2]; simp
  · cases c1 with
    | nil =>
      simp only [List.nil_append, List.cons.injEq] at h2
      rw [← h2.1] at ha; rw [ha] at hs; cases hs
    | cons x c2 =>
      simp only [List.cons_append, List.cons.injEq] at h2
      have hx : s ∈ pre := by rw [h1, h2.1]; simp
      have := hpre s hx
      simp only [Event.quiet, Bool.and_eq_true, Bool.not_eq_true'] at this
      rw [this.1.1] at hs; cases hs

/-- Persist before broadcast, for either direction. -/
theorem processSwap_persist_first (env : Env) (d : Bool) (swap : MgoSwap) (w : World) :
    (∀ pre tx ok post,
      newEvents w (processSwap env d swap w).2 = pre ++ Event.send tx ok :: post →
      ∃ p1 m p2 t, pre = p1 ++ Event.updateResult d swap.TxID m true ::
          Event.updateStatus d swap.TxID .TxProcessed none true :: p2 ∧
        tx = some t ∧ m.SwapTx = hashString ((bridgeOf env d).TxHash t)) ∧
    ((∃ e ∈ newEvents w (processSwap env d swap w).2, e.persistFailed = true) →
      ∀ e ∈ newEvents w (processSwap env d swap w).2, e.isSend = false) := by
  obtain ⟨evs, ht, hs⟩ := processSwap_shape env d swap w
  rw [newEvents_eq w _ evs ht]
  rcases hs with ⟨hns, _⟩ | ⟨pre, m, post, t, hev, hpre, hpost, hsend, hhash, _⟩
  · refine ⟨?_, fun _ => hns⟩
    intro pre1 tx ok post1 h
    have := hns (.send tx ok) (by rw [h]; simp)
    cases this
  · refine ⟨?_, ?_⟩
    · intro pre1 tx ok post1 h
      rw [hev] at h
      obtain ⟨p2, hp2, hmem⟩ := send_after_prefix pre post pre1 post1
        (.updateResult d swap.TxID m true) (.updateStatus d swap.TxID .TxProcessed none true)
        (.send tx ok) hpre rfl rfl rfl h
      obtain ⟨ok1, hok1⟩ := hsend _ hmem rfl
      simp only [Event.send.injEq] at hok1
      exact ⟨pre, m, p2, t, hp2, hok1.1, hhash⟩
    · rintro ⟨e, he, hf⟩
      exfalso
      rw [hev] at he
      rcases List.mem_append.mp he with h | h
      · have := hpre e h
        simp only [Event.quiet, Bool.and_eq_true, Bool.not_eq_true'] at this
        rw [this.2] at hf; cases hf
      · simp only [List.mem_cons] at h
        rcases h with h | h | h
        · subst h; cases hf
        · subst h; cases hf
        · rw [(hpost e h).1] at hf; cases hf

/-- C4: persist before broadcast. In every run of `processSwapinSwap` and of
`processSwapoutSwap`, each call of `SendTransaction` comes after the update of
the match transaction with the hash of the signed transaction and after the
status update to `TxProcessed`, both returned without error; and if one of
these two persistence steps returns an error, nothing is broadcast. -/
theorem persist_before_broadcast (env : Env) (swap : MgoSwap) (w : World) :
    ((∀ pre tx ok post,
        newEvents w (processSwapinSwap env swap w).2 = pre ++ Event.send tx ok :: post →
        ∃ p1 m p2 t, pre = p1 ++ Event.updateResult true swap.TxID m true ::
            Event.updateStatus true swap.TxID .TxProcessed none true :: p2 ∧
          tx = some t ∧ m.SwapTx = hashString (env.DstBridge.TxHash t)) ∧
      ((∃ e ∈ newEvents w (processSwapinSwap env swap w).2, e.persistFailed = true) →
        ∀ e ∈ newEvents w (processSwapinSwap env swap w).2, e.isSend = false)) ∧
    ((∀ pre tx ok post,
        newEvents w (processSwapoutSwap env swap w).2 = pre ++ Event.send tx ok :: post →
        ∃ p1 m p2 t, pre = p1 ++ Event.updateResult false swap.TxID m true ::
            Event.updateStatus false swap.TxID .TxProcessed none true :: p2 ∧
          tx = some t ∧ m.SwapTx = hashString (env.SrcBridge.TxHash t)) ∧
      ((∃ e ∈ newEvents w (processSwapoutSwap env swap w).2, e.persistFailed = true) →
        ∀ e ∈ newEvents w (processSwapoutSwap env swap w).2, e.isSend = false)) :=
  ⟨processSwap_persist_first env true swap w, processSwap_persist_first env false swap w⟩

/-- The second of two runs on the same record is idle once the first has
stored a match transaction, for either direction. -/
theorem processSwap_second_run (env env2 : Env) (d : Bool) (swap : MgoSwap) (w : World)
    (m : MatchTx)
    (hp : Event.updateResult d swap.TxID m true ∈ newEvents w (processSwap env d swap w).2)
    (hne : m.SwapTx ≠ []) :
    (∀ e ∈ newEvents (processSwap env d swap w).2
        (processSwap env2 d swap (processSwap env d swap w).2).2,
      e.isBuild = false ∧ e.isSign = false ∧ e.isSend = false) ∧
    ∀ tx ok tx1 ok1,
      Event.send tx ok ∈ newEvents w (processSwap env d swap w).2 ++
        newEvents (processSwap env d swap w).2
          (processSwap env2 d swap (processSwap env d swap w).2).2 →
      Event.send tx1 ok1 ∈ newEvents w (processSwap env d swap w).2 ++
        newEvents (processSwap env d swap w).2
          (processSwap env2 d swap (processSwap env d swap w).2).2 →
      tx = tx1 := by
  obtain ⟨evs, ht, hs⟩ := processSwap_shape env d swap w
  rw [newEvents_eq w _ evs ht] at hp ⊢
  have hstore : ∃ rec, (processSwap env d swap w).2.store.results d swap.TxID = some rec ∧
      rec.SwapTx = m.SwapTx := by
    rcases hs with ⟨_, hst⟩ | ⟨pre, m1, post, t, hev, hpre, hpost, _, _, hst⟩
    · exact hst m hp
    · rw [hev] at hp
      have hm : m = m1 := by
        rcases List.mem_append.mp hp with h | h
        · have := hpre _ h
          simp [Event.quiet, Event.isUpdateResult] at this
        · simp only [List.mem_cons, Event.updateResult.injEq, true_and, and_true] at h
          rcases h with h | h | h
          · exact h
          · cases h
          · have := (hpost _ h).2
            simp [Event.isUpdateResult] at this
      rw [hm]; exact hst
  obtain ⟨rec, hrec, hsw⟩ := hstore
  have hidle := processSwap_already env2 d swap (processSwap env d swap w).2 rec hrec
    (by rw [hsw]; exact hne)
  refine ⟨hidle, ?_⟩
  have hsends : ∀ tx ok, Event.send tx ok ∈ evs ++ newEvents (processSwap env d swap w).2
      (processSwap env2 d swap (processSwap env d swap w).2).2 →
      ∃ (t : Transaction) (post : List Event),
        (∀ e ∈ post, e.isSend = true → ∃ ok, e = Event.send (some t) ok) ∧
        Event.send tx ok ∈ post ∧
        ∀ tx1 ok1, Event.send tx1 ok1 ∈ evs → Event.send tx1 ok1 ∈ post := by
    intro tx ok hmem
    rcases List.mem_append.mp hmem with h | h
    · rcases hs with ⟨hns, _⟩ | ⟨pre, m1, post, t, hev, hpre, _, hsend, _, _⟩
      · have := hns _ h
        cases this
      · have hin : ∀ tx1 ok1, Event.send tx1 ok1 ∈ evs → Event.send tx1 ok1 ∈ post := by
          intro tx1 ok1 h1
          rw [hev] at h1
          rcases List.mem_append.mp h1 with h2 | h2
          · have := hpre _ h2
            simp [Event.quiet, Event.isSend] at this
          · simp only [List.mem_cons] at h2
            rcases h2 with h2 | h2 | h2
            · cases h2
            · cases h2
            · exact h2
        exact ⟨t, post, hsend, hin tx ok h, hin⟩
    · have := (hidle _ h).2.2
      cases this
  intro tx ok tx1 ok1 h1 h2
  obtain ⟨t, post, hsend, hmem, hin⟩ := hsends tx ok h1
  have h2' : Event.send tx1 ok1 ∈ post := by
    rcases List.mem_append.mp h2 with h | h
    · exact hin tx1 ok1 h
    · have := (hidle _ h).2.2
      cases this
  obtain ⟨o1, e1⟩ := hsend _ hmem rfl
  obtain ⟨o2, e2⟩ := hsend _ h2' rfl
  simp only [Event.send.injEq] at e1 e2
  rw [e1.1, e2.1]

/-- C3: idempotence of the worker. When `processSwapinSwap` (resp.
`processSwapoutSwap`) runs a second time on a record, from the world the first
run left, after a first run that persisted a match transaction, the second
run calls neither `BuildRawTransaction` nor `DcrmSignTransaction` nor
`SendTransaction`, whatever the chain, the signing service and the store
answer; and every broadcast of the two runs carries the same transaction. -/
theorem worker_is_idempotent (env env2 : Env) (swap : MgoSwap) (w : World) (m : MatchTx)
    (hne : m.SwapTx ≠ []) :
    (Event.updateResult true swap.TxID m true ∈ newEvents w (processSwapinSwap env swap w).2 →
      (∀ e ∈ newEvents (processSwapinSwap env swap w).2
          (processSwapinSwap env2 swap (processSwapinSwap env swap w).2).2,
        e.isBuild = false ∧ e.isSign = false ∧ e.isSend = false) ∧
      ∀ tx ok tx1 ok1,
        Event.send tx ok ∈ newEvents w (processSwapinSwap env swap w).2 ++
          newEvents (processSwapinSwap env swap w).2
            (processSwapinSwap env2 swap (processSwapinSwap env swap w).2).2 →
        Event.send tx1 ok1 ∈ newEvents w (processSwapinSwap env swap w).2 ++
          newEvents (processSwapinSwap env swap w).2
            (processSwapinSwap env2 swap (processSwapinSwap env swap w).2).2 →
        tx = tx1) ∧
    (Event.updateResult false swap.TxID m true ∈
        newEvents w (processSwapoutSwap env swap w).2 →
      (∀ e ∈ newEvents (processSwapoutSwap env swap w).2
          (processSwapoutSwap env2 swap (processSwapoutSwap env swap w).2).2,
        e.isBuild = false ∧ e.isSign = false ∧ e.isSend = false) ∧
      ∀ tx ok tx1 ok1,
        Event.send tx ok ∈ newEvents w (processSwapoutSwap env swap w).2 ++
          newEvents (processSwapoutSwap env swap w).2
            (processSwapoutSwap env2 swap (processSwapoutSwap env swap w).2).2 →
        Event.send tx1 ok1 ∈ newEvents w (processSwapoutSwap env swap w).2 ++
          newEvents (processSwapoutSwap env swap w).2
            (processSwapoutSwap env2 swap (processSwapoutSwap env swap w).2).2 →
        tx = tx1) :=
  ⟨fun hp => processSwap_second_run env env2 true swap w m hp hne,
   fun hp => processSwap_second_run env env2 false swap w m hp hne⟩

set_option maxRecDepth 1000000 in
/-- Witness of C4: the sample swap-in, whose single broadcast follows the two
persistence steps. -/
theorem persist_before_broadcast_witness :
    newEvents sampleWorld
        (processSwapinSwap (sampleEnv 0 [sampleRsv 1]) sampleSwap sampleWorld).2 =
      (newEvents sampleWorld
        (processSwapinSwap (sampleEnv 0 [sampleRsv 1]) sampleSwap sampleWorld).2).take 10 ++
        Event.send (some sampleSignedTx) true ::
          [Event.getTransaction (hashString [0, 7])] ∧
    ∃ p1 m p2 t,
      (newEvents sampleWorld
        (processSwapinSwap (sampleEnv 0 [sampleRsv 1]) sampleSwap sampleWorld).2).take 10 =
        p1 ++ Event.updateResult true sampleSwap.TxID m true ::
          Event.updateStatus true sampleSwap.TxID .TxProcessed none true :: p2 ∧
      some sampleSignedTx = some t ∧
      m.SwapTx = hashString ((sampleEnv 0 [sampleRsv 1]).DstBridge.TxHash t) :=
  ⟨by decide,
   (persist_before_broadcast (sampleEnv 0 [sampleRsv 1]) sampleSwap sampleWorld).1.1 _
    (some sampleSignedTx) true [Event.getTransaction (hashString [0, 7])] (by decide)⟩

set_option maxRecDepth 1000000 in
/-- Witness of C3: the sample swap-in run twice. -/
theorem worker_is_idempotent_witness :
    sampleMatchTx.SwapTx ≠ [] ∧
    Event.updateResult true sampleSwap.TxID sampleMatchTx true ∈ newEvents sampleWorld
      (processSwapinSwap (sampleEnv 0 [sampleRsv 1]) sampleSwap sampleWorld).2 ∧
    ∀ e ∈ newEvents (processSwapinSwap (sampleEnv 0 [sampleRsv 1]) sampleSwap sampleWorld).2
        (processSwapinSwap (sampleEnv 0 [sampleRsv 1]) sampleSwap
          (processSwapinSwap (sampleEnv 0 [sampleRsv 1]) sampleSwap sampleWorld).2).2,
      e.isBuild = false ∧ e.isSign = false ∧ e.isSend = false :=
  ⟨by decide, by decide,
   ((worker_is_idempotent (sampleEnv 0 [sampleRsv 1]) (sampleEnv 0 [sampleRsv 1]) sampleSwap
      sampleWorld sampleMatchTx (by decide)).1 (by decide)).1⟩

/-! ## Received value -/

/-- The loop of `getReceivedValue` adds the values of the outputs that pay the
receiver and records whether there is one, as long as the sum fits a `uint64`. -/
theorem getReceivedValueLoop_sum (b : BtcBridge) (receiver : GoString)
    (hdist : b.opReturnType ≠ b.p2pkhType) :
    ∀ (vout : List (Option ElectTxOut)) (value : Nat) (memo : GoString) (right : Bool),
      (∀ o ∈ vout, readableOutput b o) →
      value + receivedSum b receiver vout < 2 ^ 64 →
      ∃ memo1, getReceivedValueLoop b receiver vout (value, memo, right) =
        some (value + receivedSum b receiver vout, memo1,
          right || vout.any (paysReceiver b receiver)) := by
  intro vout
  induction vout with
  | nil =>
    intro value memo right _ _
    exact ⟨memo, by simp [getReceivedValueLoop, receivedSum]⟩
  | cons o rest ih =>
    intro value memo right hwf hlt
    obtain ⟨out, ty, ho, hty, hasm, hpay⟩ := hwf o (by simp)
    have hrest : ∀ o ∈ rest, readableOutput b o := fun o h => hwf o (by simp [h])
    subst ho
    by_cases hop : ty = b.opReturnType
    · have hnp : paysReceiver b receiver (some out) = false := by
        have : ty ≠ b.p2pkhType := fun h => hdist (hop.symm.trans h)
        simp [paysReceiver, hty, this]
      have hsum : receivedSum b receiver (some out :: rest) = receivedSum b receiver rest := by
        simp [receivedSum, List.filter_cons, hnp]
      cases hasmv : out.ScriptpubkeyAsm with
      | none => exact absurd hasmv (hasm hop)
      | some asm =>
        rw [hsum] at hlt ⊢
        obtain ⟨memo1, h1⟩ := ih value asm right hrest hlt
        refine ⟨memo1, ?_⟩
        simp only [getReceivedValueLoop, hty, hop, if_true, hasmv, h1, List.any_cons, hnp,
          Bool.false_or]
    · by_cases hp : ty = b.p2pkhType
      · have hd2 : ¬ b.p2pkhType = b.opReturnType := fun h => hdist h.symm
        obtain ⟨haddr, hval⟩ := hpay hp
        cases haddrv : out.ScriptpubkeyAddress with
        | none => exact absurd haddrv haddr
        | some addr =>
          cases hvalv : out.Value with
          | none => exact absurd hvalv hval
          | some v =>
            by_cases hre : addr = receiver
            · have hyes : paysReceiver b receiver (some out) = true := by
                simp [paysReceiver, hty, hp, haddrv, hre]
              have hsum : receivedSum b receiver (some out :: rest) =
                  v + receivedSum b receiver rest := by
                simp [receivedSum, List.filter_cons, hyes, outputValue, hvalv]
              rw [hsum] at hlt ⊢
              have hmod : (value + v) % 2 ^ 64 = value + v := Nat.mod_eq_of_lt (by omega)
              obtain ⟨memo1, h1⟩ := ih (value + v) memo true hrest (by omega)
              refine ⟨memo1, ?_⟩
              simp only [getReceivedValueLoop, hty, hop, if_false, hp, if_true, haddrv, hre,
                ne_eq, not_true_eq_false, hvalv, hmod, h1, List.any_cons, hyes, Bool.true_or,
                Bool.or_true, Nat.add_assoc, hd2]
            · have hnp : paysReceiver b receiver (some out) = false := by
                simp [paysReceiver, hty, haddrv, hre]
              have hsum : receivedSum b receiver (some out :: rest) =
                  receivedSum b receiver rest := by
                simp [receivedSum, List.filter_cons, hnp]
              rw [hsum] at hlt ⊢
              obtain ⟨memo1, h1⟩ := ih value memo right hrest hlt
              refine ⟨memo1, ?_⟩
              simp only [getReceivedValueLoop, hty, hop, if_false, hp, if_true, haddrv, ne_eq,
                hre, not_false_eq_true, h1, List.any_cons, hnp, Bool.false_or, hd2]
      · have hnp : paysReceiver b receiver (some out) = false := by
          simp [paysReceiver, hty, hp]
        have hsum : receivedSum b receiver (some out :: rest) = receivedSum b receiver rest := by
          simp [receivedSum, List.filter_cons, hnp]
        rw [hsum] at hlt ⊢
        obtain ⟨memo1, h1⟩ := ih value memo right hrest hlt
        refine ⟨memo1, ?_⟩
        simp only [getReceivedValueLoop, hty, hop, if_false, hp, h1, List.any_cons, hnp,
          Bool.false_or]

/-- C11, amended: received value. For every output list in which each output
carries a script type, each null-data output a script asm and each
pay-to-pubkey-hash output an address and a value, with the total paid to the
receiver below `2^64`, `getReceivedValue` returns `rightReceiver = true` if and
only if an output of the payable script type has the receiver's address, and
the value is the sum of the values of exactly those outputs. For a stable and
found transaction that carries a status, `verifySwapinTx` returns the
wrong-receiver rejection exactly when no such output exists. -/
theorem received_value_is_sum (b : BtcBridge) (receiver : GoString)
    (vout : List (Option ElectTxOut)) (hdist : b.opReturnType ≠ b.p2pkhType)
    (hwf : ∀ o ∈ vout, readableOutput b o)
    (hlt : receivedSum b receiver vout < 2 ^ 64) :
    (∃ memo, getReceivedValue b vout receiver =
      some (receivedSum b receiver vout, memo, vout.any (paysReceiver b receiver))) ∧
    ∀ txHash allowUnstable tx st,
      (allowUnstable = true ∨ checkStable b txHash = true) →
      b.GetTransactionByHash txHash = some tx → tx.Status = some st → tx.Vout = vout →
      receiver = b.DcrmAddress →
      ((∃ info, verifySwapinTx b txHash allowUnstable =
          some (info, some .ErrTxWithWrongReceiver)) ↔
        ¬ ∃ o ∈ vout, paysReceiver b receiver o = true) := by
  obtain ⟨memo, hm⟩ := getReceivedValueLoop_sum b receiver hdist vout 0 [] false hwf
    (by simpa using hlt)
  have hrv : getReceivedValue b vout receiver =
      some (receivedSum b receiver vout, memo, vout.any (paysReceiver b receiver)) := by
    unfold getReceivedValue
    rw [hm]; simp
  refine ⟨⟨memo, hrv⟩, ?_⟩
  intro txHash allowUnstable tx st hs hf hst hv hr
  subst hv hr
  rw [verifySwapinTx_found b txHash allowUnstable tx st _ memo _ hs hf hst hrv]
  cases hany : tx.Vout.any (paysReceiver b b.DcrmAddress) with
  | false =>
    simp only [Bool.not_false, if_true]
    constructor
    · intro _
      rintro ⟨o, ho, hp⟩
      have : tx.Vout.any (paysReceiver b b.DcrmAddress) = true :=
        List.any_eq_true.mpr ⟨o, ho, hp⟩
      rw [hany] at this; cases this
    · intro _; exact ⟨_, rfl⟩
  | true =>
    obtain ⟨o, ho, hp⟩ := List.any_eq_true.mp hany
    simp only [Bool.not_true, Bool.false_eq_true, if_false]
    constructor
    · rintro ⟨info, hinfo⟩
      exfalso
      split at hinfo
      · simp at hinfo
      · split at hinfo
        · simp at hinfo
        · split at hinfo
          · simp at hinfo
          · split at hinfo <;> simp at hinfo
    · intro h
      exact absurd ⟨o, ho, hp⟩ h

set_option maxRecDepth 100000 in
/-- Witness of C11: the sample deposit of 150 to the custody address. -/
theorem received_value_is_sum_witness :
    (sampleBridge (sampleTx (ascii "alice") (ascii "dcrm") sampleMemoScript 150)).opReturnType ≠
      (sampleBridge (sampleTx (ascii "alice") (ascii "dcrm") sampleMemoScript 150)).p2pkhType ∧
    ∃ memo, getReceivedValue
      (sampleBridge (sampleTx (ascii "alice") (ascii "dcrm") sampleMemoScript 150))
      (sampleTx (ascii "alice") (ascii "dcrm") sampleMemoScript 150).Vout (ascii "dcrm") =
      some (150, memo, true) :=
  ⟨by decide,
   (received_value_is_sum
      (sampleBridge (sampleTx (ascii "alice") (ascii "dcrm") sampleMemoScript 150))
      (ascii "dcrm") (sampleTx (ascii "alice") (ascii "dcrm") sampleMemoScript 150).Vout
      (by decide)
      (by
        intro o ho
        simp only [sampleTx, List.mem_cons, List.mem_singleton, List.not_mem_nil, or_false] at ho
        rcases ho with h | h <;> subst h
        · exact ⟨_, ascii "p2pkh", rfl, rfl, by decide, fun _ => ⟨by simp, by simp⟩⟩
        · exact ⟨_, ascii "op_return", rfl, rfl, fun _ => by simp, by decide⟩)
      (by decide)).1⟩

set_option maxRecDepth 100000 in
/-- Counterexample to C11 as stated: a single null-data output that carries a
script type but no script asm. The output list meets the conditions the claim
lists, yet `getReceivedValue` dereferences the nil asm and returns nothing. -/
theorem received_value_counterexample :
    (∃ ty, sampleBareMemoOutput.ScriptpubkeyType = some ty ∧
      ty ≠ (sampleBridge (sampleTx [] [] [] 0)).p2pkhType) ∧
    receivedSum (sampleBridge (sampleTx [] [] [] 0)) (ascii "dcrm") [some sampleBareMemoOutput]
      < 2 ^ 64 ∧
    getReceivedValue (sampleBridge (sampleTx [] [] [] 0)) [some sampleBareMemoOutput]
      (ascii "dcrm") = none := by
  refine ⟨⟨ascii "op_return", rfl, by decide⟩, by decide, by decide⟩

/-! ## The history ring -/

theorem ringPrev_concat (ys : List swapInfo) (l : swapInfo) : ringPrev (ys ++ [l]) = l :: ys := by
  simp [ringPrev]

theorem ringNext_cons (x : swapInfo) (xs : List swapInfo) : ringNext (x :: xs) = xs ++ [x] := rfl

/-- An insertion into a ring that is neither empty nor full appends the item. -/
theorem addSwapHistoryRing_append (maxSize : Nat) (item : swapInfo) (ring : List swapInfo)
    (hne : ring ≠ []) (hlen : ring.length ≠ maxSize) :
    addSwapHistoryRing maxSize item ring = ring ++ [item] := by
  obtain ⟨ys, l, rfl⟩ : ∃ ys l, ring = ys ++ [l] :=
    ⟨ring.dropLast, ring.getLast hne, (List.dropLast_append_getLast hne).symm⟩
  unfold addSwapHistoryRing
  cases hys : ys ++ [l] with
  | nil => simp at hys
  | cons a as =>
    rw [← hys]
    simp only [hlen, if_false, ringPrev_concat, ringLink, ringNext_cons]
    cases ys <;> simp [ringNext]

/-- An insertion into a full ring of two or more entries drops the first. -/
theorem addSwapHistoryRing_full (item x y : swapInfo) (rest : List swapInfo) :
    addSwapHistoryRing (x :: y :: rest).length item (x :: y :: rest) =
      (y :: rest) ++ [item] := by
  obtain ⟨zs, l, hz⟩ : ∃ zs l, y :: rest = zs ++ [l] :=
    ⟨(y :: rest).dropLast, (y :: rest).getLast (by simp),
      (List.dropLast_append_getLast (by simp)).symm⟩
  have hevict : ringNext (ringUnlinkOne (ringPrev (x :: y :: rest))) = y :: rest := by
    have : x :: y :: rest = (x :: zs) ++ [l] := by rw [hz]; rfl
    rw [this, ringPrev_concat]
    simp only [ringUnlinkOne, ringNext_cons]
    exact hz.symm
  have hstep : addSwapHistoryRing (x :: y :: rest).length item (x :: y :: rest) =
      ringNext (ringNext (ringLink item (ringPrev (y :: rest)))) := by
    simp only [addSwapHistoryRing, if_true, hevict]
  rw [hstep, hz, ringPrev_concat]
  simp only [ringLink, ringNext_cons]
  cases zs <;> simp [ringNext]

/-- An insertion into a full ring of one entry evicts nothing. -/
theorem addSwapHistoryRing_one (item x : swapInfo) :
    addSwapHistoryRing 1 item [x] = [x, item] := by
  simp [addSwapHistoryRing, ringPrev, ringUnlinkOne, ringNext, ringLink]

theorem addEntry_ring (env : Env) (w : World) (e : swapInfo) :
    (addEntry env w e).swapRing = addSwapHistoryRing env.swapRingMaxSize e w.swapRing := rfl

/-- While the ring has room, insertions append. -/
theorem addEntries_room (env : Env) (es : List swapInfo) (w : World)
    (h : w.swapRing.length + es.length ≤ env.swapRingMaxSize) :
    (addEntries env es w).swapRing = w.swapRing ++ es := by
  induction es generalizing w with
  | nil => simp [addEntries]
  | cons e es ih =>
    have hstep : (addEntry env w e).swapRing = w.swapRing ++ [e] := by
      rw [addEntry_ring]
      by_cases hnil : w.swapRing = []
      · simp [hnil, addSwapHistoryRing]
      · apply addSwapHistoryRing_append _ _ _ hnil
        simp only [List.length_cons] at h
        omega
    have := ih (addEntry env w e) (by
      rw [hstep]
      simp only [List.length_append, List.length_cons, List.length_nil] at h ⊢
      omega)
    simp only [addEntries, List.foldl_cons] at this ⊢
    rw [this, hstep]
    simp

/-- With a capacity of two or more, an insertion keeps the ring within the
capacity. -/
theorem addSwapHistoryRing_bound (maxSize : Nat) (item : swapInfo) (ring : List swapInfo)
    (hcap : 2 ≤ maxSize) (h : ring.length ≤ maxSize) :
    (addSwapHistoryRing maxSize item ring).length ≤ maxSize := by
  by_cases hnil : ring = []
  · subst hnil
    simp only [addSwapHistoryRing, List.length_singleton]
    omega
  · by_cases hfull : ring.length = maxSize
    · match ring, hnil, hfull with
      | [x], _, hfull => simp at hfull; omega
      | x :: y :: rest, _, hfull =>
        rw [← hfull, addSwapHistoryRing_full]
        simp
    · rw [addSwapHistoryRing_append _ _ _ hnil hfull]
      simp only [List.length_append, List.length_singleton]
      omega

/-- The loop of `getSwapHistory` visits the first element and then the others
from the last one backwards. -/
theorem getSwapHistoryLoop_visit (txid : GoString) (isSwapin : Bool) (a : List swapInfo) :
    ∀ (c : swapInfo) (t : List swapInfo),
      getSwapHistoryLoop txid isSwapin (a.length + 1) (c :: (t ++ a)) =
        (c :: a.reverse).find? (hasKey txid isSwapin) := by
  induction a using List.reverseRecOn with
  | nil =>
    intro c t
    by_cases h : c.txid = txid ∧ c.isSwapin = isSwapin
    · simp [getSwapHistoryLoop, hasKey, h]
    · simp [getSwapHistoryLoop, hasKey, h]
  | append_singleton a l ih =>
    intro c t
    have hprev : ringPrev (c :: (t ++ (a ++ [l]))) = l :: ((c :: t) ++ a) := by
      have : c :: (t ++ (a ++ [l])) = (c :: (t ++ a)) ++ [l] := by simp
      rw [this, ringPrev_concat]
      rfl
    have hlen : (a ++ [l]).length + 1 = (a.length + 1) + 1 := by simp
    rw [hlen, getSwapHistoryLoop]
    by_cases h : c.txid = txid ∧ c.isSwapin = isSwapin
    · simp [hasKey, h]
    · simp only [h, if_false, hprev, ih l (c :: t)]
      simp [hasKey, h]

theorem getSwapHistory_eq (txid : GoString) (isSwapin : Bool) (w : World) :
    getSwapHistory txid isSwapin w =
      match w.swapRing with
      | [] => none
      | x :: xs => (x :: xs.reverse).find? (hasKey txid isSwapin) := by
  unfold getSwapHistory
  cases h : w.swapRing with
  | nil => rfl
  | cons x xs =>
    have := getSwapHistoryLoop_visit txid isSwapin xs x []
    simpa using this

/-- An entry of the ring is found under its key. -/
theorem getSwapHistory_found (w : World) (e : swapInfo) (he : e ∈ w.swapRing) :
    ∃ item, getSwapHistory e.txid e.isSwapin w = some item ∧
      item.txid = e.txid ∧ item.isSwapin = e.isSwapin ∧ item ∈ w.swapRing := by
  rw [getSwapHistory_eq]
  cases h : w.swapRing with
  | nil => rw [h] at he; simp at he
  | cons x xs =>
    rw [h] at he
    have hsome : ((x :: xs.reverse).find? (hasKey e.txid e.isSwapin)).isSome = true := by
      rw [List.find?_isSome]
      refine ⟨e, ?_, by simp [hasKey]⟩
      simpa using he
    obtain ⟨item, hitem⟩ := Option.isSome_iff_exists.mp hsome
    refine ⟨item, hitem, ?_⟩
    have hk := List.find?_some hitem
    have hm := List.mem_of_find?_eq_some hitem
    simp only [hasKey, decide_eq_true_eq] at hk
    refine ⟨hk.1, hk.2, ?_⟩
    simpa using hm

/-- A key no entry of the ring carries is not found. -/
theorem getSwapHistory_missing (w : World) (txid : GoString) (isSwapin : Bool)
    (h : ∀ e ∈ w.swapRing, ¬ (e.txid = txid ∧ e.isSwapin = isSwapin)) :
    getSwapHistory txid isSwapin w = none := by
  rw [getSwapHistory_eq]
  cases hr : w.swapRing with
  | nil => rfl
  | cons x xs =>
    rw [hr] at h
    simp only
    rw [List.find?_eq_none]
    intro e he
    simp only [hasKey, decide_eq_true_eq]
    apply h
    simpa using he

/-- One insertion more than the capacity leaves the later entries. -/
theorem addEntries_overflow (env : Env) (e0 : swapInfo) (rest : List swapInfo) (w : World)
    (hcap : 2 ≤ env.swapRingMaxSize) (hlen : rest.length = env.swapRingMaxSize)
    (hempty : w.swapRing = []) :
    (addEntries env (e0 :: rest) w).swapRing = rest := by
  have hne : rest ≠ [] := by
    intro h
    rw [h] at hlen
    simp at hlen
    omega
  obtain ⟨init, l, rfl⟩ : ∃ init l, rest = init ++ [l] :=
    ⟨rest.dropLast, rest.getLast hne, (List.dropLast_append_getLast hne).symm⟩
  simp only [List.length_append, List.length_singleton] at hlen
  have hroom := addEntries_room env (e0 :: init) w (by
    rw [hempty]
    simp only [List.length_nil, List.length_cons]
    omega)
  rw [hempty, List.nil_append] at hroom
  have hsplit : addEntries env (e0 :: (init ++ [l])) w =
      addEntry env (addEntries env (e0 :: init) w) l := by
    simp only [addEntries, ← List.cons_append, List.foldl_append, List.foldl_cons,
      List.foldl_nil]
  rw [hsplit, addEntry_ring, hroom]
  match init, hlen with
  | [], hlen => simp at hlen; omega
  | y :: r, hlen =>
    have hfull : env.swapRingMaxSize = (e0 :: y :: r).length := by
      simp only [List.length_cons] at hlen ⊢
      omega
    rw [hfull, addSwapHistoryRing_full]

/-- C12: history cache eviction. With a capacity `c` of two or more, inserting
the `c + 1` entries `e0 :: rest` with `addSwapHistory` into an empty cache leaves
exactly the `c` entries `rest`, in the order of insertion; each of them is still
found under its key, and the key of `e0` is not found unless a later entry
carries it too. -/
theorem history_eviction (env : Env) (e0 : swapInfo) (rest : List swapInfo) (w : World)
    (hcap : 2 ≤ env.swapRingMaxSize) (hlen : rest.length = env.swapRingMaxSize)
    (hempty : w.swapRing = []) :
    (addEntries env (e0 :: rest) w).swapRing = rest ∧
    (addEntries env (e0 :: rest) w).swapRing.length = env.swapRingMaxSize ∧
    (∀ e ∈ rest, ∃ item,
      getSwapHistory e.txid e.isSwapin (addEntries env (e0 :: rest) w) = some item ∧
        item.txid = e.txid ∧ item.isSwapin = e.isSwapin ∧ item ∈ rest) ∧
    ((∀ e ∈ rest, ¬ (e.txid = e0.txid ∧ e.isSwapin = e0.isSwapin)) →
      getSwapHistory e0.txid e0.isSwapin (addEntries env (e0 :: rest) w) = none) := by
  have hring := addEntries_overflow env e0 rest w hcap hlen hempty
  refine ⟨hring, by rw [hring, hlen], ?_, ?_⟩
  · intro e he
    have := getSwapHistory_found (addEntries env (e0 :: rest) w) e (by rw [hring]; exact he)
    rw [hring] at this
    exact this
  · intro h
    exact getSwapHistory_missing _ _ _ (by rw [hring]; exact h)

set_option maxRecDepth 100000 in
/-- Witness of C12: a cache of capacity two after three insertions. -/
theorem history_eviction_witness :
    (addEntries (sampleRingEnv 2)
      [sampleEntry (ascii "tx0"), sampleEntry (ascii "tx1"), sampleEntry (ascii "tx2")]
      sampleWorld).swapRing = [sampleEntry (ascii "tx1"), sampleEntry (ascii "tx2")] ∧
    getSwapHistory (ascii "tx0") true (addEntries (sampleRingEnv 2)
      [sampleEntry (ascii "tx0"), sampleEntry (ascii "tx1"), sampleEntry (ascii "tx2")]
      sampleWorld) = none :=
  have h := history_eviction (sampleRingEnv 2) (sampleEntry (ascii "tx0"))
    [sampleEntry (ascii "tx1"), sampleEntry (ascii "tx2")] sampleWorld
    (by decide) (by decide) (by decide)
  ⟨h.1, h.2.2.2 (by decide)⟩

/-- C13, amended: history cache bound. With a capacity of two or more, as the
source's 1000, after every sequence of `addSwapHistory` calls from the empty
cache, and after each of its prefixes, the ring holds no more entries than the
capacity. -/
theorem history_bound (env : Env) (es : List swapInfo) (w : World)
    (hcap : 2 ≤ env.swapRingMaxSize) (hempty : w.swapRing = []) :
    ∀ k, (addEntries env (es.take k) w).swapRing.length ≤ env.swapRingMaxSize := by
  have hinv : ∀ (l : List swapInfo) (w1 : World),
      w1.swapRing.length ≤ env.swapRingMaxSize →
      (addEntries env l w1).swapRing.length ≤ env.swapRingMaxSize := by
    intro l
    induction l with
    | nil => intro w1 h; exact h
    | cons e l ih =>
      intro w1 h
      simp only [addEntries, List.foldl_cons]
      apply ih
      rw [addEntry_ring]
      exact addSwapHistoryRing_bound _ _ _ hcap h
  intro k
  apply hinv
  rw [hempty]
  simp

set_option maxRecDepth 100000 in
/-- Witness of C13: four insertions into a cache of capacity two. -/
theorem history_bound_witness :
    (addEntries (sampleRingEnv 2)
      ([sampleEntry (ascii "tx0"), sampleEntry (ascii "tx1"), sampleEntry (ascii "tx2"),
        sampleEntry (ascii "tx3")].take 4) sampleWorld).swapRing.length ≤ 2 :=
  history_bound (sampleRingEnv 2)
    [sampleEntry (ascii "tx0"), sampleEntry (ascii "tx1"), sampleEntry (ascii "tx2"),
      sampleEntry (ascii "tx3")] sampleWorld (by decide) (by decide) 4

set_option maxRecDepth 100000 in
/-- Counterexample to C13 as stated: with capacity one the full ring of one
entry loses nothing to `Unlink(1)`, and the ring grows with every insertion. -/
theorem history_bound_counterexample :
    1 ≤ (sampleRingEnv 1).swapRingMaxSize ∧ sampleWorld.swapRing = [] ∧
    (addEntries (sampleRingEnv 1)
      [sampleEntry (ascii "tx0"), sampleEntry (ascii "tx1"), sampleEntry (ascii "tx2")]
      sampleWorld).swapRing.length = 3 := by
  refine ⟨by decide, by decide, by decide⟩

/-! ## Endpoint check and counter ownership -/

/-- A swap type that does not match the role of the bridge. -/
theorem buildInput_wrong_endpoint (env : Env) (b : EthBridge) (args : BuildTxArgs)
    (hinput : args.Input = none)
    (hrole : (args.SwapType = .SwapinType ∧ b.IsSrc = true) ∨
      ((args.SwapType = .SwapoutType ∨ args.SwapType = .SwapRecallType) ∧ b.IsSrc = false)) :
    buildInput env b args = .error .ErrBuildSwapTxInWrongEndpoint := by
  unfold buildInput
  rw [hinput]
  rcases hrole with ⟨ht, hs⟩ | ⟨ht | ht, hs⟩ <;> simp [ht, hs]

/-- C19, amended: wrong endpoint. For every `BuildTxArgs` without a pre-built
input payload, `BuildRawTransaction` returns `ErrBuildSwapTxInWrongEndpoint`
and no transaction when the swap type does not match the role of the bridge,
a swap-in on a source bridge or a swap-out or recall on a destination bridge,
and it leaves the arguments as they were and calls nothing; with a pre-built
payload the payload is taken as it is, whatever the role of the bridge. -/
theorem wrong_endpoint_is_rejected (env : Env) (b : EthBridge) (args : BuildTxArgs)
    (w : World)
    (hrole : (args.SwapType = .SwapinType ∧ b.IsSrc = true) ∨
      ((args.SwapType = .SwapoutType ∨ args.SwapType = .SwapRecallType) ∧ b.IsSrc = false)) :
    (args.Input = none →
      BuildRawTransaction env b args w =
        (.error .ErrBuildSwapTxInWrongEndpoint, args, emit (.build args) w)) ∧
    (∀ input, args.Input = some input → buildInput env b args = .ok (input, args)) := by
  constructor
  · intro hinput
    unfold BuildRawTransaction
    simp only [buildInput_wrong_endpoint env b args hinput hrole]
  · intro input hinput
    unfold buildInput
    rw [hinput]

set_option maxRecDepth 100000 in
/-- Witness of C19: the worker's swap-in arguments on a source bridge. -/
theorem wrong_endpoint_is_rejected_witness :
    BuildRawTransaction (sampleEnv 0 []) (sampleEthBridge true 0) sampleArgs sampleWorld =
      (.error .ErrBuildSwapTxInWrongEndpoint, sampleArgs,
        emit (.build sampleArgs) sampleWorld) :=
  (wrong_endpoint_is_rejected (sampleEnv 0 []) (sampleEthBridge true 0) sampleArgs sampleWorld
    (Or.inl ⟨rfl, rfl⟩)).1 rfl

set_option maxRecDepth 100000 in
/-- Counterexample to C19 as stated: swap-in arguments with a pre-built input
payload on a source bridge are built into a transaction carrying the payload. -/
theorem wrong_endpoint_counterexample :
    samplePrebuiltArgs.SwapType = .SwapinType ∧ (sampleEthBridge true 0).IsSrc = true ∧
    (BuildRawTransaction (sampleEnv 0 []) (sampleEthBridge true 0) samplePrebuiltArgs
      sampleWorld).1 =
      .ok { Nonce := 0, To := ascii "0xbind", Value := 150, GasLimit := 90000,
            GasPrice := 1000, Input := ascii "payload", Sig := [] } := by
  refine ⟨rfl, rfl, by decide⟩

theorem getGasPriceLoop_nonces (b : EthBridge) (n : Nat) (err : Option Err) (w : World) :
    (getGasPriceLoop b n err w).2.swapinNonce = w.swapinNonce ∧
      (getGasPriceLoop b n err w).2.swapoutNonce = w.swapoutNonce := by
  induction n generalizing err w with
  | zero => exact ⟨rfl, rfl⟩
  | succ n ih =>
    unfold getGasPriceLoop
    split
    · exact ⟨rfl, rfl⟩
    · exact ih _ _

theorem getPoolNonceLoop_nonces (b : EthBridge) (a : GoString) (n : Nat)
    (last : Nat × Option Err) (w : World) :
    (getPoolNonceLoop b a n last w).2.swapinNonce = w.swapinNonce ∧
      (getPoolNonceLoop b a n last w).2.swapoutNonce = w.swapoutNonce := by
  obtain ⟨evs, h, _⟩ := getPoolNonceLoop_frame b a n last w
  rw [h]
  exact ⟨rfl, rfl⟩

/-- Nonce resolution changes the counter of its own direction only. -/
theorem getAccountNonce_nonces (b : EthBridge) (a : GoString) (t : SwapType) (w : World) :
    (t = .SwapinType → (getAccountNonce b a t w).2.swapoutNonce = w.swapoutNonce) ∧
    (t = .SwapoutType ∨ t = .SwapRecallType →
      (getAccountNonce b a t w).2.swapinNonce = w.swapinNonce) := by
  have hl := getPoolNonceLoop_nonces b a 3 (0, none) w
  unfold getAccountNonce
  dsimp only
  constructor
  · intro ht
    subst ht
    split
    · exact hl.2
    · split
      · dsimp only
        split <;> exact hl.2
      · exact hl.2
  · intro ht
    split
    · exact hl.1
    · split
      · rcases ht with ht | ht <;> subst ht <;> dsimp only <;> split <;> exact hl.1
      · exact hl.1

theorem setDefaults_nonces (b : EthBridge) (args : BuildTxArgs) (w : World) :
    (args.SwapType = .SwapinType → (setDefaults b args w).2.2.swapoutNonce = w.swapoutNonce) ∧
    (args.SwapType = .SwapoutType ∨ args.SwapType = .SwapRecallType →
      (setDefaults b args w).2.2.swapinNonce = w.swapinNonce) := by
  have hp : ((match (extraOf args).GasPrice with
      | some p => ((some p, none), w)
      | none => getGasPrice b w : (Option Int × Option Err) × World)).2.swapinNonce
        = w.swapinNonce ∧
      ((match (extraOf args).GasPrice with
      | some p => ((some p, none), w)
      | none => getGasPrice b w : (Option Int × Option Err) × World)).2.swapoutNonce
        = w.swapoutNonce := by
    split
    · exact ⟨rfl, rfl⟩
    · exact getGasPriceLoop_nonces b 3 none w
  unfold setDefaults
  dsimp only
  constructor
  · intro ht
    split
    · exact hp.2
    · split
      · exact hp.2
      · split
        · rename_i heq
          have h := congrArg (fun r => r.2.swapoutNonce) heq
          exact (h.symm.trans ((getAccountNonce_nonces _ _ _ _).1 ht)).trans hp.2
        · rename_i heq
          have h := congrArg (fun r => r.2.swapoutNonce) heq
          exact (h.symm.trans ((getAccountNonce_nonces _ _ _ _).1 ht)).trans hp.2
  · intro ht
    split
    · exact hp.1
    · split
      · exact hp.1
      · split
        · rename_i heq
          have h := congrArg (fun r => r.2.swapinNonce) heq
          exact (h.symm.trans ((getAccountNonce_nonces _ _ _ _).2 ht)).trans hp.1
        · rename_i heq
          have h := congrArg (fun r => r.2.swapinNonce) heq
          exact (h.symm.trans ((getAccountNonce_nonces _ _ _ _).2 ht)).trans hp.1

theorem buildInput_swapType (env : Env) (b : EthBridge) (args args1 : BuildTxArgs)
    (input : List Byte) (h : buildInput env b args = .ok (input, args1)) :
    args1.SwapType = args.SwapType := by
  unfold buildInput at h
  split at h
  · cases h; rfl
  · split at h
    · split at h
      · cases h
      · cases h; rfl
    · split at h
      · cases h
      · split at h <;> cases h <;> rfl
    · split at h
      · cases h
      · split at h <;> cases h <;> rfl
    · cases h; rfl

/-- A build changes the counter of its own direction only. -/
theorem BuildRawTransaction_nonces (env : Env) (b : EthBridge) (args : BuildTxArgs)
    (w : World) :
    (args.SwapType = .SwapinType →
      (BuildRawTransaction env b args w).2.2.swapoutNonce = w.swapoutNonce) ∧
    (args.SwapType = .SwapoutType ∨ args.SwapType = .SwapRecallType →
      (BuildRawTransaction env b args w).2.2.swapinNonce = w.swapinNonce) := by
  unfold BuildRawTransaction
  dsimp only
  cases hb : buildInput env b args with
  | error e => exact ⟨fun _ => rfl, fun _ => rfl⟩
  | ok p =>
    obtain ⟨input, args1⟩ := p
    have hty := buildInput_swapType env b args args1 input hb
    have hs := setDefaults_nonces b args1 (emit (.build args) w)
    rw [hty] at hs
    dsimp only
    constructor
    · intro ht
      have h := hs.1 ht
      split
      · rename_i heq
        rw [heq] at h
        exact h
      · rename_i heq
        rw [heq] at h
        exact h
    · intro ht
      have h := hs.2 ht
      split
      · rename_i heq
        rw [heq] at h
        exact h
      · rename_i heq
        rw [heq] at h
        exact h

theorem pollSignStatus_nonces (env : Env) (keyID : GoString) (n : Nat) (w : World) :
    (pollSignStatus env keyID n w).2.swapinNonce = w.swapinNonce ∧
      (pollSignStatus env keyID n w).2.swapoutNonce = w.swapoutNonce := by
  induction n generalizing w with
  | zero => exact ⟨rfl, rfl⟩
  | succ n ih =>
    unfold pollSignStatus
    split
    · split <;> exact ⟨rfl, rfl⟩
    · split
      · exact ⟨rfl, rfl⟩
      · exact ih _

theorem attachSignature_nonces (env : Env) (b : EthBridge) (tx : Transaction)
    (keyID rsv : GoString) (w : World) :
    (attachSignature env b tx keyID rsv w).2.swapoutNonce = w.swapoutNonce ∧
    ((attachSignature env b tx keyID rsv w).1.2.2 = none →
      (attachSignature env b tx keyID rsv w).2.swapinNonce = incr64 w.swapinNonce) ∧
    ((attachSignature env b tx keyID rsv w).1.2.2 ≠ none →
      (attachSignature env b tx keyID rsv w).2.swapinNonce = w.swapinNonce) := by
  unfold attachSignature
  dsimp only
  split
  · exact ⟨rfl, (fun h => by simp at h), fun _ => rfl⟩
  · split
    · exact ⟨rfl, (fun h => by simp at h), fun _ => rfl⟩
    · split
      · exact ⟨rfl, (fun h => by simp at h), fun _ => rfl⟩
      · split
        · exact ⟨rfl, (fun h => by simp at h), fun _ => rfl⟩
        · exact ⟨rfl, fun _ => rfl, fun h => absurd rfl h⟩

theorem incr64_decr64 (n : Nat) (h : n < 2 ^ 64) : incr64 (decr64 n) = n := by
  unfold incr64 decr64
  omega

theorem sign_entry_nonces (e : Event) (w : World) (n : Nat) :
    (emit e { w with swapinNonce := n }).swapinNonce = n ∧
      (emit e { w with swapinNonce := n }).swapoutNonce = w.swapoutNonce :=
  ⟨rfl, rfl⟩

theorem emit_nonces (e : Event) (w : World) :
    (emit e w).swapinNonce = w.swapinNonce ∧ (emit e w).swapoutNonce = w.swapoutNonce :=
  ⟨rfl, rfl⟩

/-- The counters after `DcrmSignTransaction`. -/
theorem DcrmSignTransaction_nonces (env : Env) (b : EthBridge) (rawTx : RawTx)
    (args : BuildTxArgs) (w : World) :
    (DcrmSignTransaction env b rawTx args w).2.swapoutNonce = w.swapoutNonce ∧
    ((DcrmSignTransaction env b rawTx args w).1.2.2 = none →
      (DcrmSignTransaction env b rawTx args w).2.swapinNonce =
        incr64 (decr64 w.swapinNonce)) ∧
    ((DcrmSignTransaction env b rawTx args w).1.2.2 ≠ none →
      (DcrmSignTransaction env b rawTx args w).2.swapinNonce = decr64 w.swapinNonce) := by
  have h0 := sign_entry_nonces (.sign rawTx) w (decr64 w.swapinNonce)
  unfold DcrmSignTransaction
  generalize emit (.sign rawTx) { w with swapinNonce := decr64 w.swapinNonce } = w0 at h0 ⊢
  generalize decr64 w.swapinNonce = d at h0 ⊢
  generalize w.swapoutNonce = o at h0 ⊢
  cases rawTx with
  | foreign => exact ⟨h0.2, (fun h => by simp at h), fun _ => h0.1⟩
  | eth tx =>
    dsimp only
    split
    · exact ⟨h0.2, (fun h => by simp at h), fun _ => h0.1⟩
    · rename_i keyID _
      have hpoll := pollSignStatus_nonces env keyID 15 (emit .doSignOne w0)
      rw [(emit_nonces .doSignOne w0).1, (emit_nonces .doSignOne w0).2, h0.1, h0.2] at hpoll
      split
      · rename_i heq
        rw [heq] at hpoll
        exact ⟨hpoll.2, (fun h => by simp at h), fun _ => hpoll.1⟩
      · rename_i heq
        rw [heq] at hpoll
        exact ⟨hpoll.2, (fun h => by simp at h), fun _ => hpoll.1⟩
      · rename_i rsv w2 heq
        rw [heq] at hpoll
        split
        · exact ⟨hpoll.2, (fun h => by simp at h), fun _ => hpoll.1⟩
        · have ha := attachSignature_nonces env b tx keyID rsv w2
          refine ⟨ha.1.trans hpoll.2, fun h => ?_, fun h => ?_⟩
          · rw [ha.2.1 h]
            exact congrArg incr64 hpoll.1
          · rw [ha.2.2 h]
            exact hpoll.1

/-- C20, amended: nonce counter ownership. `DcrmSignTransaction` never changes
`swapoutNonce`; it returns on success with `swapinNonce` at its value at entry,
and on every failure with `swapinNonce` one less than at entry, modulo 2^64. A
build in one direction leaves the counter of the other direction unchanged. -/
theorem nonce_counter_ownership (env : Env) (b : EthBridge) (rawTx : RawTx)
    (args : BuildTxArgs) (w : World) (hrange : w.swapinNonce < 2 ^ 64) :
    (DcrmSignTransaction env b rawTx args w).2.swapoutNonce = w.swapoutNonce ∧
    ((DcrmSignTransaction env b rawTx args w).1.2.2 = none →
      (DcrmSignTransaction env b rawTx args w).2.swapinNonce = w.swapinNonce) ∧
    ((DcrmSignTransaction env b rawTx args w).1.2.2 ≠ none →
      (DcrmSignTransaction env b rawTx args w).2.swapinNonce = decr64 w.swapinNonce) ∧
    (∀ bargs w0, bargs.SwapType = .SwapinType →
      (BuildRawTransaction env b bargs w0).2.2.swapoutNonce = w0.swapoutNonce) ∧
    (∀ bargs w0, bargs.SwapType = .SwapoutType ∨ bargs.SwapType = .SwapRecallType →
      (BuildRawTransaction env b bargs w0).2.2.swapinNonce = w0.swapinNonce) := by
  have h := DcrmSignTransaction_nonces env b rawTx args w
  refine ⟨h.1, fun hn => ?_, h.2.2, fun bargs w0 => (BuildRawTransaction_nonces env b bargs w0).1,
    fun bargs w0 => (BuildRawTransaction_nonces env b bargs w0).2⟩
  rw [h.2.1 hn, incr64_decr64 _ hrange]

set_option maxRecDepth 1000000 in
/-- Witness of C20: the sample swap-in transaction signed with the counter at 5. -/
theorem nonce_counter_ownership_witness :
    (DcrmSignTransaction (sampleEnv 0 [sampleRsv 1]) (sampleEthBridge false 0)
      (.eth { sampleSignedTx with Sig := [] }) sampleArgs
      { sampleWorld with swapinNonce := 5 }).1.2.2 = none ∧
    (DcrmSignTransaction (sampleEnv 0 [sampleRsv 1]) (sampleEthBridge false 0)
      (.eth { sampleSignedTx with Sig := [] }) sampleArgs
      { sampleWorld with swapinNonce := 5 }).2.swapinNonce = 5 :=
  have hok : (DcrmSignTransaction (sampleEnv 0 [sampleRsv 1]) (sampleEthBridge false 0)
      (.eth { sampleSignedTx with Sig := [] }) sampleArgs
      { sampleWorld with swapinNonce := 5 }).1.2.2 = none := by decide
  ⟨hok, (nonce_counter_ownership (sampleEnv 0 [sampleRsv 1]) (sampleEthBridge false 0)
    (.eth { sampleSignedTx with Sig := [] }) sampleArgs
    { sampleWorld with swapinNonce := 5 } (by decide)).2.1 hok⟩

set_option maxRecDepth 1000000 in
/-- Counterexample to C20 as stated: a signature that recovers to another
sender makes `DcrmSignTransaction` fail, and it returns with `swapinNonce` at 4
where it was 5 at entry; so does a raw transaction of a foreign type. -/
theorem nonce_counter_counterexample :
    ((DcrmSignTransaction (sampleEnv 0 [sampleRsv 2]) (sampleEthBridge false 0)
      (.eth { sampleSignedTx with Sig := [] }) sampleArgs
      { sampleWorld with swapinNonce := 5 }).1 = (none, [], some .wrongSenderAddress) ∧
    (DcrmSignTransaction (sampleEnv 0 [sampleRsv 2]) (sampleEthBridge false 0)
      (.eth { sampleSignedTx with Sig := [] }) sampleArgs
      { sampleWorld with swapinNonce := 5 }).2.swapinNonce = 4) ∧
    (DcrmSignTransaction (sampleEnv 0 []) (sampleEthBridge true 0) .foreign sampleArgs
      { sampleWorld with swapinNonce := 5 }).2.swapinNonce = 4 := by
  refine ⟨⟨by decide, by decide⟩, by decide⟩

/-! ## Already-handled records -/

/-- A loaded result is the stored record, and loading records one event. -/
theorem FindSwapResult_ok (env : Env) (d : Bool) (txid : GoString) (w : World)
    (rec : MgoSwapResult) (h : (FindSwapResult env d txid w).1 = .ok rec) :
    FindSwapResult env d txid w = (.ok rec, emit (.findResult d txid) w) ∧
      w.store.results d txid = some rec := by
  unfold FindSwapResult at h ⊢
  split at h
  · cases h
  · split at h
    · cases h
    · rename_i r hr
      cases h
      exact ⟨rfl, hr⟩

/-- C17, amended: already-handled records. When the loaded result carries a
non-empty `SwapTx`, the process function returns the already-swapped error and
performs no build, sign, history insertion or broadcast: when the status of
the result is `TxNotSwapped` its only step after the load is the update of the
status to `TxProcessed`, and for every other status, `TxSwapFailed` included,
it does nothing after the load and leaves the store as it is. -/
theorem already_handled_records (env : Env) (d : Bool) (swap : MgoSwap) (w : World)
    (rec : MgoSwapResult) (hload : (FindSwapResult env d swap.TxID w).1 = .ok rec)
    (hne : rec.SwapTx ≠ []) :
    (processSwap env d swap w).1 = some (.alreadySwapped swap.TxID rec.SwapTx) ∧
    (rec.Status = .TxNotSwapped →
      ∃ ok, newEvents w (processSwap env d swap w).2 =
        [.findResult d swap.TxID, .updateStatus d swap.TxID .TxProcessed none ok]) ∧
    (rec.Status ≠ .TxNotSwapped →
      newEvents w (processSwap env d swap w).2 = [.findResult d swap.TxID] ∧
      (processSwap env d swap w).2 = emit (.findResult d swap.TxID) w) := by
  obtain ⟨hfind, _⟩ := FindSwapResult_ok env d swap.TxID w rec hload
  unfold processSwap
  dsimp only
  rw [hfind]
  simp only [hne, ne_eq, not_false_eq_true, if_true]
  by_cases hst : rec.Status = .TxNotSwapped
  · simp only [hst, if_true, true_implies, not_true_eq_false, false_implies, and_true,
      true_and]
    obtain ⟨ok, t, _, _, _⟩ := UpdateSwapStatus_effect env d swap.TxID .TxProcessed none
      (emit (.findResult d swap.TxID) w)
    exact ⟨ok, newEvents_eq w _ _ (by rw [t]; simp [emit])⟩
  · simp only [hst, if_false, false_implies, not_false_eq_true, true_implies, true_and,
      and_true]
    exact newEvents_eq w _ [.findResult d swap.TxID] rfl

set_option maxRecDepth 1000000 in
/-- Witness of C17: a handled swap whose result is still `TxNotSwapped`. -/
theorem already_handled_records_witness :
    (processSwap (sampleEnv 0 []) true sampleSwap (sampleHandledWorld .TxNotSwapped)).1 =
      some (.alreadySwapped (ascii "tx1") (ascii "0xmatch")) ∧
    ∃ ok, newEvents (sampleHandledWorld .TxNotSwapped)
      (processSwap (sampleEnv 0 []) true sampleSwap (sampleHandledWorld .TxNotSwapped)).2 =
        [.findResult true (ascii "tx1"),
          .updateStatus true (ascii "tx1") .TxProcessed none ok] :=
  have h := already_handled_records (sampleEnv 0 []) true sampleSwap
    (sampleHandledWorld .TxNotSwapped)
    { sampleResult with SwapTx := ascii "0xmatch", Status := .TxNotSwapped }
    (by decide) (by decide)
  ⟨h.1, h.2.1 rfl⟩

set_option maxRecDepth 1000000 in
/-- Counterexample to C17 as stated: a handled swap whose result is in status
`TxSwapFailed` is loaded and nothing else; the status of the swap record is not
set to `TxProcessed`. -/
theorem already_handled_counterexample :
    (sampleHandledWorld .TxSwapFailed).store.results true (ascii "tx1") =
      some { sampleResult with SwapTx := ascii "0xmatch", Status := .TxSwapFailed } ∧
    (processSwapinSwap (sampleEnv 0 []) sampleSwap (sampleHandledWorld .TxSwapFailed)).2.trace =
      [.findResult true (ascii "tx1")] ∧
    ((processSwapinSwap (sampleEnv 0 []) sampleSwap
      (sampleHandledWorld .TxSwapFailed)).2.store.swaps true (ascii "tx1")).map
        (fun r => r.Status) = some .TxSwapFailed := by
  refine ⟨by decide, by decide, by decide⟩

/-! ## The broadcast loop -/

/-- The events of the broadcast loop. Every event is a send of the signed
transaction or a probe of its hash, and the first one is a send; a send without
error is followed by a probe, and by nothing more when the probe shows the
transaction; a send with an error is followed by the next send or by nothing.
When the loop ends with an error, all `n` sends were made and the last one
returned this error; when it ends without one, a send returned no error. -/
theorem sendLoop_attempts (b : EthBridge) (tx : Option Transaction) (h : GoString) :
    ∀ (n : Nat) (err : Option Err) (w : World),
      ∃ L, (sendLoop b tx h n err w).2 = addTrace L w ∧
        (∀ e ∈ L, e = .send tx true ∨ e = .send tx false ∨ e = .getTransaction h) ∧
        (L = [] ∨ ∃ ok rest, L = Event.send tx ok :: rest) ∧
        (∀ lpre lpost, L = lpre ++ Event.send tx true :: lpost →
          ∃ post1, lpost = Event.getTransaction h :: post1 ∧
            ((b.GetTransaction (clock w + lpre.length + 1) h).1 = true → post1 = [])) ∧
        (∀ lpre lpost, L = lpre ++ Event.send tx false :: lpost →
          lpost = [] ∨ ∃ ok post1, lpost = Event.send tx ok :: post1) ∧
        (∀ e, (sendLoop b tx h n err w).1 = some e →
          (n = 0 ∧ err = some e) ∨
          (∃ lpre, L = lpre ++ [Event.send tx false] ∧
            b.SendTransaction (clock w + lpre.length) tx = some e ∧
            (L.filter Event.isSend).length = n)) ∧
        ((sendLoop b tx h n err w).1 = none →
          (n = 0 ∧ err = none) ∨ Event.send tx true ∈ L) ∧
        (L.filter Event.isSend).length ≤ n := by
  intro n
  induction n with
  | zero =>
    intro err w
    refine ⟨[], by simp [sendLoop, addTrace_nil], by simp, Or.inl rfl, ?_, ?_, ?_, ?_,
      by simp⟩
    · intro lpre lpost hL
      simp at hL
    · intro lpre lpost hL
      simp at hL
    · intro e he
      exact Or.inl ⟨rfl, he⟩
    · intro he
      exact Or.inl ⟨rfl, he⟩
  | succ n ih =>
    intro err w
    unfold sendLoop
    cases hs : b.SendTransaction (clock w) tx with
    | some e0 =>
      simp only []
      obtain ⟨L, hw, hall, hhead, hok, hfail, herr, hnone, hcnt⟩ :=
        ih (some e0) (emit (.send tx false) w)
      refine ⟨.send tx false :: L, ?_, ?_, Or.inr ⟨false, L, rfl⟩, ?_, ?_, ?_, ?_,
        by simp only [List.filter_cons, Event.isSend, if_true, List.length_cons]; omega⟩
      · rw [hw, emit_eq_addTrace, addTrace_addTrace]; rfl
      · intro e he
        rcases List.mem_cons.mp he with rfl | he
        · exact Or.inr (Or.inl rfl)
        · exact hall e he
      · intro lpre lpost hL
        cases lpre with
        | nil => simp at hL
        | cons a lpre1 =>
          simp only [List.cons_append, List.cons.injEq] at hL
          obtain ⟨post1, h1, h2⟩ := hok lpre1 lpost hL.2
          refine ⟨post1, h1, fun hv => h2 ?_⟩
          rw [clock_emit]
          simp only [List.length_cons] at hv
          rw [show clock w + 1 + lpre1.length + 1 = clock w + (lpre1.length + 1) + 1 by omega]
          exact hv
      · intro lpre lpost hL
        cases lpre with
        | nil =>
          simp only [List.nil_append, List.cons.injEq, true_and] at hL
          subst hL
          exact hhead
        | cons a lpre1 =>
          simp only [List.cons_append, List.cons.injEq] at hL
          exact hfail lpre1 lpost hL.2
      · intro e he
        right
        rcases herr e he with ⟨hn, he0⟩ | ⟨lpre, hL, hsend, hcount⟩
        · subst hn
          have hnil : L = [] := by
            have ht := congrArg World.trace hw
            simp only [sendLoop, addTrace] at ht
            simpa using ht
          subst hnil
          cases he0
          exact ⟨[], rfl, by simpa using hs, rfl⟩
        · refine ⟨.send tx false :: lpre, by rw [hL]; rfl, ?_, ?_⟩
          · rw [clock_emit] at hsend
            simp only [List.length_cons]
            rw [show clock w + (lpre.length + 1) = clock w + 1 + lpre.length by omega]
            exact hsend
          · simp only [List.filter_cons, Event.isSend, if_true, List.length_cons, hcount]
      · intro he
        right
        rcases hnone he with ⟨_, h0⟩ | hmem
        · cases h0
        · exact List.mem_cons_of_mem _ hmem
    | none =>
      simp only []
      by_cases hv : (b.GetTransaction (clock (emit (.send tx true) w)) h).1 = true
      · simp only [hv, if_true]
        refine ⟨[.send tx true, .getTransaction h], ?_, ?_, Or.inr ⟨true, _, rfl⟩, ?_, ?_,
          ?_, ?_, by simp [List.filter_cons, Event.isSend]⟩
        · rw [emit_eq_addTrace, emit_eq_addTrace, addTrace_addTrace]; rfl
        · intro e he
          simp only [List.mem_cons, List.mem_singleton, List.not_mem_nil, or_false] at he
          rcases he with rfl | rfl
          · exact Or.inl rfl
          · exact Or.inr (Or.inr rfl)
        · intro lpre lpost hL
          cases lpre with
          | nil =>
            simp only [List.nil_append, List.cons.injEq, true_and] at hL
            exact ⟨[], hL.symm, fun _ => rfl⟩
          | cons a lpre1 =>
            simp only [List.cons_append, List.cons.injEq] at hL
            cases lpre1 with
            | nil => simp at hL
            | cons a2 lpre2 => simp at hL
        · intro lpre lpost hL
          cases lpre with
          | nil => simp at hL
          | cons a lpre1 =>
            simp only [List.cons_append, List.cons.injEq] at hL
            cases lpre1 with
            | nil => simp at hL
            | cons a2 lpre2 => simp at hL
        · intro e he
          cases he
        · intro _
          exact Or.inr (List.mem_cons_self _ _)
      · have hv2 : (b.GetTransaction (clock (emit (.send tx true) w)) h).1 = false := by
          simpa using hv
        simp only [hv2, Bool.false_eq_true, if_false]
        obtain ⟨L, hw, hall, hhead, hok, hfail, herr, hnone, hcnt⟩ :=
          ih none (emit (.getTransaction h) (emit (.send tx true) w))
        refine ⟨.send tx true :: .getTransaction h :: L, ?_, ?_, Or.inr ⟨true, _, rfl⟩, ?_, ?_,
          ?_, ?_, by simp [List.filter_cons, Event.isSend]; omega⟩
        · rw [hw, emit_eq_addTrace, emit_eq_addTrace, addTrace_addTrace, addTrace_addTrace]
          rfl
        · intro e he
          rcases List.mem_cons.mp he with rfl | he
          · exact Or.inl rfl
          · rcases List.mem_cons.mp he with rfl | he
            · exact Or.inr (Or.inr rfl)
            · exact hall e he
        · intro lpre lpost hL
          cases lpre with
          | nil =>
            simp only [List.nil_append, List.cons.injEq, true_and] at hL
            refine ⟨L, hL.symm, fun hvis => ?_⟩
            exfalso
            apply hv
            rw [clock_emit]
            simpa using hvis
          | cons a lpre1 =>
            simp only [List.cons_append, List.cons.injEq] at hL
            cases lpre1 with
            | nil => simp at hL
            | cons a2 lpre2 =>
              simp only [List.cons_append, List.cons.injEq] at hL
              obtain ⟨post1, h1, h2⟩ := hok lpre2 lpost hL.2.2
              refine ⟨post1, h1, fun hvis => h2 ?_⟩
              rw [clock_emit, clock_emit]
              simp only [List.length_cons] at hvis
              rw [show clock w + 1 + 1 + lpre2.length + 1 =
                clock w + (lpre2.length + 1 + 1) + 1 by omega]
              exact hvis
        · intro lpre lpost hL
          cases lpre with
          | nil => simp at hL
          | cons a lpre1 =>
            simp only [List.cons_append, List.cons.injEq] at hL
            cases lpre1 with
            | nil => simp at hL
            | cons a2 lpre2 =>
              simp only [List.cons_append, List.cons.injEq] at hL
              exact hfail lpre2 lpost hL.2.2
        · intro e he
          right
          rcases herr e he with ⟨_, h0⟩ | ⟨lpre, hL, hsend, hcount⟩
          · cases h0
          · refine ⟨.send tx true :: .getTransaction h :: lpre, by rw [hL]; rfl, ?_, ?_⟩
            · rw [clock_emit, clock_emit] at hsend
              simp only [List.length_cons]
              rw [show clock w + (lpre.length + 1 + 1) = clock w + 1 + 1 + lpre.length by omega]
              exact hsend
            · simp [List.filter_cons, Event.isSend, hcount]
        · intro _
          exact Or.inr (List.mem_cons_self _ _)

/-- The broadcast loop has the shape of a loop of at most `n` attempts. -/
theorem sendLoop_shape (b : EthBridge) (tx : Option Transaction) (h : GoString) (n : Nat)
    (err : Option Err) (w : World) :
    ∃ L, (sendLoop b tx h n err w).2 = addTrace L w ∧ LoopShape b tx h (clock w) n L ∧
      (∀ e, (sendLoop b tx h n err w).1 = some e →
        (n = 0 ∧ err = some e) ∨
        (∃ lpre, L = lpre ++ [Event.send tx false] ∧
          b.SendTransaction (clock w + lpre.length) tx = some e ∧
          (L.filter Event.isSend).length = n)) ∧
      ((sendLoop b tx h n err w).1 = none →
        (n = 0 ∧ err = none) ∨ Event.send tx true ∈ L) := by
  obtain ⟨L, hw, hall, hhead, hok, hfail, herr, hnone, hcnt⟩ := sendLoop_attempts b tx h n err w
  exact ⟨L, hw, ⟨hall, hhead, hcnt, hok, hfail⟩, herr, hnone⟩
/-! ## The steps of a run -/

theorem getGasPriceLoop_prelude (b : EthBridge) (n : Nat) (err : Option Err) (w : World) :
    Continues Event.isPrelude w (getGasPriceLoop b n err w).2 := by
  induction n generalizing err w with
  | zero => exact Continues.refl _ _
  | succ n ih =>
    unfold getGasPriceLoop
    split
    · exact Continues.emit _ _ rfl
    · exact (Continues.emit _ _ rfl).trans (ih _ _)

theorem getPoolNonceLoop_prelude (b : EthBridge) (a : GoString) (n : Nat)
    (last : Nat × Option Err) (w : World) :
    Continues Event.isPrelude w (getPoolNonceLoop b a n last w).2 := by
  obtain ⟨evs, h1, h2⟩ := getPoolNonceLoop_frame b a n last w
  rw [h1]
  exact Continues.addTrace _ _ (fun e he => by rw [h2 e he]; rfl)

theorem getAccountNonce_prelude (b : EthBridge) (a : GoString) (ty : SwapType) (w : World) :
    Continues Event.isPrelude w (getAccountNonce b a ty w).2 := by
  have h := getPoolNonceLoop_prelude b a 3 (0, none) w
  unfold getAccountNonce
  dsimp only
  split
  · exact h
  · split
    · split
      · split
        · exact h.swapin _
        · exact h.swapin _
      · split
        · exact h.swapout _
        · exact h.swapout _
      · split
        · exact h.swapout _
        · exact h.swapout _
      · exact h
    · exact h

theorem setDefaults_prelude (b : EthBridge) (args : BuildTxArgs) (w : World) :
    Continues Event.isPrelude w (setDefaults b args w).2.2 := by
  unfold setDefaults
  dsimp only
  have hp : Continues Event.isPrelude w
      (match (extraOf args).GasPrice with
        | some p => (((some p, none) : Option Int × Option Err), w)
        | none => getGasPrice b w).2 := by
    split
    · exact Continues.refl _ _
    · exact getGasPriceLoop_prelude b 3 none w
  split
  · exact hp
  · split
    · exact hp
    · split
      · next e w2 heq =>
        have hw2 : (getAccountNonce b args.From args.SwapType _).2 = w2 := congrArg Prod.snd heq
        show Continues Event.isPrelude w w2
        rw [← hw2]
        exact hp.trans (getAccountNonce_prelude _ _ _ _)
      · next n w2 heq =>
        have hw2 : (getAccountNonce b args.From args.SwapType _).2 = w2 := congrArg Prod.snd heq
        show Continues Event.isPrelude w w2
        rw [← hw2]
        exact hp.trans (getAccountNonce_prelude _ _ _ _)

theorem BuildRawTransaction_prelude (env : Env) (b : EthBridge) (args : BuildTxArgs)
    (w : World) : Continues Event.isPrelude w (BuildRawTransaction env b args w).2.2 := by
  unfold BuildRawTransaction
  dsimp only
  have h0 : Continues Event.isPrelude w (emit (.build args) w) := Continues.emit _ _ rfl
  split
  · exact h0
  · next input args1 _ =>
    have h1 := setDefaults_prelude b args1 (emit (.build args) w)
    split
    · next e args2 w1 heq =>
      rw [heq] at h1
      exact h0.trans h1
    · next extra args2 w1 heq =>
      rw [heq] at h1
      exact h0.trans h1

theorem pollSignStatus_prelude (env : Env) (keyID : GoString) (n : Nat) (w : World) :
    Continues Event.isPrelude w (pollSignStatus env keyID n w).2 := by
  induction n generalizing w with
  | zero => exact Continues.refl _ _
  | succ n ih =>
    unfold pollSignStatus
    split
    · split
      · exact Continues.emit _ _ rfl
      · exact Continues.emit _ _ rfl
    · split
      · exact Continues.emit _ _ rfl
      · exact (Continues.emit _ _ rfl).trans (ih _)

theorem attachSignature_prelude (env : Env) (b : EthBridge) (tx : Transaction)
    (keyID rsv : GoString) (w : World) :
    Continues Event.isPrelude w (attachSignature env b tx keyID rsv w).2 := by
  unfold attachSignature
  dsimp only
  split
  · exact Continues.refl _ _
  · split
    · exact Continues.refl _ _
    · split
      · exact Continues.refl _ _
      · split
        · exact Continues.refl _ _
        · exact (Continues.refl _ _).swapin _

theorem DcrmSignTransaction_prelude (env : Env) (b : EthBridge) (rawTx : RawTx)
    (args : BuildTxArgs) (w : World) :
    Continues Event.isPrelude w (DcrmSignTransaction env b rawTx args w).2 := by
  have h0 : Continues Event.isPrelude w
      (emit (.sign rawTx) { w with swapinNonce := decr64 w.swapinNonce }) :=
    ((Continues.refl _ w).swapin (decr64 w.swapinNonce)).trans (Continues.emit _ _ rfl)
  unfold DcrmSignTransaction
  cases rawTx with
  | foreign => exact h0
  | eth tx =>
    dsimp only
    split
    · exact h0.trans (Continues.emit _ _ rfl)
    · next keyID _ =>
      have h1 := h0.trans (Continues.emit (p := Event.isPrelude) .doSignOne _ rfl)
      have h2 := pollSignStatus_prelude env keyID 15
        (emit .doSignOne
          (emit (.sign (.eth tx)) { w with swapinNonce := decr64 w.swapinNonce }))
      split
      · next e w2 heq => rw [heq] at h2; exact h1.trans h2
      · next w2 heq => rw [heq] at h2; exact h1.trans h2
      · next rsv w2 heq =>
        rw [heq] at h2
        split
        · exact h1.trans h2
        · exact (h1.trans h2).trans (attachSignature_prelude env b _ keyID rsv w2)

theorem UpdateSwapStatus_sets (env : Env) (d : Bool) (txid : GoString) (st : SwapStatus)
    (memo : Option Err) (w : World) :
    ∃ ok, (UpdateSwapStatus env d txid st memo w).2.trace =
        w.trace ++ [.updateStatus d txid st memo ok] ∧
      (ok = true → ∃ r, (UpdateSwapStatus env d txid st memo w).2.store.swaps d txid = some r ∧
        r.Status = st ∧ r.Memo = memo) ∧
      (UpdateSwapStatus env d txid st memo w).2.store.results = w.store.results := by
  unfold UpdateSwapStatus
  split
  · exact ⟨false, rfl, (fun h => by cases h), rfl⟩
  · split
    · exact ⟨false, rfl, (fun h => by cases h), rfl⟩
    · next r _ =>
      exact ⟨true, rfl, (fun _ => ⟨{ r with Status := st, Memo := memo }, by simp [emit], rfl,
        rfl⟩), rfl⟩

theorem UpdateSwapResultStatus_sets (env : Env) (d : Bool) (txid : GoString)
    (st : SwapStatus) (memo : Option Err) (w : World) :
    ∃ ok, (UpdateSwapResultStatus env d txid st memo w).2.trace =
        w.trace ++ [.updateResultStatus d txid st memo ok] ∧
      (ok = true →
        ∃ r, (UpdateSwapResultStatus env d txid st memo w).2.store.results d txid = some r ∧
          r.Status = st ∧ r.Memo = memo) ∧
      (UpdateSwapResultStatus env d txid st memo w).2.store.swaps = w.store.swaps ∧
      (∀ rec, w.store.results d txid = some rec →
        ∃ rec1, (UpdateSwapResultStatus env d txid st memo w).2.store.results d txid =
          some rec1 ∧ rec1.SwapTx = rec.SwapTx) := by
  unfold UpdateSwapResultStatus
  split
  · exact ⟨false, rfl, (fun h => by cases h), rfl, fun rec h => ⟨rec, h, rfl⟩⟩
  · split
    · exact ⟨false, rfl, (fun h => by cases h), rfl, fun rec h => ⟨rec, h, rfl⟩⟩
    · next r hr =>
      refine ⟨true, rfl, (fun _ => ⟨{ r with Status := st, Memo := memo }, by simp [emit], rfl,
        rfl⟩), rfl, ?_⟩
      intro rec h
      rw [hr] at h
      cases h
      simp [emit]

/-- A loop without attempts records nothing. -/
theorem LoopShape.zero {b : EthBridge} {tx : Option Transaction} {h : GoString} {c : Nat}
    {L : List Event} (hL : LoopShape b tx h c 0 L) : L = [] := by
  obtain ⟨_, hhead, hcnt, _, _⟩ := hL
  rcases hhead with h0 | ⟨ok, rest, h0⟩
  · exact h0
  · rw [h0] at hcnt
    simp [List.filter_cons, Event.isSend] at hcnt

/-- The events of the last part of a run, from the history insertion on. The
part ends at the update of the result or at the update of the status when the
write fails; otherwise the broadcast loop follows, and after it, when it ends
with an error, the two demotions with this error. -/
theorem persistAndSend_trace (env : Env) (d : Bool) (txid : GoString) (value : Int)
    (tx : Option Transaction) (h : GoString) (w : World) :
    ∃ evs, (persistAndSend env d txid value tx h w).2.trace = w.trace ++ evs ∧
      (((persistAndSend env d txid value tx h w).1 ≠ none ∧
          evs = [.addHistory txid h d, .updateResult d txid (matchTxOf env d value h) false]) ∨
        ((persistAndSend env d txid value tx h w).1 ≠ none ∧
          evs = [.addHistory txid h d, .updateResult d txid (matchTxOf env d value h) true,
            .updateStatus d txid .TxProcessed none false] ∧
          ∃ rec, (persistAndSend env d txid value tx h w).2.store.results d txid = some rec ∧
            rec.SwapTx = h) ∨
        (∃ L, LoopShape (bridgeOf env d) tx h (clock w + 3) env.retrySendTxCount L ∧
          (∃ rec, (persistAndSend env d txid value tx h w).2.store.results d txid = some rec ∧
            rec.SwapTx = h) ∧
          (((persistAndSend env d txid value tx h w).1 = none ∧
              evs = persistHead d txid h (matchTxOf env d value h) ++ L ∧
              (env.retrySendTxCount = 0 ∨ Event.send tx true ∈ L)) ∨
            (∃ e lpre ok5 ok6, (persistAndSend env d txid value tx h w).1 = some e ∧
              L = lpre ++ [Event.send tx false] ∧
              (bridgeOf env d).SendTransaction (clock w + 3 + lpre.length) tx = some e ∧
              (L.filter Event.isSend).length = env.retrySendTxCount ∧
              evs = persistHead d txid h (matchTxOf env d value h) ++ L ++
                [.updateStatus d txid .TxSwapFailed (some e) ok5,
                  .updateResultStatus d txid .TxSwapFailed (some e) ok6] ∧
              (ok5 = true →
                ∃ r, (persistAndSend env d txid value tx h w).2.store.swaps d txid = some r ∧
                  r.Status = .TxSwapFailed ∧ r.Memo = some e) ∧
              (ok6 = true →
                ∃ r, (persistAndSend env d txid value tx h w).2.store.results d txid = some r ∧
                  r.Status = .TxSwapFailed ∧ r.Memo = some e))))) := by
  unfold persistAndSend
  dsimp only
  have hm : MatchTx.mk h (env.bigString (env.CalcSwappedValue value d))
      (if d = true then SwapType.SwapinType else SwapType.SwapoutType) =
      matchTxOf env d value h := rfl
  rw [hm]
  have hmh : (matchTxOf env d value h).SwapTx = h := rfl
  generalize matchTxOf env d value h = m at hmh ⊢
  have t1 : (addSwapHistory env txid value h d w).trace = w.trace ++ [.addHistory txid h d] := rfl
  generalize addSwapHistory env txid value h d w = w1 at t1 ⊢
  have hu := updateSwapResult_effect env d txid m w1
  cases hres : updateSwapResult env d txid m w1 with
  | mk r2 w2 =>
    rw [hres] at hu
    dsimp only at hu
    cases r2 with
    | some e =>
      rcases hu with ⟨hh, _⟩ | ⟨_, t2, _⟩
      · exact absurd hh (by simp)
      · refine ⟨[.addHistory txid h d, .updateResult d txid m false], ?_,
          Or.inl ⟨by simp, rfl⟩⟩
        show w2.trace = _
        rw [t2, t1]; simp
    | none =>
      rcases hu with ⟨_, t2, rec, hrec, hsw⟩ | ⟨hh, _⟩
      swap
      · exact absurd rfl hh
      dsimp only
      obtain ⟨ok, t3, hok1, hok2, hst3⟩ := UpdateSwapStatus_effect env d txid .TxProcessed none w2
      cases hus : UpdateSwapStatus env d txid .TxProcessed none w2 with
      | mk r3 w3 =>
        rw [hus] at t3 hok1 hok2 hst3
        dsimp only at t3 hok1 hok2 hst3
        have hrec3 : w3.store.results d txid = some rec := by rw [hst3]; exact hrec
        cases r3 with
        | some e =>
          have hokf : ok = false := hok2 (by simp)
          subst hokf
          refine ⟨[.addHistory txid h d, .updateResult d txid m true,
            .updateStatus d txid .TxProcessed none false], ?_,
            Or.inr (Or.inl ⟨by simp, rfl, rec, hrec3, hsw.trans hmh⟩)⟩
          show w3.trace = _
          rw [t3, t2, t1]; simp
        | none =>
          have hokt : ok = true := hok1 rfl
          subst hokt
          dsimp only
          have hc3 : clock w3 = clock w + 3 := by
            simp only [clock, t3, t2, t1, List.length_append, List.length_singleton]
          obtain ⟨L, hw4, hshape, herr, hnone⟩ :=
            sendLoop_shape (bridgeOf env d) tx h env.retrySendTxCount none w3
          rw [hc3] at hshape herr
          cases hsl : sendLoop (bridgeOf env d) tx h env.retrySendTxCount none w3 with
          | mk r4 w4 =>
            rw [hsl] at hw4 herr hnone
            dsimp only at hw4 herr hnone
            have t4 : w4.trace = w3.trace ++ L := by rw [hw4]; rfl
            have hst4 : w4.store = w3.store := by rw [hw4]; rfl
            have hrec4 : w4.store.results d txid = some rec := by rw [hst4]; exact hrec3
            cases r4 with
            | none =>
              refine ⟨persistHead d txid h m ++ L, ?_, Or.inr (Or.inr ⟨L, hshape,
                ⟨rec, hrec4, hsw.trans hmh⟩, Or.inl ⟨rfl, rfl, ?_⟩⟩)⟩
              · show w4.trace = _
                rw [t4, t3, t2, t1]; simp [persistHead]
              · rcases hnone rfl with ⟨h0, _⟩ | hmem
                · exact Or.inl h0
                · exact Or.inr hmem
            | some e =>
              dsimp only
              rcases herr e rfl with ⟨_, h0⟩ | ⟨lpre, hL, hsend, hcount⟩
              · cases h0
              obtain ⟨ok5, t5, hset5, hst5⟩ :=
                UpdateSwapStatus_sets env d txid .TxSwapFailed (some e) w4
              generalize (UpdateSwapStatus env d txid .TxSwapFailed (some e) w4).2 = w5
                at t5 hset5 hst5 ⊢
              have hrec5 : w5.store.results d txid = some rec := by rw [hst5]; exact hrec4
              obtain ⟨ok6, t6, hset6, hsw6, hkeep6⟩ :=
                UpdateSwapResultStatus_sets env d txid .TxSwapFailed (some e) w5
              generalize (UpdateSwapResultStatus env d txid .TxSwapFailed (some e) w5).2 = w6
                at t6 hset6 hsw6 hkeep6 ⊢
              obtain ⟨rec6, hrec6, hsw66⟩ := hkeep6 rec hrec5
              refine ⟨persistHead d txid h m ++ L ++
                [.updateStatus d txid .TxSwapFailed (some e) ok5,
                  .updateResultStatus d txid .TxSwapFailed (some e) ok6], ?_,
                Or.inr (Or.inr ⟨L, hshape, ⟨rec6, hrec6, by rw [hsw66, hsw, hmh]⟩,
                  Or.inr ⟨e, lpre, ok5, ok6, rfl, hL, hsend, hcount, rfl, ?_, hset6⟩⟩)⟩
              · show w6.trace = _
                rw [t6, t5, t4, t3, t2, t1]; simp [persistHead]
              · intro h5
                obtain ⟨r, hr, hs⟩ := hset5 h5
                exact ⟨r, by show w6.store.swaps d txid = some r; rw [hsw6]; exact hr, hs⟩

/-- The first event of `DcrmSignTransaction` is the call itself, and prelude
steps follow. -/
theorem DcrmSignTransaction_first (env : Env) (b : EthBridge) (rawTx : RawTx)
    (args : BuildTxArgs) (w : World) :
    ∃ evs, (DcrmSignTransaction env b rawTx args w).2.trace =
      w.trace ++ Event.sign rawTx :: evs := by
  have h0 : Continues Event.isPrelude
      (emit (.sign rawTx) { w with swapinNonce := decr64 w.swapinNonce })
      (emit (.sign rawTx) { w with swapinNonce := decr64 w.swapinNonce }) :=
    Continues.refl _ _
  have key : Continues Event.isPrelude
      (emit (.sign rawTx) { w with swapinNonce := decr64 w.swapinNonce })
      (DcrmSignTransaction env b rawTx args w).2 := by
    unfold DcrmSignTransaction
    cases rawTx with
    | foreign => exact h0
    | eth tx =>
      dsimp only
      split
      · exact h0.trans (Continues.emit _ _ rfl)
      · next keyID _ =>
        have h1 := h0.trans (Continues.emit (p := Event.isPrelude) .doSignOne _ rfl)
        have h2 := pollSignStatus_prelude env keyID 15
          (emit .doSignOne
            (emit (.sign (.eth tx)) { w with swapinNonce := decr64 w.swapinNonce }))
        split
        · next e w2 heq => rw [heq] at h2; exact h1.trans h2
        · next w2 heq => rw [heq] at h2; exact h1.trans h2
        · next rsv w2 heq =>
          rw [heq] at h2
          split
          · exact h1.trans h2
          · exact (h1.trans h2).trans (attachSignature_prelude env b _ keyID rsv w2)
  obtain ⟨evs, ht, _⟩ := key
  exact ⟨evs, by rw [ht]; simp [emit]⟩

/-- The middle part of a run either ends with an error after prelude steps
only, or hands a transaction signed by the custody key to the last part, after
prelude steps with the call of the signer among them. -/
theorem buildSignSend_stages (env : Env) (d : Bool) (swap : MgoSwap) (res : MgoSwapResult)
    (w : World) :
    (Continues Event.isPrelude w (buildSignSend env d swap res w).2 ∧
      (buildSignSend env d swap res w).1 ≠ none) ∨
    (∃ value t w2, Continues Event.isPrelude w w2 ∧
      (∃ pre1 rawTx pre2, w2.trace = w.trace ++ pre1 ++ Event.sign rawTx :: pre2) ∧
      buildSignSend env d swap res w =
        persistAndSend env d swap.TxID value (some t)
          (hashString ((bridgeOf env d).TxHash t)) w2) := by
  unfold buildSignSend
  split
  · exact Or.inl ⟨Continues.refl _ _, by simp⟩
  · next value _ =>
    have hb := BuildRawTransaction_prelude env (bridgeOf env d)
      (buildArgsOf env d swap res value) w
    split
    · next e a w1 heq =>
      rw [heq] at hb
      exact Or.inl ⟨hb, by simp⟩
    · next rawTx args1 w1 heq =>
      rw [heq] at hb
      have hs := DcrmSignTransaction_prelude env (bridgeOf env d) (.eth rawTx)
        (env.GetExtraArgs args1) w1
      split
      · next e w2 heq2 =>
        rw [heq2] at hs
        exact Or.inl ⟨hb.trans hs, by simp⟩
      · next signedTx txHash w2 heq2 =>
        rw [heq2] at hs
        have hr := DcrmSignTransaction_result env (bridgeOf env d) (.eth rawTx)
          (env.GetExtraArgs args1) w1
        rw [heq2] at hr
        rcases hr with ⟨e, he⟩ | ⟨s, hsome, _⟩
        · simp at he
        · simp only [Prod.mk.injEq, and_true] at hsome
          obtain ⟨h1, h2⟩ := hsome
          subst h1 h2
          obtain ⟨evs, hfirst⟩ := DcrmSignTransaction_first env (bridgeOf env d) (.eth rawTx)
            (env.GetExtraArgs args1) w1
          rw [heq2] at hfirst
          have hb2 := hb
          obtain ⟨preb, htb, _⟩ := hb2
          exact Or.inr ⟨value, s, w2, hb.trans hs,
            ⟨preb, .eth rawTx, evs, by rw [hfirst, htb]⟩, rfl⟩

/-- The stages of a run of a process function. The run ends with an error
after prelude steps only; or it finds a result with a match transaction in
status `TxNotSwapped` and updates the status; or it adopts a match transaction
from the history; or it signs a transaction and enters the last part. -/
theorem processSwap_stages (env : Env) (d : Bool) (swap : MgoSwap) (w : World) :
    (Continues Event.isPrelude w (processSwap env d swap w).2 ∧
      (processSwap env d swap w).1 ≠ none) ∨
    (∃ rec ok, (FindSwapResult env d swap.TxID w).1 = .ok rec ∧ rec.SwapTx ≠ [] ∧
      rec.Status = .TxNotSwapped ∧
      (processSwap env d swap w).2.trace =
        w.trace ++ [.findResult d swap.TxID, .updateStatus d swap.TxID .TxProcessed none ok] ∧
      (processSwap env d swap w).2.store.results = w.store.results) ∨
    (∃ w1 hm ok, Continues Event.isPrelude w w1 ∧
      (processSwap env d swap w).2.trace =
        w1.trace ++ [.updateResult d swap.TxID
          (MatchTx.mk hm [] (if d = true then .SwapinType else .SwapoutType)) ok]) ∨
    (∃ value t w2, Continues Event.isPrelude w w2 ∧
      (∃ pre1 rawTx pre2, w2.trace = w.trace ++ pre1 ++ Event.sign rawTx :: pre2) ∧
      processSwap env d swap w =
        persistAndSend env d swap.TxID value (some t)
          (hashString ((bridgeOf env d).TxHash t)) w2) := by
  have hfind : Continues Event.isPrelude w (FindSwapResult env d swap.TxID w).2 := by
    unfold FindSwapResult
    split
    · exact Continues.emit _ _ rfl
    · split
      · exact Continues.emit _ _ rfl
      · exact Continues.emit _ _ rfl
  have hres : ∀ rec, (FindSwapResult env d swap.TxID w).1 = .ok rec →
      (FindSwapResult env d swap.TxID w).2.trace = w.trace ++ [.findResult d swap.TxID] := by
    intro rec h
    rw [(FindSwapResult_ok env d swap.TxID w rec h).1]
    rfl
  unfold processSwap
  dsimp only
  split
  · next e w1 heq =>
    rw [heq] at hfind
    exact Or.inl ⟨hfind, by simp⟩
  · next res w1 heq =>
    rw [heq] at hfind
    have hload : (FindSwapResult env d swap.TxID w).1 = .ok res := by rw [heq]
    have ht1 := hres res hload
    rw [heq] at ht1
    dsimp only at hfind ht1
    split
    · next hne =>
      split
      · next hst =>
        obtain ⟨ok, t, _, _, hkeep⟩ :=
          UpdateSwapStatus_effect env d swap.TxID .TxProcessed none w1
        refine Or.inr (Or.inl ⟨res, ok, hload, hne, hst, ?_, ?_⟩)
        · show (UpdateSwapStatus env d swap.TxID .TxProcessed none w1).2.trace = _
          rw [t, ht1]; simp
        · show (UpdateSwapStatus env d swap.TxID .TxProcessed none w1).2.store.results = _
          rw [hkeep]
          obtain ⟨_, _, _, hs, _⟩ := hfind
          rw [hs]
      · exact Or.inl ⟨hfind, by simp⟩
    · split
      · rcases buildSignSend_stages env d swap res w1 with
          ⟨hc, hn⟩ | ⟨value, t, w2, hc, ⟨pre1, rawTx, pre2, hsg⟩, hrun⟩
        · exact Or.inl ⟨hfind.trans hc, hn⟩
        · exact Or.inr (Or.inr (Or.inr ⟨value, t, w2, hfind.trans hc,
            ⟨[.findResult d swap.TxID] ++ pre1, rawTx, pre2, by rw [hsg, ht1]; simp⟩, hrun⟩))
      · next history _ =>
        have hprobe : Continues Event.isPrelude w (emit (.getTransaction history.matchTx) w1) :=
          hfind.trans (Continues.emit _ _ rfl)
        split
        · generalize hmk : MatchTx.mk history.matchTx []
            (if d = true then SwapType.SwapinType else SwapType.SwapoutType) = m
          rcases updateSwapResult_effect env d swap.TxID m
              (emit (.getTransaction history.matchTx) w1) with ⟨_, t, _⟩ | ⟨_, t, _⟩
          · exact Or.inr (Or.inr (Or.inl ⟨_, history.matchTx, true, hprobe, by rw [hmk]; exact t⟩))
          · exact Or.inr (Or.inr (Or.inl ⟨_, history.matchTx, false, hprobe, by rw [hmk]; exact t⟩))
        · rcases buildSignSend_stages env d swap res
            (emit (.getTransaction history.matchTx) w1) with
            ⟨hc, hn⟩ | ⟨value, t, w2, hc, ⟨pre1, rawTx, pre2, hsg⟩, hrun⟩
          · exact Or.inl ⟨hprobe.trans hc, hn⟩
          · exact Or.inr (Or.inr (Or.inr ⟨value, t, w2, hprobe.trans hc,
              ⟨[.findResult d swap.TxID, .getTransaction history.matchTx] ++ pre1, rawTx, pre2,
                by rw [hsg]; simp [emit, ht1]⟩, hrun⟩))

/-- An element with a property no element of `A` and of `B` has sits in
`A ++ x :: B` at the place of `x`. -/
theorem split_unique {α : Type} (p : α → Bool) (A B pre post : List α) (x e : α)
    (hA : ∀ a ∈ A, p a = false) (hB : ∀ a ∈ B, p a = false) (he : p e = true)
    (h : pre ++ e :: post = A ++ x :: B) : pre = A ∧ e = x ∧ post = B := by
  rcases List.append_eq_append_iff.mp h with ⟨a1, h1, h2⟩ | ⟨c1, h1, h2⟩
  · cases a1 with
    | nil =>
      simp only [List.nil_append, List.cons.injEq] at h2
      simp only [List.append_nil] at h1
      exact ⟨h1.symm, h2.1, h2.2⟩
    | cons a a2 =>
      simp only [List.cons_append, List.cons.injEq] at h2
      have : p e = false := hA e (by rw [h1, h2.1.symm]; simp)
      rw [this] at he; cases he
  · cases c1 with
    | nil =>
      simp only [List.nil_append, List.cons.injEq] at h2
      simp only [List.append_nil] at h1
      exact ⟨h1, h2.1.symm, h2.2.symm⟩
    | cons c c2 =>
      simp only [List.cons_append, List.cons.injEq] at h2
      have : p e = false := hB e (by rw [h2.2]; simp)
      rw [this] at he; cases he

/-- An element with a property no element of `A` and of `D` has sits in
`A ++ (L ++ D)` inside `L`. -/
theorem split_middle {α : Type} (p : α → Bool) (A L D pre post : List α) (e : α)
    (hA : ∀ a ∈ A, p a = false) (hD : ∀ a ∈ D, p a = false) (he : p e = true)
    (h : pre ++ e :: post = A ++ (L ++ D)) :
    ∃ lpre lpost, L = lpre ++ e :: lpost ∧ pre = A ++ lpre ∧ post = lpost ++ D := by
  rcases List.append_eq_append_iff.mp h with ⟨a1, h1, h2⟩ | ⟨c1, h1, h2⟩
  · cases a1 with
    | nil =>
      simp only [List.nil_append] at h2
      simp only [List.append_nil] at h1
      cases L with
      | nil =>
        simp only [List.nil_append] at h2
        have : p e = false := hD e (by rw [← h2]; simp)
        rw [this] at he; cases he
      | cons l L1 =>
        simp only [List.cons_append, List.cons.injEq] at h2
        exact ⟨[], L1, by rw [h2.1]; rfl, by rw [h1]; simp, h2.2⟩
    | cons a a2 =>
      simp only [List.cons_append, List.cons.injEq] at h2
      have : p e = false := hA e (by rw [h1, h2.1.symm]; simp)
      rw [this] at he; cases he
  · rcases List.append_eq_append_iff.mp h2.symm with ⟨a3, h3, h4⟩ | ⟨c3, h3, h4⟩
    · cases a3 with
      | nil =>
        simp only [List.nil_append] at h4
        simp only [List.append_nil] at h3
        have : p e = false := hD e (by rw [← h4]; simp)
        rw [this] at he; cases he
      | cons a a4 =>
        simp only [List.cons_append, List.cons.injEq] at h4
        exact ⟨c1, a4, by rw [h3, h4.1], h1, h4.2⟩
    · have : p e = false := hD e (by rw [h4]; simp)
      rw [this] at he; cases he

theorem isPrelude_not_processed (e : Event) (h : e.isPrelude = true) :
    e.isProcessed = false := by
  cases e <;> first | rfl | cases h

theorem hashString_ne_nil (x : List Byte) : hashString x ≠ [] := by
  simp [hashString]

theorem Continues.events {p : Event → Bool} {w w1 : World} (h : Continues p w w1) :
    ∃ pre, w1.trace = w.trace ++ pre ∧ (∀ e ∈ pre, p e = true) ∧ w1.store = w.store ∧
      clock w1 = clock w + pre.length := by
  obtain ⟨pre, ht, hp, hs, _⟩ := h
  exact ⟨pre, ht, hp, hs, by simp [clock, ht]⟩

/-- Each status update to `TxProcessed` of a run follows a loaded result with a
match transaction or the successful update of the result with the signed hash. -/
theorem processSwap_processed (env : Env) (d : Bool) (swap : MgoSwap) (w : World) :
    ∀ pre d2 txid2 memo ok post,
      newEvents w (processSwap env d swap w).2 =
        pre ++ Event.updateStatus d2 txid2 .TxProcessed memo ok :: post →
      d2 = d ∧ txid2 = swap.TxID ∧ memo = none ∧
      ((∃ rec, (FindSwapResult env d swap.TxID w).1 = .ok rec ∧ rec.SwapTx ≠ [] ∧
          pre = [.findResult d swap.TxID]) ∨
        (∃ pre1 m t, pre = pre1 ++ [.updateResult d swap.TxID m true] ∧
          m.SwapTx = hashString ((bridgeOf env d).TxHash t))) ∧
      ∃ rec, (processSwap env d swap w).2.store.results d swap.TxID = some rec ∧
        rec.SwapTx ≠ [] := by
  intro pre d2 txid2 memo ok post hsplit
  have he : (Event.updateStatus d2 txid2 .TxProcessed memo ok).isProcessed = true := rfl
  rcases processSwap_stages env d swap w with ⟨hc, _⟩ | ⟨rec, ok1, hload, hne, _, ht, hst⟩ |
    ⟨w1, hm, ok1, hc, ht⟩ | ⟨value, t, w2, hc, hsign, hrun⟩
  · obtain ⟨pre0, ht, hp, _, _⟩ := hc.events
    rw [newEvents_eq w _ pre0 ht] at hsplit
    have := isPrelude_not_processed _
      (hp (Event.updateStatus d2 txid2 .TxProcessed memo ok) (by rw [hsplit]; simp))
    rw [this] at he; cases he
  · rw [newEvents_eq w _ _ ht] at hsplit
    have h3 := split_unique Event.isProcessed [.findResult d swap.TxID] [] pre post
      (.updateStatus d swap.TxID .TxProcessed none ok1) _
      (by intro a ha; simp only [List.mem_singleton] at ha; subst ha; rfl)
      (by intro a ha; cases ha) he hsplit.symm
    obtain ⟨hpre, hev, _⟩ := h3
    simp only [Event.updateStatus.injEq] at hev
    refine ⟨hev.1, hev.2.1, hev.2.2.2.1, Or.inl ⟨rec, hload, hne, hpre⟩, rec, ?_, hne⟩
    rw [hst]
    exact (FindSwapResult_ok env d swap.TxID w rec hload).2
  · obtain ⟨pre0, ht0, hp, _, _⟩ := hc.events
    rw [ht0, List.append_assoc] at ht
    rw [newEvents_eq w _ _ ht] at hsplit
    have h3 := split_unique Event.isProcessed pre0 [] pre post
      (.updateResult d swap.TxID
        (MatchTx.mk hm [] (if d = true then .SwapinType else .SwapoutType)) ok1) _
      (fun a ha => isPrelude_not_processed a (hp a ha))
      (by intro a ha; cases ha) he hsplit.symm
    cases h3.2.1
  · obtain ⟨pre0, ht0, hp, _, hclock⟩ := hc.events
    have hpre0 : ∀ a ∈ pre0, a.isProcessed = false :=
      fun a ha => isPrelude_not_processed a (hp a ha)
    rw [hrun]
    rw [hrun] at hsplit
    obtain ⟨evs, ht, hcases⟩ := persistAndSend_trace env d swap.TxID value (some t)
      (hashString ((bridgeOf env d).TxHash t)) w2
    rw [ht0, List.append_assoc] at ht
    rw [newEvents_eq w _ _ ht] at hsplit
    rcases hcases with ⟨_, hev⟩ | ⟨_, hev, rec, hrec, hsw⟩ | ⟨L, hshape, ⟨rec, hrec, hsw⟩, hrest⟩
    · rw [hev] at hsplit
      have h3 := split_unique Event.isProcessed (pre0 ++ [.addHistory swap.TxID
        (hashString ((bridgeOf env d).TxHash t)) d]) [] pre post
        (.updateResult d swap.TxID
          (matchTxOf env d value (hashString ((bridgeOf env d).TxHash t))) false) _
        (by
          intro a ha
          rcases List.mem_append.mp ha with h | h
          · exact hpre0 a h
          · simp only [List.mem_singleton] at h; subst h; rfl)
        (by intro a ha; cases ha) he (hsplit.symm.trans (by simp))
      cases h3.2.1
    · rw [hev] at hsplit
      have h3 := split_unique Event.isProcessed (pre0 ++ [.addHistory swap.TxID
        (hashString ((bridgeOf env d).TxHash t)) d, .updateResult d swap.TxID
          (matchTxOf env d value (hashString ((bridgeOf env d).TxHash t))) true]) [] pre post
        (.updateStatus d swap.TxID .TxProcessed none false) _
        (by
          intro a ha
          rcases List.mem_append.mp ha with h | h
          · exact hpre0 a h
          · simp only [List.mem_cons, List.mem_singleton, List.not_mem_nil, or_false] at h
            rcases h with h | h <;> subst h <;> rfl)
        (by intro a ha; cases ha) he (hsplit.symm.trans (by simp))
      obtain ⟨hpre, hev2, _⟩ := h3
      simp only [Event.updateStatus.injEq] at hev2
      refine ⟨hev2.1, hev2.2.1, hev2.2.2.2.1, Or.inr ⟨pre0 ++ [.addHistory swap.TxID
        (hashString ((bridgeOf env d).TxHash t)) d],
        matchTxOf env d value (hashString ((bridgeOf env d).TxHash t)), t,
        by rw [hpre]; simp, rfl⟩,
        rec, hrec, by rw [hsw]; exact hashString_ne_nil _⟩
    · have hLp : ∀ a ∈ L, a.isProcessed = false := by
        intro a ha
        rcases hshape.1 a ha with h | h | h <;> subst h <;> rfl
      have key : ∀ D : List Event, (∀ a ∈ D, a.isProcessed = false) →
          evs = persistHead d swap.TxID (hashString ((bridgeOf env d).TxHash t))
            (matchTxOf env d value (hashString ((bridgeOf env d).TxHash t))) ++ L ++ D →
          d2 = d ∧ txid2 = swap.TxID ∧ memo = none ∧
          ∃ pre1 m t1, pre = pre1 ++ [.updateResult d swap.TxID m true] ∧
            m.SwapTx = hashString ((bridgeOf env d).TxHash t1) := by
        intro D hD hev
        rw [hev] at hsplit
        have h3 := split_unique Event.isProcessed (pre0 ++ [.addHistory swap.TxID
          (hashString ((bridgeOf env d).TxHash t)) d, .updateResult d swap.TxID
            (matchTxOf env d value (hashString ((bridgeOf env d).TxHash t))) true]) (L ++ D)
          pre post (.updateStatus d swap.TxID .TxProcessed none true) _
          (by
            intro a ha
            rcases List.mem_append.mp ha with h | h
            · exact hpre0 a h
            · simp only [List.mem_cons, List.mem_singleton, List.not_mem_nil, or_false] at h
              rcases h with h | h <;> subst h <;> rfl)
          (by
            intro a ha
            rcases List.mem_append.mp ha with h | h
            · exact hLp a h
            · exact hD a h) he (hsplit.symm.trans (by simp [persistHead]))
        obtain ⟨hpre, hev2, _⟩ := h3
        simp only [Event.updateStatus.injEq] at hev2
        exact ⟨hev2.1, hev2.2.1, hev2.2.2.2.1, pre0 ++ [.addHistory swap.TxID
          (hashString ((bridgeOf env d).TxHash t)) d],
          matchTxOf env d value (hashString ((bridgeOf env d).TxHash t)), t,
          by rw [hpre]; simp, rfl⟩
      have hstore : ∃ rec, (persistAndSend env d swap.TxID value (some t)
          (hashString ((bridgeOf env d).TxHash t)) w2).2.store.results d swap.TxID = some rec ∧
          rec.SwapTx ≠ [] := ⟨rec, hrec, by rw [hsw]; exact hashString_ne_nil _⟩
      rcases hrest with ⟨_, hev, _⟩ | ⟨e, lpre, ok5, ok6, _, _, _, _, hev, _⟩
      · obtain ⟨h1, h2, h3, h4⟩ := key [] (by intro a ha; cases ha) (by rw [hev]; simp)
        exact ⟨h1, h2, h3, Or.inr h4, hstore⟩
      · obtain ⟨h1, h2, h3, h4⟩ := key _ (by
          intro a ha
          simp only [List.mem_cons, List.mem_singleton, List.not_mem_nil, or_false] at ha
          rcases ha with h | h <;> subst h <;> rfl) hev
        exact ⟨h1, h2, h3, Or.inr h4, hstore⟩

/-- C14: processed implies a recorded match. In every run of `processSwapinSwap`
and of `processSwapoutSwap`, each status update to `TxProcessed` is the one of
the swap of the run, and it comes right after the load of a result that carries
a non-empty `SwapTx`, or right after a result update, returned without error,
that stores the hash of the signed transaction, which is not empty; at the end
of such a run the result record carries a non-empty `SwapTx`. -/
theorem processed_implies_recorded_match (env : Env) (swap : MgoSwap) (w : World) :
    (∀ pre d2 txid2 memo ok post,
      newEvents w (processSwapinSwap env swap w).2 =
        pre ++ Event.updateStatus d2 txid2 .TxProcessed memo ok :: post →
      d2 = true ∧ txid2 = swap.TxID ∧ memo = none ∧
      ((∃ rec, (FindSwapResult env true swap.TxID w).1 = .ok rec ∧ rec.SwapTx ≠ [] ∧
          pre = [.findResult true swap.TxID]) ∨
        (∃ pre1 m t, pre = pre1 ++ [.updateResult true swap.TxID m true] ∧
          m.SwapTx = hashString (env.DstBridge.TxHash t))) ∧
      ∃ rec, (processSwapinSwap env swap w).2.store.results true swap.TxID = some rec ∧
        rec.SwapTx ≠ []) ∧
    (∀ pre d2 txid2 memo ok post,
      newEvents w (processSwapoutSwap env swap w).2 =
        pre ++ Event.updateStatus d2 txid2 .TxProcessed memo ok :: post →
      d2 = false ∧ txid2 = swap.TxID ∧ memo = none ∧
      ((∃ rec, (FindSwapResult env false swap.TxID w).1 = .ok rec ∧ rec.SwapTx ≠ [] ∧
          pre = [.findResult false swap.TxID]) ∨
        (∃ pre1 m t, pre = pre1 ++ [.updateResult false swap.TxID m true] ∧
          m.SwapTx = hashString (env.SrcBridge.TxHash t))) ∧
      ∃ rec, (processSwapoutSwap env swap w).2.store.results false swap.TxID = some rec ∧
        rec.SwapTx ≠ []) :=
  ⟨processSwap_processed env true swap w, processSwap_processed env false swap w⟩

set_option maxRecDepth 1000000 in
/-- Witness of C14: the sample swap-in, whose status update follows the update
of the result. -/
theorem processed_implies_recorded_match_witness :
    newEvents sampleWorld
        (processSwapinSwap (sampleEnv 0 [sampleRsv 1]) sampleSwap sampleWorld).2 =
      (newEvents sampleWorld
        (processSwapinSwap (sampleEnv 0 [sampleRsv 1]) sampleSwap sampleWorld).2).take 9 ++
        Event.updateStatus true (ascii "tx1") .TxProcessed none true ::
          [Event.send (some sampleSignedTx) true, Event.getTransaction (hashString [0, 7])] ∧
    ∃ rec, (processSwapinSwap (sampleEnv 0 [sampleRsv 1]) sampleSwap
        sampleWorld).2.store.results true sampleSwap.TxID = some rec ∧ rec.SwapTx ≠ [] :=
  ⟨by decide,
   ((processed_implies_recorded_match (sampleEnv 0 [sampleRsv 1]) sampleSwap sampleWorld).1
      ((newEvents sampleWorld
        (processSwapinSwap (sampleEnv 0 [sampleRsv 1]) sampleSwap sampleWorld).2).take 9)
      true (ascii "tx1") none true
      [Event.send (some sampleSignedTx) true, Event.getTransaction (hashString [0, 7])]
      (by decide)).2.2.2.2⟩

/-! ## The point of the history insertion -/

/-- A run that updates the result and the status without error has inserted
the swap into the history right before, after prelude steps only. -/
theorem processSwap_history_point (env : Env) (d : Bool) (swap : MgoSwap) (w : World)
    (hres : ∃ m, Event.updateResult d swap.TxID m true ∈
      newEvents w (processSwap env d swap w).2)
    (hst : Event.updateStatus d swap.TxID .TxProcessed none true ∈
      newEvents w (processSwap env d swap w).2) :
    ∃ pre m t post,
      newEvents w (processSwap env d swap w).2 =
        pre ++ [.addHistory swap.TxID (hashString ((bridgeOf env d).TxHash t)) d,
          .updateResult d swap.TxID m true,
          .updateStatus d swap.TxID .TxProcessed none true] ++ post ∧
      m.SwapTx = hashString ((bridgeOf env d).TxHash t) ∧
      (∀ e ∈ pre, e.isPrelude = true) ∧ (∃ e ∈ pre, e.isSign = true) ∧
      (∀ e ∈ post, e.isSend = true ∨ e.isProbe = true ∨ e.isDemotion = true) := by
  have hproc : (Event.updateStatus d swap.TxID .TxProcessed none true).isProcessed = true := rfl
  rcases processSwap_stages env d swap w with ⟨hc, _⟩ | ⟨rec, ok1, _, _, _, ht, _⟩ |
    ⟨w1, hm, ok1, hc, ht⟩ | ⟨value, t, w2, hc, hsign, hrun⟩
  · obtain ⟨pre0, ht, hp, _, _⟩ := hc.events
    rw [newEvents_eq w _ pre0 ht] at hst
    have := isPrelude_not_processed _ (hp _ hst)
    rw [this] at hproc; cases hproc
  · obtain ⟨m, hm⟩ := hres
    rw [newEvents_eq w _ _ ht] at hm
    simp at hm
  · obtain ⟨pre0, ht0, hp, _, _⟩ := hc.events
    rw [ht0, List.append_assoc] at ht
    rw [newEvents_eq w _ _ ht] at hst
    rcases List.mem_append.mp hst with h | h
    · have := isPrelude_not_processed _ (hp _ h)
      rw [this] at hproc; cases hproc
    · simp at h
  · obtain ⟨pre0, ht0, hp, _, _⟩ := hc.events
    have hsigned : ∃ e ∈ pre0, e.isSign = true := by
      obtain ⟨pre1, rawTx, pre2, hsg⟩ := hsign
      rw [ht0, List.append_assoc] at hsg
      have := List.append_cancel_left hsg
      exact ⟨.sign rawTx, by rw [this]; simp, rfl⟩
    rw [hrun] at hst ⊢
    obtain ⟨evs, ht, hcases⟩ := persistAndSend_trace env d swap.TxID value (some t)
      (hashString ((bridgeOf env d).TxHash t)) w2
    rw [ht0, List.append_assoc] at ht
    rw [newEvents_eq w _ _ ht] at hst ⊢
    have hnot : ∀ tail : List Event, (∀ a ∈ tail, a.isProcessed = false) →
        Event.updateStatus d swap.TxID .TxProcessed none true ∉ pre0 ++ tail := by
      intro tail htail hmem
      rcases List.mem_append.mp hmem with h | h
      · have := isPrelude_not_processed _ (hp _ h)
        rw [this] at hproc; cases hproc
      · have := htail _ h
        rw [this] at hproc; cases hproc
    rcases hcases with ⟨_, hev⟩ | ⟨_, hev, _⟩ | ⟨L, hshape, _, hrest⟩
    · rw [hev] at hst
      exact absurd hst (hnot _ (by
        intro a ha
        simp only [List.mem_cons, List.mem_singleton, List.not_mem_nil, or_false] at ha
        rcases ha with h | h <;> subst h <;> rfl))
    · rw [hev] at hst
      exfalso
      rcases List.mem_append.mp hst with h | h
      · have := isPrelude_not_processed _ (hp _ h)
        rw [this] at hproc; cases hproc
      · simp at h
    · have hL : ∀ e ∈ L, e.isSend = true ∨ e.isProbe = true ∨ e.isDemotion = true := by
        intro a ha
        rcases hshape.1 a ha with h | h | h <;> subst h
        · exact Or.inl rfl
        · exact Or.inl rfl
        · exact Or.inr (Or.inl rfl)
      rcases hrest with ⟨_, hev, _⟩ | ⟨e, lpre, ok5, ok6, _, _, _, _, hev, _⟩
      · refine ⟨pre0, matchTxOf env d value (hashString ((bridgeOf env d).TxHash t)), t, L,
          by rw [hev]; simp [persistHead], rfl, hp, hsigned, hL⟩
      · refine ⟨pre0, matchTxOf env d value (hashString ((bridgeOf env d).TxHash t)), t,
          L ++ [.updateStatus d swap.TxID .TxSwapFailed (some e) ok5,
            .updateResultStatus d swap.TxID .TxSwapFailed (some e) ok6],
          by rw [hev]; simp [persistHead], rfl, hp, hsigned, ?_⟩
        intro a ha
        rcases List.mem_append.mp ha with h | h
        · exact hL a h
        · simp only [List.mem_cons, List.mem_singleton, List.not_mem_nil, or_false] at h
          rcases h with h | h <;> subst h <;> exact Or.inr (Or.inr rfl)

/-- C18, amended: history insertion point. In every run of `processSwapinSwap`
and of `processSwapoutSwap` that reaches the broadcast loop, having updated the
result and the status without error, the `addSwapHistory` call for the swap
comes after prelude steps only, the signing among them, and right before the
update of the result with the signed hash, which the update of the status to
`TxProcessed` follows; every `SendTransaction` call comes after these three. -/
theorem history_insertion_point (env : Env) (swap : MgoSwap) (w : World) :
    ((∃ m, Event.updateResult true swap.TxID m true ∈
        newEvents w (processSwapinSwap env swap w).2) →
      Event.updateStatus true swap.TxID .TxProcessed none true ∈
        newEvents w (processSwapinSwap env swap w).2 →
      ∃ pre m t post,
        newEvents w (processSwapinSwap env swap w).2 =
          pre ++ [.addHistory swap.TxID (hashString (env.DstBridge.TxHash t)) true,
            .updateResult true swap.TxID m true,
            .updateStatus true swap.TxID .TxProcessed none true] ++ post ∧
        m.SwapTx = hashString (env.DstBridge.TxHash t) ∧
        (∀ e ∈ pre, e.isPrelude = true) ∧ (∃ e ∈ pre, e.isSign = true) ∧
        (∀ e ∈ post, e.isSend = true ∨ e.isProbe = true ∨ e.isDemotion = true)) ∧
    ((∃ m, Event.updateResult false swap.TxID m true ∈
        newEvents w (processSwapoutSwap env swap w).2) →
      Event.updateStatus false swap.TxID .TxProcessed none true ∈
        newEvents w (processSwapoutSwap env swap w).2 →
      ∃ pre m t post,
        newEvents w (processSwapoutSwap env swap w).2 =
          pre ++ [.addHistory swap.TxID (hashString (env.SrcBridge.TxHash t)) false,
            .updateResult false swap.TxID m true,
            .updateStatus false swap.TxID .TxProcessed none true] ++ post ∧
        m.SwapTx = hashString (env.SrcBridge.TxHash t) ∧
        (∀ e ∈ pre, e.isPrelude = true) ∧ (∃ e ∈ pre, e.isSign = true) ∧
        (∀ e ∈ post, e.isSend = true ∨ e.isProbe = true ∨ e.isDemotion = true)) :=
  ⟨processSwap_history_point env true swap w, processSwap_history_point env false swap w⟩

set_option maxRecDepth 1000000 in
/-- Witness of C18: the sample swap-in reaches the broadcast loop. -/
theorem history_insertion_point_witness :
    Event.updateStatus true sampleSwap.TxID .TxProcessed none true ∈ newEvents sampleWorld
      (processSwapinSwap (sampleEnv 0 [sampleRsv 1]) sampleSwap sampleWorld).2 ∧
    ∃ pre m t post,
      newEvents sampleWorld
          (processSwapinSwap (sampleEnv 0 [sampleRsv 1]) sampleSwap sampleWorld).2 =
        pre ++ [.addHistory sampleSwap.TxID
            (hashString ((sampleEnv 0 [sampleRsv 1]).DstBridge.TxHash t)) true,
          .updateResult true sampleSwap.TxID m true,
          .updateStatus true sampleSwap.TxID .TxProcessed none true] ++ post ∧
      m.SwapTx = hashString ((sampleEnv 0 [sampleRsv 1]).DstBridge.TxHash t) ∧
      (∀ e ∈ pre, e.isPrelude = true) ∧ (∃ e ∈ pre, e.isSign = true) ∧
      (∀ e ∈ post, e.isSend = true ∨ e.isProbe = true ∨ e.isDemotion = true) :=
  ⟨by decide,
   (history_insertion_point (sampleEnv 0 [sampleRsv 1]) sampleSwap sampleWorld).1
    ⟨sampleMatchTx, by decide⟩ (by decide)⟩

set_option maxRecDepth 1000000 in
/-- Counterexample to C18 as stated: in the sample swap-in, which reaches the
broadcast loop, the history insertion is the eighth step, before the update of
the result and the update of the status, not after them. -/
theorem history_insertion_counterexample :
    (newEvents sampleWorld
      (processSwapinSwap (sampleEnv 0 [sampleRsv 1]) sampleSwap sampleWorld).2).drop 7 =
      [.addHistory (ascii "tx1") (hashString [0, 7]) true,
        .updateResult true (ascii "tx1") sampleMatchTx true,
        .updateStatus true (ascii "tx1") .TxProcessed none true,
        .send (some sampleSignedTx) true,
        .getTransaction (hashString [0, 7])] := by
  decide
/-! ## Probing after a broadcast -/

theorem isPrelude_not_send (e : Event) (h : e.isPrelude = true) : e.isSend = false := by
  cases e <;> first | rfl | cases h

/-- The sends of a run lie in its broadcast loop: a send without error is
followed by the probe of the signed hash, which ends the run when it shows the
transaction, and a send with an error is not followed by a probe. -/
theorem processSwap_probing (env : Env) (d : Bool) (swap : MgoSwap) (w : World) :
    ∀ pre tx ok post,
      newEvents w (processSwap env d swap w).2 = pre ++ Event.send tx ok :: post →
      ∃ t, tx = some t ∧
        (ok = true →
          ∃ post1, post =
              Event.getTransaction (hashString ((bridgeOf env d).TxHash t)) :: post1 ∧
            (((bridgeOf env d).GetTransaction (clock w + pre.length + 1)
                (hashString ((bridgeOf env d).TxHash t))).1 = true → post1 = [])) ∧
        (ok = false → ∀ e2 post1, post = e2 :: post1 → e2.isProbe = false) := by
  intro pre tx ok post hsplit
  have he : (Event.send tx ok).isSend = true := rfl
  have hmem : Event.send tx ok ∈ newEvents w (processSwap env d swap w).2 := by
    rw [hsplit]; simp
  rcases processSwap_stages env d swap w with ⟨hc, _⟩ | ⟨rec, ok1, _, _, _, ht, _⟩ |
    ⟨w1, hm, ok1, hc, ht⟩ | ⟨value, t, w2, hc, hsign, hrun⟩
  · obtain ⟨pre0, ht, hp, _, _⟩ := hc.events
    rw [newEvents_eq w _ pre0 ht] at hmem
    have := isPrelude_not_send _ (hp _ hmem)
    rw [this] at he; cases he
  · rw [newEvents_eq w _ _ ht] at hmem
    simp at hmem
  · obtain ⟨pre0, ht0, hp, _, _⟩ := hc.events
    rw [ht0, List.append_assoc] at ht
    rw [newEvents_eq w _ _ ht] at hmem
    rcases List.mem_append.mp hmem with h | h
    · have := isPrelude_not_send _ (hp _ h)
      rw [this] at he; cases he
    · simp at h
  · obtain ⟨pre0, ht0, hp, _, hclock⟩ := hc.events
    rw [hrun] at hsplit hmem
    obtain ⟨evs, ht, hcases⟩ := persistAndSend_trace env d swap.TxID value (some t)
      (hashString ((bridgeOf env d).TxHash t)) w2
    rw [ht0, List.append_assoc] at ht
    rw [newEvents_eq w _ _ ht] at hsplit hmem
    have hnot : ∀ tail : List Event, (∀ a ∈ tail, a.isSend = false) →
        Event.send tx ok ∉ pre0 ++ tail := by
      intro tail htail hm
      rcases List.mem_append.mp hm with h | h
      · have := isPrelude_not_send _ (hp _ h)
        rw [this] at he; cases he
      · have := htail _ h
        rw [this] at he; cases he
    rcases hcases with ⟨_, hev⟩ | ⟨_, hev, _⟩ | ⟨L, hshape, _, hrest⟩
    · rw [hev] at hmem
      exact absurd hmem (hnot _ (by
        intro a ha
        simp only [List.mem_cons, List.mem_singleton, List.not_mem_nil, or_false] at ha
        rcases ha with h | h <;> subst h <;> rfl))
    · rw [hev] at hmem
      exact absurd hmem (hnot _ (by
        intro a ha
        simp only [List.mem_cons, List.mem_singleton, List.not_mem_nil, or_false] at ha
        rcases ha with h | h | h <;> subst h <;> rfl))
    · have hA : ∀ a ∈ pre0 ++ persistHead d swap.TxID (hashString ((bridgeOf env d).TxHash t))
          (matchTxOf env d value (hashString ((bridgeOf env d).TxHash t))),
          a.isSend = false := by
        intro a ha
        rcases List.mem_append.mp ha with h | h
        · exact isPrelude_not_send a (hp a h)
        · simp only [persistHead, List.mem_cons, List.mem_singleton, List.not_mem_nil,
            or_false] at h
          rcases h with h | h | h <;> subst h <;> rfl
      have key : ∀ D : List Event, (∀ a ∈ D, a.isSend = false) →
          (D = [] ∨ ∃ e5 D1, D = e5 :: D1 ∧ e5.isProbe = false ∧
            ∃ lpre1, L = lpre1 ++ [Event.send (some t) false]) →
          evs = persistHead d swap.TxID (hashString ((bridgeOf env d).TxHash t))
            (matchTxOf env d value (hashString ((bridgeOf env d).TxHash t))) ++ L ++ D →
          ∃ t1, tx = some t1 ∧
            (ok = true →
              ∃ post1, post =
                  Event.getTransaction (hashString ((bridgeOf env d).TxHash t1)) :: post1 ∧
                (((bridgeOf env d).GetTransaction (clock w + pre.length + 1)
                    (hashString ((bridgeOf env d).TxHash t1))).1 = true → post1 = [])) ∧
            (ok = false → ∀ e2 post1, post = e2 :: post1 → e2.isProbe = false) := by
        intro D hD hDhead hev
        rw [hev] at hsplit
        obtain ⟨lpre, lpost, hL, hpre, hpost⟩ := split_middle Event.isSend
          (pre0 ++ persistHead d swap.TxID (hashString ((bridgeOf env d).TxHash t))
            (matchTxOf env d value (hashString ((bridgeOf env d).TxHash t)))) L D pre post _
          hA hD he (hsplit.symm.trans (by simp))
        have htx : tx = some t := by
          have hin : Event.send tx ok ∈ L := by rw [hL]; simp
          rcases hshape.1 _ hin with h | h | h
          · simp only [Event.send.injEq] at h; exact h.1
          · simp only [Event.send.injEq] at h; exact h.1
          · cases h
        subst htx
        have hlen : clock w2 + 3 + lpre.length + 1 = clock w + pre.length + 1 := by
          rw [hclock, hpre]
          simp only [persistHead, List.length_append, List.length_cons, List.length_nil]
          omega
        refine ⟨t, rfl, ?_, ?_⟩
        · intro hok
          subst hok
          obtain ⟨post1, hlp, hvis⟩ := hshape.2.2.2.1 lpre lpost hL
          rw [hlen] at hvis
          refine ⟨post1 ++ D, by rw [hpost, hlp]; rfl, fun hv => ?_⟩
          have hp1 := hvis hv
          subst hp1
          rcases hDhead with h0 | ⟨e5, D1, _, _, lpre1, hL1⟩
          · rw [h0]; rfl
          · exfalso
            rw [hlp] at hL
            rw [hL] at hL1
            have h2 : (lpre ++ [Event.send (some t) true]) ++
                [Event.getTransaction (hashString ((bridgeOf env d).TxHash t))] =
                lpre1 ++ [Event.send (some t) false] := by
              rw [← hL1]; simp
            have h3 := (List.append_inj' h2 rfl).2
            simp at h3
        · intro hok e2 post1 hp2
          subst hok
          rcases hshape.2.2.2.2 lpre lpost hL with h0 | ⟨ok2, p2, h0⟩
          · rw [h0, List.nil_append] at hpost
            rcases hDhead with hD0 | ⟨e5, D1, hD1, hprobe, _⟩
            · rw [hD0] at hpost
              rw [hpost] at hp2; cases hp2
            · rw [hD1] at hpost
              rw [hpost] at hp2
              simp only [List.cons.injEq] at hp2
              rw [← hp2.1]; exact hprobe
          · rw [h0] at hpost
            rw [hpost] at hp2
            simp only [List.cons_append, List.cons.injEq] at hp2
            rw [← hp2.1]; rfl
      rcases hrest with ⟨_, hev, _⟩ | ⟨e, lpre1, ok5, ok6, _, hL1, _, _, hev, _⟩
      · exact key [] (by intro a ha; cases ha) (Or.inl rfl) (by rw [hev]; simp)
      · exact key _ (by
          intro a ha
          simp only [List.mem_cons, List.mem_singleton, List.not_mem_nil, or_false] at ha
          rcases ha with h | h <;> subst h <;> rfl)
          (Or.inr ⟨.updateStatus d swap.TxID .TxSwapFailed (some e) ok5,
            [.updateResultStatus d swap.TxID .TxSwapFailed (some e) ok6], rfl, rfl, lpre1,
            hL1⟩) hev

/-- C15, amended: broadcast probing. In every run of `processSwapinSwap` and of
`processSwapoutSwap`, each send attempt is one of the signed transaction; after
a send attempt that returned no error the worker probes `GetTransaction` for
the hash of the signed transaction, and when the probe shows the transaction
the run ends there, with no further send attempt; after a send attempt that
returned an error the next step is not a probe. -/
theorem broadcast_probing (env : Env) (swap : MgoSwap) (w : World) :
    (∀ pre tx ok post,
      newEvents w (processSwapinSwap env swap w).2 = pre ++ Event.send tx ok :: post →
      ∃ t, tx = some t ∧
        (ok = true →
          ∃ post1, post = Event.getTransaction (hashString (env.DstBridge.TxHash t)) :: post1 ∧
            ((env.DstBridge.GetTransaction (clock w + pre.length + 1)
                (hashString (env.DstBridge.TxHash t))).1 = true → post1 = [])) ∧
        (ok = false → ∀ e2 post1, post = e2 :: post1 → e2.isProbe = false)) ∧
    (∀ pre tx ok post,
      newEvents w (processSwapoutSwap env swap w).2 = pre ++ Event.send tx ok :: post →
      ∃ t, tx = some t ∧
        (ok = true →
          ∃ post1, post = Event.getTransaction (hashString (env.SrcBridge.TxHash t)) :: post1 ∧
            ((env.SrcBridge.GetTransaction (clock w + pre.length + 1)
                (hashString (env.SrcBridge.TxHash t))).1 = true → post1 = [])) ∧
        (ok = false → ∀ e2 post1, post = e2 :: post1 → e2.isProbe = false)) :=
  ⟨processSwap_probing env true swap w, processSwap_probing env false swap w⟩

set_option maxRecDepth 1000000 in
/-- Witness of C15: in the sample swap-in with a node that refuses the first
send, the refused send is followed by the second send, and the second send by a
probe. -/
theorem broadcast_probing_witness :
    newEvents sampleWorld (processSwapinSwap sampleFlakyEnv sampleSwap sampleWorld).2 =
      (newEvents sampleWorld
        (processSwapinSwap sampleFlakyEnv sampleSwap sampleWorld).2).take 10 ++
        Event.send (some sampleSignedTx) false ::
          [Event.send (some sampleSignedTx) true, Event.getTransaction (hashString [0, 7])] ∧
    ∀ e2 post1,
      [Event.send (some sampleSignedTx) true, Event.getTransaction (hashString [0, 7])] =
        e2 :: post1 → e2.isProbe = false :=
  ⟨by decide,
   ((broadcast_probing sampleFlakyEnv sampleSwap sampleWorld).1
    ((newEvents sampleWorld (processSwapinSwap sampleFlakyEnv sampleSwap sampleWorld).2).take 10)
    (some sampleSignedTx) false
    [Event.send (some sampleSignedTx) true, Event.getTransaction (hashString [0, 7])]
    (by decide)).elim (fun _ h => h.2.2 rfl)⟩

set_option maxRecDepth 1000000 in
/-- Counterexample to C15 as stated: the node refuses the first send; the
worker makes no probe after this attempt and sends again at once. -/
theorem broadcast_probing_counterexample :
    (newEvents sampleWorld (processSwapinSwap sampleFlakyEnv sampleSwap sampleWorld).2).drop 10 =
      [Event.send (some sampleSignedTx) false, Event.send (some sampleSignedTx) true,
        Event.getTransaction (hashString [0, 7])] := by
  decide

/-! ## Exhausted broadcasts -/

theorem isPrelude_not_demotion (e : Event) (h : e.isPrelude = true) :
    e.isDemotion = false := by
  cases e <;> first | rfl | cases h

theorem filter_isSend_prelude (pre : List Event) (hp : ∀ e ∈ pre, e.isPrelude = true) :
    pre.filter Event.isSend = [] := by
  rw [List.filter_eq_nil_iff]
  intro a ha
  rw [isPrelude_not_send a (hp a ha)]
  simp

theorem filter_isSend_persistHead (d : Bool) (txid h : GoString) (m : MatchTx) :
    (persistHead d txid h m).filter Event.isSend = [] := rfl

/-- A run that made a send and got an error from every send: all
`retrySendTxCount` sends were made, the run returns the error of the last one
and ends with the two demotions that carry this error. -/
theorem processSwap_exhaustion (env : Env) (d : Bool) (swap : MgoSwap) (w : World)
    (hsent : ∃ e ∈ newEvents w (processSwap env d swap w).2, e.isSend = true)
    (hall : ∀ e ∈ newEvents w (processSwap env d swap w).2, e.isSendOk = false) :
    ∃ e t pre ok5 ok6,
      (processSwap env d swap w).1 = some e ∧
      newEvents w (processSwap env d swap w).2 =
        pre ++ [.send (some t) false,
          .updateStatus d swap.TxID .TxSwapFailed (some e) ok5,
          .updateResultStatus d swap.TxID .TxSwapFailed (some e) ok6] ∧
      (bridgeOf env d).SendTransaction (clock w + pre.length) (some t) = some e ∧
      ((newEvents w (processSwap env d swap w).2).filter Event.isSend).length =
        env.retrySendTxCount ∧
      (ok5 = true →
        ∃ r, (processSwap env d swap w).2.store.swaps d swap.TxID = some r ∧
          r.Status = .TxSwapFailed ∧ r.Memo = some e) ∧
      (ok6 = true →
        ∃ r, (processSwap env d swap w).2.store.results d swap.TxID = some r ∧
          r.Status = .TxSwapFailed ∧ r.Memo = some e) := by
  obtain ⟨s, hs, hsend⟩ := hsent
  rcases processSwap_stages env d swap w with ⟨hc, _⟩ | ⟨rec, ok1, _, _, _, ht, _⟩ |
    ⟨w1, hm, ok1, hc, ht⟩ | ⟨value, t, w2, hc, hsign, hrun⟩
  · obtain ⟨pre0, ht, hp, _, _⟩ := hc.events
    rw [newEvents_eq w _ pre0 ht] at hs
    have := isPrelude_not_send _ (hp _ hs)
    rw [this] at hsend; cases hsend
  · rw [newEvents_eq w _ _ ht] at hs
    simp only [List.mem_cons, List.mem_singleton, List.not_mem_nil, or_false] at hs
    rcases hs with h | h <;> subst h <;> cases hsend
  · obtain ⟨pre0, ht0, hp, _, _⟩ := hc.events
    rw [ht0, List.append_assoc] at ht
    rw [newEvents_eq w _ _ ht] at hs
    rcases List.mem_append.mp hs with h | h
    · have := isPrelude_not_send _ (hp _ h)
      rw [this] at hsend; cases hsend
    · simp only [List.mem_singleton] at h
      subst h; cases hsend
  · obtain ⟨pre0, ht0, hp, _, hclock⟩ := hc.events
    rw [hrun] at hs hall ⊢
    obtain ⟨evs, ht, hcases⟩ := persistAndSend_trace env d swap.TxID value (some t)
      (hashString ((bridgeOf env d).TxHash t)) w2
    rw [ht0, List.append_assoc] at ht
    rw [newEvents_eq w _ _ ht] at hs hall ⊢
    have hnot : ∀ tail : List Event, (∀ a ∈ tail, a.isSend = false) → s ∉ pre0 ++ tail := by
      intro tail htail hm
      rcases List.mem_append.mp hm with h | h
      · have := isPrelude_not_send _ (hp _ h)
        rw [this] at hsend; cases hsend
      · have := htail _ h
        rw [this] at hsend; cases hsend
    rcases hcases with ⟨_, hev⟩ | ⟨_, hev, _⟩ | ⟨L, hshape, _, hrest⟩
    · rw [hev] at hs
      exact absurd hs (hnot _ (by
        intro a ha
        simp only [List.mem_cons, List.mem_singleton, List.not_mem_nil, or_false] at ha
        rcases ha with h | h <;> subst h <;> rfl))
    · rw [hev] at hs
      exact absurd hs (hnot _ (by
        intro a ha
        simp only [List.mem_cons, List.mem_singleton, List.not_mem_nil, or_false] at ha
        rcases ha with h | h | h <;> subst h <;> rfl))
    · rcases hrest with ⟨_, hev, hn⟩ | ⟨e, lpre, ok5, ok6, hres, hL, hsnd, hcount, hev, h5, h6⟩
      · exfalso
        rcases hn with h0 | hmem
        · rw [h0] at hshape
          have hLnil := hshape.zero
          rw [hev, hLnil] at hs
          exact absurd hs (hnot _ (by
            intro a ha
            simp only [persistHead, List.append_nil, List.mem_cons, List.mem_singleton,
              List.not_mem_nil, or_false] at ha
            rcases ha with h | h | h <;> subst h <;> rfl))
        · have := hall (Event.send (some t) true) (by rw [hev]; simp [hmem])
          cases this
      · refine ⟨e, t, pre0 ++ persistHead d swap.TxID (hashString ((bridgeOf env d).TxHash t))
          (matchTxOf env d value (hashString ((bridgeOf env d).TxHash t))) ++ lpre, ok5, ok6,
          hres, by rw [hev, hL]; simp, ?_, ?_, h5, h6⟩
        · have hlen : clock w + (pre0 ++ persistHead d swap.TxID
              (hashString ((bridgeOf env d).TxHash t))
              (matchTxOf env d value (hashString ((bridgeOf env d).TxHash t))) ++ lpre).length =
              clock w2 + 3 + lpre.length := by
            rw [hclock]
            simp only [persistHead, List.length_append, List.length_cons, List.length_nil]
            omega
          rw [hlen]; exact hsnd
        · rw [hev]
          simp only [List.filter_append, filter_isSend_prelude pre0 hp,
            filter_isSend_persistHead, List.nil_append, List.length_append, hcount]
          rfl

/-- A demotion of a run comes after all `retrySendTxCount` sends, and no send
comes after it. -/
theorem processSwap_demotion (env : Env) (d : Bool) (swap : MgoSwap) (w : World) :
    ∀ pre e post, newEvents w (processSwap env d swap w).2 = pre ++ e :: post →
      e.isDemotion = true →
      (pre.filter Event.isSend).length = env.retrySendTxCount ∧
        ∀ a ∈ post, a.isSend = false := by
  intro pre e post hsplit he
  have hmem : e ∈ newEvents w (processSwap env d swap w).2 := by rw [hsplit]; simp
  rcases processSwap_stages env d swap w with ⟨hc, _⟩ | ⟨rec, ok1, _, _, _, ht, _⟩ |
    ⟨w1, hm, ok1, hc, ht⟩ | ⟨value, t, w2, hc, hsign, hrun⟩
  · obtain ⟨pre0, ht, hp, _, _⟩ := hc.events
    rw [newEvents_eq w _ pre0 ht] at hmem
    have := isPrelude_not_demotion _ (hp _ hmem)
    rw [this] at he; cases he
  · rw [newEvents_eq w _ _ ht] at hmem
    simp only [List.mem_cons, List.mem_singleton, List.not_mem_nil, or_false] at hmem
    rcases hmem with h | h <;> subst h <;> cases he
  · obtain ⟨pre0, ht0, hp, _, _⟩ := hc.events
    rw [ht0, List.append_assoc] at ht
    rw [newEvents_eq w _ _ ht] at hmem
    rcases List.mem_append.mp hmem with h | h
    · have := isPrelude_not_demotion _ (hp _ h)
      rw [this] at he; cases he
    · simp only [List.mem_singleton] at h
      subst h; cases he
  · obtain ⟨pre0, ht0, hp, _, _⟩ := hc.events
    rw [hrun] at hsplit hmem
    obtain ⟨evs, ht, hcases⟩ := persistAndSend_trace env d swap.TxID value (some t)
      (hashString ((bridgeOf env d).TxHash t)) w2
    rw [ht0, List.append_assoc] at ht
    rw [newEvents_eq w _ _ ht] at hsplit hmem
    have hnot : ∀ tail : List Event, (∀ a ∈ tail, a.isDemotion = false) → e ∉ pre0 ++ tail := by
      intro tail htail hm
      rcases List.mem_append.mp hm with h | h
      · have := isPrelude_not_demotion _ (hp _ h)
        rw [this] at he; cases he
      · have := htail _ h
        rw [this] at he; cases he
    rcases hcases with ⟨_, hev⟩ | ⟨_, hev, _⟩ | ⟨L, hshape, _, hrest⟩
    · rw [hev] at hmem
      exact absurd hmem (hnot _ (by
        intro a ha
        simp only [List.mem_cons, List.mem_singleton, List.not_mem_nil, or_false] at ha
        rcases ha with h | h <;> subst h <;> rfl))
    · rw [hev] at hmem
      exact absurd hmem (hnot _ (by
        intro a ha
        simp only [List.mem_cons, List.mem_singleton, List.not_mem_nil, or_false] at ha
        rcases ha with h | h | h <;> subst h <;> rfl))
    · have hL : ∀ a ∈ L, a.isDemotion = false := by
        intro a ha
        rcases hshape.1 a ha with h | h | h <;> subst h <;> rfl
      have hA : ∀ a ∈ pre0 ++ (persistHead d swap.TxID (hashString ((bridgeOf env d).TxHash t))
          (matchTxOf env d value (hashString ((bridgeOf env d).TxHash t))) ++ L),
          a.isDemotion = false := by
        intro a ha
        rcases List.mem_append.mp ha with h | h
        · exact isPrelude_not_demotion a (hp a h)
        · rcases List.mem_append.mp h with h | h
          · simp only [persistHead, List.mem_cons, List.mem_singleton, List.not_mem_nil,
              or_false] at h
            rcases h with h | h | h <;> subst h <;> rfl
          · exact hL a h
      rcases hrest with ⟨_, hev, _⟩ | ⟨e1, lpre, ok5, ok6, _, _, _, hcount, hev, _⟩
      · rw [hev] at hmem
        exact absurd hmem (fun hm => by
          have := hA e hm
          rw [this] at he; cases he)
      · rw [hev] at hsplit
        obtain ⟨dpre, dpost, hD, hpre, hpost⟩ := split_middle Event.isDemotion
          (pre0 ++ (persistHead d swap.TxID (hashString ((bridgeOf env d).TxHash t))
            (matchTxOf env d value (hashString ((bridgeOf env d).TxHash t))) ++ L))
          [.updateStatus d swap.TxID .TxSwapFailed (some e1) ok5,
            .updateResultStatus d swap.TxID .TxSwapFailed (some e1) ok6] [] pre post e
          hA (by intro a ha; cases ha) he (hsplit.symm.trans (by simp))
        have hdpre : dpre.filter Event.isSend = [] := by
          cases dpre with
          | nil => rfl
          | cons a1 d1 =>
            simp only [List.cons_append, List.cons.injEq] at hD
            cases d1 with
            | nil => rw [← hD.1]; rfl
            | cons a2 d2 =>
              simp only [List.cons_append, List.cons.injEq] at hD
              cases d2 with
              | nil => simp at hD
              | cons a3 d3 => simp at hD
        have hdpost : ∀ a ∈ dpost, a.isSend = false := by
          intro a ha
          have : a ∈ [Event.updateStatus d swap.TxID .TxSwapFailed (some e1) ok5,
              Event.updateResultStatus d swap.TxID .TxSwapFailed (some e1) ok6] := by
            rw [hD]; simp [ha]
          simp only [List.mem_cons, List.mem_singleton, List.not_mem_nil, or_false] at this
          rcases this with h | h <;> subst h <;> rfl
        refine ⟨?_, ?_⟩
        · rw [hpre]
          simp only [List.filter_append, filter_isSend_prelude pre0 hp,
            filter_isSend_persistHead, List.nil_append, List.length_append, hcount, hdpre,
            List.length_nil, Nat.add_zero]
        · intro a ha
          rw [hpost, List.append_nil] at ha
          exact hdpost a ha

/-! ## The order of unspent outputs -/

theorem confirmedAt_readable (s : SortableElectUtxoSlice) (i : Nat) (c : Bool) (v : Nat)
    (h : ∃ u, s[i]? = some u ∧ readableUtxo u c v) :
    s.confirmedAt i = some c ∧ s.valueAt i = some v := by
  obtain ⟨u, hu, x, st, rfl, hst, hc, hv⟩ := h
  simp [SortableElectUtxoSlice.confirmedAt, SortableElectUtxoSlice.valueAt, hu, hst, hc, hv]

/-- On readable elements `Less` is the order `utxoBefore`. -/
theorem Less_readable (s : SortableElectUtxoSlice) (i j : Nat) (c1 c2 : Bool) (v1 v2 : Nat)
    (hi : ∃ u, s[i]? = some u ∧ readableUtxo u c1 v1)
    (hj : ∃ u, s[j]? = some u ∧ readableUtxo u c2 v2) :
    s.Less i j = some (decide (utxoBefore c1 v1 c2 v2)) := by
  obtain ⟨hc1, hv1⟩ := confirmedAt_readable s i c1 v1 hi
  obtain ⟨hc2, hv2⟩ := confirmedAt_readable s j c2 v2 hj
  unfold SortableElectUtxoSlice.Less
  simp only [hc1, hc2, hv1, hv2]
  cases c1 <;> cases c2 <;> simp [utxoBefore]

/-- C25: UTXO sort order. On elements that can be read,
`SortableElectUtxoSlice.Less(i, j)` holds exactly when element `i` is confirmed
and `j` is not, or both have the same confirmation flag and the value of `i` is
strictly greater. On a slice of such elements the relation is a strict weak
ordering: irreflexive, asymmetric, transitive, with transitive incomparability;
and in a slice where no later element is less than an earlier one, as a sort
leaves it, a confirmed element never follows an unconfirmed one and among
elements of the same flag the values do not increase. -/
theorem utxo_sort_order (s : SortableElectUtxoSlice)
    (hread : ∀ i, i < s.length → ∃ u c v, s[i]? = some u ∧ readableUtxo u c v) :
    (∀ i j c1 v1 c2 v2, (∃ u, s[i]? = some u ∧ readableUtxo u c1 v1) →
      (∃ u, s[j]? = some u ∧ readableUtxo u c2 v2) →
      (s.Less i j = some true ↔ utxoBefore c1 v1 c2 v2) ∧
      (s.Less i j = some false ↔ ¬ utxoBefore c1 v1 c2 v2)) ∧
    (∀ i, i < s.length → s.Less i i = some false) ∧
    (∀ i j, i < s.length → j < s.length → s.Less i j = some true → s.Less j i = some false) ∧
    (∀ i j k, i < s.length → j < s.length → k < s.length →
      s.Less i j = some true → s.Less j k = some true → s.Less i k = some true) ∧
    (∀ i j k, i < s.length → j < s.length → k < s.length →
      s.Less i j = some false → s.Less j i = some false →
      s.Less j k = some false → s.Less k j = some false →
      s.Less i k = some false ∧ s.Less k i = some false) ∧
    ((∀ i j, i < j → j < s.length → s.Less j i = some false) →
      ∀ i j, i < j → j < s.length →
        ∀ c1 v1 c2 v2, (∃ u, s[i]? = some u ∧ readableUtxo u c1 v1) →
          (∃ u, s[j]? = some u ∧ readableUtxo u c2 v2) →
          ¬ (c1 = false ∧ c2 = true) ∧ (c1 = c2 → v2 ≤ v1)) := by
  have hless : ∀ i j c1 v1 c2 v2, (∃ u, s[i]? = some u ∧ readableUtxo u c1 v1) →
      (∃ u, s[j]? = some u ∧ readableUtxo u c2 v2) →
      (s.Less i j = some true ↔ utxoBefore c1 v1 c2 v2) ∧
      (s.Less i j = some false ↔ ¬ utxoBefore c1 v1 c2 v2) := by
    intro i j c1 v1 c2 v2 hi hj
    rw [Less_readable s i j c1 c2 v1 v2 hi hj]
    simp
  have hget : ∀ i, i < s.length → ∃ c v, ∃ u, s[i]? = some u ∧ readableUtxo u c v := by
    intro i hi
    obtain ⟨u, c, v, h1, h2⟩ := hread i hi
    exact ⟨c, v, u, h1, h2⟩
  refine ⟨hless, ?_, ?_, ?_, ?_, ?_⟩
  · intro i hi
    obtain ⟨c, v, h⟩ := hget i hi
    rw [(hless i i c v c v h h).2]
    unfold utxoBefore
    cases c <;> simp
  · intro i j hi hj hij
    obtain ⟨c1, v1, h1⟩ := hget i hi
    obtain ⟨c2, v2, h2⟩ := hget j hj
    rw [(hless i j c1 v1 c2 v2 h1 h2).1] at hij
    rw [(hless j i c2 v2 c1 v1 h2 h1).2]
    unfold utxoBefore at hij ⊢
    cases c1 <;> cases c2 <;> simp at hij ⊢ <;> omega
  · intro i j k hi hj hk hij hjk
    obtain ⟨c1, v1, h1⟩ := hget i hi
    obtain ⟨c2, v2, h2⟩ := hget j hj
    obtain ⟨c3, v3, h3⟩ := hget k hk
    rw [(hless i j c1 v1 c2 v2 h1 h2).1] at hij
    rw [(hless j k c2 v2 c3 v3 h2 h3).1] at hjk
    rw [(hless i k c1 v1 c3 v3 h1 h3).1]
    unfold utxoBefore at hij hjk ⊢
    cases c1 <;> cases c2 <;> cases c3 <;> simp at hij hjk ⊢ <;> omega
  · intro i j k hi hj hk hij hji hjk hkj
    obtain ⟨c1, v1, h1⟩ := hget i hi
    obtain ⟨c2, v2, h2⟩ := hget j hj
    obtain ⟨c3, v3, h3⟩ := hget k hk
    rw [(hless i j c1 v1 c2 v2 h1 h2).2] at hij
    rw [(hless j i c2 v2 c1 v1 h2 h1).2] at hji
    rw [(hless j k c2 v2 c3 v3 h2 h3).2] at hjk
    rw [(hless k j c3 v3 c2 v2 h3 h2).2] at hkj
    rw [(hless i k c1 v1 c3 v3 h1 h3).2, (hless k i c3 v3 c1 v1 h3 h1).2]
    unfold utxoBefore at hij hji hjk hkj ⊢
    cases c1 <;> cases c2 <;> cases c3 <;> simp at hij hji hjk hkj ⊢ <;> omega
  · intro hsorted i j hij hj c1 v1 c2 v2 h1 h2
    have := hsorted i j hij hj
    rw [(hless j i c2 v2 c1 v1 h2 h1).2] at this
    unfold utxoBefore at this
    cases c1 <;> cases c2 <;> simp at this ⊢ <;> omega

set_option maxRecDepth 100000 in
/-- Witness of C25: a confirmed output of 5, an unconfirmed one of 9 and a
confirmed one of 7. The first is less than the second, and the third is less
than the first. -/
theorem utxo_sort_order_witness :
    SortableElectUtxoSlice.Less [sampleUtxo true 5, sampleUtxo false 9, sampleUtxo true 7] 0 1 =
      some true ∧
    SortableElectUtxoSlice.Less [sampleUtxo true 5, sampleUtxo false 9, sampleUtxo true 7] 2 0 =
      some true ∧
    SortableElectUtxoSlice.Less [sampleUtxo true 5, sampleUtxo false 9, sampleUtxo true 7] 2 1 =
      some true :=
  have h := utxo_sort_order [sampleUtxo true 5, sampleUtxo false 9, sampleUtxo true 7]
    (by
      intro i hi
      have hi3 : i < 3 := hi
      interval_cases i
      · exact ⟨_, true, 5, rfl, _, _, rfl, rfl, rfl, rfl⟩
      · exact ⟨_, false, 9, rfl, _, _, rfl, rfl, rfl, rfl⟩
      · exact ⟨_, true, 7, rfl, _, _, rfl, rfl, rfl, rfl⟩)
  ⟨by decide, by decide, h.2.2.2.1 2 0 1 (by decide) (by decide) (by decide) (by decide)
    (by decide)⟩
/-! ## The sender of a deposit -/

/-- Source `getTxFrom` returns the address of the first input that resolves to
one, and the empty string when there is none. -/
theorem getTxFrom_firstSender (vin : List (Option ElectTxin)) :
    getTxFrom vin = firstSender vin := by
  induction vin with
  | nil => rfl
  | cons input rest ih =>
    cases input with
    | none => simpa [getTxFrom, firstSender, inputAddress] using ih
    | some i =>
      cases hp : i.Prevout with
      | none =>
        simp only [getTxFrom, hp]
        rw [ih]
        simp [firstSender, inputAddress, hp]
      | some prevout =>
        cases ha : prevout.ScriptpubkeyAddress with
        | none =>
          simp only [getTxFrom, hp, ha]
          rw [ih]
          simp [firstSender, inputAddress, hp, ha]
        | some addr =>
          simp [getTxFrom, firstSender, inputAddress, hp, ha]

/-- The swap info `VerifyP2shTransaction` fills once the receiver check has
passed. -/
theorem VerifyP2shTransaction_found (b : BtcBridge) (txHash bindAddress p2sh : GoString)
    (allowUnstable : Bool) (tx : ElectTx) (st : ElectTxStatus) (value : Nat)
    (memoScript : GoString) (rightReceiver : Bool)
    (hsrc : b.IsSrc = true) (hp : b.GetP2shAddress bindAddress = some p2sh)
    (hs : allowUnstable = true ∨ checkStable b txHash = true)
    (hf : b.GetTransactionByHash txHash = some tx) (hst : tx.Status = some st)
    (hr : getReceivedValue b tx.Vout p2sh = some (value, memoScript, rightReceiver)) :
    VerifyP2shTransaction b txHash bindAddress allowUnstable =
      if !rightReceiver then
        some (withStatus (newSwapInfo txHash) st, some .ErrTxWithWrongReceiver)
      else
        let swapInfo2 : TxSwapInfo :=
          { withStatus (newSwapInfo txHash) st with
            To := p2sh, Bind := bindAddress, Value := some value, From := getTxFrom tx.Vin }
        if getTxFrom tx.Vin = p2sh then some (swapInfo2, some .ErrTxWithWrongSender)
        else if !b.CheckSwapValue value b.IsSrc then
          some (swapInfo2, some .ErrTxWithWrongValue)
        else some (swapInfo2, none) := by
  have hs2 : (!allowUnstable && !checkStable b txHash) = false := by
    rcases hs with h | h <;> simp [h]
  unfold VerifyP2shTransaction
  simp only [hsrc, hp, hs2, hf, hst, hr]
  rfl

/-- C26: sender determination. For every input list, `getTxFrom` returns the
previous-output address of the first input that is not nil and has a previous
output with an address, and the empty string when no input qualifies. When the
earlier checks pass, `verifySwapinTx` returns `ErrTxWithWrongSender` exactly
when this sender equals the custody address, the receiver, and
`VerifyP2shTransaction` exactly when it equals the derived script address. -/
theorem sender_determination (b : BtcBridge) (txHash : GoString) (allowUnstable : Bool)
    (tx : ElectTx) (st : ElectTxStatus)
    (hs : allowUnstable = true ∨ checkStable b txHash = true)
    (hf : b.GetTransactionByHash txHash = some tx) (hst : tx.Status = some st) :
    getTxFrom tx.Vin = firstSender tx.Vin ∧
    (∀ value memoScript,
      getReceivedValue b tx.Vout b.DcrmAddress = some (value, memoScript, true) →
      ((∃ info, verifySwapinTx b txHash allowUnstable = some (info, some .ErrTxWithWrongSender)) ↔
        firstSender tx.Vin = b.DcrmAddress)) ∧
    (∀ bindAddress p2sh value memoScript, b.IsSrc = true →
      b.GetP2shAddress bindAddress = some p2sh →
      getReceivedValue b tx.Vout p2sh = some (value, memoScript, true) →
      ((∃ info, VerifyP2shTransaction b txHash bindAddress allowUnstable =
          some (info, some .ErrTxWithWrongSender)) ↔
        firstSender tx.Vin = p2sh)) := by
  refine ⟨getTxFrom_firstSender _, ?_, ?_⟩
  · intro value memoScript hr
    rw [verifySwapinTx_found b txHash allowUnstable tx st value memoScript true hs hf hst hr,
      ← getTxFrom_firstSender]
    by_cases hfrom : getTxFrom tx.Vin = b.DcrmAddress
    · simp [hfrom]
    · simp only [Bool.not_true, Bool.false_eq_true, if_false, hfrom, iff_false, not_exists]
      intro info
      split
      · simp
      · split
        · simp
        · split <;> simp
  · intro bindAddress p2sh value memoScript hsrc hp hr
    rw [VerifyP2shTransaction_found b txHash bindAddress p2sh allowUnstable tx st value
      memoScript true hsrc hp hs hf hst hr, ← getTxFrom_firstSender]
    by_cases hfrom : getTxFrom tx.Vin = p2sh
    · simp [hfrom]
    · simp only [Bool.not_true, Bool.false_eq_true, if_false, hfrom, iff_false, not_exists]
      intro info
      split <;> simp

set_option maxRecDepth 100000 in
/-- Witness of C26: a deposit to the custody address funded by the custody
address itself is rejected for its sender. -/
theorem sender_determination_witness :
    firstSender (sampleTx (ascii "dcrm") (ascii "dcrm") sampleMemoScript 150).Vin = ascii "dcrm" ∧
    ∃ info, verifySwapinTx (sampleBridge (sampleTx (ascii "dcrm") (ascii "dcrm")
      sampleMemoScript 150)) (ascii "tx1") false = some (info, some .ErrTxWithWrongSender) :=
  ⟨by decide,
   ((sender_determination (sampleBridge (sampleTx (ascii "dcrm") (ascii "dcrm")
      sampleMemoScript 150)) (ascii "tx1") false
      (sampleTx (ascii "dcrm") (ascii "dcrm") sampleMemoScript 150)
      { BlockHeight := some 100, BlockHash := none, BlockTime := some 1600000000 }
      (Or.inr (by decide)) (by decide) rfl).2.1 150 sampleMemoScript (by decide)).2
      (by decide)⟩

/-! ## Looking up the history -/

/-- C27: the history lookup is sound and complete. For every state of the
cache, those reached by `addSwapHistory` calls among them, and every query,
`getSwapHistory` returns an entry if and only if an entry of the ring has the
queried transaction id and direction, and an entry it returns is an entry of
the ring with exactly this transaction id and direction. -/
theorem history_lookup_sound_complete (env : Env) (es : List swapInfo) (w : World)
    (txid : GoString) (isSwapin : Bool) :
    ((∃ item, getSwapHistory txid isSwapin (addEntries env es w) = some item) ↔
      ∃ e ∈ (addEntries env es w).swapRing, e.txid = txid ∧ e.isSwapin = isSwapin) ∧
    (∀ item, getSwapHistory txid isSwapin (addEntries env es w) = some item →
      item.txid = txid ∧ item.isSwapin = isSwapin ∧ item ∈ (addEntries env es w).swapRing) ∧
    ((∃ item, getSwapHistory txid isSwapin w = some item) ↔
      ∃ e ∈ w.swapRing, e.txid = txid ∧ e.isSwapin = isSwapin) ∧
    (∀ item, getSwapHistory txid isSwapin w = some item →
      item.txid = txid ∧ item.isSwapin = isSwapin ∧ item ∈ w.swapRing) := by
  have sound : ∀ (w1 : World) item, getSwapHistory txid isSwapin w1 = some item →
      item.txid = txid ∧ item.isSwapin = isSwapin ∧ item ∈ w1.swapRing := by
    intro w1 item h
    rw [getSwapHistory_eq] at h
    cases hr : w1.swapRing with
    | nil => rw [hr] at h; cases h
    | cons x xs =>
      rw [hr] at h
      have hk := List.find?_some h
      have hm := List.mem_of_find?_eq_some h
      simp only [hasKey, decide_eq_true_eq] at hk
      exact ⟨hk.1, hk.2, by simpa using hm⟩
  have complete : ∀ (w1 : World),
      (∃ e ∈ w1.swapRing, e.txid = txid ∧ e.isSwapin = isSwapin) →
      ∃ item, getSwapHistory txid isSwapin w1 = some item := by
    intro w1 ⟨e, he, h1, h2⟩
    obtain ⟨item, hitem, _⟩ := getSwapHistory_found w1 e he
    rw [h1, h2] at hitem
    exact ⟨item, hitem⟩
  refine ⟨⟨fun ⟨item, h⟩ => ?_, complete _⟩, sound _, ⟨fun ⟨item, h⟩ => ?_, complete _⟩, sound _⟩
  · obtain ⟨h1, h2, h3⟩ := sound _ item h
    exact ⟨item, h3, h1, h2⟩
  · obtain ⟨h1, h2, h3⟩ := sound _ item h
    exact ⟨item, h3, h1, h2⟩

/-! ## The stability gate -/

theorem GetTransactionStatus_height (b : BtcBridge) (txHash : GoString) :
    (GetTransactionStatus b txHash).BlockHeight = reportedHeight b txHash ∧
    (reportedHeight b txHash ≠ 0 →
      (GetTransactionStatus b txHash).Confirmations = confirmationDepth b txHash) := by
  unfold GetTransactionStatus confirmationDepth reportedHeight
  cases hst : b.GetElectTransactionStatus txHash with
  | none => simp
  | some s =>
    obtain ⟨bh, bhash, bt, cf⟩ := s
    cases hl : b.GetLatestBlockNumber with
    | none => cases bh <;> cases bhash <;> cases bt <;> simp
    | some latest =>
      cases bh with
      | none => cases bhash <;> cases bt <;> simp
      | some h =>
        by_cases hgt : latest > h
        · cases bhash <;> cases bt <;> simp [hgt]
        · cases bhash <;> cases bt <;> simp [hgt]

/-- Source `checkStable` fails exactly on the transactions the gate turns away. -/
theorem checkStable_false_iff (b : BtcBridge) (txHash : GoString) :
    checkStable b txHash = false ↔ unstable b txHash := by
  obtain ⟨hh, hc⟩ := GetTransactionStatus_height b txHash
  unfold checkStable unstable
  simp only [hh, Bool.and_eq_false_imp, decide_eq_true_eq, decide_eq_false_iff_not, not_le, gt_iff_lt]
  constructor
  · intro h
    by_cases h0 : reportedHeight b txHash = 0
    · exact Or.inl h0
    · right
      rw [← hc h0]
      exact h (Nat.pos_of_ne_zero h0)
  · intro h hpos
    rcases h with h | h
    · omega
    · rw [hc (by omega)]
      exact h

theorem verifySwapinTx_not_unstable (b : BtcBridge) (txHash : GoString) (allowUnstable : Bool)
    (hs : allowUnstable = true ∨ checkStable b txHash = true) (info : TxSwapInfo) :
    verifySwapinTx b txHash allowUnstable ≠ some (info, some .ErrTxNotStable) := by
  have hs2 : (!allowUnstable && !checkStable b txHash) = false := by
    rcases hs with h | h <;> simp [h]
  unfold verifySwapinTx
  simp only [hs2, Bool.false_eq_true, if_false]
  split
  · simp
  · split
    · simp
    · dsimp only
      split
      · simp
      · split
        · simp
        · split
          · simp
          · split
            · simp
            · split
              · simp
              · split <;> simp

theorem VerifyP2shTransaction_not_unstable (b : BtcBridge) (txHash bindAddress : GoString)
    (allowUnstable : Bool) (hs : allowUnstable = true ∨ checkStable b txHash = true)
    (info : TxSwapInfo) :
    VerifyP2shTransaction b txHash bindAddress allowUnstable ≠
      some (info, some .ErrTxNotStable) := by
  have hs2 : (!allowUnstable && !checkStable b txHash) = false := by
    rcases hs with h | h <;> simp [h]
  unfold VerifyP2shTransaction
  split
  · simp
  · split
    · simp
    · simp only [hs2, Bool.false_eq_true, if_false]
      split
      · simp
      · split
        · simp
        · dsimp only
          split
          · simp
          · split
            · simp
            · split
              · simp
              · split <;> simp

theorem VerifyP2shTransaction_unstable (b : BtcBridge) (txHash bindAddress p2sh : GoString)
    (hsrc : b.IsSrc = true) (hp : b.GetP2shAddress bindAddress = some p2sh)
    (hs : checkStable b txHash = false) :
    VerifyP2shTransaction b txHash bindAddress false =
      some (newSwapInfo txHash, some .ErrTxNotStable) := by
  unfold VerifyP2shTransaction
  simp [hsrc, hp, hs]

/-- The received value depends on the bridge through its two script type
constants only. -/
theorem getReceivedValue_congr (b b1 : BtcBridge) (h1 : b1.opReturnType = b.opReturnType)
    (h2 : b1.p2pkhType = b.p2pkhType) (receiver : GoString) (vout : List (Option ElectTxOut)) :
    getReceivedValue b1 vout receiver = getReceivedValue b vout receiver := by
  unfold getReceivedValue
  generalize ((0, [], false) : Nat × GoString × Bool) = acc
  induction vout generalizing acc with
  | nil => rfl
  | cons o rest ih =>
    obtain ⟨value, memo, right⟩ := acc
    cases o with
    | none => rfl
    | some out =>
      unfold getReceivedValueLoop
      rw [h1, h2]
      cases out.ScriptpubkeyType with
      | none => rfl
      | some ty =>
        dsimp only
        split
        · cases out.ScriptpubkeyAsm with
          | none => rfl
          | some asm => exact ih _
        · split
          · cases out.ScriptpubkeyAddress with
            | none => rfl
            | some addr =>
              dsimp only
              split
              · exact ih _
              · cases out.Value with
                | none => rfl
                | some v => exact ih _
          · exact ih _

/-- C22, amended: stability gate. With `allowUnstable = false`,
`verifySwapinTx`, and `VerifyP2shTransaction` on a source bridge for a bind
address that has a script address, return `ErrTxNotStable` if and only if the
reported block height of the transaction is `0` or its confirmation depth is
below the configured threshold, where the depth is `latest - blockHeight` when
`latest > blockHeight` and `0` otherwise; they do so whatever the fetch of the
transaction would return, with a swap info that carries the hash only. With
`allowUnstable = true` the answers of the status and of the latest block number
do not enter the result, which is never `ErrTxNotStable`. On a destination
bridge, and on a source bridge for a bind address without a script address,
`VerifyP2shTransaction` returns the error of that check, whatever the
stability of the transaction. -/
theorem stability_gate (b : BtcBridge) (txHash : GoString) :
    (checkStable b txHash = false ↔ unstable b txHash) ∧
    ((∃ info, verifySwapinTx b txHash false = some (info, some .ErrTxNotStable)) ↔
      unstable b txHash) ∧
    (unstable b txHash → ∀ f,
      verifySwapinTx { b with GetTransactionByHash := f } txHash false =
        some (newSwapInfo txHash, some .ErrTxNotStable)) ∧
    (∀ bindAddress p2sh, b.IsSrc = true → b.GetP2shAddress bindAddress = some p2sh →
      ((∃ info, VerifyP2shTransaction b txHash bindAddress false =
          some (info, some .ErrTxNotStable)) ↔ unstable b txHash) ∧
      (unstable b txHash → ∀ f,
        VerifyP2shTransaction { b with GetTransactionByHash := f } txHash bindAddress false =
          some (newSwapInfo txHash, some .ErrTxNotStable))) ∧
    (∀ g l,
      verifySwapinTx { b with GetElectTransactionStatus := g, GetLatestBlockNumber := l }
        txHash true = verifySwapinTx b txHash true ∧
      ∀ bindAddress,
        VerifyP2shTransaction { b with GetElectTransactionStatus := g, GetLatestBlockNumber := l }
          txHash bindAddress true = VerifyP2shTransaction b txHash bindAddress true) ∧
    (∀ info, verifySwapinTx b txHash true ≠ some (info, some .ErrTxNotStable) ∧
      ∀ bindAddress,
        VerifyP2shTransaction b txHash bindAddress true ≠ some (info, some .ErrTxNotStable)) ∧
    (∀ bindAddress allowUnstable, b.IsSrc = false →
      VerifyP2shTransaction b txHash bindAddress allowUnstable =
        some (newSwapInfo txHash, some .ErrBridgeDestinationNotSupported)) ∧
    (∀ bindAddress allowUnstable, b.IsSrc = true → b.GetP2shAddress bindAddress = none →
      VerifyP2shTransaction b txHash bindAddress allowUnstable =
        some (newSwapInfo txHash, some (.wrongBindAddress bindAddress))) := by
  have hiff := checkStable_false_iff b txHash
  refine ⟨hiff, ?_, ?_, ?_, ?_, ?_, ?_, ?_⟩
  · constructor
    · rintro ⟨info, h⟩
      by_contra hne
      have hst : checkStable b txHash = true := by
        cases hc : checkStable b txHash with
        | true => rfl
        | false => exact absurd (hiff.mp hc) hne
      exact verifySwapinTx_not_unstable b txHash false (Or.inr hst) info h
    · intro h
      exact ⟨_, verifySwapinTx_unstable b txHash false ⟨rfl, hiff.mpr h⟩⟩
  · intro h f
    exact verifySwapinTx_unstable _ txHash false ⟨rfl, hiff.mpr h⟩
  · intro bindAddress p2sh hsrc hp
    constructor
    · constructor
      · rintro ⟨info, h⟩
        by_contra hne
        have hst : checkStable b txHash = true := by
          cases hc : checkStable b txHash with
          | true => rfl
          | false => exact absurd (hiff.mp hc) hne
        exact VerifyP2shTransaction_not_unstable b txHash bindAddress false (Or.inr hst) info h
      · intro h
        exact ⟨_, VerifyP2shTransaction_unstable b txHash bindAddress p2sh hsrc hp (hiff.mpr h)⟩
    · intro h f
      exact VerifyP2shTransaction_unstable _ txHash bindAddress p2sh hsrc hp (hiff.mpr h)
  · intro g l
    have hg : ∀ vout r,
        getReceivedValue { b with GetElectTransactionStatus := g, GetLatestBlockNumber := l }
          vout r = getReceivedValue b vout r :=
      fun vout r => getReceivedValue_congr b
        { b with GetElectTransactionStatus := g, GetLatestBlockNumber := l } rfl rfl r vout
    constructor
    · unfold verifySwapinTx
      simp [hg]
    · intro bindAddress
      unfold VerifyP2shTransaction
      simp [hg]
  · intro info
    exact ⟨verifySwapinTx_not_unstable b txHash true (Or.inl rfl) info,
      fun bindAddress =>
        VerifyP2shTransaction_not_unstable b txHash bindAddress true (Or.inl rfl) info⟩
  · intro bindAddress allowUnstable hsrc
    unfold VerifyP2shTransaction
    simp [hsrc]
  · intro bindAddress allowUnstable hsrc hp
    unfold VerifyP2shTransaction
    simp [hsrc, hp]

set_option maxRecDepth 100000 in
/-- Witness of C22: the sample deposit at height 100 with the chain at 103 has
three confirmations where six are asked for. -/
theorem stability_gate_witness :
    unstable { sampleBridge (sampleTx (ascii "alice") (ascii "dcrm") sampleMemoScript 150) with
      GetLatestBlockNumber := some 103 } (ascii "tx1") ∧
    verifySwapinTx
      { sampleBridge (sampleTx (ascii "alice") (ascii "dcrm") sampleMemoScript 150) with
        GetLatestBlockNumber := some 103, GetTransactionByHash := fun _ => none }
      (ascii "tx1") false = some (newSwapInfo (ascii "tx1"), some .ErrTxNotStable) :=
  ⟨by decide,
   (stability_gate
      { sampleBridge (sampleTx (ascii "alice") (ascii "dcrm") sampleMemoScript 150) with
        GetLatestBlockNumber := some 103 } (ascii "tx1")).2.2.1 (by decide) (fun _ => none)⟩

set_option maxRecDepth 100000 in
/-- Counterexample to C22 as stated: on a destination bridge, and on a source
bridge for a bind address without a script address, `VerifyP2shTransaction`
turns away a transaction of height `0` with another error than
`ErrTxNotStable`. -/
theorem stability_gate_counterexample :
    reportedHeight { sampleBridge (sampleTx [] [] [] 0) with IsSrc := false } (ascii "tx0") = 0 ∧
    VerifyP2shTransaction { sampleBridge (sampleTx [] [] [] 0) with IsSrc := false }
      (ascii "tx0") (ascii "abc") false =
      some (newSwapInfo (ascii "tx0"), some .ErrBridgeDestinationNotSupported) ∧
    reportedHeight (sampleBridge (sampleTx [] [] [] 0)) (ascii "tx0") = 0 ∧
    VerifyP2shTransaction (sampleBridge (sampleTx [] [] [] 0)) (ascii "tx0") (ascii "abcd")
      false = some (newSwapInfo (ascii "tx0"), some (.wrongBindAddress (ascii "abcd"))) := by
  refine ⟨by decide, by decide, by decide, by decide⟩

/-! ## Polling the signing service -/

/-- Polls answered with an error that is neither of the two fatal ones are
followed by the next poll. -/
theorem pollSignStatus_retry (env : Env) (keyID : GoString) :
    ∀ (i n : Nat) (w : World), i ≤ n →
      (∀ j < i, ∃ e, env.GetSignStatus (clock w + j) keyID = .error e ∧
        e ≠ .ErrGetSignStatusFailed ∧ e ≠ .ErrGetSignStatusTimeout) →
      pollSignStatus env keyID n w =
        pollSignStatus env keyID (n - i)
          (addTrace (List.replicate i (.getSignStatus keyID)) w) := by
  intro i
  induction i with
  | zero => intro n w _ _; simp [addTrace_nil]
  | succ i ih =>
    intro n w hi hpre
    cases n with
    | zero => omega
    | succ n =>
      obtain ⟨e, he, h1, h2⟩ := hpre 0 (by omega)
      simp only [Nat.add_zero] at he
      conv_lhs => unfold pollSignStatus
      simp only [he, h1, h2, or_self, if_false]
      rw [ih n (emit (.getSignStatus keyID) w) (by omega)]
      · rw [emit_eq_addTrace, addTrace_addTrace, Nat.add_sub_add_right]
        rfl
      · intro j hj
        obtain ⟨e2, he2, h3, h4⟩ := hpre (j + 1) (by omega)
        refine ⟨e2, ?_, h3, h4⟩
        rw [clock_emit, ← he2]
        congr 1
        omega

/-- The polling loop makes at most `n` polls and nothing else. -/
theorem pollSignStatus_count (env : Env) (keyID : GoString) :
    ∀ (n : Nat) (w : World), ∃ k, k ≤ n ∧
      (pollSignStatus env keyID n w).2 = addTrace (List.replicate k (.getSignStatus keyID)) w := by
  intro n
  induction n with
  | zero => intro w; exact ⟨0, le_refl _, by simp [pollSignStatus, addTrace_nil]⟩
  | succ n ih =>
    intro w
    unfold pollSignStatus
    split
    · split
      · exact ⟨1, by omega, by simp [emit_eq_addTrace]⟩
      · exact ⟨1, by omega, by simp [emit_eq_addTrace]⟩
    · split
      · exact ⟨1, by omega, by simp [emit_eq_addTrace]⟩
      · obtain ⟨k, hk, h⟩ := ih (emit (.getSignStatus keyID) w)
        refine ⟨k + 1, by omega, ?_⟩
        rw [h, emit_eq_addTrace, addTrace_addTrace]
        rfl

theorem attachSignature_trace (env : Env) (b : EthBridge) (tx : Transaction)
    (keyID rsv : GoString) (w : World) :
    (attachSignature env b tx keyID rsv w).2.trace = w.trace := by
  unfold attachSignature
  dsimp only
  split
  · rfl
  · split
    · rfl
    · split
      · rfl
      · split <;> rfl

theorem filter_isPoll_replicate (k : Nat) (keyID : GoString) :
    ((List.replicate k (Event.getSignStatus keyID)).filter Event.isPoll).length = k := by
  induction k with
  | zero => rfl
  | succ k ih => simp [List.replicate_succ, List.filter_cons, Event.isPoll, ih]

/-- The calls `DcrmSignTransaction` makes: the call itself, the request to the
signing service, and at most 15 status polls. -/
theorem DcrmSignTransaction_polls (env : Env) (b : EthBridge) (rawTx : RawTx)
    (args : BuildTxArgs) (w : World) :
    ∃ k keyID pre, k ≤ 15 ∧ (∀ e ∈ pre, e.isPoll = false) ∧
      (DcrmSignTransaction env b rawTx args w).2.trace =
        w.trace ++ pre ++ List.replicate k (.getSignStatus keyID) := by
  unfold DcrmSignTransaction
  generalize decr64 w.swapinNonce = d
  cases rawTx with
  | foreign =>
    refine ⟨0, [], [.sign .foreign], by omega, ?_, by simp [emit]⟩
    intro e he
    simp only [List.mem_singleton] at he
    subst he; rfl
  | eth tx =>
    dsimp only
    have hpre : ∀ e ∈ [Event.sign (.eth tx), Event.doSignOne], e.isPoll = false := by
      intro e he
      simp only [List.mem_cons, List.mem_singleton, List.not_mem_nil, or_false] at he
      rcases he with h | h <;> subst h <;> rfl
    split
    · exact ⟨0, [], [.sign (.eth tx), .doSignOne], by omega, hpre, by simp [emit]⟩
    · rename_i keyID _
      obtain ⟨k, hk, hp⟩ := pollSignStatus_count env keyID 15
        (emit .doSignOne (emit (.sign (.eth tx)) { w with swapinNonce := d }))
      have ht : ∀ w2 : World, w2 = (pollSignStatus env keyID 15
          (emit .doSignOne (emit (.sign (.eth tx)) { w with swapinNonce := d }))).2 →
          w2.trace = w.trace ++ [.sign (.eth tx), .doSignOne] ++
            List.replicate k (.getSignStatus keyID) := by
        intro w2 hw2
        rw [hw2, hp]
        simp [addTrace, emit]
      split
      · rename_i heq
        exact ⟨k, keyID, _, hk, hpre, ht _ (by rw [heq])⟩
      · rename_i heq
        exact ⟨k, keyID, _, hk, hpre, ht _ (by rw [heq])⟩
      · rename_i rsv w2 heq
        split
        · exact ⟨k, keyID, _, hk, hpre, ht _ (by rw [heq])⟩
        · refine ⟨k, keyID, _, hk, hpre, ?_⟩
          rw [attachSignature_trace]
          exact ht _ (by rw [heq])

/-- The outcome of `DcrmSignTransaction` when the first `i` polls fail with
errors that are retried and the polling loop then ends with the error `e`. -/
theorem DcrmSignTransaction_poll_failure (env : Env) (b : EthBridge) (tx : Transaction)
    (args : BuildTxArgs) (w : World) (keyID : GoString) (i k : Nat) (e : Err)
    (hkey : env.DoSignOne (clock w + 1) tx args = .ok keyID) (hi : i ≤ 15)
    (hpre : ∀ j < i, ∃ e1, env.GetSignStatus (clock w + 2 + j) keyID = .error e1 ∧
      e1 ≠ .ErrGetSignStatusFailed ∧ e1 ≠ .ErrGetSignStatusTimeout)
    (hend : ∀ w1 : World, clock w1 = clock w + 2 + i →
      (pollSignStatus env keyID (15 - i) w1).1 ≠ .exhausted →
      pollSignStatus env keyID (15 - i) w1 =
        (.failed e, addTrace (List.replicate (k - i) (.getSignStatus keyID)) w1))
    (hexh : ∀ w1 : World, clock w1 = clock w + 2 + i →
      (pollSignStatus env keyID (15 - i) w1).1 = .exhausted →
      e = .getSignStatusFailed ∧
      (pollSignStatus env keyID (15 - i) w1).2 =
        addTrace (List.replicate (k - i) (.getSignStatus keyID)) w1)
    (hk : i ≤ k) :
    (DcrmSignTransaction env b (.eth tx) args w).1 = (none, [], some e) ∧
    newEvents w (DcrmSignTransaction env b (.eth tx) args w).2 =
      [.sign (.eth tx), .doSignOne] ++ List.replicate k (.getSignStatus keyID) := by
  unfold DcrmSignTransaction
  generalize decr64 w.swapinNonce = d
  dsimp only
  have hc0 : clock (emit (.sign (.eth tx)) { w with swapinNonce := d }) = clock w + 1 := by
    simp [clock, emit]
  rw [hc0, hkey]
  dsimp only
  have hc1 : clock (emit .doSignOne (emit (.sign (.eth tx)) { w with swapinNonce := d })) =
      clock w + 2 := by
    simp [clock, emit]
  have hretry := pollSignStatus_retry env keyID i 15
    (emit .doSignOne (emit (.sign (.eth tx)) { w with swapinNonce := d })) hi
    (by rw [hc1]; exact hpre)
  have hcw : clock (addTrace (List.replicate i (.getSignStatus keyID))
      (emit .doSignOne (emit (.sign (.eth tx)) { w with swapinNonce := d }))) =
      clock w + 2 + i := by
    rw [clock_addTrace, hc1, List.length_replicate]
  have htr : ∀ w2 : World, w2 = addTrace (List.replicate (k - i) (.getSignStatus keyID))
      (addTrace (List.replicate i (.getSignStatus keyID))
        (emit .doSignOne (emit (.sign (.eth tx)) { w with swapinNonce := d }))) →
      newEvents w w2 = [.sign (.eth tx), .doSignOne] ++
        List.replicate k (.getSignStatus keyID) := by
    intro w2 hw2
    apply newEvents_eq
    rw [hw2]
    simp only [addTrace, emit, List.append_assoc, List.singleton_append, List.cons_append,
      List.nil_append]
    congr 3
    rw [← List.replicate_add]
    congr 1
    omega
  rw [hretry]
  cases hout : pollSignStatus env keyID (15 - i)
      (addTrace (List.replicate i (.getSignStatus keyID))
        (emit .doSignOne (emit (.sign (.eth tx)) { w with swapinNonce := d }))) with
  | mk out w2 =>
    by_cases hex : out = .exhausted
    · subst hex
      obtain ⟨he, hw⟩ := hexh _ hcw (by rw [hout])
      rw [hout] at hw
      dsimp only at hw
      subst he
      exact ⟨rfl, htr _ hw⟩
    · have := hend _ hcw (by rw [hout]; exact hex)
      rw [hout] at this
      simp only [Prod.mk.injEq] at this
      obtain ⟨h1, h2⟩ := this
      subst h1
      exact ⟨rfl, htr _ h2⟩

/-- C21: sign polling. `DcrmSignTransaction` calls `GetSignStatus` at most 15
times. When the polls before the poll `i` fail with errors other than
`ErrGetSignStatusFailed` and `ErrGetSignStatusTimeout`, each of them is followed
by the next poll; when the poll `i` then fails with one of these two errors, the
function returns this error and has made `i + 1` polls, no further one; and
when all 15 polls fail with other errors it returns an error after exactly 15
polls. -/
theorem sign_polling (env : Env) (b : EthBridge) (rawTx : RawTx) (args : BuildTxArgs)
    (w : World) :
    ((newEvents w (DcrmSignTransaction env b rawTx args w).2).filter Event.isPoll).length ≤ 15 ∧
    (∀ tx keyID i e, rawTx = .eth tx → env.DoSignOne (clock w + 1) tx args = .ok keyID →
      i < 15 →
      (∀ j < i, ∃ e1, env.GetSignStatus (clock w + 2 + j) keyID = .error e1 ∧
        e1 ≠ .ErrGetSignStatusFailed ∧ e1 ≠ .ErrGetSignStatusTimeout) →
      env.GetSignStatus (clock w + 2 + i) keyID = .error e →
      (e = .ErrGetSignStatusFailed ∨ e = .ErrGetSignStatusTimeout) →
      (DcrmSignTransaction env b rawTx args w).1 = (none, [], some e) ∧
      newEvents w (DcrmSignTransaction env b rawTx args w).2 =
        [.sign rawTx, .doSignOne] ++ List.replicate (i + 1) (.getSignStatus keyID)) ∧
    (∀ tx keyID, rawTx = .eth tx → env.DoSignOne (clock w + 1) tx args = .ok keyID →
      (∀ j < 15, ∃ e1, env.GetSignStatus (clock w + 2 + j) keyID = .error e1 ∧
        e1 ≠ .ErrGetSignStatusFailed ∧ e1 ≠ .ErrGetSignStatusTimeout) →
      (DcrmSignTransaction env b rawTx args w).1 = (none, [], some .getSignStatusFailed) ∧
      newEvents w (DcrmSignTransaction env b rawTx args w).2 =
        [.sign rawTx, .doSignOne] ++ List.replicate 15 (.getSignStatus keyID)) := by
  refine ⟨?_, ?_, ?_⟩
  · obtain ⟨k, keyID, pre, hk, hpre, ht⟩ := DcrmSignTransaction_polls env b rawTx args w
    rw [List.append_assoc] at ht
    rw [newEvents_eq w _ _ ht, List.filter_append, List.length_append,
      filter_isPoll_replicate]
    have : pre.filter Event.isPoll = [] := by
      rw [List.filter_eq_nil_iff]
      intro a ha
      rw [hpre a ha]
      simp
    rw [this]
    simpa using hk
  · intro tx keyID i e hraw hkey hi hpre hpoll hfatal
    subst hraw
    refine DcrmSignTransaction_poll_failure env b tx args w keyID i (i + 1) e hkey (by omega)
      hpre ?_ ?_ (by omega)
    · intro w1 hc _
      obtain ⟨m, hm⟩ : ∃ m, 15 - i = m + 1 := ⟨14 - i, by omega⟩
      rw [hm]
      unfold pollSignStatus
      rw [hc, hpoll]
      simp only [hfatal, if_true, emit_eq_addTrace]
      congr 2
      simp
    · intro w1 hc hex
      exfalso
      obtain ⟨m, hm⟩ : ∃ m, 15 - i = m + 1 := ⟨14 - i, by omega⟩
      rw [hm] at hex
      unfold pollSignStatus at hex
      rw [hc, hpoll] at hex
      simp only [hfatal, if_true] at hex
      cases hex
  · intro tx keyID hraw hkey hpre
    subst hraw
    refine DcrmSignTransaction_poll_failure env b tx args w keyID 15 15 .getSignStatusFailed
      hkey (by omega) hpre ?_ ?_ (by omega)
    · intro w1 _ hne
      exact absurd rfl hne
    · intro w1 _ _
      exact ⟨rfl, by simp [pollSignStatus, addTrace_nil]⟩

set_option maxRecDepth 1000000 in
/-- Witness of C21: the signing service answers the first poll with a timeout. -/
theorem sign_polling_witness :
    (DcrmSignTransaction (samplePollEnv .ErrGetSignStatusTimeout) (sampleEthBridge false 0)
      (.eth sampleRawTx) sampleArgs sampleWorld).1 =
      (none, [], some .ErrGetSignStatusTimeout) ∧
    newEvents sampleWorld
      (DcrmSignTransaction (samplePollEnv .ErrGetSignStatusTimeout) (sampleEthBridge false 0)
        (.eth sampleRawTx) sampleArgs sampleWorld).2 =
      [.sign (.eth sampleRawTx), .doSignOne] ++
        List.replicate (0 + 1) (.getSignStatus (ascii "key1")) :=
  (sign_polling (samplePollEnv .ErrGetSignStatusTimeout) (sampleEthBridge false 0)
    (.eth sampleRawTx) sampleArgs sampleWorld).2.1 sampleRawTx (ascii "key1") 0
    .ErrGetSignStatusTimeout rfl rfl (by decide) (fun j hj => absurd hj (by omega)) rfl
    (Or.inr rfl)
/-! ## Deposits to a script address -/

/-- Outputs of another script type than pay-to-pubkey-hash never pay the
receiver for `getReceivedValue`. -/
theorem paysReceiver_other_type (b : BtcBridge) (receiver : GoString)
    (vout : List (Option ElectTxOut))
    (hty : ∀ out, some out ∈ vout → out.ScriptpubkeyType ≠ some b.p2pkhType) :
    vout.any (paysReceiver b receiver) = false ∧ receivedSum b receiver vout = 0 := by
  have hno : ∀ o ∈ vout, paysReceiver b receiver o = false := by
    intro o ho
    cases o with
    | none => rfl
    | some out =>
      have := hty out ho
      simp [paysReceiver, this]
  refine ⟨?_, ?_⟩
  · rw [List.any_eq_false]
    intro o ho
    simp [hno o ho]
  · unfold receivedSum
    rw [List.filter_eq_nil_iff.mpr (fun o ho => by simp [hno o ho])]
    rfl

/-- C23, the divergence: `VerifyP2shTransaction` counts only outputs of the
pay-to-pubkey-hash type. A stable, found transaction whose outputs can be read
and are all of other script types, as the pay-to-script-hash outputs that pay
the derived script address are, is rejected with `ErrTxWithWrongReceiver`,
whatever these outputs pay to the derived address. -/
theorem p2sh_outputs_are_not_counted (b : BtcBridge) (txHash bindAddress p2sh : GoString)
    (allowUnstable : Bool) (tx : ElectTx) (st : ElectTxStatus)
    (hdist : b.opReturnType ≠ b.p2pkhType)
    (hsrc : b.IsSrc = true) (hp : b.GetP2shAddress bindAddress = some p2sh)
    (hs : allowUnstable = true ∨ checkStable b txHash = true)
    (hf : b.GetTransactionByHash txHash = some tx) (hst : tx.Status = some st)
    (hread : ∀ o ∈ tx.Vout, readableOutput b o)
    (hty : ∀ out, some out ∈ tx.Vout → out.ScriptpubkeyType ≠ some b.p2pkhType) :
    VerifyP2shTransaction b txHash bindAddress allowUnstable =
      some (withStatus (newSwapInfo txHash) st, some .ErrTxWithWrongReceiver) := by
  obtain ⟨hany, hsum⟩ := paysReceiver_other_type b p2sh tx.Vout hty
  obtain ⟨memo, hloop⟩ := getReceivedValueLoop_sum b p2sh hdist tx.Vout 0 [] false hread
    (by rw [hsum]; decide)
  rw [hsum, hany] at hloop
  rw [VerifyP2shTransaction_found b txHash bindAddress p2sh allowUnstable tx st 0 memo false
    hsrc hp hs hf hst hloop]
  rfl

set_option maxRecDepth 100000 in
/-- Witness of C23, the failing input: a single output of type `p2sh` pays 150
to the script address derived from the bind address `abc`, and the deposit is
rejected for its receiver; the same output with the type `p2pkh` is accepted
with the value 150. -/
theorem p2sh_outputs_are_not_counted_witness :
    (sampleBridge (sampleScriptTx (ascii "p2sh"))).GetP2shAddress (ascii "abc") =
      some (ascii "p2shabc") ∧
    VerifyP2shTransaction (sampleBridge (sampleScriptTx (ascii "p2sh"))) (ascii "tx1")
      (ascii "abc") false =
      some (withStatus (newSwapInfo (ascii "tx1"))
        { BlockHeight := some 100, BlockHash := none, BlockTime := some 1600000000 },
        some .ErrTxWithWrongReceiver) ∧
    VerifyP2shTransaction (sampleBridge (sampleScriptTx (ascii "p2pkh"))) (ascii "tx1")
      (ascii "abc") false =
      some ({ Hash := ascii "tx1", Height := 100, Timestamp := 1600000000,
              From := ascii "alice", To := ascii "p2shabc", Bind := ascii "abc",
              Value := some 150 }, none) :=
  ⟨by decide,
   p2sh_outputs_are_not_counted (sampleBridge (sampleScriptTx (ascii "p2sh"))) (ascii "tx1")
    (ascii "abc") (ascii "p2shabc") false (sampleScriptTx (ascii "p2sh"))
    { BlockHeight := some 100, BlockHash := none, BlockTime := some 1600000000 }
    (by decide) rfl (by decide) (Or.inr (by decide)) (by decide) rfl
    (by
      intro o ho
      simp only [sampleScriptTx, List.mem_singleton] at ho
      subst ho
      exact ⟨_, ascii "p2sh", rfl, rfl, fun h => absurd h (by decide),
        fun h => absurd h (by decide)⟩)
    (by
      intro out ho
      simp only [sampleScriptTx, List.mem_singleton, Option.some.injEq] at ho
      subst ho
      decide),
   by decide⟩

/-! ## The assigned nonce and the view of the node -/

/-- The nonce `getAccountNonce` assigns for the custody address in the swap-in
direction. -/
theorem getAccountNonce_swapin (b : EthBridge) (w : World) (p : Nat)
    (hp : (getPoolNonceLoop b b.DcrmAddress 3 (0, none) w).1 = (p, none)) :
    (getAccountNonce b b.DcrmAddress .SwapinType w).1 =
      .ok (if w.swapinNonce ≥ p ∧ w.swapinNonce ≠ 0 then incr64 w.swapinNonce else p) := by
  obtain ⟨evs, hw, _⟩ := getPoolNonceLoop_frame b b.DcrmAddress 3 (0, none) w
  have h1 : (getPoolNonceLoop b b.DcrmAddress 3 (0, none) w).1.2 = none := by rw [hp]
  have h2 : (getPoolNonceLoop b b.DcrmAddress 3 (0, none) w).1.1 = p := by rw [hp]
  unfold getAccountNonce
  simp only [h1, h2, hw, if_true]
  by_cases hc : w.swapinNonce ≥ p ∧ w.swapinNonce ≠ 0
  · simp [addTrace, hc]
  · simp [addTrace, hc]

theorem incr64_max : incr64 (2 ^ 64 - 1) = 0 := by
  unfold incr64
  norm_num

theorem incr64_below (c : Nat) (h : c < 2 ^ 64 - 1) : incr64 c = c + 1 := by
  unfold incr64
  omega

/-- C28, the divergence: with the swap-in counter at `2^64 - 1`, the value a
failed signing leaves in a fresh process, `getAccountNonce` assigns the nonce
`0` for the custody address whatever pending nonce `p` the node reports, so a
nonce below `p` as soon as `p > 0`; for every other value of the counter the
assigned nonce is at least `p`. -/
theorem nonce_below_node_view (b : EthBridge) (w : World) (p : Nat)
    (hp : (getPoolNonceLoop b b.DcrmAddress 3 (0, none) w).1 = (p, none))
    (hrange : p < 2 ^ 64) :
    (w.swapinNonce = 2 ^ 64 - 1 →
      (getAccountNonce b b.DcrmAddress .SwapinType w).1 = .ok 0) ∧
    (w.swapinNonce < 2 ^ 64 - 1 →
      ∃ n, (getAccountNonce b b.DcrmAddress .SwapinType w).1 = .ok n ∧ n ≥ p) := by
  rw [getAccountNonce_swapin b w p hp]
  constructor
  · intro hc
    have hcond : w.swapinNonce ≥ p ∧ w.swapinNonce ≠ 0 := by
      rw [hc]
      constructor
      · omega
      · decide
    rw [if_pos hcond, hc, incr64_max]
  · intro hc
    by_cases hcond : w.swapinNonce ≥ p ∧ w.swapinNonce ≠ 0
    · rw [if_pos hcond, incr64_below _ hc]
      exact ⟨_, rfl, by omega⟩
    · rw [if_neg hcond]
      exact ⟨_, rfl, le_refl _⟩

set_option maxRecDepth 1000000 in
/-- Witness of C28, the failing input: a fresh process in which a signing fails,
and then a build against a node that reports the pending nonce 5. The counter
is at `2^64 - 1` after the signing and the assigned nonce is 0. -/
theorem nonce_below_node_view_witness :
    (DcrmSignTransaction (sampleEnv 5 []) (sampleEthBridge false 5) .foreign sampleArgs
      sampleWorld).2.swapinNonce = 2 ^ 64 - 1 ∧
    (sampleEthBridge false 5).GetPoolNonce 1 (ascii "0xdcrm") = (5, none) ∧
    (getAccountNonce (sampleEthBridge false 5) (sampleEthBridge false 5).DcrmAddress .SwapinType
      (DcrmSignTransaction (sampleEnv 5 []) (sampleEthBridge false 5) .foreign sampleArgs
        sampleWorld).2).1 = .ok 0 :=
  have hc : (DcrmSignTransaction (sampleEnv 5 []) (sampleEthBridge false 5) .foreign sampleArgs
      sampleWorld).2.swapinNonce = 2 ^ 64 - 1 := by decide
  ⟨hc, rfl,
   (nonce_below_node_view (sampleEthBridge false 5)
      (DcrmSignTransaction (sampleEnv 5 []) (sampleEthBridge false 5) .foreign sampleArgs
        sampleWorld).2 5 (by decide) (by decide)).1 hc⟩
/-! ## The record a run demotes -/

/-- A run whose demotion of the swap record went through leaves the record in
status `TxSwapFailed`. -/
theorem processSwap_demoted (env : Env) (d : Bool) (swap : MgoSwap) (w : World)
    (e : Option Err) (ok : Bool)
    (hmem : Event.updateStatus d swap.TxID .TxSwapFailed e ok ∈
      newEvents w (processSwap env d swap w).2) (hok : ok = true) :
    ∃ r, (processSwap env d swap w).2.store.swaps d swap.TxID = some r ∧
      r.Status = .TxSwapFailed := by
  have he : (Event.updateStatus d swap.TxID .TxSwapFailed e ok).isDemotion = true := rfl
  rcases processSwap_stages env d swap w with ⟨hc, _⟩ | ⟨rec, ok1, _, _, _, ht, _⟩ |
    ⟨w1, hm, ok1, hc, ht⟩ | ⟨value, t, w2, hc, hsign, hrun⟩
  · obtain ⟨pre0, ht, hp, _, _⟩ := hc.events
    rw [newEvents_eq w _ pre0 ht] at hmem
    have := isPrelude_not_demotion _ (hp _ hmem)
    rw [this] at he; cases he
  · rw [newEvents_eq w _ _ ht] at hmem
    simp at hmem
  · obtain ⟨pre0, ht0, hp, _, _⟩ := hc.events
    rw [ht0, List.append_assoc] at ht
    rw [newEvents_eq w _ _ ht] at hmem
    rcases List.mem_append.mp hmem with h | h
    · have := isPrelude_not_demotion _ (hp _ h)
      rw [this] at he; cases he
    · simp at h
  · obtain ⟨pre0, ht0, hp, _, _⟩ := hc.events
    rw [hrun] at hmem ⊢
    obtain ⟨evs, ht, hcases⟩ := persistAndSend_trace env d swap.TxID value (some t)
      (hashString ((bridgeOf env d).TxHash t)) w2
    rw [ht0, List.append_assoc] at ht
    rw [newEvents_eq w _ _ ht] at hmem
    have hnot : ∀ tail : List Event, (∀ a ∈ tail, a.isDemotion = false) →
        Event.updateStatus d swap.TxID .TxSwapFailed e ok ∉ pre0 ++ tail := by
      intro tail htail hm
      rcases List.mem_append.mp hm with h | h
      · have := isPrelude_not_demotion _ (hp _ h)
        rw [this] at he; cases he
      · have := htail _ h
        rw [this] at he; cases he
    rcases hcases with ⟨_, hev⟩ | ⟨_, hev, _⟩ | ⟨L, hshape, _, hrest⟩
    · rw [hev] at hmem
      exact absurd hmem (hnot _ (by
        intro a ha
        simp only [List.mem_cons, List.mem_singleton, List.not_mem_nil, or_false] at ha
        rcases ha with h | h <;> subst h <;> rfl))
    · rw [hev] at hmem
      exact absurd hmem (hnot _ (by
        intro a ha
        simp only [List.mem_cons, List.mem_singleton, List.not_mem_nil, or_false] at ha
        rcases ha with h | h | h <;> subst h <;> rfl))
    · have hL : ∀ a ∈ L, a.isDemotion = false := by
        intro a ha
        rcases hshape.1 a ha with h | h | h <;> subst h <;> rfl
      have hhead : ∀ a ∈ persistHead d swap.TxID (hashString ((bridgeOf env d).TxHash t))
          (matchTxOf env d value (hashString ((bridgeOf env d).TxHash t))) ++ L,
          a.isDemotion = false := by
        intro a ha
        rcases List.mem_append.mp ha with h | h
        · simp only [persistHead, List.mem_cons, List.mem_singleton, List.not_mem_nil,
            or_false] at h
          rcases h with h | h | h <;> subst h <;> rfl
        · exact hL a h
      rcases hrest with ⟨_, hev, _⟩ | ⟨e1, lpre, ok5, ok6, _, _, _, _, hev, h5, _⟩
      · rw [hev] at hmem
        exact absurd hmem (hnot _ hhead)
      · rw [hev] at hmem
        rcases List.mem_append.mp hmem with h | h
        · have := isPrelude_not_demotion _ (hp _ h)
          rw [this] at he; cases he
        · rcases List.mem_append.mp h with h | h
          · have := hhead _ h
            rw [this] at he; cases he
          · simp only [List.mem_cons, List.mem_singleton, List.not_mem_nil, or_false] at h
            rcases h with h | h
            · simp only [Event.updateStatus.injEq, true_and] at h
              obtain ⟨r, hr, hst, _⟩ := h5 (by rw [← h.2]; exact hok)
              exact ⟨r, hr, hst⟩
            · cases h
/-! ## The to-swap query -/

/-- The records a query returns: those stored under one of the keys, in the
status asked for and recent. -/
theorem mem_FindSwapsWithStatus (d : Bool) (status : SwapStatus) (recent : MgoSwap → Bool)
    (ids : List GoString) (w : World) (r : MgoSwap) :
    r ∈ FindSwapsWithStatus d status recent ids w ↔
      ∃ id ∈ ids, w.store.swaps d id = some r ∧ r.Status = status ∧ recent r = true := by
  unfold FindSwapsWithStatus
  rw [List.mem_filterMap]
  constructor
  · rintro ⟨id, hid, h⟩
    refine ⟨id, hid, ?_⟩
    cases hs : w.store.swaps d id with
    | none => rw [hs] at h; cases h
    | some r1 =>
      rw [hs] at h
      dsimp only at h
      split at h
      · next hc =>
        cases h
        exact ⟨rfl, hc.1, hc.2⟩
      · cases h
  · rintro ⟨id, hid, hs, hst, hrec⟩
    refine ⟨id, hid, ?_⟩
    rw [hs]
    simp [hst, hrec]

/-- C24, amended: no re-entry of failed swaps. The to-swap queries
`findSwapinsToSwap` and `findSwapoutsToSwap` return exactly the recent records
in status `TxNotSwapped`. A record in status `TxSwapFailed` is not selected, nor
is one in status `TxProcessed`; in particular the record a run of
`processSwapinSwap` or of `processSwapoutSwap` has demoted to `TxSwapFailed` is
not selected on a later pass. -/
theorem failed_swaps_are_not_selected (env : Env) (swap : MgoSwap) (w : World)
    (recent : MgoSwap → Bool) (ids : List GoString) :
    (∀ w1 r, (r ∈ findSwapinsToSwap recent ids w1 ↔
        ∃ id ∈ ids, w1.store.swaps true id = some r ∧ r.Status = .TxNotSwapped ∧
          recent r = true) ∧
      (r ∈ findSwapoutsToSwap recent ids w1 ↔
        ∃ id ∈ ids, w1.store.swaps false id = some r ∧ r.Status = .TxNotSwapped ∧
          recent r = true)) ∧
    (∀ w1 r, r.Status = .TxSwapFailed ∨ r.Status = .TxProcessed →
      r ∉ findSwapinsToSwap recent ids w1 ∧ r ∉ findSwapoutsToSwap recent ids w1) ∧
    (∀ e ok, Event.updateStatus true swap.TxID .TxSwapFailed e ok ∈
        newEvents w (processSwapinSwap env swap w).2 → ok = true →
      ∃ r, (processSwapinSwap env swap w).2.store.swaps true swap.TxID = some r ∧
        r.Status = .TxSwapFailed ∧
        r ∉ findSwapinsToSwap recent ids (processSwapinSwap env swap w).2) ∧
    (∀ e ok, Event.updateStatus false swap.TxID .TxSwapFailed e ok ∈
        newEvents w (processSwapoutSwap env swap w).2 → ok = true →
      ∃ r, (processSwapoutSwap env swap w).2.store.swaps false swap.TxID = some r ∧
        r.Status = .TxSwapFailed ∧
        r ∉ findSwapoutsToSwap recent ids (processSwapoutSwap env swap w).2) := by
  have hsel : ∀ w1 r, r.Status = .TxSwapFailed ∨ r.Status = .TxProcessed →
      r ∉ findSwapinsToSwap recent ids w1 ∧ r ∉ findSwapoutsToSwap recent ids w1 := by
    intro w1 r hst
    constructor
    · intro hm
      obtain ⟨_, _, _, h, _⟩ := (mem_FindSwapsWithStatus true _ recent ids w1 r).mp hm
      rcases hst with h2 | h2 <;> rw [h2] at h <;> cases h
    · intro hm
      obtain ⟨_, _, _, h, _⟩ := (mem_FindSwapsWithStatus false _ recent ids w1 r).mp hm
      rcases hst with h2 | h2 <;> rw [h2] at h <;> cases h
  refine ⟨fun w1 r => ⟨mem_FindSwapsWithStatus true _ recent ids w1 r,
    mem_FindSwapsWithStatus false _ recent ids w1 r⟩, hsel, ?_, ?_⟩
  · intro e ok hmem hok
    obtain ⟨r, hr, hst⟩ := processSwap_demoted env true swap w e ok hmem hok
    exact ⟨r, hr, hst, (hsel _ r (Or.inl hst)).1⟩
  · intro e ok hmem hok
    obtain ⟨r, hr, hst⟩ := processSwap_demoted env false swap w e ok hmem hok
    exact ⟨r, hr, hst, (hsel _ r (Or.inl hst)).2⟩

set_option maxRecDepth 1000000 in
/-- Witness of C24: the sample swap-in with a node that refuses every send is
demoted, and the query over the key `tx1` does not select its record. -/
theorem failed_swaps_are_not_selected_witness :
    Event.updateStatus true sampleSwap.TxID .TxSwapFailed (some (.external 1)) true ∈
      newEvents sampleWorld (processSwapinSwap sampleRefusingEnv sampleSwap sampleWorld).2 ∧
    ∃ r, (processSwapinSwap sampleRefusingEnv sampleSwap sampleWorld).2.store.swaps true
        sampleSwap.TxID = some r ∧
      r.Status = .TxSwapFailed ∧
      r ∉ findSwapinsToSwap (fun _ => true) [ascii "tx1"]
        (processSwapinSwap sampleRefusingEnv sampleSwap sampleWorld).2 :=
  ⟨by decide,
   (failed_swaps_are_not_selected sampleRefusingEnv sampleSwap sampleWorld (fun _ => true)
      [ascii "tx1"]).2.2.1 (some (.external 1)) true (by decide) rfl⟩

set_option maxRecDepth 1000000 in
/-- Counterexample to C24 as stated: the record of the sample swap-in is
selected by the query before the run; the run demotes it to `TxSwapFailed`,
and the query selects nothing after it. -/
theorem failed_swaps_counterexample :
    (findSwapinsToSwap (fun _ => true) [ascii "tx1"] sampleWorld).map (fun r => r.TxID) =
      [ascii "tx1"] ∧
    ((processSwapinSwap sampleRefusingEnv sampleSwap sampleWorld).2.store.swaps true
      (ascii "tx1")).map (fun r => r.Status) = some .TxSwapFailed ∧
    findSwapinsToSwap (fun _ => true) [ascii "tx1"]
      (processSwapinSwap sampleRefusingEnv sampleSwap sampleWorld).2 = [] := by
  refine ⟨by decide, by decide, by decide⟩

/-! ## The verdict of the broadcast loop -/

theorem lastSendOk_append (A B : List Event) :
    lastSendOk (A ++ B) = (lastSendOk B).or (lastSendOk A) := by
  unfold lastSendOk
  rw [List.filter_append, List.getLast?_append]
  cases ((B.filter Event.isSend).getLast?) <;> rfl

theorem lastSendOk_no_send (A : List Event) (h : ∀ a ∈ A, a.isSend = false) :
    lastSendOk A = none := by
  unfold lastSendOk
  rw [List.filter_eq_nil_iff.mpr (fun a ha => by simp [h a ha])]
  rfl

/-- The broadcast loop ends with an error exactly when its last send returned
one; without a send it ends with the error it started with. -/
theorem sendLoop_verdict (b : EthBridge) (tx : Option Transaction) (h : GoString) :
    ∀ (n : Nat) (err : Option Err) (w : World),
      ∃ L, (sendLoop b tx h n err w).2 = addTrace L w ∧
        (∀ a ∈ L, a.isDemotion = false) ∧
        (sendLoop b tx h n err w).1.isSome =
          (match lastSendOk L with
           | none => err.isSome
           | some ok => !ok) := by
  intro n
  induction n with
  | zero =>
    intro err w
    exact ⟨[], by simp [sendLoop, addTrace_nil], by simp, rfl⟩
  | succ n ih =>
    intro err w
    unfold sendLoop
    cases hs : b.SendTransaction (clock w) tx with
    | some e0 =>
      simp only []
      obtain ⟨L, hw, hdem, hv⟩ := ih (some e0) (emit (.send tx false) w)
      refine ⟨.send tx false :: L, ?_, ?_, ?_⟩
      · rw [hw, emit_eq_addTrace, addTrace_addTrace]; rfl
      · intro a ha
        rcases List.mem_cons.mp ha with rfl | ha
        · rfl
        · exact hdem a ha
      · rw [hv]
        have : lastSendOk (Event.send tx false :: L) =
            (lastSendOk L).or (some false) := by
          rw [← List.singleton_append, lastSendOk_append]
          rfl
        rw [this]
        cases lastSendOk L <;> rfl
    | none =>
      simp only []
      by_cases hv : (b.GetTransaction (clock (emit (.send tx true) w)) h).1 = true
      · simp only [hv, if_true]
        refine ⟨[.send tx true, .getTransaction h], ?_, ?_, rfl⟩
        · rw [emit_eq_addTrace, emit_eq_addTrace, addTrace_addTrace]; rfl
        · intro a ha
          simp only [List.mem_cons, List.mem_singleton, List.not_mem_nil, or_false] at ha
          rcases ha with rfl | rfl <;> rfl
      · have hv2 : (b.GetTransaction (clock (emit (.send tx true) w)) h).1 = false := by
          simpa using hv
        simp only [hv2, Bool.false_eq_true, if_false]
        obtain ⟨L, hw, hdem, hvd⟩ :=
          ih none (emit (.getTransaction h) (emit (.send tx true) w))
        refine ⟨.send tx true :: .getTransaction h :: L, ?_, ?_, ?_⟩
        · rw [hw, emit_eq_addTrace, emit_eq_addTrace, addTrace_addTrace, addTrace_addTrace]
          rfl
        · intro a ha
          rcases List.mem_cons.mp ha with rfl | ha
          · rfl
          · rcases List.mem_cons.mp ha with rfl | ha
            · rfl
            · exact hdem a ha
        · rw [hvd]
          have : lastSendOk (Event.send tx true :: Event.getTransaction h :: L) =
              (lastSendOk L).or (some true) := by
            have h2 : Event.send tx true :: Event.getTransaction h :: L =
                [Event.send tx true, Event.getTransaction h] ++ L := rfl
            rw [h2, lastSendOk_append]
            rfl
          rw [this]
          cases lastSendOk L <;> rfl


/-- In the last part of a run there is a demotion exactly when the last send
returned an error. -/
theorem persistAndSend_verdict (env : Env) (d : Bool) (txid : GoString) (value : Int)
    (tx : Option Transaction) (h : GoString) (w : World) :
    ∃ evs, (persistAndSend env d txid value tx h w).2.trace = w.trace ++ evs ∧
      ((∃ e ∈ evs, e.isDemotion = true) ↔ lastSendOk evs = some false) ∧
      ((persistAndSend env d txid value tx h w).1 = none → lastSendOk evs ≠ some false) := by
  unfold persistAndSend
  dsimp only
  generalize MatchTx.mk h (env.bigString (env.CalcSwappedValue value d))
    (if d = true then SwapType.SwapinType else SwapType.SwapoutType) = m
  have t1 : (addSwapHistory env txid value h d w).trace = w.trace ++ [.addHistory txid h d] := rfl
  generalize addSwapHistory env txid value h d w = w1 at t1 ⊢
  have hu := updateSwapResult_effect env d txid m w1
  cases hres : updateSwapResult env d txid m w1 with
  | mk r2 w2 =>
    rw [hres] at hu
    dsimp only at hu
    cases r2 with
    | some e =>
      rcases hu with ⟨hh, _⟩ | ⟨_, t2, _⟩
      · exact absurd hh (by simp)
      · refine ⟨[.addHistory txid h d, .updateResult d txid m false], ?_, ?_, by simp⟩
        · show w2.trace = _
          rw [t2, t1]; simp
        · simp [lastSendOk, Event.isSend, Event.isDemotion]
    | none =>
      rcases hu with ⟨_, t2, _⟩ | ⟨hh, _⟩
      swap
      · exact absurd rfl hh
      dsimp only
      obtain ⟨ok, t3, hok1, hok2, _⟩ := UpdateSwapStatus_effect env d txid .TxProcessed none w2
      cases hus : UpdateSwapStatus env d txid .TxProcessed none w2 with
      | mk r3 w3 =>
        rw [hus] at t3 hok1 hok2
        dsimp only at t3 hok1 hok2
        cases r3 with
        | some e =>
          refine ⟨[.addHistory txid h d, .updateResult d txid m true,
            .updateStatus d txid .TxProcessed none ok], ?_, ?_, by simp⟩
          · show w3.trace = _
            rw [t3, t2, t1]; simp
          · simp [lastSendOk, Event.isSend, Event.isDemotion]
        | none =>
          dsimp only
          have hhead : ∀ a ∈ [Event.addHistory txid h d, Event.updateResult d txid m true,
              Event.updateStatus d txid .TxProcessed none ok],
              a.isSend = false ∧ a.isDemotion = false := by
            intro a ha
            simp only [List.mem_cons, List.mem_singleton, List.not_mem_nil, or_false] at ha
            rcases ha with h1 | h1 | h1 <;> subst h1 <;> exact ⟨rfl, rfl⟩
          obtain ⟨L, hw4, hdem, hv⟩ :=
            sendLoop_verdict (bridgeOf env d) tx h env.retrySendTxCount none w3
          cases hsl : sendLoop (bridgeOf env d) tx h env.retrySendTxCount none w3 with
          | mk r4 w4 =>
            rw [hsl] at hw4 hv
            dsimp only at hw4 hv
            have t4 : w4.trace = w3.trace ++ L := by rw [hw4]; rfl
            have hlast : lastSendOk ([Event.addHistory txid h d,
                Event.updateResult d txid m true,
                Event.updateStatus d txid .TxProcessed none ok] ++ L) = lastSendOk L := by
              rw [lastSendOk_append, lastSendOk_no_send _ (fun a ha => (hhead a ha).1)]
              cases lastSendOk L <;> rfl
            cases r4 with
            | none =>
              have hne : lastSendOk L ≠ some false := by
                intro hc
                rw [hc] at hv
                cases hv
              refine ⟨[.addHistory txid h d, .updateResult d txid m true,
                .updateStatus d txid .TxProcessed none ok] ++ L, ?_, ?_, ?_⟩
              · show w4.trace = _
                rw [t4, t3, t2, t1]; simp
              · rw [hlast]
                constructor
                · rintro ⟨a, ha, hd⟩
                  exfalso
                  rcases List.mem_append.mp ha with h1 | h1
                  · rw [(hhead a h1).2] at hd; cases hd
                  · rw [hdem a h1] at hd; cases hd
                · intro hc
                  exact absurd hc hne
              · intro _
                rw [hlast]
                exact hne
            | some e =>
              dsimp only
              have hfalse : lastSendOk L = some false := by
                cases hl : lastSendOk L with
                | none => rw [hl] at hv; cases hv
                | some ok1 =>
                  rw [hl] at hv
                  cases ok1 with
                  | true => cases hv
                  | false => rfl
              obtain ⟨ok5, t5, _, _⟩ :=
                UpdateSwapStatus_sets env d txid .TxSwapFailed (some e) w4
              generalize (UpdateSwapStatus env d txid .TxSwapFailed (some e) w4).2 = w5
                at t5 ⊢
              obtain ⟨ok6, t6, _⟩ :=
                UpdateSwapResultStatus_sets env d txid .TxSwapFailed (some e) w5
              generalize (UpdateSwapResultStatus env d txid .TxSwapFailed (some e) w5).2 = w6
                at t6 ⊢
              refine ⟨([.addHistory txid h d, .updateResult d txid m true,
                .updateStatus d txid .TxProcessed none ok] ++ L) ++
                [.updateStatus d txid .TxSwapFailed (some e) ok5,
                  .updateResultStatus d txid .TxSwapFailed (some e) ok6], ?_, ?_, by simp⟩
              · show w6.trace = _
                rw [t6, t5, t4, t3, t2, t1]; simp
              · rw [lastSendOk_append, hlast, hfalse]
                constructor
                · intro _
                  rfl
                · intro _
                  exact ⟨.updateStatus d txid .TxSwapFailed (some e) ok5, by simp, rfl⟩

/-- In a run of a process function there is a demotion exactly when the last
send returned an error. -/
theorem processSwap_verdict (env : Env) (d : Bool) (swap : MgoSwap) (w : World) :
    (∃ e ∈ newEvents w (processSwap env d swap w).2, e.isDemotion = true) ↔
      lastSendOk (newEvents w (processSwap env d swap w).2) = some false := by
  have hquiet : ∀ evs : List Event, (∀ a ∈ evs, a.isSend = false ∧ a.isDemotion = false) →
      ((∃ e ∈ evs, e.isDemotion = true) ↔ lastSendOk evs = some false) := by
    intro evs hq
    rw [lastSendOk_no_send evs (fun a ha => (hq a ha).1)]
    constructor
    · rintro ⟨a, ha, hd⟩
      rw [(hq a ha).2] at hd; cases hd
    · intro hc; cases hc
  have hprel : ∀ pre : List Event, (∀ a ∈ pre, a.isPrelude = true) →
      ∀ a ∈ pre, a.isSend = false ∧ a.isDemotion = false :=
    fun pre hp a ha => ⟨isPrelude_not_send a (hp a ha), isPrelude_not_demotion a (hp a ha)⟩
  rcases processSwap_stages env d swap w with ⟨hc, _⟩ | ⟨rec, ok1, _, _, _, ht, _⟩ |
    ⟨w1, hm, ok1, hc, ht⟩ | ⟨value, t, w2, hc, hsign, hrun⟩
  · obtain ⟨pre0, ht, hp, _, _⟩ := hc.events
    rw [newEvents_eq w _ pre0 ht]
    exact hquiet _ (hprel pre0 hp)
  · rw [newEvents_eq w _ _ ht]
    apply hquiet
    intro a ha
    simp only [List.mem_cons, List.mem_singleton, List.not_mem_nil, or_false] at ha
    rcases ha with h1 | h1 <;> subst h1 <;> exact ⟨rfl, rfl⟩
  · obtain ⟨pre0, ht0, hp, _, _⟩ := hc.events
    rw [ht0, List.append_assoc] at ht
    rw [newEvents_eq w _ _ ht]
    apply hquiet
    intro a ha
    rcases List.mem_append.mp ha with h1 | h1
    · exact hprel pre0 hp a h1
    · simp only [List.mem_singleton] at h1
      subst h1; exact ⟨rfl, rfl⟩
  · obtain ⟨pre0, ht0, hp, _, _⟩ := hc.events
    rw [hrun]
    obtain ⟨evs, ht, hiff, _⟩ := persistAndSend_verdict env d swap.TxID value (some t)
      (hashString ((bridgeOf env d).TxHash t)) w2
    rw [ht0, List.append_assoc] at ht
    rw [newEvents_eq w _ _ ht, lastSendOk_append,
      lastSendOk_no_send pre0 (fun a ha => (hprel pre0 hp a ha).1)]
    have hor : (lastSendOk evs).or none = lastSendOk evs := by
      cases lastSendOk evs <;> rfl
    rw [hor, ← hiff]
    constructor
    · rintro ⟨a, ha, hd⟩
      rcases List.mem_append.mp ha with h1 | h1
      · rw [(hprel pre0 hp a h1).2] at hd; cases hd
      · exact ⟨a, h1, hd⟩
    · rintro ⟨a, ha, hd⟩
      exact ⟨a, List.mem_append_right _ ha, hd⟩

/-! ## What the status writes leave in the store -/

/-- A status update of a swap record: the event carries whether the write went
through; a write that went through leaves the record with the status and the
memo, a write that failed leaves the store as it was. -/
theorem UpdateSwapStatus_write (env : Env) (d : Bool) (txid : GoString) (st : SwapStatus)
    (memo : Option Err) (w : World) :
    ∃ ok, (UpdateSwapStatus env d txid st memo w).2.trace =
        w.trace ++ [.updateStatus d txid st memo ok] ∧
      ((UpdateSwapStatus env d txid st memo w).1 = none ↔ ok = true) ∧
      (UpdateSwapStatus env d txid st memo w).2.store.results = w.store.results ∧
      (ok = true → ∃ r, (UpdateSwapStatus env d txid st memo w).2.store.swaps d txid = some r ∧
        r.Status = st ∧ r.Memo = memo) ∧
      (ok = false → (UpdateSwapStatus env d txid st memo w).2.store = w.store) := by
  unfold UpdateSwapStatus
  split
  · exact ⟨false, rfl, by simp, rfl, (fun h => by cases h), fun _ => rfl⟩
  · split
    · exact ⟨false, rfl, by simp, rfl, (fun h => by cases h), fun _ => rfl⟩
    · next r _ =>
      exact ⟨true, rfl, by simp, rfl,
        (fun _ => ⟨{ r with Status := st, Memo := memo }, by simp [emit], rfl, rfl⟩),
        (fun h => by cases h)⟩

/-- A status update of a result record, as `UpdateSwapStatus_write`. -/
theorem UpdateSwapResultStatus_write (env : Env) (d : Bool) (txid : GoString)
    (st : SwapStatus) (memo : Option Err) (w : World) :
    ∃ ok, (UpdateSwapResultStatus env d txid st memo w).2.trace =
        w.trace ++ [.updateResultStatus d txid st memo ok] ∧
      (UpdateSwapResultStatus env d txid st memo w).2.store.swaps = w.store.swaps ∧
      (ok = true →
        ∃ r, (UpdateSwapResultStatus env d txid st memo w).2.store.results d txid = some r ∧
          r.Status = st ∧ r.Memo = memo) ∧
      (ok = false → (UpdateSwapResultStatus env d txid st memo w).2.store = w.store) := by
  unfold UpdateSwapResultStatus
  split
  · exact ⟨false, rfl, rfl, (fun h => by cases h), fun _ => rfl⟩
  · split
    · exact ⟨false, rfl, rfl, (fun h => by cases h), fun _ => rfl⟩
    · next r _ =>
      exact ⟨true, rfl, rfl,
        (fun _ => ⟨{ r with Status := st, Memo := memo }, by simp [emit], rfl, rfl⟩),
        (fun h => by cases h)⟩

/-- An update of the match transaction that went through found a result record
and left its status and the swap records as they were. -/
theorem updateSwapResult_write (env : Env) (d : Bool) (txid : GoString) (m : MatchTx)
    (w : World) (hok : (updateSwapResult env d txid m w).1 = none) :
    (updateSwapResult env d txid m w).2.trace = w.trace ++ [.updateResult d txid m true] ∧
    (updateSwapResult env d txid m w).2.store.swaps = w.store.swaps ∧
    ∃ r0 r, w.store.results d txid = some r0 ∧
      (updateSwapResult env d txid m w).2.store.results d txid = some r ∧
      r.Status = r0.Status := by
  unfold updateSwapResult at hok ⊢
  cases hf : env.storeFails (clock w) with
  | some e => rw [hf] at hok; cases hok
  | none =>
    rw [hf] at hok
    dsimp only at hok ⊢
    cases hr : w.store.results d txid with
    | none => rw [hr] at hok; cases hok
    | some r0 =>
      exact ⟨rfl, rfl, r0,
        { r0 with SwapTx := m.SwapTx, SwapValue := m.SwapValue, SwapType := m.SwapType },
        rfl, by simp [emit], rfl⟩

/-- The last part of a run, with what it leaves in the store. Either a
persistence step fails and the part ends there; or both go through, the
broadcast loop follows, and the part ends after the loop when the last send
returned no error, with the swap record in `TxProcessed`, or after the two
demotions, each of which changes its record exactly when its write goes
through. -/
theorem persistAndSend_final (env : Env) (d : Bool) (txid : GoString) (value : Int)
    (tx : Option Transaction) (h : GoString) (w : World) :
    ∃ evs, (persistAndSend env d txid value tx h w).2.trace = w.trace ++ evs ∧
      (evs = [.addHistory txid h d, .updateResult d txid (matchTxOf env d value h) false] ∨
       evs = [.addHistory txid h d, .updateResult d txid (matchTxOf env d value h) true,
          .updateStatus d txid .TxProcessed none false] ∨
       (∃ L r0, w.store.results d txid = some r0 ∧
          (∀ a ∈ L, a.isSend = true ∨ a.isProbe = true) ∧
          ((evs = persistHead d txid h (matchTxOf env d value h) ++ L ∧
              lastSendOk L ≠ some false ∧
              (∃ r, (persistAndSend env d txid value tx h w).2.store.swaps d txid = some r ∧
                r.Status = .TxProcessed) ∧
              (∃ r, (persistAndSend env d txid value tx h w).2.store.results d txid = some r ∧
                r.Status = r0.Status)) ∨
            (∃ e ok5 ok6,
              (persistAndSend env d txid value tx h w).1 = some e ∧
              evs = persistHead d txid h (matchTxOf env d value h) ++ L ++
                [.updateStatus d txid .TxSwapFailed (some e) ok5,
                 .updateResultStatus d txid .TxSwapFailed (some e) ok6] ∧
              lastSendOk L = some false ∧
              (∃ r, (persistAndSend env d txid value tx h w).2.store.swaps d txid = some r ∧
                (ok5 = true → r.Status = .TxSwapFailed ∧ r.Memo = some e) ∧
                (ok5 = false → r.Status = .TxProcessed)) ∧
              (∃ r, (persistAndSend env d txid value tx h w).2.store.results d txid = some r ∧
                (ok6 = true → r.Status = .TxSwapFailed ∧ r.Memo = some e) ∧
                (ok6 = false → r.Status = r0.Status)))))) := by
  unfold persistAndSend
  dsimp only
  have hm : MatchTx.mk h (env.bigString (env.CalcSwappedValue value d))
      (if d = true then SwapType.SwapinType else SwapType.SwapoutType) =
      matchTxOf env d value h := rfl
  rw [hm]
  generalize matchTxOf env d value h = m
  have t1 : (addSwapHistory env txid value h d w).trace = w.trace ++ [.addHistory txid h d] := rfl
  have s1 : (addSwapHistory env txid value h d w).store = w.store := rfl
  generalize addSwapHistory env txid value h d w = w1 at t1 s1 ⊢
  have hu := updateSwapResult_effect env d txid m w1
  have hwr := updateSwapResult_write env d txid m w1
  cases hres : updateSwapResult env d txid m w1 with
  | mk r2 w2 =>
    rw [hres] at hu hwr
    dsimp only at hu hwr
    cases r2 with
    | some e =>
      rcases hu with ⟨hh, _⟩ | ⟨_, t2, _⟩
      · exact absurd hh (by simp)
      · refine ⟨[.addHistory txid h d, .updateResult d txid m false], ?_, Or.inl rfl⟩
        show w2.trace = _
        rw [t2, t1]; simp
    | none =>
      obtain ⟨t2, hsw2, r0, rr, hr0, hrr, hrst⟩ := hwr rfl
      rw [s1] at hr0
      dsimp only
      obtain ⟨ok, t3, hiff3, hres3, hset3, _⟩ :=
        UpdateSwapStatus_write env d txid .TxProcessed none w2
      cases hus : UpdateSwapStatus env d txid .TxProcessed none w2 with
      | mk r3 w3 =>
        rw [hus] at t3 hiff3 hres3 hset3
        dsimp only at t3 hiff3 hres3 hset3
        cases r3 with
        | some e =>
          have hokf : ok = false := by
            cases ok with
            | false => rfl
            | true => exact absurd (hiff3.mpr rfl) (by simp)
          subst hokf
          refine ⟨[.addHistory txid h d, .updateResult d txid m true,
            .updateStatus d txid .TxProcessed none false], ?_, Or.inr (Or.inl rfl)⟩
          show w3.trace = _
          rw [t3, t2, t1]; simp
        | none =>
          have hokt : ok = true := hiff3.mp rfl
          subst hokt
          obtain ⟨p3, hp3, hp3s, _⟩ := hset3 rfl
          have hrr3 : w3.store.results d txid = some rr := by rw [hres3]; exact hrr
          dsimp only
          obtain ⟨L, hw4, hdem, hv⟩ :=
            sendLoop_verdict (bridgeOf env d) tx h env.retrySendTxCount none w3
          obtain ⟨L1, hw41, hshape, _, _⟩ :=
            sendLoop_shape (bridgeOf env d) tx h env.retrySendTxCount none w3
          have hLL : L1 = L := by
            have := congrArg World.trace (hw41.symm.trans hw4)
            simpa [addTrace] using this
          subst hLL
          have hmem : ∀ a ∈ L1, a.isSend = true ∨ a.isProbe = true := by
            intro a ha
            rcases hshape.1 a ha with h1 | h1 | h1 <;> subst h1
            · exact Or.inl rfl
            · exact Or.inl rfl
            · exact Or.inr rfl
          cases hsl : sendLoop (bridgeOf env d) tx h env.retrySendTxCount none w3 with
          | mk r4 w4 =>
            rw [hsl] at hw4 hv
            dsimp only at hw4 hv
            have t4 : w4.trace = w3.trace ++ L1 := by rw [hw4]; rfl
            have s4 : w4.store = w3.store := by rw [hw4]; rfl
            cases r4 with
            | none =>
              have hne : lastSendOk L1 ≠ some false := by
                intro hc
                rw [hc] at hv
                cases hv
              refine ⟨persistHead d txid h m ++ L1, ?_, Or.inr (Or.inr ⟨L1, r0, hr0, hmem,
                Or.inl ⟨rfl, hne, ⟨p3, ?_, hp3s⟩, ⟨rr, ?_, hrst⟩⟩⟩)⟩
              · show w4.trace = _
                rw [t4, t3, t2, t1]; simp [persistHead]
              · show w4.store.swaps d txid = _
                rw [s4]; exact hp3
              · show w4.store.results d txid = _
                rw [s4]; exact hrr3
            | some e =>
              dsimp only
              have hfalse : lastSendOk L1 = some false := by
                cases hl : lastSendOk L1 with
                | none => rw [hl] at hv; cases hv
                | some ok1 =>
                  rw [hl] at hv
                  cases ok1 with
                  | true => cases hv
                  | false => rfl
              obtain ⟨ok5, t5, _, hres5, hset5, hkeep5⟩ :=
                UpdateSwapStatus_write env d txid .TxSwapFailed (some e) w4
              generalize (UpdateSwapStatus env d txid .TxSwapFailed (some e) w4).2 = w5
                at t5 hres5 hset5 hkeep5 ⊢
              obtain ⟨ok6, t6, hsw6, hset6, hkeep6⟩ :=
                UpdateSwapResultStatus_write env d txid .TxSwapFailed (some e) w5
              generalize (UpdateSwapResultStatus env d txid .TxSwapFailed (some e) w5).2 = w6
                at t6 hsw6 hset6 hkeep6 ⊢
              have hswaps : ∃ r, w6.store.swaps d txid = some r ∧
                  (ok5 = true → r.Status = .TxSwapFailed ∧ r.Memo = some e) ∧
                  (ok5 = false → r.Status = .TxProcessed) := by
                rw [hsw6]
                cases ok5 with
                | true =>
                  obtain ⟨r, hr, h1, h2⟩ := hset5 rfl
                  exact ⟨r, hr, fun _ => ⟨h1, h2⟩, fun hc => by cases hc⟩
                | false =>
                  refine ⟨p3, ?_, (fun hc => by cases hc), fun _ => hp3s⟩
                  rw [hkeep5 rfl, s4]; exact hp3
              have hresults : ∃ r, w6.store.results d txid = some r ∧
                  (ok6 = true → r.Status = .TxSwapFailed ∧ r.Memo = some e) ∧
                  (ok6 = false → r.Status = r0.Status) := by
                cases ok6 with
                | true =>
                  obtain ⟨r, hr, h1, h2⟩ := hset6 rfl
                  exact ⟨r, hr, fun _ => ⟨h1, h2⟩, fun hc => by cases hc⟩
                | false =>
                  refine ⟨rr, ?_, (fun hc => by cases hc), fun _ => hrst⟩
                  rw [hkeep6 rfl, hres5, s4]; exact hrr3
              refine ⟨persistHead d txid h m ++ L1 ++
                [.updateStatus d txid .TxSwapFailed (some e) ok5,
                  .updateResultStatus d txid .TxSwapFailed (some e) ok6], ?_,
                Or.inr (Or.inr ⟨L1, r0, hr0, hmem,
                  Or.inr ⟨e, ok5, ok6, rfl, rfl, hfalse, hswaps, hresults⟩⟩)⟩
              show w6.trace = _
              rw [t6, t5, t4, t3, t2, t1]; simp [persistHead]

theorem isPrelude_not_write (a : Event) (h : a.isPrelude = true) :
    (∀ d txid m ok, a ≠ .updateResult d txid m ok) ∧
    (∀ d txid st memo ok, a ≠ .updateStatus d txid st memo ok) ∧
    (∀ d txid st memo ok, a ≠ .updateResultStatus d txid st memo ok) := by
  cases a <;> first | (cases h; done) | simp

/-- A run and what it leaves in the store. Either the run makes no send and no
demotion, and one of the two persistence steps did not go through in it; or,
after steps that write nothing, it persists, runs the broadcast loop, and ends
after the loop when the last send returned no error, with the swap record in
`TxProcessed`, or after the two demotions, each of which changes its record
exactly when its write goes through. -/
theorem processSwap_final (env : Env) (d : Bool) (swap : MgoSwap) (w : World) :
    ((∀ a ∈ newEvents w (processSwap env d swap w).2, a.isSend = false ∧ a.isDemotion = false) ∧
      ((∀ m, Event.updateResult d swap.TxID m true ∉ newEvents w (processSwap env d swap w).2) ∨
        Event.updateStatus d swap.TxID .TxProcessed none true ∉
          newEvents w (processSwap env d swap w).2)) ∨
    (∃ pre hh m L r0, w.store.results d swap.TxID = some r0 ∧
      (∀ a ∈ pre, a.isPrelude = true) ∧
      (∀ a ∈ L, a.isSend = true ∨ a.isProbe = true) ∧
      ((newEvents w (processSwap env d swap w).2 = pre ++ persistHead d swap.TxID hh m ++ L ∧
          lastSendOk L ≠ some false ∧
          (∃ r, (processSwap env d swap w).2.store.swaps d swap.TxID = some r ∧
            r.Status = .TxProcessed) ∧
          (∃ r, (processSwap env d swap w).2.store.results d swap.TxID = some r ∧
            r.Status = r0.Status)) ∨
        (∃ e ok5 ok6,
          (processSwap env d swap w).1 = some e ∧
          newEvents w (processSwap env d swap w).2 =
            pre ++ persistHead d swap.TxID hh m ++ L ++
              [.updateStatus d swap.TxID .TxSwapFailed (some e) ok5,
               .updateResultStatus d swap.TxID .TxSwapFailed (some e) ok6] ∧
          lastSendOk L = some false ∧
          (∃ r, (processSwap env d swap w).2.store.swaps d swap.TxID = some r ∧
            (ok5 = true → r.Status = .TxSwapFailed ∧ r.Memo = some e) ∧
            (ok5 = false → r.Status = .TxProcessed)) ∧
          (∃ r, (processSwap env d swap w).2.store.results d swap.TxID = some r ∧
            (ok6 = true → r.Status = .TxSwapFailed ∧ r.Memo = some e) ∧
            (ok6 = false → r.Status = r0.Status))))) := by
  have hprel : ∀ pre : List Event, (∀ a ∈ pre, a.isPrelude = true) →
      ∀ a ∈ pre, a.isSend = false ∧ a.isDemotion = false :=
    fun pre hp a ha => ⟨isPrelude_not_send a (hp a ha), isPrelude_not_demotion a (hp a ha)⟩
  rcases processSwap_stages env d swap w with ⟨hc, _⟩ | ⟨rec, ok1, _, _, _, ht, _⟩ |
    ⟨w1, hm, ok1, hc, ht⟩ | ⟨value, t, w2, hc, hsign, hrun⟩
  · obtain ⟨pre0, ht, hp, _, _⟩ := hc.events
    rw [newEvents_eq w _ pre0 ht]
    refine Or.inl ⟨hprel pre0 hp, Or.inl ?_⟩
    intro m hmem
    exact (isPrelude_not_write _ (hp _ hmem)).1 _ _ _ _ rfl
  · rw [newEvents_eq w _ _ ht]
    refine Or.inl ⟨?_, Or.inl ?_⟩
    · intro a ha
      simp only [List.mem_cons, List.mem_singleton, List.not_mem_nil, or_false] at ha
      rcases ha with h1 | h1 <;> subst h1 <;> exact ⟨rfl, rfl⟩
    · intro m hmem
      simp at hmem
  · obtain ⟨pre0, ht0, hp, _, _⟩ := hc.events
    rw [ht0, List.append_assoc] at ht
    rw [newEvents_eq w _ _ ht]
    refine Or.inl ⟨?_, Or.inr ?_⟩
    · intro a ha
      rcases List.mem_append.mp ha with h1 | h1
      · exact hprel pre0 hp a h1
      · simp only [List.mem_singleton] at h1
        subst h1; exact ⟨rfl, rfl⟩
    · intro hmem
      rcases List.mem_append.mp hmem with h1 | h1
      · exact (isPrelude_not_write _ (hp _ h1)).2.1 _ _ _ _ _ rfl
      · simp at h1
  · obtain ⟨pre0, ht0, hp, hst0, _⟩ := hc.events
    rw [hrun]
    obtain ⟨evs, ht, hcases⟩ := persistAndSend_final env d swap.TxID value (some t)
      (hashString ((bridgeOf env d).TxHash t)) w2
    rw [ht0, List.append_assoc] at ht
    rw [newEvents_eq w _ _ ht]
    rcases hcases with hev | hev | ⟨L, r0, hr0, hL, hrest⟩
    · subst hev
      refine Or.inl ⟨?_, Or.inl ?_⟩
      · intro a ha
        rcases List.mem_append.mp ha with h1 | h1
        · exact hprel pre0 hp a h1
        · simp only [List.mem_cons, List.mem_singleton, List.not_mem_nil, or_false] at h1
          rcases h1 with h1 | h1 <;> subst h1 <;> exact ⟨rfl, rfl⟩
      · intro m hmem
        rcases List.mem_append.mp hmem with h1 | h1
        · exact (isPrelude_not_write _ (hp _ h1)).1 _ _ _ _ rfl
        · simp at h1
    · subst hev
      refine Or.inl ⟨?_, Or.inr ?_⟩
      · intro a ha
        rcases List.mem_append.mp ha with h1 | h1
        · exact hprel pre0 hp a h1
        · simp only [List.mem_cons, List.mem_singleton, List.not_mem_nil, or_false] at h1
          rcases h1 with h1 | h1 | h1 <;> subst h1 <;> exact ⟨rfl, rfl⟩
      · intro hmem
        rcases List.mem_append.mp hmem with h1 | h1
        · exact (isPrelude_not_write _ (hp _ h1)).2.1 _ _ _ _ _ rfl
        · simp at h1
    · rw [hst0] at hr0
      refine Or.inr ⟨pre0, hashString ((bridgeOf env d).TxHash t),
        matchTxOf env d value (hashString ((bridgeOf env d).TxHash t)), L, r0, hr0, hp, hL, ?_⟩
      rcases hrest with ⟨hev, hlast, hsw, hres⟩ | ⟨e, ok5, ok6, hret, hev, hlast, hsw, hres⟩
      · refine Or.inl ⟨?_, hlast, hsw, hres⟩
        rw [hev, List.append_assoc]
      · refine Or.inr ⟨e, ok5, ok6, hret, ?_, hlast, hsw, hres⟩
        rw [hev]
        simp only [List.append_assoc]

/-- The demotions among the events of a run that ends with them: each occurs
once, with the flag of its write. -/
theorem demotion_events_mem (d : Bool) (txid hh : GoString) (m : MatchTx)
    (pre L : List Event) (e : Err) (ok5 ok6 : Bool)
    (hp : ∀ a ∈ pre, a.isPrelude = true)
    (hL : ∀ a ∈ L, a.isSend = true ∨ a.isProbe = true) :
    (∀ e1 ok, Event.updateStatus d txid .TxSwapFailed e1 ok ∈
        pre ++ persistHead d txid hh m ++ L ++
          [.updateStatus d txid .TxSwapFailed (some e) ok5,
           .updateResultStatus d txid .TxSwapFailed (some e) ok6] ↔
      e1 = some e ∧ ok = ok5) ∧
    (∀ e1 ok, Event.updateResultStatus d txid .TxSwapFailed e1 ok ∈
        pre ++ persistHead d txid hh m ++ L ++
          [.updateStatus d txid .TxSwapFailed (some e) ok5,
           .updateResultStatus d txid .TxSwapFailed (some e) ok6] ↔
      e1 = some e ∧ ok = ok6) := by
  constructor
  · intro e1 ok
    constructor
    · intro hmem
      rcases List.mem_append.mp hmem with h | h
      · rcases List.mem_append.mp h with h | h
        · rcases List.mem_append.mp h with h | h
          · exact absurd rfl ((isPrelude_not_write _ (hp _ h)).2.1 _ _ _ _ _)
          · simp [persistHead] at h
        · rcases hL _ h with h1 | h1 <;> cases h1
      · simp only [List.mem_cons, List.mem_singleton, List.not_mem_nil, or_false] at h
        rcases h with h | h
        · simp only [Event.updateStatus.injEq, true_and] at h
          exact h
        · cases h
    · rintro ⟨rfl, rfl⟩
      simp
  · intro e1 ok
    constructor
    · intro hmem
      rcases List.mem_append.mp hmem with h | h
      · rcases List.mem_append.mp h with h | h
        · rcases List.mem_append.mp h with h | h
          · exact absurd rfl ((isPrelude_not_write _ (hp _ h)).2.2 _ _ _ _ _)
          · simp [persistHead] at h
        · rcases hL _ h with h1 | h1 <;> cases h1
      · simp only [List.mem_cons, List.mem_singleton, List.not_mem_nil, or_false] at h
        rcases h with h | h
        · cases h
        · simp only [Event.updateResultStatus.injEq, true_and] at h
          exact h
    · rintro ⟨rfl, rfl⟩
      simp

/-- The last send of a run is the last send of its broadcast loop. -/
theorem lastSendOk_run (d : Bool) (txid hh : GoString) (m : MatchTx) (pre L tail : List Event)
    (hp : ∀ a ∈ pre, a.isPrelude = true) (ht : ∀ a ∈ tail, a.isSend = false) :
    lastSendOk (pre ++ persistHead d txid hh m ++ L ++ tail) = lastSendOk L := by
  have h1 : lastSendOk pre = none :=
    lastSendOk_no_send pre (fun a ha => isPrelude_not_send a (hp a ha))
  have h2 : lastSendOk (persistHead d txid hh m) = none := rfl
  have h3 : lastSendOk tail = none := lastSendOk_no_send tail ht
  rw [lastSendOk_append, lastSendOk_append, lastSendOk_append, h1, h2, h3]
  cases lastSendOk L <;> rfl

/-- A run that made a send and got an error from every send, with what the two
demotions leave in the store. -/
theorem processSwap_exhaustion_records (env : Env) (d : Bool) (swap : MgoSwap) (w : World)
    (hsent : ∃ e ∈ newEvents w (processSwap env d swap w).2, e.isSend = true)
    (hall : ∀ e ∈ newEvents w (processSwap env d swap w).2, e.isSendOk = false) :
    ∃ e t pre ok5 ok6,
      (processSwap env d swap w).1 = some e ∧
      newEvents w (processSwap env d swap w).2 =
        pre ++ [.send (some t) false,
          .updateStatus d swap.TxID .TxSwapFailed (some e) ok5,
          .updateResultStatus d swap.TxID .TxSwapFailed (some e) ok6] ∧
      (bridgeOf env d).SendTransaction (clock w + pre.length) (some t) = some e ∧
      ((newEvents w (processSwap env d swap w).2).filter Event.isSend).length =
        env.retrySendTxCount ∧
      (∃ r, (processSwap env d swap w).2.store.swaps d swap.TxID = some r ∧
        (ok5 = true → r.Status = .TxSwapFailed ∧ r.Memo = some e) ∧
        (ok5 = false → r.Status = .TxProcessed)) ∧
      (∃ r0 r, w.store.results d swap.TxID = some r0 ∧
        (processSwap env d swap w).2.store.results d swap.TxID = some r ∧
        (ok6 = true → r.Status = .TxSwapFailed ∧ r.Memo = some e) ∧
        (ok6 = false → r.Status = r0.Status)) := by
  obtain ⟨e, t, pre, ok5, ok6, hret, hev, hsend, hcount, _, _⟩ :=
    processSwap_exhaustion env d swap w hsent hall
  have hmem5 : Event.updateStatus d swap.TxID .TxSwapFailed (some e) ok5 ∈
      newEvents w (processSwap env d swap w).2 := by rw [hev]; simp
  have hmem6 : Event.updateResultStatus d swap.TxID .TxSwapFailed (some e) ok6 ∈
      newEvents w (processSwap env d swap w).2 := by rw [hev]; simp
  rcases processSwap_final env d swap w with ⟨hq, _⟩ |
    ⟨pre1, hh, m, L, r0, hr0, hp, hL, hrest⟩
  · have := (hq _ hmem5).2
    cases this
  · rcases hrest with ⟨hev1, _⟩ | ⟨e1, o5, o6, hret1, hev1, _, hsw, hres⟩
    · exfalso
      rw [hev1] at hmem5
      rcases List.mem_append.mp hmem5 with h | h
      · rcases List.mem_append.mp h with h | h
        · exact absurd rfl ((isPrelude_not_write _ (hp _ h)).2.1 _ _ _ _ _)
        · simp [persistHead] at h
      · rcases hL _ h with h1 | h1 <;> cases h1
    · have hee : e1 = e := by
        rw [hret] at hret1
        cases hret1; rfl
      subst hee
      obtain ⟨hm5, hm6⟩ := demotion_events_mem d swap.TxID hh m pre1 L e1 o5 o6 hp hL
      rw [hev1] at hmem5 hmem6
      have h5 : ok5 = o5 := ((hm5 _ _).mp hmem5).2
      have h6 : ok6 = o6 := ((hm6 _ _).mp hmem6).2
      subst h5 h6
      obtain ⟨r6, hr6, hr6a, hr6b⟩ := hres
      exact ⟨e1, t, pre, ok5, ok6, hret, hev, hsend, hcount, hsw, r0, r6, hr0, hr6, hr6a, hr6b⟩

/-- A run in which both persistence steps went through: the status of the swap
record and of the result record at its end. -/
theorem processSwap_last_attempt (env : Env) (d : Bool) (swap : MgoSwap) (w : World)
    (hres : ∃ m, Event.updateResult d swap.TxID m true ∈
      newEvents w (processSwap env d swap w).2)
    (hst : Event.updateStatus d swap.TxID .TxProcessed none true ∈
      newEvents w (processSwap env d swap w).2) :
    (∃ r, (processSwap env d swap w).2.store.swaps d swap.TxID = some r ∧
      (r.Status = .TxSwapFailed ↔
        (lastSendOk (newEvents w (processSwap env d swap w).2) = some false ∧
          ∃ e, Event.updateStatus d swap.TxID .TxSwapFailed e true ∈
            newEvents w (processSwap env d swap w).2)) ∧
      (r.Status ≠ .TxSwapFailed → r.Status = .TxProcessed)) ∧
    (∃ r0 r, w.store.results d swap.TxID = some r0 ∧
      (processSwap env d swap w).2.store.results d swap.TxID = some r ∧
      ((lastSendOk (newEvents w (processSwap env d swap w).2) = some false ∧
          ∃ e, Event.updateResultStatus d swap.TxID .TxSwapFailed e true ∈
            newEvents w (processSwap env d swap w).2) → r.Status = .TxSwapFailed) ∧
      (¬ (lastSendOk (newEvents w (processSwap env d swap w).2) = some false ∧
          ∃ e, Event.updateResultStatus d swap.TxID .TxSwapFailed e true ∈
            newEvents w (processSwap env d swap w).2) → r.Status = r0.Status)) := by
  rcases processSwap_final env d swap w with ⟨_, hno | hno⟩ |
    ⟨pre1, hh, m, L, r0, hr0, hp, hL, hrest⟩
  · obtain ⟨m, hm⟩ := hres
    exact absurd hm (hno m)
  · exact absurd hst hno
  · rcases hrest with ⟨hev, hlast, ⟨r, hr, hrs⟩, ⟨q, hq, hqs⟩⟩ |
      ⟨e, ok5, ok6, _, hev, hlast, ⟨r, hr, hr5, hr5f⟩, ⟨q, hq, hq6, hq6f⟩⟩
    · have hl : lastSendOk (newEvents w (processSwap env d swap w).2) = lastSendOk L := by
        rw [hev]
        have := lastSendOk_run d swap.TxID hh m pre1 L [] hp (by simp)
        rwa [List.append_nil] at this
      rw [hl]
      refine ⟨⟨r, hr, ?_, fun _ => hrs⟩, r0, q, hr0, hq, ?_, fun _ => hqs⟩
      · constructor
        · intro hc
          rw [hrs] at hc
          cases hc
        · rintro ⟨hc, _⟩
          exact absurd hc hlast
      · rintro ⟨hc, _⟩
        exact absurd hc hlast
    · have hl : lastSendOk (newEvents w (processSwap env d swap w).2) = some false := by
        rw [hev, lastSendOk_run d swap.TxID hh m pre1 L _ hp (by
          intro a ha
          simp only [List.mem_cons, List.mem_singleton, List.not_mem_nil, or_false] at ha
          rcases ha with h | h <;> subst h <;> rfl)]
        exact hlast
      obtain ⟨hm5, hm6⟩ := demotion_events_mem d swap.TxID hh m pre1 L e ok5 ok6 hp hL
      rw [← hev] at hm5 hm6
      refine ⟨⟨r, hr, ?_, ?_⟩, r0, q, hr0, hq, ?_, ?_⟩
      · constructor
        · intro hc
          refine ⟨hl, some e, (hm5 _ _).mpr ⟨rfl, ?_⟩⟩
          cases ok5 with
          | true => rfl
          | false =>
            rw [hr5f rfl] at hc
            cases hc
        · rintro ⟨_, e1, hmem⟩
          exact (hr5 ((hm5 _ _).mp hmem).2.symm).1
      · intro hne
        cases ok5 with
        | true => exact absurd (hr5 rfl).1 hne
        | false => exact hr5f rfl
      · rintro ⟨_, e1, hmem⟩
        exact (hq6 ((hm6 _ _).mp hmem).2.symm).1
      · intro hn
        cases ok6 with
        | true => exact absurd ⟨hl, some e, (hm6 _ _).mpr ⟨rfl, rfl⟩⟩ hn
        | false => exact hq6f rfl

/-- C16, amended: broadcast exhaustion. When a run of `processSwapinSwap` or of
`processSwapoutSwap` makes a send and every send returns an error, all
`retrySendTxCount` sends were made, the run returns the error of the last send,
and it ends with the update of the swap record and the update of the result
record to `TxSwapFailed`, both with this error. The run drops the errors of
these two writes: a record whose write goes through carries `TxSwapFailed` and
the error, a swap record whose write fails stays in `TxProcessed`, and a result
record whose write fails keeps the status it had before the run. In every run,
a demotion to `TxSwapFailed` comes after `retrySendTxCount` sends and no send
follows it. -/
theorem broadcast_exhaustion (env : Env) (swap : MgoSwap) (w : World) :
    ((∃ e ∈ newEvents w (processSwapinSwap env swap w).2, e.isSend = true) →
      (∀ e ∈ newEvents w (processSwapinSwap env swap w).2, e.isSendOk = false) →
      ∃ e t pre ok5 ok6,
        (processSwapinSwap env swap w).1 = some e ∧
        newEvents w (processSwapinSwap env swap w).2 =
          pre ++ [.send (some t) false,
            .updateStatus true swap.TxID .TxSwapFailed (some e) ok5,
            .updateResultStatus true swap.TxID .TxSwapFailed (some e) ok6] ∧
        env.DstBridge.SendTransaction (clock w + pre.length) (some t) = some e ∧
        ((newEvents w (processSwapinSwap env swap w).2).filter Event.isSend).length =
          env.retrySendTxCount ∧
        (∃ r, (processSwapinSwap env swap w).2.store.swaps true swap.TxID = some r ∧
          (ok5 = true → r.Status = .TxSwapFailed ∧ r.Memo = some e) ∧
          (ok5 = false → r.Status = .TxProcessed)) ∧
        (∃ r0 r, w.store.results true swap.TxID = some r0 ∧
          (processSwapinSwap env swap w).2.store.results true swap.TxID = some r ∧
          (ok6 = true → r.Status = .TxSwapFailed ∧ r.Memo = some e) ∧
          (ok6 = false → r.Status = r0.Status))) ∧
    ((∃ e ∈ newEvents w (processSwapoutSwap env swap w).2, e.isSend = true) →
      (∀ e ∈ newEvents w (processSwapoutSwap env swap w).2, e.isSendOk = false) →
      ∃ e t pre ok5 ok6,
        (processSwapoutSwap env swap w).1 = some e ∧
        newEvents w (processSwapoutSwap env swap w).2 =
          pre ++ [.send (some t) false,
            .updateStatus false swap.TxID .TxSwapFailed (some e) ok5,
            .updateResultStatus false swap.TxID .TxSwapFailed (some e) ok6] ∧
        env.SrcBridge.SendTransaction (clock w + pre.length) (some t) = some e ∧
        ((newEvents w (processSwapoutSwap env swap w).2).filter Event.isSend).length =
          env.retrySendTxCount ∧
        (∃ r, (processSwapoutSwap env swap w).2.store.swaps false swap.TxID = some r ∧
          (ok5 = true → r.Status = .TxSwapFailed ∧ r.Memo = some e) ∧
          (ok5 = false → r.Status = .TxProcessed)) ∧
        (∃ r0 r, w.store.results false swap.TxID = some r0 ∧
          (processSwapoutSwap env swap w).2.store.results false swap.TxID = some r ∧
          (ok6 = true → r.Status = .TxSwapFailed ∧ r.Memo = some e) ∧
          (ok6 = false → r.Status = r0.Status))) ∧
    (∀ pre e post, newEvents w (processSwapinSwap env swap w).2 = pre ++ e :: post →
      e.isDemotion = true →
      (pre.filter Event.isSend).length = env.retrySendTxCount ∧ ∀ a ∈ post, a.isSend = false) ∧
    (∀ pre e post, newEvents w (processSwapoutSwap env swap w).2 = pre ++ e :: post →
      e.isDemotion = true →
      (pre.filter Event.isSend).length = env.retrySendTxCount ∧ ∀ a ∈ post, a.isSend = false) :=
  ⟨processSwap_exhaustion_records env true swap w,
    processSwap_exhaustion_records env false swap w,
    processSwap_demotion env true swap w, processSwap_demotion env false swap w⟩

set_option maxRecDepth 1000000 in
/-- Witness of C16: the sample swap-in with a node that refuses every send and
a store that takes every write. -/
theorem broadcast_exhaustion_witness :
    (newEvents sampleWorld (processSwapinSwap sampleRefusingEnv sampleSwap sampleWorld).2).drop
        10 =
      [.send (some sampleSignedTx) false, .send (some sampleSignedTx) false,
        .send (some sampleSignedTx) false,
        .updateStatus true (ascii "tx1") .TxSwapFailed (some (.external 1)) true,
        .updateResultStatus true (ascii "tx1") .TxSwapFailed (some (.external 1)) true] ∧
    ∃ e t pre ok5 ok6,
      (processSwapinSwap sampleRefusingEnv sampleSwap sampleWorld).1 = some e ∧
      newEvents sampleWorld (processSwapinSwap sampleRefusingEnv sampleSwap sampleWorld).2 =
        pre ++ [.send (some t) false,
          .updateStatus true sampleSwap.TxID .TxSwapFailed (some e) ok5,
          .updateResultStatus true sampleSwap.TxID .TxSwapFailed (some e) ok6] ∧
      sampleRefusingEnv.DstBridge.SendTransaction (clock sampleWorld + pre.length) (some t) =
        some e ∧
      ((newEvents sampleWorld
        (processSwapinSwap sampleRefusingEnv sampleSwap sampleWorld).2).filter
          Event.isSend).length = sampleRefusingEnv.retrySendTxCount ∧
      (∃ r, (processSwapinSwap sampleRefusingEnv sampleSwap sampleWorld).2.store.swaps true
          sampleSwap.TxID = some r ∧
        (ok5 = true → r.Status = .TxSwapFailed ∧ r.Memo = some e) ∧
        (ok5 = false → r.Status = .TxProcessed)) ∧
      (∃ r0 r, sampleWorld.store.results true sampleSwap.TxID = some r0 ∧
        (processSwapinSwap sampleRefusingEnv sampleSwap sampleWorld).2.store.results true
          sampleSwap.TxID = some r ∧
        (ok6 = true → r.Status = .TxSwapFailed ∧ r.Memo = some e) ∧
        (ok6 = false → r.Status = r0.Status)) :=
  ⟨by decide,
   (broadcast_exhaustion sampleRefusingEnv sampleSwap sampleWorld).1 (by decide) (by decide)⟩

set_option maxRecDepth 1000000 in
/-- Counterexample to C16 as stated: with a store that fails after the sends,
all three sends of the sample swap-in return an error and the run returns it,
the two updates to `TxSwapFailed` are made and fail, and at the end the swap
record is in `TxProcessed` and the result record in `TxNotSwapped`. -/
theorem broadcast_exhaustion_counterexample :
    sampleStoreDownEnv.retrySendTxCount = 3 ∧
    (newEvents sampleWorld (processSwapinSwap sampleStoreDownEnv sampleSwap sampleWorld).2).drop
        10 =
      [.send (some sampleSignedTx) false, .send (some sampleSignedTx) false,
        .send (some sampleSignedTx) false,
        .updateStatus true (ascii "tx1") .TxSwapFailed (some (.external 1)) false,
        .updateResultStatus true (ascii "tx1") .TxSwapFailed (some (.external 1)) false] ∧
    (∀ e ∈ newEvents sampleWorld
        (processSwapinSwap sampleStoreDownEnv sampleSwap sampleWorld).2, e.isSendOk = false) ∧
    (processSwapinSwap sampleStoreDownEnv sampleSwap sampleWorld).1 = some (.external 1) ∧
    ((processSwapinSwap sampleStoreDownEnv sampleSwap sampleWorld).2.store.swaps true
      (ascii "tx1")).map (fun r => r.Status) = some .TxProcessed ∧
    ((processSwapinSwap sampleStoreDownEnv sampleSwap sampleWorld).2.store.results true
      (ascii "tx1")).map (fun r => r.Status) = some .TxNotSwapped := by
  refine ⟨rfl, by decide, by decide, by decide, by decide, by decide⟩

/-- C29, amended: the demotion depends on the last attempt only. In every run
of `processSwapinSwap` and of `processSwapoutSwap`, the updates to
`TxSwapFailed` are made if and only if the last call of `SendTransaction` of
the run returned an error, whatever the earlier calls returned. In a run in
which both persistence steps went through, the swap record ends in
`TxSwapFailed` if and only if the last send returned an error and the write of
the demotion went through, and in `TxProcessed` otherwise; the result record
ends in `TxSwapFailed` when the last send returned an error and the write of
its demotion went through, and keeps the status it had before the run
otherwise. -/
theorem demotion_depends_on_last_attempt (env : Env) (swap : MgoSwap) (w : World) :
    ((∃ e ∈ newEvents w (processSwapinSwap env swap w).2, e.isDemotion = true) ↔
      lastSendOk (newEvents w (processSwapinSwap env swap w).2) = some false) ∧
    ((∃ m, Event.updateResult true swap.TxID m true ∈
        newEvents w (processSwapinSwap env swap w).2) →
      Event.updateStatus true swap.TxID .TxProcessed none true ∈
        newEvents w (processSwapinSwap env swap w).2 →
      (∃ r, (processSwapinSwap env swap w).2.store.swaps true swap.TxID = some r ∧
        (r.Status = .TxSwapFailed ↔
          (lastSendOk (newEvents w (processSwapinSwap env swap w).2) = some false ∧
            ∃ e, Event.updateStatus true swap.TxID .TxSwapFailed e true ∈
              newEvents w (processSwapinSwap env swap w).2)) ∧
        (r.Status ≠ .TxSwapFailed → r.Status = .TxProcessed)) ∧
      (∃ r0 r, w.store.results true swap.TxID = some r0 ∧
        (processSwapinSwap env swap w).2.store.results true swap.TxID = some r ∧
        ((lastSendOk (newEvents w (processSwapinSwap env swap w).2) = some false ∧
            ∃ e, Event.updateResultStatus true swap.TxID .TxSwapFailed e true ∈
              newEvents w (processSwapinSwap env swap w).2) → r.Status = .TxSwapFailed) ∧
        (¬ (lastSendOk (newEvents w (processSwapinSwap env swap w).2) = some false ∧
            ∃ e, Event.updateResultStatus true swap.TxID .TxSwapFailed e true ∈
              newEvents w (processSwapinSwap env swap w).2) → r.Status = r0.Status))) ∧
    ((∃ e ∈ newEvents w (processSwapoutSwap env swap w).2, e.isDemotion = true) ↔
      lastSendOk (newEvents w (processSwapoutSwap env swap w).2) = some false) ∧
    ((∃ m, Event.updateResult false swap.TxID m true ∈
        newEvents w (processSwapoutSwap env swap w).2) →
      Event.updateStatus false swap.TxID .TxProcessed none true ∈
        newEvents w (processSwapoutSwap env swap w).2 →
      (∃ r, (processSwapoutSwap env swap w).2.store.swaps false swap.TxID = some r ∧
        (r.Status = .TxSwapFailed ↔
          (lastSendOk (newEvents w (processSwapoutSwap env swap w).2) = some false ∧
            ∃ e, Event.updateStatus false swap.TxID .TxSwapFailed e true ∈
              newEvents w (processSwapoutSwap env swap w).2)) ∧
        (r.Status ≠ .TxSwapFailed → r.Status = .TxProcessed)) ∧
      (∃ r0 r, w.store.results false swap.TxID = some r0 ∧
        (processSwapoutSwap env swap w).2.store.results false swap.TxID = some r ∧
        ((lastSendOk (newEvents w (processSwapoutSwap env swap w).2) = some false ∧
            ∃ e, Event.updateResultStatus false swap.TxID .TxSwapFailed e true ∈
              newEvents w (processSwapoutSwap env swap w).2) → r.Status = .TxSwapFailed) ∧
        (¬ (lastSendOk (newEvents w (processSwapoutSwap env swap w).2) = some false ∧
            ∃ e, Event.updateResultStatus false swap.TxID .TxSwapFailed e true ∈
              newEvents w (processSwapoutSwap env swap w).2) → r.Status = r0.Status))) :=
  ⟨processSwap_verdict env true swap w, processSwap_last_attempt env true swap w,
    processSwap_verdict env false swap w, processSwap_last_attempt env false swap w⟩

set_option maxRecDepth 1000000 in
/-- Witness of C29: a node that accepts the first send without showing the
transaction and refuses the two later ones, with a store that takes every
write; both persistence steps go through, the last send returns an error, and
the swap record ends in `TxSwapFailed`. With a node that refuses the first send
and accepts the second one there is no demotion. -/
theorem demotion_depends_on_last_attempt_witness :
    (newEvents sampleWorld
        (processSwapinSwap sampleLateRefusingEnv sampleSwap sampleWorld).2).drop 8 =
      [.updateResult true (ascii "tx1") sampleMatchTx true,
        .updateStatus true (ascii "tx1") .TxProcessed none true,
        .send (some sampleSignedTx) true, .getTransaction (hashString [0, 7]),
        .send (some sampleSignedTx) false, .send (some sampleSignedTx) false,
        .updateStatus true (ascii "tx1") .TxSwapFailed (some (.external 1)) true,
        .updateResultStatus true (ascii "tx1") .TxSwapFailed (some (.external 1)) true] ∧
    ((processSwapinSwap sampleLateRefusingEnv sampleSwap sampleWorld).2.store.swaps true
      (ascii "tx1")).map (fun r => r.Status) = some .TxSwapFailed ∧
    (∃ r, (processSwapinSwap sampleLateRefusingEnv sampleSwap sampleWorld).2.store.swaps true
        sampleSwap.TxID = some r ∧
      (r.Status = .TxSwapFailed ↔
        (lastSendOk (newEvents sampleWorld
            (processSwapinSwap sampleLateRefusingEnv sampleSwap sampleWorld).2) = some false ∧
          ∃ e, Event.updateStatus true sampleSwap.TxID .TxSwapFailed e true ∈
            newEvents sampleWorld
              (processSwapinSwap sampleLateRefusingEnv sampleSwap sampleWorld).2)) ∧
      (r.Status ≠ .TxSwapFailed → r.Status = .TxProcessed)) ∧
    ¬ ∃ e ∈ newEvents sampleWorld (processSwapinSwap sampleFlakyEnv sampleSwap sampleWorld).2,
      e.isDemotion = true :=
  ⟨by decide, by decide,
   ((demotion_depends_on_last_attempt sampleLateRefusingEnv sampleSwap sampleWorld).2.1
      ⟨sampleMatchTx, by decide⟩ (by decide)).1,
   by decide⟩

set_option maxRecDepth 1000000 in
/-- Counterexample to C29 as stated: both persistence steps of the sample
swap-in go through and the last send returns an error, but the store fails at
the write of the demotion of the swap record, whose error the run drops: the
swap record stays in `TxProcessed`, next to a result record in `TxSwapFailed`. -/
theorem demotion_counterexample :
    (newEvents sampleWorld
        (processSwapinSwap sampleStoreGapEnv sampleSwap sampleWorld).2).drop 8 =
      [.updateResult true (ascii "tx1") sampleMatchTx true,
        .updateStatus true (ascii "tx1") .TxProcessed none true,
        .send (some sampleSignedTx) true, .getTransaction (hashString [0, 7]),
        .send (some sampleSignedTx) false, .send (some sampleSignedTx) false,
        .updateStatus true (ascii "tx1") .TxSwapFailed (some (.external 1)) false,
        .updateResultStatus true (ascii "tx1") .TxSwapFailed (some (.external 1)) true] ∧
    lastSendOk (newEvents sampleWorld
      (processSwapinSwap sampleStoreGapEnv sampleSwap sampleWorld).2) = some false ∧
    ((processSwapinSwap sampleStoreGapEnv sampleSwap sampleWorld).2.store.swaps true
      (ascii "tx1")).map (fun r => r.Status) = some .TxProcessed ∧
    ((processSwapinSwap sampleStoreGapEnv sampleSwap sampleWorld).2.store.results true
      (ascii "tx1")).map (fun r => r.Status) = some .TxSwapFailed := by
  refine ⟨by decide, by decide, by decide, by decide⟩

end CrossChainBridge
